import Mathlib

/-!
# Join-order enumeration of the kuzu planner

A shallow embedding of `src/planner/plan/plan_join_order.cpp` and of the data
it works on, of the zone-map setting of `src/include/main/settings.h`, and of the
plan copies of `src/planner/logical_plan/logical_plan.cpp`, followed by theorems
about them.

Conventions of the embedding:

* `std::vector` is `List`; a `for` loop with an early `return` is a structural
  recursion over the remaining elements.
* `std::bitset` selectors are the finite set of positions whose bit is set.
* `uint32_t` counters are `Nat`; where a subtraction or a narrowing conversion
  can wrap, the wrap is written out with `% 2 ^ 32`.
* A failed `KU_ASSERT`, an out-of-range access and exhausted recursion fuel are
  `Except.error` with a `Fault`.
* `std::unordered_set<uint32_t>` is the list of its elements in order of
  insertion.
* Where a theorem speaks of the calls a method makes, the method is embedded
  together with a record of these calls.
-/

namespace kuzu

namespace main

/-! ## Client settings (`main/settings.h`) -/

/-- The type identifiers the settings use (`common::LogicalTypeID`). -/
inductive LogicalTypeID where
  | BOOL
  | INT64
  | STRING
  deriving DecidableEq, Repr

/-- A parameter value (`common::Value`) of one of the types the settings use. -/
inductive Value where
  | boolVal (b : Bool)
  | int64Val (i : Int)
  | stringVal (s : String)
  deriving DecidableEq, Repr

/-- The type of a value (`getDataType().getLogicalTypeID()`). -/
def Value.getLogicalTypeID : Value → LogicalTypeID
  | .boolVal _ => .BOOL
  | .int64Val _ => .INT64
  | .stringVal _ => .STRING

/-- The exceptions a setting can throw: `NotImplementedException` with its message,
and the exception of `validateType` on a parameter of another type. -/
inductive Exception where
  | notImplemented (message : String)
  | typeMismatch (expected actual : LogicalTypeID)
  deriving DecidableEq, Repr

/-- Modelled from the spec: `Value::validateType`, which is not in the settings
header: the check that a parameter has the input type of the setting ("for every
parameter of type BOOL"); it throws on a value of any other type. -/
def Value.validateType (parameter : Value) (inputType : LogicalTypeID) : Except Exception Unit :=
  if parameter.getLogicalTypeID = inputType then .ok ()
  else .error (.typeMismatch inputType parameter.getLogicalTypeID)

/-- The enumeration `PathSemantic` of recursive patterns. -/
inductive PathSemantic where
  | WALK
  | TRAIL
  | ACYCLIC
  deriving DecidableEq, Repr

/-- The client configuration, with the fields the settings header reads and
writes through `getClientConfig` and `getClientConfigUnsafe`. -/
structure ClientConfig where
  numThreads : Int
  warningLimit : Int
  timeoutInMS : Int
  enableProgressBar : Bool
  showProgressAfter : Int
  varLengthMaxDepth : Int
  enableSemiMask : Bool
  disableMapKeyCheck : Bool
  enableZoneMap : Bool
  homeDirectory : String
  fileSearchPath : String
  recursivePatternSemantic : PathSemantic
  recursivePatternCardinalityScaleFactor : Int
  deriving DecidableEq, Repr

/-- The database configuration, with the fields the settings header reads and
writes through `getDBConfig` and `getDBConfigUnsafe`. -/
structure DBConfig where
  enableMultiWrites : Bool
  checkpointThreshold : Int
  autoCheckpoint : Bool
  forceCheckpointOnClose : Bool
  spillToDiskTmpFile : String
  deriving DecidableEq, Repr

/-- The part of a `ClientContext` the settings reach. -/
structure ClientContext where
  clientConfig : ClientConfig
  dbConfig : DBConfig
  deriving DecidableEq, Repr

/-- The outcome of a `setContext` call: whether it threw, and the client context
as the call left it. -/
abbrev SetOutcome := Except Exception Unit × ClientContext

/-- The input type of `EnableSemiMaskSetting`. -/
def EnableSemiMaskSetting.inputType : LogicalTypeID := .BOOL

/-- The method `EnableSemiMaskSetting::setContext`, a setting that stores its
parameter. -/
def EnableSemiMaskSetting.setContext (context : ClientContext) (parameter : Value) :
    SetOutcome :=
  match parameter.validateType EnableSemiMaskSetting.inputType, parameter with
  | .error e, _ => (.error e, context)
  | .ok (), .boolVal b =>
    (.ok (), { context with clientConfig := { context.clientConfig with enableSemiMask := b } })
  | .ok (), _ => (.ok (), context)

/-- The method `EnableSemiMaskSetting::getSetting`. -/
def EnableSemiMaskSetting.getSetting (context : ClientContext) : Value :=
  .boolVal context.clientConfig.enableSemiMask

/-- The name of `EnableZoneMapSetting`. -/
def EnableZoneMapSetting.name : String := "enable_zone_map"

/-- The input type of `EnableZoneMapSetting`. -/
def EnableZoneMapSetting.inputType : LogicalTypeID := .BOOL

/-- The method `EnableZoneMapSetting::setContext`: after the type check it throws;
the assignment to `enableZoneMap` is commented out in the source. -/
def EnableZoneMapSetting.setContext (context : ClientContext) (parameter : Value) :
    SetOutcome :=
  match parameter.validateType EnableZoneMapSetting.inputType with
  | .error e => (.error e, context)
  | .ok () => (.error (.notImplemented "Zone map is not yet ready to be turned on."), context)

/-- The method `EnableZoneMapSetting::getSetting`. -/
def EnableZoneMapSetting.getSetting (context : ClientContext) : Value :=
  .boolVal context.clientConfig.enableZoneMap

end main

namespace graphflow

/-! ## Logical plans (`planner/logical_plan/logical_plan.cpp`)

The earlier class `graphflow::planner::LogicalPlan`, whose copies own a schema
and share their operators. A pointer is an `Option`, `none` when it is null. -/

/-- Fault of a method of the plan: a null pointer is dereferenced. -/
inductive Fault where
  | nullDereference
  deriving DecidableEq, Repr

/-- The fields of the class `LogicalPlan` that `logical_plan.cpp` touches. `Schema`
and `Expression` stand for the classes of these names. `OperatorRef` names operator
objects: two `shared_ptr<LogicalOperator>` point to the same operator exactly when
they hold the same reference. -/
structure LogicalPlan (Schema OperatorRef Expression : Type) where
  schema : Option Schema
  lastOperator : Option OperatorRef
  cost : Nat
  expressionsToCollect : List Expression

/-- The methods of other classes that `logical_plan.cpp` calls: `Schema::copy`,
which makes a new schema, and the virtual `LogicalOperator::copy`, which returns a
pointer to the copy it makes of the operator it is called on. -/
structure PlanCollaborators (Schema OperatorRef : Type) where
  schemaCopy : Schema → Schema
  operatorCopy : OperatorRef → Option OperatorRef

/-- The method `LogicalPlan::appendOperator`. -/
def LogicalPlan.appendOperator {Schema OperatorRef Expression : Type}
    (plan : LogicalPlan Schema OperatorRef Expression) (op : Option OperatorRef) :
    LogicalPlan Schema OperatorRef Expression :=
  { plan with lastOperator := op }

/-- The method `LogicalPlan::copy`: a new plan is made around `schema->copy()` and
the three other fields are assigned from this plan. -/
def LogicalPlan.copy {Schema OperatorRef Expression : Type}
    (env : PlanCollaborators Schema OperatorRef)
    (plan : LogicalPlan Schema OperatorRef Expression) :
    Except Fault (LogicalPlan Schema OperatorRef Expression) :=
  match plan.schema with
  | none => .error .nullDereference
  | some schema =>
    .ok { schema := some (env.schemaCopy schema)
          lastOperator := plan.lastOperator
          cost := plan.cost
          expressionsToCollect := plan.expressionsToCollect }

/-- The method `LogicalPlan::deepCopy`: the root of the copy is replaced by
`lastOperator->copy()` when it is not null. -/
def LogicalPlan.deepCopy {Schema OperatorRef Expression : Type}
    (env : PlanCollaborators Schema OperatorRef)
    (plan : LogicalPlan Schema OperatorRef Expression) :
    Except Fault (LogicalPlan Schema OperatorRef Expression) :=
  match plan.copy env with
  | .error e => .error e
  | .ok copied =>
    .ok { copied with
      lastOperator :=
        match copied.lastOperator with
        | some op => env.operatorCopy op
        | none => copied.lastOperator }

/-- Sample collaborators over schemas that are lists of names and operators
numbered from 0: the copy of a schema holds the same names, the copy of operator
`n` is operator `n + 100`. -/
def samplePlanCollaborators : PlanCollaborators (List String) Nat where
  schemaCopy := fun schema => schema
  operatorCopy := fun op => some (op + 100)

/-- A plan with root operator 7. -/
def sampleRootedPlan : LogicalPlan (List String) Nat String :=
  { schema := some ["a", "b"], lastOperator := some 7, cost := 42,
    expressionsToCollect := ["a.age"] }

/-- A plan with no root operator. -/
def sampleRootlessPlan : LogicalPlan (List String) Nat String :=
  { schema := some [], lastOperator := none, cost := 0, expressionsToCollect := [] }

end graphflow

namespace planner

/-! ## Faults -/

/-- Ways a call can fail to return: a failed `KU_ASSERT`, an access outside a
vector or map, and recursion that did not finish within the fuel given. -/
inductive Fault where
  | assertion
  | outOfRange
  | outOfFuel
  deriving DecidableEq, Repr

/-! ## Expressions, query nodes, query relationships -/

/-- Kinds of bound expression the planner distinguishes (`ExpressionType`); only
`LITERAL` is tested by the enumerator. -/
inductive ExpressionType where
  | LITERAL
  | PROPERTY
  | VARIABLE
  | FUNCTION
  deriving DecidableEq, Repr

/-- Modelled from the spec: a bound expression. The class `Expression` and the
visitor `DependentVarNameCollector` are not part of the planner source file;
the spec describes a predicate as "an opaque Boolean expression with a set of
free variable names (collected by a visitor)". `varNames` is what
`DependentVarNameCollector::getVarNames` returns for the expression. -/
structure Expression where
  uniqueName : String
  expressionType : ExpressionType
  varNames : List String
  deriving DecidableEq, Repr

/-- The type `expression_vector`. -/
abbrev expression_vector := List Expression

/-- Modelled from the spec: the type `expression_set`, a set of expressions;
an expression is identified by its unique name. -/
abbrev expression_set := List Expression

/-- The method `expression_set::contains`. -/
def expression_set.contains (s : expression_set) (e : Expression) : Bool :=
  s.any (fun x => x.uniqueName == e.uniqueName)

/-- Modelled from the spec: a query node, "a pattern variable bound to one or
more node tables. Identity: a unique string name. Carries an internal-ID
expression (its stable join key) and the bound table-ID set." -/
structure NodeExpression where
  uniqueName : String
  internalID : Expression
  tableIDs : List Nat
  deriving DecidableEq, Repr

/-- Declared direction of a query relationship (`RelDirectionType`). -/
inductive RelDirectionType where
  | SINGLE
  | BOTH
  deriving DecidableEq, Repr

/-- The enumeration `QueryRelType`. -/
inductive QueryRelType where
  | NON_RECURSIVE
  | VARIABLE_LENGTH
  | SHORTEST
  | ALL_SHORTEST
  deriving DecidableEq, Repr

/-- Modelled from the spec: a query relationship, "a pattern variable connecting
two query nodes (source, destination) with a direction and a type. Identity:
unique string name." -/
structure RelExpression where
  uniqueName : String
  srcNode : NodeExpression
  dstNode : NodeExpression
  directionType : RelDirectionType
  relType : QueryRelType
  deriving DecidableEq, Repr

/-- The accessor `RelExpression::getSrcNodeName`. -/
def RelExpression.getSrcNodeName (r : RelExpression) : String := r.srcNode.uniqueName

/-- The accessor `RelExpression::getDstNodeName`. -/
def RelExpression.getDstNodeName (r : RelExpression) : String := r.dstNode.uniqueName

/-! ## Query graphs and subquery graphs -/

/-- Modelled from the spec: a query graph, "an ordered sequence of query nodes
and an ordered sequence of query relationships, plus name→index maps". The maps
are the positions of the names in the two sequences. -/
structure QueryGraph where
  queryNodes : List NodeExpression
  queryRels : List RelExpression
  deriving DecidableEq, Repr

/-- Number of query nodes (`getNumQueryNodes`). -/
def QueryGraph.getNumQueryNodes (qg : QueryGraph) : Nat := qg.queryNodes.length

/-- Number of query relationships (`getNumQueryRels`). -/
def QueryGraph.getNumQueryRels (qg : QueryGraph) : Nat := qg.queryRels.length

/-- Membership test by name (`containsQueryNode`). -/
def QueryGraph.containsQueryNode (qg : QueryGraph) (name : String) : Bool :=
  qg.queryNodes.any (fun n => n.uniqueName == name)

/-- Membership test by name (`containsQueryRel`). -/
def QueryGraph.containsQueryRel (qg : QueryGraph) (name : String) : Bool :=
  qg.queryRels.any (fun r => r.uniqueName == name)

/-- Lookup of a node position by name (`getQueryNodeIdx`); the number of nodes
when the name is absent. -/
def QueryGraph.getQueryNodeIdx (qg : QueryGraph) (name : String) : Nat :=
  qg.queryNodes.findIdx (fun n => n.uniqueName == name)

/-- Lookup of a relationship position by name (`getQueryRelIdx`); the number of
relationships when the name is absent. -/
def QueryGraph.getQueryRelIdx (qg : QueryGraph) (name : String) : Nat :=
  qg.queryRels.findIdx (fun r => r.uniqueName == name)

/-- Modelled from the spec: a query-graph collection "groups one or more
QueryGraphs". -/
structure QueryGraphCollection where
  queryGraphs : List QueryGraph
  deriving DecidableEq, Repr

/-- Number of query graphs (`getNumQueryGraphs`). -/
def QueryGraphCollection.getNumQueryGraphs (c : QueryGraphCollection) : Nat :=
  c.queryGraphs.length

/-- Modelled from the spec: a subquery graph, "a pair of fixed-width bitmasks
(node-selector, rel-selector) over a specific QueryGraph. Two SubqueryGraphs are
equal iff both bitmasks are equal". Each selector is the set of positions whose
bit is set; the query graph it ranges over is passed separately. -/
structure SubqueryGraph where
  queryNodesSelector : Finset Nat
  queryRelsSelector : Finset Nat

/-- Equality of subquery graphs is decided selector by selector. -/
instance instDecidableEqSubqueryGraph : DecidableEq SubqueryGraph := fun a b =>
  decidable_of_iff
    (a.queryNodesSelector = b.queryNodesSelector ∧ a.queryRelsSelector = b.queryRelsSelector)
    (by cases a; cases b; simp)

/-- The subquery graph with no bit set (`getEmptySubqueryGraph`). -/
def getEmptySubqueryGraph : SubqueryGraph := ⟨∅, ∅⟩

/-- Sets the node bit at `nodePos` (`addQueryNode`). -/
def SubqueryGraph.addQueryNode (sg : SubqueryGraph) (nodePos : Nat) : SubqueryGraph :=
  { sg with queryNodesSelector := insert nodePos sg.queryNodesSelector }

/-- Sets the relationship bit at `relPos` (`addQueryRel`). -/
def SubqueryGraph.addQueryRel (sg : SubqueryGraph) (relPos : Nat) : SubqueryGraph :=
  { sg with queryRelsSelector := insert relPos sg.queryRelsSelector }

/-- Bitwise or of both selectors (`addSubqueryGraph`). -/
def SubqueryGraph.addSubqueryGraph (sg other : SubqueryGraph) : SubqueryGraph :=
  ⟨sg.queryNodesSelector ∪ other.queryNodesSelector,
   sg.queryRelsSelector ∪ other.queryRelsSelector⟩

/-- Modelled from the spec: `SubqueryGraph::containAllVariables`, which is not in
the planner source file. "A predicate is eligible at subgraph S iff every free
variable it references names a matched node/relationship in S." -/
def SubqueryGraph.containAllVariables (qg : QueryGraph) (sg : SubqueryGraph)
    (vars : List String) : Bool :=
  vars.all (fun v =>
    (qg.containsQueryNode v && decide (qg.getQueryNodeIdx v ∈ sg.queryNodesSelector)) ||
    (qg.containsQueryRel v && decide (qg.getQueryRelIdx v ∈ sg.queryRelsSelector)))

/-! ## `getConnectedQueryGraphIdx` -/

/-- Conversion of a `uint32_t` value to `int32_t` (two's complement). -/
def toInt32 (n : Nat) : Int :=
  if n % 2 ^ 32 < 2 ^ 31 then (n % 2 ^ 32 : Nat) else ((n % 2 ^ 32 : Nat) : Int) - 2 ^ 32

/-- The inner loop of `getConnectedQueryGraphIdx`: does some query node of the
list have its internal ID in the set. -/
def hasNodeInSet (expressionSet : expression_set) : List NodeExpression → Bool
  | [] => false
  | queryNode :: rest =>
    if expressionSet.contains queryNode.internalID then true
    else hasNodeInSet expressionSet rest

/-- The outer loop of `getConnectedQueryGraphIdx`, entered with counter `i` and
the query graphs from position `i` on. -/
def getConnectedQueryGraphIdxFrom (expressionSet : expression_set) :
    List QueryGraph → Nat → Int
  | [], _ => -1
  | queryGraph :: rest, i =>
    if hasNodeInSet expressionSet queryGraph.queryNodes then toInt32 i
    else getConnectedQueryGraphIdxFrom expressionSet rest (i + 1)

/-- The function `getConnectedQueryGraphIdx`. -/
def getConnectedQueryGraphIdx (queryGraphCollection : QueryGraphCollection)
    (expressionSet : expression_set) : Int :=
  getConnectedQueryGraphIdxFrom expressionSet queryGraphCollection.queryGraphs 0

/-- Some query node of the graph has its internal-ID expression in the set. -/
def QueryGraph.mentions (qg : QueryGraph) (expressionSet : expression_set) : Prop :=
  ∃ n ∈ qg.queryNodes, expressionSet.contains n.internalID = true

/-! ## Newly matched expressions -/

/-- The loop over `prevs` in `isExpressionNewlyMatched`: `true` when some previous
subgraph contains all the variable names. -/
def matchedInPrev (qg : QueryGraph) (vars : List String) : List SubqueryGraph → Bool
  | [] => false
  | prev :: rest =>
    if prev.containAllVariables qg vars then true
    else matchedInPrev qg vars rest

/-- The function `isExpressionNewlyMatched`. -/
def isExpressionNewlyMatched (qg : QueryGraph) (prevs : List SubqueryGraph)
    (newSubgraph : SubqueryGraph) (expression : Expression) : Bool :=
  let vars := expression.varNames
  if matchedInPrev qg vars prevs then false
  else newSubgraph.containAllVariables qg vars

/-- The loop of `getNewlyMatchedExprs`, with the result vector built so far. -/
def getNewlyMatchedExprsLoop (qg : QueryGraph) (prevs : List SubqueryGraph)
    (new_ : SubqueryGraph) : expression_vector → expression_vector → expression_vector
  | [], result => result
  | expr :: rest, result =>
    if isExpressionNewlyMatched qg prevs new_ expr then
      getNewlyMatchedExprsLoop qg prevs new_ rest (result ++ [expr])
    else getNewlyMatchedExprsLoop qg prevs new_ rest result

/-- The overload `getNewlyMatchedExprs(prevs, new_, exprs)`. -/
def getNewlyMatchedExprs (qg : QueryGraph) (prevs : List SubqueryGraph)
    (new_ : SubqueryGraph) (exprs : expression_vector) : expression_vector :=
  getNewlyMatchedExprsLoop qg prevs new_ exprs []

/-- The overload `getNewlyMatchedExprs(prev, new_, exprs)`. -/
def getNewlyMatchedExprs1 (qg : QueryGraph) (prev new_ : SubqueryGraph)
    (exprs : expression_vector) : expression_vector :=
  getNewlyMatchedExprs qg [prev] new_ exprs

/-- The overload `getNewlyMatchedExprs(leftPrev, rightPrev, new_, exprs)`. -/
def getNewlyMatchedExprs2 (qg : QueryGraph) (leftPrev rightPrev new_ : SubqueryGraph)
    (exprs : expression_vector) : expression_vector :=
  getNewlyMatchedExprs qg [leftPrev, rightPrev] new_ exprs

/-! ## Level control flow -/

/-- A join enumeration started by `planLevel`, with its two level arguments. -/
inductive JoinCall where
  | planWCOJoin (leftLevel rightLevel : Nat)
  | planInnerJoin (leftLevel rightLevel : Nat)
  deriving DecidableEq, Repr

/-- Left level argument of a call. -/
def JoinCall.leftLevel : JoinCall → Nat
  | .planWCOJoin l _ => l
  | .planInnerJoin l _ => l

/-- Right level argument of a call. -/
def JoinCall.rightLevel : JoinCall → Nat
  | .planWCOJoin _ r => r
  | .planInnerJoin _ r => r

/-- Subtraction of `uint32_t` values. -/
def sub32 (a b : Nat) : Nat := (a % 2 ^ 32 + 2 ^ 32 - b % 2 ^ 32) % 2 ^ 32

/-- The loop of `planLevelExactly` entered with counter `leftLevel`; the calls it
makes, in order. `maxLeftLevel` is `floor(level / 2.0)`. -/
def planLevelExactlyFrom (level maxLeftLevel leftLevel : Nat) : List JoinCall :=
  if leftLevel ≤ maxLeftLevel then
    let rightLevel := sub32 level leftLevel
    (if leftLevel > 1 then [JoinCall.planWCOJoin leftLevel rightLevel] else []) ++
      JoinCall.planInnerJoin leftLevel rightLevel ::
        planLevelExactlyFrom level maxLeftLevel (leftLevel + 1)
  else []
termination_by maxLeftLevel + 1 - leftLevel

/-- The method `planLevelExactly`. The double `floor(level / 2.0)` is exact for
a 32-bit `level` and equals the integer quotient. -/
def planLevelExactly (level : Nat) : List JoinCall :=
  planLevelExactlyFrom level (level / 2) 1

/-- The method `planLevelApproximately`. -/
def planLevelApproximately (level : Nat) : List JoinCall :=
  [JoinCall.planInnerJoin 1 (sub32 level 1)]

/-- The method `planLevel`, with its `KU_ASSERT(level > 1)`;
`MAX_LEVEL_TO_PLAN_EXACTLY` is a constant declared outside the planner source
file and is taken as a parameter. -/
def planLevel (MAX_LEVEL_TO_PLAN_EXACTLY level : Nat) : Except Fault (List JoinCall) :=
  if level > 1 then
    if level > MAX_LEVEL_TO_PLAN_EXACTLY then .ok (planLevelApproximately level)
    else .ok (planLevelExactly level)
  else .error .assertion

/-- The calls the spec lists for one left level of an exactly planned level:
`planWCOJoin` when the left level is at least 2, then `planInnerJoin`. -/
def exactCallsAt (level leftLevel : Nat) : List JoinCall :=
  (if 2 ≤ leftLevel then [JoinCall.planWCOJoin leftLevel (level - leftLevel)] else []) ++
    [JoinCall.planInnerJoin leftLevel (level - leftLevel)]

/-! ## Logical operators and plans -/

/-- The enumeration `ExtendDirection`. -/
inductive ExtendDirection where
  | FWD
  | BWD
  | BOTH
  deriving DecidableEq, Repr

/-- The enumeration `JoinType`; the enumerator only builds `INNER` joins. -/
inductive JoinType where
  | INNER
  | LEFT
  | MARK
  deriving DecidableEq, Repr

/-- Modelled from the spec: a logical operator, a "tagged tree node. Variants
used by the core: ScanNodeTable, Extend, RecursiveExtend, Filter, Flatten,
Projection, HashJoin, Intersect, CrossProduct, ExpressionsScan, Distinct,
EmptyResult. Every operator carries child pointers". The operator classes are
not part of the planner source file. -/
inductive LogicalOperator where
  | scanNodeTable (nodeID : Expression) (tableIDs : List Nat) (properties : expression_vector)
  | extend (boundNode nbrNode : NodeExpression) (rel : RelExpression)
      (direction : ExtendDirection) (extendFromSource : Bool)
      (properties : expression_vector) (child : LogicalOperator)
  | recursiveExtend (boundNode nbrNode : NodeExpression) (rel : RelExpression)
      (direction : ExtendDirection) (child : LogicalOperator)
  | filter (predicate : Expression) (child : LogicalOperator)
  | flatten (groupPos : Nat) (child : LogicalOperator)
  | projection (expressions : expression_vector) (child : LogicalOperator)
  | hashJoin (joinNodeIDs : expression_vector) (joinType : JoinType)
      (probe build : LogicalOperator)
  | intersect (intersectNodeID : Expression) (keyNodeIDs : expression_vector)
      (probe : LogicalOperator) (builds : List LogicalOperator)
  | crossProduct (probe build : LogicalOperator)
  | expressionsScan (expressions : expression_vector)
  | distinct (keys : expression_vector) (child : LogicalOperator)
  | emptyResult (child : LogicalOperator)

/-- Modelled from the spec: a logical plan, a "tuple of (root logical operator,
schema, cumulative cost estimate, cardinality estimate, ...)". The schema is
derived from the operator tree and is read through `PlannerEnv.isExpressionInScope`.
A plan always has a root: the empty plan made by `std::make_unique<LogicalPlan>()`
exists only until the scan that is appended to it right away. -/
structure LogicalPlan where
  lastOperator : LogicalOperator
  cost : Nat
  cardinality : Nat

/-- The method `LogicalPlan::shallowCopy`: a plan sharing the operator tree. -/
def LogicalPlan.shallowCopy (plan : LogicalPlan) : LogicalPlan := plan

/-- Modelled from the spec: the collaborators the enumerator calls and that are
not part of the planner source file. The cardinality estimator is "an opaque
oracle called through a narrow interface"; the cost model is "pure functions; no
state; deterministic"; `getProperties` reads the `PropertyExprCollection`;
`isExpressionInScope` reads a plan's schema; `getNbrSubgraphs` and
`getConnectedNodePos` are methods of `SubqueryGraph`. -/
structure PlannerEnv where
  ownCost : LogicalOperator → List LogicalPlan → Nat
  estimateCardinality : LogicalOperator → List LogicalPlan → Nat
  computeHashJoinCost : expression_vector → LogicalPlan → LogicalPlan → Nat
  getProperties : String → expression_vector
  isExpressionInScope : LogicalPlan → Expression → Bool
  getNbrSubgraphs : QueryGraph → SubqueryGraph → Nat → List SubqueryGraph
  getConnectedNodePos : QueryGraph → SubqueryGraph → SubqueryGraph → List Nat

/-- Modelled from the spec: what every append constructor does to a plan. It
"replaces its root with a new operator whose child is the previous root (or
children, for binary operators)", "updates cumulative cost = own cost + sum of
child costs" and "updates cardinality via the estimator". -/
def PlannerEnv.setRoot (env : PlannerEnv) (op : LogicalOperator)
    (children : List LogicalPlan) : LogicalPlan :=
  { lastOperator := op
    cost := env.ownCost op children + (children.map (fun p => p.cost)).sum
    cardinality := env.estimateCardinality op children }

/-- Modelled from the spec: `appendScanNodeTable` on the empty plan. -/
def appendScanNodeTable (env : PlannerEnv) (nodeID : Expression) (tableIDs : List Nat)
    (properties : expression_vector) : LogicalPlan :=
  env.setRoot (.scanNodeTable nodeID tableIDs properties) []

/-- Modelled from the spec: `appendExpressionsScan` on the empty plan. -/
def appendExpressionsScan (env : PlannerEnv) (expressions : expression_vector) : LogicalPlan :=
  env.setRoot (.expressionsScan expressions) []

/-- Modelled from the spec: `appendFilter`. -/
def appendFilter (env : PlannerEnv) (predicate : Expression) (plan : LogicalPlan) : LogicalPlan :=
  env.setRoot (.filter predicate plan.lastOperator) [plan]

/-- Modelled from the spec: `appendFilters`, one `appendFilter` per predicate in
the order of the vector. -/
def appendFilters (env : PlannerEnv) (predicates : expression_vector)
    (plan : LogicalPlan) : LogicalPlan :=
  predicates.foldl (fun p predicate => appendFilter env predicate p) plan

/-- Modelled from the spec: `appendNonRecursiveExtend`. -/
def appendNonRecursiveExtend (env : PlannerEnv) (boundNode nbrNode : NodeExpression)
    (rel : RelExpression) (direction : ExtendDirection) (extendFromSource : Bool)
    (properties : expression_vector) (plan : LogicalPlan) : LogicalPlan :=
  env.setRoot
    (.extend boundNode nbrNode rel direction extendFromSource properties plan.lastOperator) [plan]

/-- Modelled from the spec: `appendRecursiveExtend`. -/
def appendRecursiveExtend (env : PlannerEnv) (boundNode nbrNode : NodeExpression)
    (rel : RelExpression) (direction : ExtendDirection) (plan : LogicalPlan) : LogicalPlan :=
  env.setRoot (.recursiveExtend boundNode nbrNode rel direction plan.lastOperator) [plan]

/-- Modelled from the spec: `appendHashJoin(joinNodeIDs, joinType, probePlan,
buildPlan, resultPlan)`; the result plan is returned. -/
def appendHashJoin (env : PlannerEnv) (joinNodeIDs : expression_vector) (joinType : JoinType)
    (probePlan buildPlan : LogicalPlan) : LogicalPlan :=
  env.setRoot (.hashJoin joinNodeIDs joinType probePlan.lastOperator buildPlan.lastOperator)
    [probePlan, buildPlan]

/-- Modelled from the spec: `appendIntersect(intersectNodeID, boundNodeIDs,
probePlan, buildPlans)`; the probe plan is the one modified. -/
def appendIntersect (env : PlannerEnv) (intersectNodeID : Expression)
    (boundNodeIDs : expression_vector) (probePlan : LogicalPlan)
    (buildPlans : List LogicalPlan) : LogicalPlan :=
  env.setRoot
    (.intersect intersectNodeID boundNodeIDs probePlan.lastOperator
      (buildPlans.map (fun p => p.lastOperator)))
    (probePlan :: buildPlans)

/-- Modelled from the spec: `appendCrossProduct(probePlan, buildPlan, resultPlan)`. -/
def appendCrossProduct (env : PlannerEnv) (probePlan buildPlan : LogicalPlan) : LogicalPlan :=
  env.setRoot (.crossProduct probePlan.lastOperator buildPlan.lastOperator) [probePlan, buildPlan]

/-- Modelled from the spec: `appendDistinct`. -/
def appendDistinct (env : PlannerEnv) (keys : expression_vector) (plan : LogicalPlan) :
    LogicalPlan :=
  env.setRoot (.distinct keys plan.lastOperator) [plan]

/-- Modelled from the spec: `appendEmptyResult`. -/
def appendEmptyResult (env : PlannerEnv) (plan : LogicalPlan) : LogicalPlan :=
  env.setRoot (.emptyResult plan.lastOperator) [plan]

/-- Equality of node expressions, `operator==` of `Expression`: by unique name. -/
def NodeExpression.sameAs (a b : NodeExpression) : Bool := a.uniqueName == b.uniqueName

/-- The method `Planner::appendExtend`. -/
def appendExtend (env : PlannerEnv) (boundNode nbrNode : NodeExpression) (rel : RelExpression)
    (direction : ExtendDirection) (properties : expression_vector)
    (plan : LogicalPlan) : LogicalPlan :=
  match rel.relType with
  | .NON_RECURSIVE =>
    let extendFromSource := boundNode.sameAs rel.srcNode
    appendNonRecursiveExtend env boundNode nbrNode rel direction extendFromSource properties plan
  | .VARIABLE_LENGTH | .SHORTEST | .ALL_SHORTEST =>
    appendRecursiveExtend env boundNode nbrNode rel direction plan

/-! ## The sub-plans table and the enumerator context -/

/-- Modelled from the spec: the sub-plans table, "`level → (SubqueryGraph → plan
list)`. Plus `maxCost(SubqueryGraph) → cost` summarizing the current best."
`subgraphs` lists the subquery graphs that hold plans, in order of first insertion;
`maxCost` is `none` while no plan has set a ceiling. -/
structure SubPlansTable where
  subgraphs : List SubqueryGraph
  plans : SubqueryGraph → List LogicalPlan
  maxCost : SubqueryGraph → Option Nat

/-- The table with no plan. -/
def SubPlansTable.empty : SubPlansTable := ⟨[], fun _ => [], fun _ => none⟩

/-- Modelled from the spec: "`addPlan(sg, plan)`: append to the list at `sg`;
update `maxCost(sg)` to min(old, plan.cost)". -/
def SubPlansTable.addPlan (t : SubPlansTable) (sg : SubqueryGraph) (plan : LogicalPlan) :
    SubPlansTable :=
  { subgraphs := if sg ∈ t.subgraphs then t.subgraphs else t.subgraphs ++ [sg]
    plans := fun key => if key = sg then t.plans sg ++ [plan] else t.plans key
    maxCost := fun key =>
      if key = sg then
        match t.maxCost sg with
        | none => some plan.cost
        | some old => some (min old plan.cost)
      else t.maxCost key }

/-- Modelled from the spec: `containSubgraphPlans(sg)`. -/
def SubPlansTable.containSubgraphPlans (t : SubPlansTable) (sg : SubqueryGraph) : Bool :=
  decide (sg ∈ t.subgraphs)

/-- Modelled from the spec: `getSubgraphPlans(sg)`. -/
def SubPlansTable.getSubgraphPlans (t : SubPlansTable) (sg : SubqueryGraph) : List LogicalPlan :=
  t.plans sg

/-- Modelled from the spec: `getMaxCost(sg)`. -/
def SubPlansTable.getMaxCost (t : SubPlansTable) (sg : SubqueryGraph) : Option Nat :=
  t.maxCost sg

/-- Modelled from the spec: `getSubqueryGraphs(level)`; "a plan at level k has
exactly k relationships matched". -/
def SubPlansTable.getSubqueryGraphs (t : SubPlansTable) (level : Nat) : List SubqueryGraph :=
  t.subgraphs.filter (fun sg => sg.queryRelsSelector.card == level)

/-- The comparison `cost < maxCost` of the enumerator. -/
def costBelow (cost : Nat) : Option Nat → Bool
  | none => true
  | some maxCost => decide (cost < maxCost)

/-- The planner's enumeration context: the query graph being planned, the
predicates split on AND, and the sub-plans table. -/
structure JoinOrderEnumeratorContext where
  queryGraph : QueryGraph
  whereExpressions : expression_vector
  subPlansTable : SubPlansTable

/-- The method `getWhereExpressions`. -/
def JoinOrderEnumeratorContext.getWhereExpressions (ctx : JoinOrderEnumeratorContext) :
    expression_vector := ctx.whereExpressions

/-- The method `containPlans`. -/
def JoinOrderEnumeratorContext.containPlans (ctx : JoinOrderEnumeratorContext)
    (sg : SubqueryGraph) : Bool := ctx.subPlansTable.containSubgraphPlans sg

/-- The method `getPlans`. -/
def JoinOrderEnumeratorContext.getPlans (ctx : JoinOrderEnumeratorContext)
    (sg : SubqueryGraph) : List LogicalPlan := ctx.subPlansTable.getSubgraphPlans sg

/-- The method `addPlan`. -/
def JoinOrderEnumeratorContext.addPlan (ctx : JoinOrderEnumeratorContext)
    (sg : SubqueryGraph) (plan : LogicalPlan) : JoinOrderEnumeratorContext :=
  { ctx with subPlansTable := ctx.subPlansTable.addPlan sg plan }

/-- The accessor `QueryGraph::getQueryRel`, an access into the vector of
relationships. -/
def QueryGraph.getQueryRel (qg : QueryGraph) (relPos : Nat) : Except Fault RelExpression :=
  match qg.queryRels[relPos]? with
  | some rel => .ok rel
  | none => .error .outOfRange

/-- The accessor `QueryGraph::getQueryNode`, an access into the vector of nodes. -/
def QueryGraph.getQueryNode (qg : QueryGraph) (nodePos : Nat) : Except Fault NodeExpression :=
  match qg.queryNodes[nodePos]? with
  | some node => .ok node
  | none => .error .outOfRange

/-! ## Base relationship scans -/

/-- The function `getBoundAndNbrNodes`; `KU_ASSERT(direction != BOTH)`. -/
def getBoundAndNbrNodes (rel : RelExpression) (direction : ExtendDirection) :
    Except Fault (NodeExpression × NodeExpression) :=
  if direction = .BOTH then .error .assertion
  else
    let boundNode := if direction = .FWD then rel.srcNode else rel.dstNode
    let dstNode := if direction = .FWD then rel.dstNode else rel.srcNode
    .ok (boundNode, dstNode)

/-- The function `getExtendDirection`. -/
def getExtendDirection (relExpression : RelExpression) (boundNode : NodeExpression) :
    ExtendDirection :=
  if relExpression.directionType = .BOTH then .BOTH
  else if relExpression.getSrcNodeName == boundNode.uniqueName then .FWD
  else .BWD

/-- The body of the loop of `planRelScan` for one direction. -/
def planRelScanDirection (env : PlannerEnv) (rel : RelExpression) (newSubgraph : SubqueryGraph)
    (predicates : expression_vector) (ctx : JoinOrderEnumeratorContext)
    (direction : ExtendDirection) : Except Fault JoinOrderEnumeratorContext := do
  let (boundNode, nbrNode) ← getBoundAndNbrNodes rel direction
  let extendDirection := getExtendDirection rel boundNode
  let plan := appendScanNodeTable env boundNode.internalID boundNode.tableIDs []
  let plan := appendExtend env boundNode nbrNode rel extendDirection
    (env.getProperties rel.uniqueName) plan
  let plan := appendFilters env predicates plan
  pure (ctx.addPlan newSubgraph plan)

/-- The method `Planner::planRelScan`. -/
def planRelScan (env : PlannerEnv) (ctx : JoinOrderEnumeratorContext) (relPos : Nat) :
    Except Fault JoinOrderEnumeratorContext := do
  let rel ← ctx.queryGraph.getQueryRel relPos
  let newSubgraph := getEmptySubqueryGraph.addQueryRel relPos
  let predicates :=
    getNewlyMatchedExprs1 ctx.queryGraph getEmptySubqueryGraph newSubgraph ctx.getWhereExpressions
  [ExtendDirection.FWD, ExtendDirection.BWD].foldlM
    (planRelScanDirection env rel newSubgraph predicates) ctx

/-- An operator is a scan of node `boundNode` followed by an extend (recursive or
not) from `boundNode` to `nbrNode` along `rel`. -/
def LogicalOperator.isScanThenExtend (boundNode nbrNode : NodeExpression) (rel : RelExpression) :
    LogicalOperator → Prop
  | .extend b n r _ _ _ (.scanNodeTable nodeID _ _) =>
    b = boundNode ∧ n = nbrNode ∧ r = rel ∧ nodeID = boundNode.internalID
  | .recursiveExtend b n r _ (.scanNodeTable nodeID _ _) =>
    b = boundNode ∧ n = nbrNode ∧ r = rel ∧ nodeID = boundNode.internalID
  | _ => False

/-- The operator tree made of `op` with one `Filter` per predicate on top, the
first predicate lowest. -/
def LogicalOperator.withFilters (op : LogicalOperator) (predicates : expression_vector) :
    LogicalOperator :=
  predicates.foldl (fun child predicate => .filter predicate child) op

/-! ## Sequential scans and build plans for the multiway join -/

/-- The function `getSequentialScan`: the scan reached through `Flatten`,
`Filter`, `Extend` and `Projection` operators, `none` for `nullptr`. -/
def getSequentialScan : LogicalOperator → Option LogicalOperator
  | .flatten _ child => getSequentialScan child
  | .filter _ child => getSequentialScan child
  | .extend _ _ _ _ _ _ child => getSequentialScan child
  | .projection _ child => getSequentialScan child
  | .scanNodeTable nodeID tableIDs properties =>
    some (.scanNodeTable nodeID tableIDs properties)
  | _ => none

/-- The accessor `LogicalScanNodeTable::getNodeID` after the dynamic cast; the
cast fails on any other operator. -/
def LogicalOperator.getNodeID : LogicalOperator → Option Expression
  | .scanNodeTable nodeID _ _ => some nodeID
  | _ => none

/-- The function `isNodeSequentialOnPlan`. -/
def isNodeSequentialOnPlan (plan : LogicalPlan) (node : NodeExpression) : Bool :=
  match getSequentialScan plan.lastOperator with
  | none => false
  | some seqScan =>
    match seqScan.getNodeID with
    | some nodeID => nodeID.uniqueName == node.internalID.uniqueName
    | none => false

/-- The loop of `getWCOJBuildPlanForRel`, with the result found so far;
`KU_ASSERT(result == nullptr)` fails on a second match. -/
def getWCOJBuildPlanForRelLoop (boundNode : NodeExpression) :
    List LogicalPlan → Option LogicalPlan → Except Fault (Option LogicalPlan)
  | [], result => .ok result
  | candidatePlan :: rest, result =>
    if isNodeSequentialOnPlan candidatePlan boundNode then
      match result with
      | some _ => .error .assertion
      | none => getWCOJBuildPlanForRelLoop boundNode rest (some candidatePlan.shallowCopy)
    else getWCOJBuildPlanForRelLoop boundNode rest result

/-- The function `getWCOJBuildPlanForRel`. -/
def getWCOJBuildPlanForRel (candidatePlans : List LogicalPlan) (boundNode : NodeExpression) :
    Except Fault (Option LogicalPlan) :=
  getWCOJBuildPlanForRelLoop boundNode candidatePlans none

/-! ## Implicit-join pruning -/

/-- Modelled from the spec: `SubqueryGraph::getNodePositionsIgnoringNodeSelector`,
which is not in the planner source file. The node positions a subgraph touches
whether or not their selector bit is set: the selected nodes and, for
"relationships whose endpoints are matched externally", both endpoints of every
selected relationship. The result is a set: no position is listed twice. -/
def SubqueryGraph.getNodePositionsIgnoringNodeSelector (qg : QueryGraph) (sg : SubqueryGraph) :
    List Nat :=
  let fromNodes := (List.range qg.getNumQueryNodes).filter (fun pos => pos ∈ sg.queryNodesSelector)
  let selectedRels := (List.range qg.getNumQueryRels).filter (fun pos => pos ∈ sg.queryRelsSelector)
  selectedRels.foldl
    (fun result relPos =>
      match qg.queryRels[relPos]? with
      | some rel =>
        (result.insert (qg.getQueryNodeIdx rel.getSrcNodeName)).insert
          (qg.getQueryNodeIdx rel.getDstNodeName)
      | none => result)
    fromNodes

/-- The loop of `needPruneImplicitJoins`, with the counter `intersectionSize`. -/
def countIntersection (rightNodePositions : List Nat) : List Nat → Nat → Nat
  | [], intersectionSize => intersectionSize
  | pos :: rest, intersectionSize =>
    if rightNodePositions.contains pos then
      countIntersection rightNodePositions rest (intersectionSize + 1)
    else countIntersection rightNodePositions rest intersectionSize

/-- The function `needPruneImplicitJoins`. -/
def needPruneImplicitJoins (qg : QueryGraph) (leftSubgraph rightSubgraph : SubqueryGraph)
    (numJoinNodes : Nat) : Bool :=
  let leftNodePositions := leftSubgraph.getNodePositionsIgnoringNodeSelector qg
  let rightNodePositions := rightSubgraph.getNodePositionsIgnoringNodeSelector qg
  let intersectionSize := countIntersection rightNodePositions leftNodePositions 0
  intersectionSize != numJoinNodes

/-- The node positions two subgraphs share, ignoring node selectors. -/
def sharedNodePositions (qg : QueryGraph) (leftSubgraph rightSubgraph : SubqueryGraph) :
    Finset Nat :=
  (leftSubgraph.getNodePositionsIgnoringNodeSelector qg).toFinset ∩
    (rightSubgraph.getNodePositionsIgnoringNodeSelector qg).toFinset

/-! ## Index nested loop join and hash join -/

/-- Modelled from the spec: `SubqueryGraph::isSingleRel`, a "single-relationship
subgraph": the subgraph `{r}` under which `planRelScan` stores its plans, one
relationship bit and no node bit. -/
def SubqueryGraph.isSingleRel (sg : SubqueryGraph) : Bool :=
  sg.queryRelsSelector.card == 1 && sg.queryNodesSelector.card == 0

/-- The constant `UINT32_MAX`. -/
def UINT32_MAX : Nat := 2 ^ 32 - 1

/-- The loop of `tryPlanINLJoin` that finds the relationship of the
single-relationship subgraph: the last selected position below the number of
relationships, `UINT32_MAX` when there is none. -/
def findSelectedRelPos (qg : QueryGraph) (otherSubgraph : SubqueryGraph) : Nat :=
  (List.range qg.getNumQueryRels).foldl
    (fun relPos i => if i ∈ otherSubgraph.queryRelsSelector then i else relPos) UINT32_MAX

/-- The loop over the plans of `subgraph` in `tryPlanINLJoin`, with the flag
`hasAppliedINLJoin`. -/
def tryPlanINLJoinLoop (env : PlannerEnv) (boundNode nbrNode : NodeExpression)
    (rel : RelExpression) (extendDirection : ExtendDirection) (newSubgraph : SubqueryGraph)
    (predicates : expression_vector) :
    List LogicalPlan → Bool × JoinOrderEnumeratorContext → Bool × JoinOrderEnumeratorContext
  | [], state => state
  | prevPlan :: rest, (hasAppliedINLJoin, ctx) =>
    if isNodeSequentialOnPlan prevPlan boundNode then
      let plan := prevPlan.shallowCopy
      let plan := appendExtend env boundNode nbrNode rel extendDirection
        (env.getProperties rel.uniqueName) plan
      let plan := appendFilters env predicates plan
      tryPlanINLJoinLoop env boundNode nbrNode rel extendDirection newSubgraph predicates rest
        (true, ctx.addPlan newSubgraph plan)
    else
      tryPlanINLJoinLoop env boundNode nbrNode rel extendDirection newSubgraph predicates rest
        (hasAppliedINLJoin, ctx)

/-- The method `Planner::tryPlanINLJoin`. The fuel bounds the depth of the
recursion that swaps the two subgraphs; the result is the returned flag and the
context after the call. The plans of `subgraph` are those held on entry. -/
def tryPlanINLJoin (env : PlannerEnv) :
    Nat → JoinOrderEnumeratorContext → SubqueryGraph → SubqueryGraph → List NodeExpression →
      Except Fault (Bool × JoinOrderEnumeratorContext)
  | 0, _, _, _, _ => .error .outOfFuel
  | fuel + 1, ctx, subgraph, otherSubgraph, joinNodes =>
    if joinNodes.length > 1 then .ok (false, ctx)
    else if !subgraph.isSingleRel && !otherSubgraph.isSingleRel then .ok (false, ctx)
    else if subgraph.isSingleRel then
      tryPlanINLJoin env fuel ctx otherSubgraph subgraph joinNodes
    else
      let relPos := findSelectedRelPos ctx.queryGraph otherSubgraph
      if relPos = UINT32_MAX then .error .assertion
      else
        match ctx.queryGraph.getQueryRel relPos, joinNodes[0]? with
        | .error e, _ => .error e
        | .ok _, none => .error .outOfRange
        | .ok rel, some boundNode =>
          let nbrNode :=
            if boundNode.uniqueName == rel.getSrcNodeName then rel.dstNode else rel.srcNode
          let extendDirection := getExtendDirection rel boundNode
          let newSubgraph := subgraph.addQueryRel relPos
          let predicates :=
            getNewlyMatchedExprs1 ctx.queryGraph subgraph newSubgraph ctx.getWhereExpressions
          .ok (tryPlanINLJoinLoop env boundNode nbrNode rel extendDirection newSubgraph predicates
            (ctx.getPlans subgraph) (false, ctx))

/-- The body of the inner loop of `planInnerHashJoin` for one pair of plans. -/
def planInnerHashJoinPair (env : PlannerEnv) (newSubgraph : SubqueryGraph)
    (maxCost : Option Nat) (joinNodeIDs predicates : expression_vector) (flipPlan : Bool)
    (leftPlan : LogicalPlan) (ctx : JoinOrderEnumeratorContext) (rightPlan : LogicalPlan) :
    JoinOrderEnumeratorContext :=
  let ctx :=
    if costBelow (env.computeHashJoinCost joinNodeIDs leftPlan rightPlan) maxCost then
      let leftPlanProbeCopy := leftPlan.shallowCopy
      let rightPlanBuildCopy := rightPlan.shallowCopy
      let plan := appendHashJoin env joinNodeIDs .INNER leftPlanProbeCopy rightPlanBuildCopy
      ctx.addPlan newSubgraph (appendFilters env predicates plan)
    else ctx
  if flipPlan && costBelow (env.computeHashJoinCost joinNodeIDs rightPlan leftPlan) maxCost then
    let leftPlanBuildCopy := leftPlan.shallowCopy
    let rightPlanProbeCopy := rightPlan.shallowCopy
    let plan := appendHashJoin env joinNodeIDs .INNER rightPlanProbeCopy leftPlanBuildCopy
    ctx.addPlan newSubgraph (appendFilters env predicates plan)
  else ctx

/-- The method `Planner::planInnerHashJoin`. The plans of `subgraph` are those held
on entry; the plans of `otherSubgraph` are read anew for every left plan. -/
def planInnerHashJoin (env : PlannerEnv) (ctx : JoinOrderEnumeratorContext)
    (subgraph otherSubgraph : SubqueryGraph) (joinNodes : List NodeExpression)
    (flipPlan : Bool) : JoinOrderEnumeratorContext :=
  let newSubgraph := subgraph.addSubqueryGraph otherSubgraph
  let maxCost := ctx.subPlansTable.getMaxCost newSubgraph
  let joinNodeIDs := joinNodes.foldl (fun ids joinNode => ids ++ [joinNode.internalID]) []
  let predicates := getNewlyMatchedExprs2 ctx.queryGraph subgraph otherSubgraph newSubgraph
    ctx.getWhereExpressions
  (ctx.getPlans subgraph).foldl
    (fun ctx leftPlan =>
      (ctx.getPlans otherSubgraph).foldl
        (planInnerHashJoinPair env newSubgraph maxCost joinNodeIDs predicates flipPlan leftPlan)
        ctx)
    ctx

/-- A hash-join candidate of `planInnerHashJoin` for a pair of plans: the join with
`leftPlan` as probe side, or, when `flipPlan` is set, the join with `rightPlan`
as probe side, in both cases with a cost strictly below every ceiling `maxCost`
holds. -/
def IsHashJoinCandidate (env : PlannerEnv) (joinNodeIDs predicates : expression_vector)
    (maxCost : Option Nat) (flipPlan : Bool) (leftPlan rightPlan plan : LogicalPlan) : Prop :=
  (plan = appendFilters env predicates
      (appendHashJoin env joinNodeIDs .INNER leftPlan rightPlan) ∧
    ∀ m, maxCost = some m → env.computeHashJoinCost joinNodeIDs leftPlan rightPlan < m) ∨
  (flipPlan = true ∧
    plan = appendFilters env predicates
      (appendHashJoin env joinNodeIDs .INNER rightPlan leftPlan) ∧
    ∀ m, maxCost = some m → env.computeHashJoinCost joinNodeIDs rightPlan leftPlan < m)

/-- What `planInnerHashJoin` has done to the context `ctx0` it started from when it
has reached context `ctx`: plan lists other than that of `newSubgraph` are as
they were, and every plan added under `newSubgraph` is a hash-join candidate of a
plan of `leftPlans` and a plan stored under `otherSubgraph`. -/
def HashJoinInvariant (env : PlannerEnv) (newSubgraph otherSubgraph : SubqueryGraph)
    (maxCost : Option Nat) (joinNodeIDs predicates : expression_vector) (flipPlan : Bool)
    (leftPlans : List LogicalPlan) (ctx0 ctx : JoinOrderEnumeratorContext) : Prop :=
  (∀ sg, sg ≠ newSubgraph → ctx.subPlansTable.plans sg = ctx0.subPlansTable.plans sg) ∧
  ∃ added : List LogicalPlan,
    ctx.subPlansTable.plans newSubgraph = ctx0.subPlansTable.plans newSubgraph ++ added ∧
    ∀ p ∈ added, ∃ l ∈ leftPlans, ∃ r ∈ ctx.subPlansTable.plans otherSubgraph,
      IsHashJoinCandidate env joinNodeIDs predicates maxCost flipPlan l r p

/-! ## Inner joins -/

/-- Modelled from the spec: `QueryGraph::getQueryNodes(positions)`, the query
nodes at the given positions, in order. -/
def QueryGraph.getQueryNodes (qg : QueryGraph) (positions : List Nat) :
    Except Fault (List NodeExpression) :=
  positions.mapM qg.getQueryNode

/-- The body of the inner loop of `planInnerJoin` for one pair
`(rightSubgraph, nbrSubgraph)`. Next to the context it returns the pairs for
which `planInnerHashJoin` was invoked. -/
def planInnerJoinPair (env : PlannerEnv) (fuel leftLevel rightLevel : Nat)
    (ctx : JoinOrderEnumeratorContext) (rightSubgraph nbrSubgraph : SubqueryGraph) :
    Except Fault (JoinOrderEnumeratorContext × List (SubqueryGraph × SubqueryGraph)) :=
  if !ctx.containPlans nbrSubgraph then .ok (ctx, [])
  else
    let joinNodePositions := env.getConnectedNodePos ctx.queryGraph rightSubgraph nbrSubgraph
    match ctx.queryGraph.getQueryNodes joinNodePositions with
    | .error e => .error e
    | .ok joinNodes =>
      if needPruneImplicitJoins ctx.queryGraph nbrSubgraph rightSubgraph joinNodes.length then
        .ok (ctx, [])
      else
        match tryPlanINLJoin env fuel ctx rightSubgraph nbrSubgraph joinNodes with
        | .error e => .error e
        | .ok (true, ctx2) => .ok (ctx2, [])
        | .ok (false, ctx2) =>
          .ok (planInnerHashJoin env ctx2 rightSubgraph nbrSubgraph joinNodes
            (leftLevel != rightLevel), [(rightSubgraph, nbrSubgraph)])

/-- The method `Planner::planInnerJoin`: the body is run for every right subgraph
of the table at `rightLevel` and every neighbour subgraph of it at `leftLevel`.
The calls of `planInnerHashJoin` are collected in order. -/
def planInnerJoin (env : PlannerEnv) (fuel : Nat) (ctx : JoinOrderEnumeratorContext)
    (leftLevel rightLevel : Nat) :
    Except Fault (JoinOrderEnumeratorContext × List (SubqueryGraph × SubqueryGraph)) :=
  if leftLevel > rightLevel then .error .assertion
  else
    (ctx.subPlansTable.getSubqueryGraphs rightLevel).foldlM
      (fun state rightSubgraph =>
        (env.getNbrSubgraphs ctx.queryGraph rightSubgraph leftLevel).foldlM
          (fun state nbrSubgraph =>
            match planInnerJoinPair env fuel leftLevel rightLevel state.1 rightSubgraph
              nbrSubgraph with
            | .error e => .error e
            | .ok (ctx2, calls) => .ok (ctx2, state.2 ++ calls))
          state)
      (ctx, [])

/-- The call `planInnerHashJoin(rightSubgraph, nbrSubgraph, ...)` was made in a run
of the loop body that returned. -/
def hashJoinInvoked (rightSubgraph nbrSubgraph : SubqueryGraph)
    (run : Except Fault (JoinOrderEnumeratorContext × List (SubqueryGraph × SubqueryGraph))) :
    Prop :=
  ∃ ctx2 calls, run = .ok (ctx2, calls) ∧ (rightSubgraph, nbrSubgraph) ∈ calls

/-! ## Multiway intersect joins -/

/-- Modelled from the spec: `SubqueryGraph::getRelNbrPositions`, which is not in
the planner source file: the positions of the relationships neighbouring the
subgraph, those not selected in it that have an endpoint among its selected
nodes. -/
def SubqueryGraph.getRelNbrPositions (qg : QueryGraph) (sg : SubqueryGraph) : List Nat :=
  (List.range qg.getNumQueryRels).filter (fun relPos =>
    match qg.queryRels[relPos]? with
    | some rel =>
      !decide (relPos ∈ sg.queryRelsSelector) &&
        (decide (qg.getQueryNodeIdx rel.getSrcNodeName ∈ sg.queryNodesSelector) ||
          decide (qg.getQueryNodeIdx rel.getDstNodeName ∈ sg.queryNodesSelector))
    | none => false)

/-- The map type of `populateIntersectRelCandidates`, from a node position to the
relationships listed under it; every key occurs once. -/
abbrev IntersectRelCandidates := List (Nat × List RelExpression)

/-- The method `contains` of the map. -/
def IntersectRelCandidates.containsKey (m : IntersectRelCandidates) (key : Nat) : Bool :=
  m.any (fun entry => entry.1 == key)

/-- The method `insert` of the map: no effect when the key is present. -/
def IntersectRelCandidates.insertEntry (m : IntersectRelCandidates) (key : Nat)
    (value : List RelExpression) : IntersectRelCandidates :=
  if m.containsKey key then m else m ++ [(key, value)]

/-- The statement `map.at(key).push_back(rel)`. -/
def IntersectRelCandidates.pushBackAt (m : IntersectRelCandidates) (key : Nat)
    (rel : RelExpression) : IntersectRelCandidates :=
  m.map (fun entry => if entry.1 == key then (entry.1, entry.2 ++ [rel]) else entry)

/-- Relationship `rel` is listed under key `pos`. -/
def IntersectRelCandidates.lists (m : IntersectRelCandidates) (pos : Nat)
    (rel : RelExpression) : Prop :=
  ∃ rels, (pos, rels) ∈ m ∧ rel ∈ rels

/-- The body of the loop of `populateIntersectRelCandidates` for one neighbouring
relationship position. -/
def populateIntersectRelCandidatesStep (qg : QueryGraph) (subgraph : SubqueryGraph)
    (intersectNodePosToRelsMap : IntersectRelCandidates) (relPos : Nat) :
    Except Fault IntersectRelCandidates :=
  match qg.getQueryRel relPos with
  | .error e => .error e
  | .ok rel =>
    if !qg.containsQueryNode rel.getSrcNodeName || !qg.containsQueryNode rel.getDstNodeName then
      .ok intersectNodePosToRelsMap
    else
      let srcNodePos := qg.getQueryNodeIdx rel.getSrcNodeName
      let dstNodePos := qg.getQueryNodeIdx rel.getDstNodeName
      let isSrcConnected := decide (srcNodePos ∈ subgraph.queryNodesSelector)
      let isDstConnected := decide (dstNodePos ∈ subgraph.queryNodesSelector)
      if isSrcConnected && isDstConnected then .ok intersectNodePosToRelsMap
      else
        let intersectNodePos := if isSrcConnected then dstNodePos else srcNodePos
        let withKey :=
          if !intersectNodePosToRelsMap.containsKey intersectNodePos then
            intersectNodePosToRelsMap.insertEntry intersectNodePos []
          else intersectNodePosToRelsMap
        .ok (withKey.pushBackAt intersectNodePos rel)

/-- The function `populateIntersectRelCandidates`. -/
def populateIntersectRelCandidates (qg : QueryGraph) (subgraph : SubqueryGraph) :
    Except Fault IntersectRelCandidates :=
  (subgraph.getRelNbrPositions qg).foldlM (populateIntersectRelCandidatesStep qg subgraph) []

/-- The bound node `planWCOJoin` picks for a relationship: the destination when
the source is the intersect node, the source otherwise. -/
def wcojBoundNode (intersectNode : NodeExpression) (rel : RelExpression) : NodeExpression :=
  if rel.getSrcNodeName == intersectNode.uniqueName then rel.dstNode else rel.srcNode

/-- The state of the first loop of `planWCOJoin`. -/
structure WCOJoinState where
  newSubgraph : SubqueryGraph
  prevSubgraphs : List SubqueryGraph
  boundNodeIDs : expression_vector
  relPlans : List LogicalPlan

/-- The first loop of `planWCOJoin(subgraph, rels, intersectNode)`; `none` is the
early `return` taken when a relationship has no suitable build plan. -/
def planWCOJoinRels (ctx : JoinOrderEnumeratorContext) (subgraph : SubqueryGraph)
    (intersectNode : NodeExpression) :
    List RelExpression → WCOJoinState → Except Fault (Option WCOJoinState)
  | [], state => .ok (some state)
  | rel :: rest, state =>
    let boundNode := wcojBoundNode intersectNode rel
    let boundNodeIDs := state.boundNodeIDs ++ [boundNode.internalID]
    let relPos := ctx.queryGraph.getQueryRelIdx rel.uniqueName
    let prevSubgraphs := state.prevSubgraphs ++ [subgraph]
    let newSubgraph := state.newSubgraph.addQueryRel relPos
    let relSubgraph := getEmptySubqueryGraph.addQueryRel relPos
    if !ctx.subPlansTable.containSubgraphPlans relSubgraph then .error .assertion
    else
      let relPlanCandidates := ctx.subPlansTable.getSubgraphPlans relSubgraph
      match getWCOJBuildPlanForRel relPlanCandidates boundNode with
      | .error e => .error e
      | .ok none => .ok none
      | .ok (some relPlan) =>
        planWCOJoinRels ctx subgraph intersectNode rest
          ⟨newSubgraph, prevSubgraphs, boundNodeIDs, state.relPlans ++ [relPlan]⟩

/-- The body of the second loop of `planWCOJoin(subgraph, rels, intersectNode)` for
one probe plan. -/
def planWCOJoinProbe (env : PlannerEnv) (intersectNode : NodeExpression)
    (state : WCOJoinState) (predicates : expression_vector)
    (ctx : JoinOrderEnumeratorContext) (leftPlan : LogicalPlan) : JoinOrderEnumeratorContext :=
  if env.isExpressionInScope leftPlan intersectNode.internalID then ctx
  else
    let leftPlanCopy := leftPlan.shallowCopy
    let rightPlansCopy := state.relPlans.map (fun relPlan => relPlan.shallowCopy)
    let plan := appendIntersect env intersectNode.internalID state.boundNodeIDs leftPlanCopy
      rightPlansCopy
    let plan := predicates.foldl (fun p predicate => appendFilter env predicate p) plan
    ctx.addPlan state.newSubgraph plan

/-- The method `Planner::planWCOJoin(subgraph, rels, intersectNode)`. The probe
plans are those held under `subgraph` on entry. -/
def planWCOJoin (env : PlannerEnv) (ctx : JoinOrderEnumeratorContext) (subgraph : SubqueryGraph)
    (rels : List RelExpression) (intersectNode : NodeExpression) :
    Except Fault JoinOrderEnumeratorContext :=
  match planWCOJoinRels ctx subgraph intersectNode rels ⟨subgraph, [subgraph], [], []⟩ with
  | .error e => .error e
  | .ok none => .ok ctx
  | .ok (some state) =>
    let predicates := getNewlyMatchedExprs ctx.queryGraph state.prevSubgraphs state.newSubgraph
      ctx.getWhereExpressions
    .ok ((ctx.getPlans subgraph).foldl (planWCOJoinProbe env intersectNode state predicates) ctx)

/-- Plan `plan` is the build plan `planWCOJoin` fetches for `rel`: the table holds
plans under the single-relationship subgraph of `rel`, and `getWCOJBuildPlanForRel`
finds `plan` among them for the bound node of `rel`. -/
def IsWCOJBuildPlan (ctx : JoinOrderEnumeratorContext) (intersectNode : NodeExpression)
    (rel : RelExpression) (plan : LogicalPlan) : Prop :=
  ctx.subPlansTable.containSubgraphPlans
      ⟨∅, {ctx.queryGraph.getQueryRelIdx rel.uniqueName}⟩ = true ∧
    getWCOJBuildPlanForRel
      (ctx.subPlansTable.getSubgraphPlans ⟨∅, {ctx.queryGraph.getQueryRelIdx rel.uniqueName}⟩)
      (wcojBoundNode intersectNode rel) = .ok (some plan)

/-- Node `node` is the endpoint of `rel` other than the intersect node. -/
def IsOtherEndpoint (intersectNode : NodeExpression) (rel : RelExpression)
    (node : NodeExpression) : Prop :=
  (rel.srcNode.uniqueName = intersectNode.uniqueName ∧ node = rel.dstNode) ∨
  (rel.dstNode.uniqueName = intersectNode.uniqueName ∧ node = rel.srcNode)

/-- Relationship `rel` dangles into node position `pos` of the subgraph: both its
endpoints are query nodes, exactly one of them is selected in the node selector,
and `pos` is the position of the other one. -/
def IsDanglingInto (qg : QueryGraph) (subgraph : SubqueryGraph) (rel : RelExpression)
    (pos : Nat) : Prop :=
  qg.containsQueryNode rel.getSrcNodeName = true ∧
  qg.containsQueryNode rel.getDstNodeName = true ∧
  ((qg.getQueryNodeIdx rel.getSrcNodeName ∈ subgraph.queryNodesSelector ∧
      qg.getQueryNodeIdx rel.getDstNodeName ∉ subgraph.queryNodesSelector ∧
      pos = qg.getQueryNodeIdx rel.getDstNodeName) ∨
    (qg.getQueryNodeIdx rel.getDstNodeName ∈ subgraph.queryNodesSelector ∧
      qg.getQueryNodeIdx rel.getSrcNodeName ∉ subgraph.queryNodesSelector ∧
      pos = qg.getQueryNodeIdx rel.getSrcNodeName))

/-- The condition under which one run of the loop body of
`populateIntersectRelCandidates` lists `rel` under `pos`. -/
def listedByStep (qg : QueryGraph) (subgraph : SubqueryGraph) (rel : RelExpression)
    (pos : Nat) : Prop :=
  qg.containsQueryNode rel.getSrcNodeName = true ∧
  qg.containsQueryNode rel.getDstNodeName = true ∧
  ¬ (qg.getQueryNodeIdx rel.getSrcNodeName ∈ subgraph.queryNodesSelector ∧
      qg.getQueryNodeIdx rel.getDstNodeName ∈ subgraph.queryNodesSelector) ∧
  pos = if qg.getQueryNodeIdx rel.getSrcNodeName ∈ subgraph.queryNodesSelector then
      qg.getQueryNodeIdx rel.getDstNodeName
    else qg.getQueryNodeIdx rel.getSrcNodeName

/-- Relationship `rel` has no build plan: the table holds plans under the
single-relationship subgraph of `rel`, and `getWCOJBuildPlanForRel` finds none of
them to scan the bound node of `rel` sequentially. -/
def HasNoWCOJBuildPlan (ctx : JoinOrderEnumeratorContext) (intersectNode : NodeExpression)
    (rel : RelExpression) : Prop :=
  ctx.subPlansTable.containSubgraphPlans
      ⟨∅, {ctx.queryGraph.getQueryRelIdx rel.uniqueName}⟩ = true ∧
    getWCOJBuildPlanForRel
      (ctx.subPlansTable.getSubgraphPlans ⟨∅, {ctx.queryGraph.getQueryRelIdx rel.uniqueName}⟩)
      (wcojBoundNode intersectNode rel) = .ok none

/-! ## Base table scans -/

/-- The enumeration `SubqueryType`, the three correlation modes. -/
inductive SubqueryType where
  | NONE
  | INTERNAL_ID_CORRELATED
  | CORRELATED
  deriving DecidableEq, Repr

/-- A join-order hint; only its presence is tested by the enumerator. -/
structure JoinHintNode where
  variableName : String
  deriving DecidableEq, Repr

/-- Modelled from the spec: the planning info, "predicates, correlation mode,
correlated-expression set and their cardinality, optional join-order hint". -/
structure QueryGraphPlanningInfo where
  subqueryType : SubqueryType
  predicates : expression_vector
  corrExprs : expression_vector
  corrExprsCard : Nat
  hint : Option JoinHintNode
  deriving DecidableEq, Repr

/-- The method `LogicalPlan::setCardinality`. -/
def LogicalPlan.setCardinality (plan : LogicalPlan) (cardinality : Nat) : LogicalPlan :=
  { plan with cardinality := cardinality }

/-- The method `Planner::planNodeScan`. -/
def planNodeScan (env : PlannerEnv) (ctx : JoinOrderEnumeratorContext) (nodePos : Nat) :
    Except Fault JoinOrderEnumeratorContext :=
  match ctx.queryGraph.getQueryNode nodePos with
  | .error e => .error e
  | .ok node =>
    let newSubgraph := getEmptySubqueryGraph.addQueryNode nodePos
    let properties := env.getProperties node.uniqueName
    let plan := appendScanNodeTable env node.internalID node.tableIDs properties
    let predicates := getNewlyMatchedExprs1 ctx.queryGraph getEmptySubqueryGraph newSubgraph
      ctx.getWhereExpressions
    let plan := appendFilters env predicates plan
    .ok (ctx.addPlan newSubgraph plan)

/-- The method `Planner::planNodeIDScan`. -/
def planNodeIDScan (env : PlannerEnv) (ctx : JoinOrderEnumeratorContext) (nodePos : Nat) :
    Except Fault JoinOrderEnumeratorContext :=
  match ctx.queryGraph.getQueryNode nodePos with
  | .error e => .error e
  | .ok node =>
    let newSubgraph := getEmptySubqueryGraph.addQueryNode nodePos
    let plan := appendScanNodeTable env node.internalID node.tableIDs []
    .ok (ctx.addPlan newSubgraph plan)

/-- The loop of `planCorrelatedExpressionsScan` that selects the nodes whose
internal ID is a correlated expression. -/
def correlatedSubgraphFrom (qg : QueryGraph) (corrExprsSet : expression_set) :
    List Nat → SubqueryGraph → Except Fault SubqueryGraph
  | [], newSubgraph => .ok newSubgraph
  | nodePos :: rest, newSubgraph =>
    match qg.getQueryNode nodePos with
    | .error e => .error e
    | .ok queryNode =>
      if corrExprsSet.contains queryNode.internalID then
        correlatedSubgraphFrom qg corrExprsSet rest (newSubgraph.addQueryNode nodePos)
      else correlatedSubgraphFrom qg corrExprsSet rest newSubgraph

/-- The method `Planner::planCorrelatedExpressionsScan`. -/
def planCorrelatedExpressionsScan (env : PlannerEnv) (ctx : JoinOrderEnumeratorContext)
    (info : QueryGraphPlanningInfo) : Except Fault JoinOrderEnumeratorContext :=
  let queryGraph := ctx.queryGraph
  let corrExprs := info.corrExprs
  let corrExprsSet : expression_set := corrExprs
  match correlatedSubgraphFrom queryGraph corrExprsSet (List.range queryGraph.getNumQueryNodes)
      getEmptySubqueryGraph with
  | .error e => .error e
  | .ok newSubgraph =>
    let plan := appendExpressionsScan env corrExprs
    let plan := plan.setCardinality info.corrExprsCard
    let predicates := getNewlyMatchedExprs1 ctx.queryGraph getEmptySubqueryGraph newSubgraph
      ctx.getWhereExpressions
    let plan := appendFilters env predicates plan
    let plan := appendDistinct env corrExprs plan
    .ok (ctx.addPlan newSubgraph plan)

/-- The body of the node loop of `planBaseTableScans` in mode
`INTERNAL_ID_CORRELATED`. -/
def planBaseNodeInternalID (env : PlannerEnv) (corrExprsSet : expression_set)
    (ctx : JoinOrderEnumeratorContext) (nodePos : Nat) :
    Except Fault JoinOrderEnumeratorContext :=
  match ctx.queryGraph.getQueryNode nodePos with
  | .error e => .error e
  | .ok queryNode =>
    if corrExprsSet.contains queryNode.internalID then planNodeIDScan env ctx nodePos
    else planNodeScan env ctx nodePos

/-- The body of the node loop of `planBaseTableScans` in mode `CORRELATED`. -/
def planBaseNodeCorrelated (env : PlannerEnv) (corrExprsSet : expression_set)
    (ctx : JoinOrderEnumeratorContext) (nodePos : Nat) :
    Except Fault JoinOrderEnumeratorContext :=
  match ctx.queryGraph.getQueryNode nodePos with
  | .error e => .error e
  | .ok queryNode =>
    if corrExprsSet.contains queryNode.internalID then .ok ctx
    else planNodeScan env ctx nodePos

/-- The `switch` of `planBaseTableScans`: the node scans of the three modes. -/
def planBaseNodeScans (env : PlannerEnv) (ctx : JoinOrderEnumeratorContext)
    (info : QueryGraphPlanningInfo) : Except Fault JoinOrderEnumeratorContext :=
  let queryGraph := ctx.queryGraph
  let corrExprsSet : expression_set := info.corrExprs
  match info.subqueryType with
  | .NONE => (List.range queryGraph.getNumQueryNodes).foldlM (planNodeScan env) ctx
  | .INTERNAL_ID_CORRELATED =>
    (List.range queryGraph.getNumQueryNodes).foldlM (planBaseNodeInternalID env corrExprsSet) ctx
  | .CORRELATED =>
    match (List.range queryGraph.getNumQueryNodes).foldlM
        (planBaseNodeCorrelated env corrExprsSet) ctx with
    | .error e => .error e
    | .ok ctx2 => planCorrelatedExpressionsScan env ctx2 info

/-- The method `Planner::planBaseTableScans`. -/
def planBaseTableScans (env : PlannerEnv) (ctx : JoinOrderEnumeratorContext)
    (info : QueryGraphPlanningInfo) : Except Fault JoinOrderEnumeratorContext :=
  match planBaseNodeScans env ctx info with
  | .error e => .error e
  | .ok ctx2 => (List.range ctx.queryGraph.getNumQueryRels).foldlM (planRelScan env) ctx2

/-- The plans `entries` added to the table one after the other, each under its
subgraph. -/
def JoinOrderEnumeratorContext.addPlans (ctx : JoinOrderEnumeratorContext)
    (entries : List (SubqueryGraph × LogicalPlan)) : JoinOrderEnumeratorContext :=
  entries.foldl (fun c entry => c.addPlan entry.1 entry.2) ctx

/-- The full scan `planNodeScan` stores for the node at `nodePos`: a
`ScanNodeTable` with the properties of the node under the filters of the
predicates newly matched at the node, stored under the singleton subgraph of the
node. -/
def nodeScanEntry (env : PlannerEnv) (ctx : JoinOrderEnumeratorContext) (nodePos : Nat)
    (node : NodeExpression) : SubqueryGraph × LogicalPlan :=
  (⟨{nodePos}, ∅⟩,
    appendFilters env
      (getNewlyMatchedExprs ctx.queryGraph [⟨∅, ∅⟩] ⟨{nodePos}, ∅⟩ ctx.whereExpressions)
      (appendScanNodeTable env node.internalID node.tableIDs (env.getProperties node.uniqueName)))

/-- The ID-only scan `planNodeIDScan` stores for the node at `nodePos`: a bare
`ScanNodeTable` with no property, stored under the singleton subgraph of the
node. -/
def nodeIDScanEntry (env : PlannerEnv) (nodePos : Nat) (node : NodeExpression) :
    SubqueryGraph × LogicalPlan :=
  (⟨{nodePos}, ∅⟩, appendScanNodeTable env node.internalID node.tableIDs [])

/-- The two plans `planRelScan` stores for the relationship at `relPos`, from the
source and from the destination, both under the subgraph of the relationship. -/
def relScanEntries (env : PlannerEnv) (ctx : JoinOrderEnumeratorContext) (relPos : Nat)
    (rel : RelExpression) : List (SubqueryGraph × LogicalPlan) :=
  [(⟨∅, {relPos}⟩,
      appendFilters env
        (getNewlyMatchedExprs ctx.queryGraph [⟨∅, ∅⟩] ⟨∅, {relPos}⟩ ctx.whereExpressions)
        (appendExtend env rel.srcNode rel.dstNode rel (getExtendDirection rel rel.srcNode)
          (env.getProperties rel.uniqueName)
          (appendScanNodeTable env rel.srcNode.internalID rel.srcNode.tableIDs []))),
    (⟨∅, {relPos}⟩,
      appendFilters env
        (getNewlyMatchedExprs ctx.queryGraph [⟨∅, ∅⟩] ⟨∅, {relPos}⟩ ctx.whereExpressions)
        (appendExtend env rel.dstNode rel.srcNode rel (getExtendDirection rel rel.dstNode)
          (env.getProperties rel.uniqueName)
          (appendScanNodeTable env rel.dstNode.internalID rel.dstNode.tableIDs [])))]

/-- The positions of the query nodes whose internal ID is a correlated expression. -/
def correlatedNodePositions (qg : QueryGraph) (corrExprs : expression_vector) : Finset Nat :=
  ((qg.queryNodes.enum.filter
    (fun entry => expression_set.contains corrExprs entry.2.internalID)).map
      (fun entry => entry.1)).toFinset

/-- The plan `planCorrelatedExpressionsScan` stores: `ExpressionsScan(corrExprs)`
with its cardinality set to `corrExprsCard`, then the filters of the predicates
newly matched at the subgraph of the correlated nodes, then
`Distinct(corrExprs)`; stored under that subgraph. -/
def correlatedScanEntry (env : PlannerEnv) (ctx : JoinOrderEnumeratorContext)
    (info : QueryGraphPlanningInfo) : SubqueryGraph × LogicalPlan :=
  (⟨correlatedNodePositions ctx.queryGraph info.corrExprs, ∅⟩,
    appendDistinct env info.corrExprs
      (appendFilters env
        (getNewlyMatchedExprs ctx.queryGraph [⟨∅, ∅⟩]
          ⟨correlatedNodePositions ctx.queryGraph info.corrExprs, ∅⟩ ctx.whereExpressions)
        ((appendExpressionsScan env info.corrExprs).setCardinality info.corrExprsCard)))

mutual

/-- Does the operator tree hold a `ScanNodeTable` whose node ID is in the set. -/
def LogicalOperator.scansNodeIn (set : expression_set) : LogicalOperator → Bool
  | .scanNodeTable nodeID _ _ => set.contains nodeID
  | .extend _ _ _ _ _ _ child => child.scansNodeIn set
  | .recursiveExtend _ _ _ _ child => child.scansNodeIn set
  | .filter _ child => child.scansNodeIn set
  | .flatten _ child => child.scansNodeIn set
  | .projection _ child => child.scansNodeIn set
  | .hashJoin _ _ probe build => probe.scansNodeIn set || build.scansNodeIn set
  | .intersect _ _ probe builds =>
    probe.scansNodeIn set || LogicalOperator.anyScansNodeIn set builds
  | .crossProduct probe build => probe.scansNodeIn set || build.scansNodeIn set
  | .expressionsScan _ => false
  | .distinct _ child => child.scansNodeIn set
  | .emptyResult child => child.scansNodeIn set

/-- Does one of the operator trees hold a `ScanNodeTable` whose node ID is in the
set. -/
def LogicalOperator.anyScansNodeIn (set : expression_set) : List LogicalOperator → Bool
  | [] => false
  | op :: rest => op.scansNodeIn set || LogicalOperator.anyScansNodeIn set rest

end

/-- The plans the relationship loop of `planBaseTableScans` stores: the two plans
of every relationship, in relationship order. -/
def allRelScanEntries (env : PlannerEnv) (ctx : JoinOrderEnumeratorContext) :
    List (SubqueryGraph × LogicalPlan) :=
  ctx.queryGraph.queryRels.enum.flatMap (fun entry => relScanEntries env ctx entry.1 entry.2)

/-- The plan the node loop of `planBaseTableScans` stores for the node at
`nodePos` in the modes `NONE` and `INTERNAL_ID_CORRELATED`: the ID-only scan for
a correlated node in mode `INTERNAL_ID_CORRELATED`, the full scan otherwise. -/
def uncorrelatedNodeEntry (env : PlannerEnv) (ctx : JoinOrderEnumeratorContext)
    (info : QueryGraphPlanningInfo) (nodePos : Nat) (node : NodeExpression) :
    SubqueryGraph × LogicalPlan :=
  if info.subqueryType = .INTERNAL_ID_CORRELATED ∧
      expression_set.contains info.corrExprs node.internalID = true then
    nodeIDScanEntry env nodePos node
  else nodeScanEntry env ctx nodePos node

/-- The plans the node loop of `planBaseTableScans` stores in the modes `NONE` and
`INTERNAL_ID_CORRELATED`: one per query node, in node order. -/
def uncorrelatedNodeEntries (env : PlannerEnv) (ctx : JoinOrderEnumeratorContext)
    (info : QueryGraphPlanningInfo) : List (SubqueryGraph × LogicalPlan) :=
  ctx.queryGraph.queryNodes.enum.map
    (fun entry => uncorrelatedNodeEntry env ctx info entry.1 entry.2)

/-- The plans the node loop of `planBaseTableScans` stores in mode `CORRELATED`:
the full scan of every node whose internal ID is not a correlated expression, in
node order. -/
def correlatedModeNodeEntries (env : PlannerEnv) (ctx : JoinOrderEnumeratorContext)
    (info : QueryGraphPlanningInfo) : List (SubqueryGraph × LogicalPlan) :=
  (ctx.queryGraph.queryNodes.enum.filter
    (fun entry => !expression_set.contains info.corrExprs entry.2.internalID)).map
      (fun entry => nodeScanEntry env ctx entry.1 entry.2)

/-- The entries `g i x` for the element `x` at position `i` of `xs`; none when
`i` is out of range. -/
def entriesAtPos {α β : Type} (xs : List α) (g : Nat → α → List β) (i : Nat) : List β :=
  match xs[i]? with
  | some x => g i x
  | none => []

/-- The tables the enumerator can reach: the table starts empty and the enumerator
changes it through `addPlan` only. -/
inductive SubPlansTable.Reachable : SubPlansTable → Prop where
  | empty : SubPlansTable.Reachable SubPlansTable.empty
  | addPlan (t : SubPlansTable) (sg : SubqueryGraph) (plan : LogicalPlan) :
    SubPlansTable.Reachable t → SubPlansTable.Reachable (t.addPlan sg plan)

/-- The cost ceiling `maxCost(sg)` after a plan of cost `cost` is added at `sg`:
the minimum of the previous ceiling and `cost`, a table without ceiling counting
as unbounded. -/
def minCost (old : Option Nat) (cost : Nat) : Nat :=
  match old with
  | none => cost
  | some oldCost => min oldCost cost

/-! ## Enumeration of one query graph -/

/-- The method `Planner::planWCOJoin(leftLevel, rightLevel)`, with its
`KU_ASSERT(leftLevel <= rightLevel)`. The right subgraphs are those the table
holds at `rightLevel` on entry; the candidates of a subgraph are visited in the
order in which their intersect node was first inserted. -/
def planWCOJoinLevels (env : PlannerEnv) (ctx : JoinOrderEnumeratorContext)
    (leftLevel rightLevel : Nat) : Except Fault JoinOrderEnumeratorContext :=
  if leftLevel > rightLevel then .error .assertion
  else
    (ctx.subPlansTable.getSubqueryGraphs rightLevel).foldlM
      (fun ctx2 rightSubgraph =>
        match populateIntersectRelCandidates ctx.queryGraph rightSubgraph with
        | .error e => .error e
        | .ok candidates =>
          candidates.foldlM
            (fun ctx3 candidate =>
              if candidate.2.length = leftLevel then
                match ctx.queryGraph.getQueryNode candidate.1 with
                | .error e => .error e
                | .ok intersectNode =>
                  planWCOJoin env ctx3 rightSubgraph candidate.2 intersectNode
              else .ok ctx3)
            ctx2)
      ctx

/-- Modelled from the spec: what `enumerateQueryGraph` reads beyond the
collaborators of `PlannerEnv` and that is not part of the planner source file.
`context.init` "binds the query graph, loads predicates"; the values it leaves in
the fields `currentLevel` and `maxLevel` are `initCurrentLevel` and
`initMaxLevel queryGraph`. `MAX_LEVEL_TO_PLAN_EXACTLY` is "a fixed small
integer". With a hint "a `JoinTreeConstructor` assembles the user-specified tree,
a `JoinPlanSolver` lowers it", which is `solveHint`. `isEmpty` is
`QueryGraph::isEmpty`. -/
structure EnumeratorEnv extends PlannerEnv where
  MAX_LEVEL_TO_PLAN_EXACTLY : Nat
  initCurrentLevel : Nat
  initMaxLevel : QueryGraph → Nat
  solveHint : QueryGraph → expression_vector → JoinHintNode → LogicalPlan
  isEmpty : QueryGraph → Bool

/-- Modelled from the spec: `context.init(&queryGraph, predicates)`, "bind the
query graph, load predicates"; the table "is discarded when planning finishes",
so it starts empty. -/
def JoinOrderEnumeratorContext.init (queryGraph : QueryGraph) (predicates : expression_vector) :
    JoinOrderEnumeratorContext :=
  { queryGraph := queryGraph, whereExpressions := predicates,
    subPlansTable := SubPlansTable.empty }

/-- The method `getFullyMatchedSubqueryGraph`, declared in
`join_order_enumerator_context.h`: the subquery graph of the query graph "when
all of its nodes and rels are matched". -/
def getFullyMatchedSubqueryGraph (queryGraph : QueryGraph) : SubqueryGraph :=
  ⟨Finset.range queryGraph.getNumQueryNodes, Finset.range queryGraph.getNumQueryRels⟩

/-- One call made by `planLevel`, run on the context. -/
def runJoinCall (env : PlannerEnv) (fuel : Nat) (ctx : JoinOrderEnumeratorContext) :
    JoinCall → Except Fault JoinOrderEnumeratorContext
  | .planWCOJoin leftLevel rightLevel => planWCOJoinLevels env ctx leftLevel rightLevel
  | .planInnerJoin leftLevel rightLevel =>
    match planInnerJoin env fuel ctx leftLevel rightLevel with
    | .error e => .error e
    | .ok (ctx2, _) => .ok ctx2

/-- The method `planLevel` run on the context: the calls of `planLevel`, in
order, each run to completion before the next. -/
def planLevelRun (env : EnumeratorEnv) (fuel : Nat) (ctx : JoinOrderEnumeratorContext)
    (level : Nat) : Except Fault JoinOrderEnumeratorContext :=
  match planLevel env.MAX_LEVEL_TO_PLAN_EXACTLY level with
  | .error e => .error e
  | .ok calls => calls.foldlM (runJoinCall env.toPlannerEnv fuel) ctx

/-- The loop `while (context.currentLevel < context.maxLevel)
planLevel(context.currentLevel++)` of `enumerateQueryGraph`, entered with the
given `currentLevel`. The first argument bounds the number of iterations. Next to
the context the loop returns the levels passed to `planLevel`, in order of the
calls. Inside the loop `currentLevel` is below the 32-bit `maxLevel`, so the
increment does not wrap. -/
def planLevels (env : EnumeratorEnv) (fuel maxLevel : Nat) :
    Nat → Nat → JoinOrderEnumeratorContext →
      List Nat × Except Fault JoinOrderEnumeratorContext
  | 0, currentLevel, ctx =>
    if currentLevel < maxLevel then ([], .error .outOfFuel) else ([], .ok ctx)
  | steps + 1, currentLevel, ctx =>
    if currentLevel < maxLevel then
      match planLevelRun env fuel ctx currentLevel with
      | .error e => ([currentLevel], .error e)
      | .ok ctx2 =>
        let rest := planLevels env fuel maxLevel steps (currentLevel + 1) ctx2
        (currentLevel :: rest.1, rest.2)
    else ([], .ok ctx)

/-- A step of `enumerateQueryGraph` that the run records. -/
inductive EnumeratorEvent where
  | planBaseTableScans
  | planLevel (level : Nat)
  deriving DecidableEq, Repr

/-- A run of `enumerateQueryGraph`: the calls of `planBaseTableScans` and
`planLevel` it made, in order, and what it returned. -/
structure EnumerationRun where
  events : List EnumeratorEvent
  result : Except Fault (List LogicalPlan)

/-- The method `Planner::enumerateQueryGraph`, with the record of its calls. The
cardinality estimator is a collaborator of `env`, so `initNodeIDDom` leaves no
trace here. `fuel` bounds the recursion of `tryPlanINLJoin`. -/
def enumerateQueryGraphRun (env : EnumeratorEnv) (fuel : Nat) (queryGraph : QueryGraph)
    (info : QueryGraphPlanningInfo) : EnumerationRun :=
  let ctx := JoinOrderEnumeratorContext.init queryGraph info.predicates
  let currentLevel := env.initCurrentLevel % 2 ^ 32
  let maxLevel := env.initMaxLevel queryGraph % 2 ^ 32
  match info.hint with
  | some hint =>
    let plan := env.solveHint queryGraph info.predicates hint
    ⟨[], .ok [plan.shallowCopy]⟩
  | none =>
    match planBaseTableScans env.toPlannerEnv ctx info with
    | .error e => ⟨[.planBaseTableScans], .error e⟩
    | .ok ctx2 =>
      let currentLevel := (currentLevel + 1) % 2 ^ 32
      let loop := planLevels env fuel maxLevel maxLevel currentLevel ctx2
      let events := EnumeratorEvent.planBaseTableScans :: loop.1.map EnumeratorEvent.planLevel
      match loop.2 with
      | .error e => ⟨events, .error e⟩
      | .ok ctx3 =>
        let plans := ctx3.getPlans (getFullyMatchedSubqueryGraph queryGraph)
        if env.isEmpty queryGraph then
          ⟨events, .ok (plans.map (appendEmptyResult env.toPlannerEnv))⟩
        else ⟨events, .ok plans⟩

/-- The method `Planner::enumerateQueryGraph`: what it returns. -/
def enumerateQueryGraph (env : EnumeratorEnv) (fuel : Nat) (queryGraph : QueryGraph)
    (info : QueryGraphPlanningInfo) : Except Fault (List LogicalPlan) :=
  (enumerateQueryGraphRun env fuel queryGraph info).result

/-! ## Enumeration of a query graph collection -/

/-- The method `Planner::planCrossProduct`. -/
def planCrossProduct (env : PlannerEnv) (leftPlans rightPlans : List LogicalPlan) :
    List LogicalPlan :=
  leftPlans.foldl
    (fun result leftPlan =>
      rightPlans.foldl
        (fun result rightPlan =>
          let leftPlanCopy := leftPlan.shallowCopy
          let rightPlanCopy := rightPlan.shallowCopy
          result ++ [appendCrossProduct env leftPlanCopy rightPlanCopy])
        result)
    []

/-- The conversion `(uint32_t)` of an `int32_t`. -/
def toUInt32 (z : Int) : Nat := (z % 2 ^ 32).toNat

/-- Modelled from the spec: `QueryGraph::canProjectExpression`, "true iff every
free variable of *e* names a matched element of this graph". -/
def QueryGraph.canProjectExpression (qg : QueryGraph) (expression : Expression) : Bool :=
  expression.varNames.all (fun name => qg.containsQueryNode name || qg.containsQueryRel name)

/-- The loop of `enumerateQueryGraphCollection` that extracts the predicates of
the current query graph, entered with counter `j` on the predicates not yet
visited. A set of indices is the list of its elements in order of insertion. -/
def extractPredicateIndices (queryGraph : QueryGraph) (evaluatedPredicatesIndices : List Nat) :
    expression_vector → Nat → List Nat → List Nat
  | [], _, predicateToEvaluateIndices => predicateToEvaluateIndices
  | predicate :: rest, j, predicateToEvaluateIndices =>
    if predicate.expressionType = .LITERAL then
      extractPredicateIndices queryGraph evaluatedPredicatesIndices rest (j + 1)
        predicateToEvaluateIndices
    else if evaluatedPredicatesIndices.contains j then
      extractPredicateIndices queryGraph evaluatedPredicatesIndices rest (j + 1)
        predicateToEvaluateIndices
    else if queryGraph.canProjectExpression predicate then
      extractPredicateIndices queryGraph evaluatedPredicatesIndices rest (j + 1)
        (if predicateToEvaluateIndices.contains j then predicateToEvaluateIndices
          else predicateToEvaluateIndices ++ [j])
    else
      extractPredicateIndices queryGraph evaluatedPredicatesIndices rest (j + 1)
        predicateToEvaluateIndices

/-- A call of `enumerateQueryGraph` made by `enumerateQueryGraphCollection`: the
query graph, the set `predicateToEvaluateIndices` and the planning info passed. -/
structure ComponentCall where
  queryGraph : QueryGraph
  predicateToEvaluateIndices : List Nat
  newInfo : QueryGraphPlanningInfo

/-- The state of the loop over the query graphs of the collection, with the
record of the calls made. -/
structure CollectionState where
  evaluatedPredicatesIndices : List Nat
  plansPerQueryGraph : List (List LogicalPlan)
  calls : List ComponentCall

/-- The planning info `enumerateQueryGraphCollection` passes for query graph
`i`: the extracted predicates, and in mode `CORRELATED` the mode `NONE` for every
query graph but the one picked for the expressions scan. -/
def componentInfo (info : QueryGraphPlanningInfo) (queryGraphIdxToPlanExpressionsScan : Int)
    (i : Nat) (predicatesToEvaluate : expression_vector) : QueryGraphPlanningInfo :=
  let newInfo := { info with predicates := predicatesToEvaluate }
  match info.subqueryType with
  | .NONE => newInfo
  | .INTERNAL_ID_CORRELATED => newInfo
  | .CORRELATED =>
    if i = toUInt32 queryGraphIdxToPlanExpressionsScan then newInfo
    else { newInfo with subqueryType := .NONE }

/-- The body of the loop over the query graphs of the collection. The loop that
fills `predicatesToEvaluate` iterates the `std::unordered_set`
`predicateToEvaluateIndices`, in an order the standard library chooses; here the
set is iterated in order of insertion, so that `newInfo.predicates` holds the
extracted predicates in that order. Which predicates a call receives does not
depend on the order. -/
def enumerateComponent (env : EnumeratorEnv) (fuel : Nat) (info : QueryGraphPlanningInfo)
    (queryGraphIdxToPlanExpressionsScan : Int) (state : CollectionState)
    (entry : Nat × QueryGraph) : Except Fault CollectionState :=
  let i := entry.1
  let queryGraph := entry.2
  let predicateToEvaluateIndices :=
    extractPredicateIndices queryGraph state.evaluatedPredicatesIndices info.predicates 0 []
  let evaluatedPredicatesIndices :=
    predicateToEvaluateIndices.foldl
      (fun evaluated idx => if evaluated.contains idx then evaluated else evaluated ++ [idx])
      state.evaluatedPredicatesIndices
  let predicatesToEvaluate := predicateToEvaluateIndices.filterMap (fun idx => info.predicates[idx]?)
  let newInfo := componentInfo info queryGraphIdxToPlanExpressionsScan i predicatesToEvaluate
  match enumerateQueryGraph env fuel queryGraph newInfo with
  | .error e => .error e
  | .ok plans =>
    .ok { evaluatedPredicatesIndices := evaluatedPredicatesIndices
          plansPerQueryGraph := state.plansPerQueryGraph ++ [plans]
          calls := state.calls ++ [⟨queryGraph, predicateToEvaluateIndices, newInfo⟩] }

/-- What a run of `enumerateQueryGraphCollection` that returns leaves: the
returned plans, and for the record the calls of `enumerateQueryGraph`, the final
set `evaluatedPredicatesIndices`, the vector `plansPerQueryGraph` before the
cross products and the vector `remainingPredicates`. -/
structure CollectionOutcome where
  plans : List LogicalPlan
  calls : List ComponentCall
  evaluatedPredicatesIndices : List Nat
  plansPerQueryGraph : List (List LogicalPlan)
  remainingPredicates : expression_vector

/-- The loop of `enumerateQueryGraphCollection` that collects the remaining
predicates, entered with counter `i`. -/
def collectRemainingPredicates (evaluatedPredicatesIndices : List Nat) :
    expression_vector → Nat → expression_vector
  | [], _ => []
  | predicate :: rest, i =>
    if !evaluatedPredicatesIndices.contains i then
      predicate :: collectRemainingPredicates evaluatedPredicatesIndices rest (i + 1)
    else collectRemainingPredicates evaluatedPredicatesIndices rest (i + 1)

/-- The method `Planner::enumerateQueryGraphCollection`, with the record of its
run; `KU_ASSERT(queryGraphCollection.getNumQueryGraphs() > 0)`. -/
def enumerateQueryGraphCollectionRun (env : EnumeratorEnv) (fuel : Nat)
    (queryGraphCollection : QueryGraphCollection) (info : QueryGraphPlanningInfo) :
    Except Fault CollectionOutcome :=
  if queryGraphCollection.getNumQueryGraphs = 0 then .error .assertion
  else
    let corrExprs := info.corrExprs
    let corrExprsSet : expression_set := corrExprs
    let queryGraphIdxToPlanExpressionsScan : Int :=
      if info.subqueryType = .CORRELATED then
        getConnectedQueryGraphIdx queryGraphCollection corrExprsSet
      else -1
    match queryGraphCollection.queryGraphs.enum.foldlM
        (enumerateComponent env fuel info queryGraphIdxToPlanExpressionsScan) ⟨[], [], []⟩ with
    | .error e => .error e
    | .ok state =>
      let plansPerQueryGraph :=
        if info.subqueryType = .CORRELATED ∧ queryGraphIdxToPlanExpressionsScan = -1 then
          let plan := appendExpressionsScan env.toPlannerEnv corrExprs
          let plan := appendDistinct env.toPlannerEnv corrExprs plan
          state.plansPerQueryGraph ++ [[plan]]
        else state.plansPerQueryGraph
      match plansPerQueryGraph with
      | [] => .error .outOfRange
      | first :: rest =>
        let result := rest.foldl (planCrossProduct env.toPlannerEnv) first
        let remainingPredicates :=
          collectRemainingPredicates state.evaluatedPredicatesIndices info.predicates 0
        let result := result.map
          (fun plan =>
            remainingPredicates.foldl
              (fun plan predicate => appendFilter env.toPlannerEnv predicate plan) plan)
        .ok { plans := result
              calls := state.calls
              evaluatedPredicatesIndices := state.evaluatedPredicatesIndices
              plansPerQueryGraph := plansPerQueryGraph
              remainingPredicates := remainingPredicates }

/-- The method `Planner::enumerateQueryGraphCollection`: what it returns. -/
def enumerateQueryGraphCollection (env : EnumeratorEnv) (fuel : Nat)
    (queryGraphCollection : QueryGraphCollection) (info : QueryGraphPlanningInfo) :
    Except Fault (List LogicalPlan) :=
  match enumerateQueryGraphCollectionRun env fuel queryGraphCollection info with
  | .error e => .error e
  | .ok outcome => .ok outcome.plans

/-- All ways to pick one plan from each list, the first list varying slowest. -/
def pickOnePerList : List (List LogicalPlan) → List (List LogicalPlan)
  | [] => [[]]
  | plans :: rest => plans.flatMap (fun plan => (pickOnePerList rest).map (fun pick => plan :: pick))

/-- The left-to-right chain of cross products over `first` and the plans of
`rest`: `first` is the probe side of the lowest cross product and every later
plan the build side of the next one. -/
def crossProductChain (env : PlannerEnv) (first : LogicalPlan) (rest : List LogicalPlan) :
    LogicalPlan :=
  rest.foldl (appendCrossProduct env) first

/-- What the loop over the query graphs of `enumerateQueryGraphCollection` has
established once the query graphs `done` are processed: the calls made are those
for `done`; a predicate index is evaluated exactly when its predicate is not a
literal and some query graph of `done` can project it, and exactly when it was
passed to some call; every call received the predicates that are not literals,
that its query graph can project and that no earlier query graph can project; and
the plans kept for a query graph are those its call returned. -/
def CollectionInvariant (env : EnumeratorEnv) (fuel : Nat) (info : QueryGraphPlanningInfo)
    (queryGraphIdxToPlanExpressionsScan : Int) (done : List QueryGraph)
    (state : CollectionState) : Prop :=
  state.calls.map (fun call => call.queryGraph) = done ∧
  (∀ j : Nat, j ∈ state.evaluatedPredicatesIndices ↔
    ∃ p : Expression, info.predicates[j]? = some p ∧ p.expressionType ≠ .LITERAL ∧
      ∃ g ∈ done, g.canProjectExpression p = true) ∧
  (∀ j : Nat, j ∈ state.evaluatedPredicatesIndices ↔
    ∃ call ∈ state.calls, j ∈ call.predicateToEvaluateIndices) ∧
  (∀ (i : Nat) (call : ComponentCall), state.calls[i]? = some call →
    call.predicateToEvaluateIndices.Nodup ∧
    (∀ j : Nat, j ∈ call.predicateToEvaluateIndices ↔
      ∃ p : Expression, info.predicates[j]? = some p ∧ p.expressionType ≠ .LITERAL ∧
        call.queryGraph.canProjectExpression p = true ∧
        ∀ g ∈ done.take i, g.canProjectExpression p = false) ∧
    call.newInfo = componentInfo info queryGraphIdxToPlanExpressionsScan i
      (call.predicateToEvaluateIndices.filterMap (fun k => info.predicates[k]?))) ∧
  List.Forall₂
    (fun call plans => enumerateQueryGraph env fuel call.queryGraph call.newInfo = .ok plans)
    state.calls state.plansPerQueryGraph

/-- The predicates of the `Filter` operators at the top of an operator tree, the
topmost first. -/
def LogicalOperator.topFilters : LogicalOperator → expression_vector
  | .filter predicate child => predicate :: child.topFilters
  | _ => []

/-- The accessor `getChild(0)` of an operator: its first child, none for a leaf. The
probe side is the first child of a join. -/
def LogicalOperator.firstChild : LogicalOperator → Option LogicalOperator
  | .scanNodeTable _ _ _ => none
  | .extend _ _ _ _ _ _ child => some child
  | .recursiveExtend _ _ _ _ child => some child
  | .filter _ child => some child
  | .flatten _ child => some child
  | .projection _ child => some child
  | .hashJoin _ _ probe _ => some probe
  | .intersect _ _ probe _ => some probe
  | .crossProduct probe _ => some probe
  | .expressionsScan _ => none
  | .distinct _ child => some child
  | .emptyResult child => some child

/-- The operators `getSequentialScan` searches through: `Flatten`, `Filter`,
`Extend` and `Projection`. -/
def LogicalOperator.isSearchedThrough : LogicalOperator → Bool
  | .flatten _ _ => true
  | .filter _ _ => true
  | .extend _ _ _ _ _ _ _ => true
  | .projection _ _ => true
  | _ => false

/-- Is the operator a `ScanNodeTable`. -/
def LogicalOperator.isScanNodeTable : LogicalOperator → Bool
  | .scanNodeTable _ _ _ => true
  | _ => false

/-- The path of first children from an operator down to a leaf, the operator
itself first. -/
def LogicalOperator.firstChildPath : LogicalOperator → List LogicalOperator
  | .scanNodeTable nodeID tableIDs properties => [.scanNodeTable nodeID tableIDs properties]
  | .extend b n r d s p child => .extend b n r d s p child :: child.firstChildPath
  | .recursiveExtend b n r d child => .recursiveExtend b n r d child :: child.firstChildPath
  | .filter p child => .filter p child :: child.firstChildPath
  | .flatten g child => .flatten g child :: child.firstChildPath
  | .projection e child => .projection e child :: child.firstChildPath
  | .hashJoin j t probe build => .hashJoin j t probe build :: probe.firstChildPath
  | .intersect i k probe builds => .intersect i k probe builds :: probe.firstChildPath
  | .crossProduct probe build => .crossProduct probe build :: probe.firstChildPath
  | .expressionsScan e => [.expressionsScan e]
  | .distinct k child => .distinct k child :: child.firstChildPath
  | .emptyResult child => .emptyResult child :: child.firstChildPath

/-- The plans the body of the inner loop of `planInnerHashJoin` adds for one pair of
plans when the ceiling read on entry is `maxCost`, in the order it adds them. -/
def hashJoinPlansOfPair (env : PlannerEnv) (maxCost : Option Nat)
    (joinNodeIDs predicates : expression_vector) (flipPlan : Bool)
    (leftPlan rightPlan : LogicalPlan) : List LogicalPlan :=
  (if costBelow (env.computeHashJoinCost joinNodeIDs leftPlan rightPlan) maxCost then
      [appendFilters env predicates (appendHashJoin env joinNodeIDs .INNER leftPlan rightPlan)]
    else []) ++
  (if flipPlan && costBelow (env.computeHashJoinCost joinNodeIDs rightPlan leftPlan) maxCost then
      [appendFilters env predicates (appendHashJoin env joinNodeIDs .INNER rightPlan leftPlan)]
    else [])

mutual

/-- Does the operator tree hold a `ScanNodeTable` that reads properties and whose
node ID is in the set, that is, a scan of a node of the set that is not ID-only. -/
def LogicalOperator.scansPropertiesOfNodeIn (set : expression_set) : LogicalOperator → Bool
  | .scanNodeTable nodeID _ properties => set.contains nodeID && !properties.isEmpty
  | .extend _ _ _ _ _ _ child => child.scansPropertiesOfNodeIn set
  | .recursiveExtend _ _ _ _ child => child.scansPropertiesOfNodeIn set
  | .filter _ child => child.scansPropertiesOfNodeIn set
  | .flatten _ child => child.scansPropertiesOfNodeIn set
  | .projection _ child => child.scansPropertiesOfNodeIn set
  | .hashJoin _ _ probe build =>
    probe.scansPropertiesOfNodeIn set || build.scansPropertiesOfNodeIn set
  | .intersect _ _ probe builds =>
    probe.scansPropertiesOfNodeIn set || LogicalOperator.anyScansPropertiesOfNodeIn set builds
  | .crossProduct probe build =>
    probe.scansPropertiesOfNodeIn set || build.scansPropertiesOfNodeIn set
  | .expressionsScan _ => false
  | .distinct _ child => child.scansPropertiesOfNodeIn set
  | .emptyResult child => child.scansPropertiesOfNodeIn set

/-- Does one of the operator trees hold a `ScanNodeTable` that reads properties and
whose node ID is in the set. -/
def LogicalOperator.anyScansPropertiesOfNodeIn (set : expression_set) :
    List LogicalOperator → Bool
  | [] => false
  | op :: rest =>
    op.scansPropertiesOfNodeIn set || LogicalOperator.anyScansPropertiesOfNodeIn set rest

end

/-- Every plan of the table scans the nodes of the set ID-only: no plan holds a
`ScanNodeTable` that reads properties and whose node ID is in the set. -/
def JoinOrderEnumeratorContext.ScansIDOnly (set : expression_set)
    (ctx : JoinOrderEnumeratorContext) : Prop :=
  ∀ sg : SubqueryGraph, ∀ plan ∈ ctx.subPlansTable.plans sg,
    plan.lastOperator.scansPropertiesOfNodeIn set = false

/-! ## Sample inputs -/

/-- Query node `a`. -/
def nodeA : NodeExpression := ⟨"a", ⟨"a._id", .PROPERTY, ["a"]⟩, [0]⟩

/-- Query node `b`. -/
def nodeB : NodeExpression := ⟨"b", ⟨"b._id", .PROPERTY, ["b"]⟩, [0]⟩

/-- Query node `c`. -/
def nodeC : NodeExpression := ⟨"c", ⟨"c._id", .PROPERTY, ["c"]⟩, [1]⟩

/-- Relationship `e1: a -> b`. -/
def relE1 : RelExpression := ⟨"e1", nodeA, nodeB, .SINGLE, .NON_RECURSIVE⟩

/-- Relationship `e2: b -> a`. -/
def relE2 : RelExpression := ⟨"e2", nodeB, nodeA, .SINGLE, .NON_RECURSIVE⟩

/-- Relationship `e3: a -> c`. -/
def relE3 : RelExpression := ⟨"e3", nodeA, nodeC, .SINGLE, .NON_RECURSIVE⟩

/-- Relationship `e2: b -> c` of the triangle. -/
def triangleRelE2 : RelExpression := ⟨"e2", nodeB, nodeC, .SINGLE, .NON_RECURSIVE⟩

/-- The query graph `e1: a -> b, e2: b -> a`. -/
def cycleGraph : QueryGraph := ⟨[nodeA, nodeB], [relE1, relE2]⟩

/-- A query graph with the single node `c`. -/
def singleNodeGraph : QueryGraph := ⟨[nodeC], []⟩

/-- A query graph with two relationships that share no node: `e1: a -> b` and
`e4: c -> d`. -/
def disjointGraph : QueryGraph :=
  ⟨[nodeA, nodeB, nodeC, ⟨"d", ⟨"d._id", .PROPERTY, ["d"]⟩, [1]⟩],
   [relE1, ⟨"e4", nodeC, ⟨"d", ⟨"d._id", .PROPERTY, ["d"]⟩, [1]⟩, .SINGLE, .NON_RECURSIVE⟩]⟩

/-- The triangle `e1: a -> b, e2: b -> c, e3: a -> c`. -/
def triangleGraph : QueryGraph :=
  ⟨[nodeA, nodeB, nodeC],
   [relE1, triangleRelE2, relE3]⟩

/-- A collection whose second query graph holds node `a`. -/
def sampleCollection : QueryGraphCollection := ⟨[singleNodeGraph, cycleGraph]⟩

/-- The predicate `a.age > 1`, with free variable `a`. -/
def predOnA : Expression := ⟨"a.age > 1", .FUNCTION, ["a"]⟩

/-- The predicate `e1.since = e2.since`, with free variables `e1` and `e2`. -/
def predOnE1E2 : Expression := ⟨"e1.since = e2.since", .FUNCTION, ["e1", "e2"]⟩

/-- Collaborators with constant answers, for evaluating the enumerator on the
sample inputs. -/
def sampleEnv : PlannerEnv where
  ownCost := fun _ _ => 1
  estimateCardinality := fun _ _ => 1
  computeHashJoinCost := fun _ l r => l.cost + r.cost
  getProperties := fun _ => []
  isExpressionInScope := fun _ _ => false
  getNbrSubgraphs := fun _ _ _ => []
  getConnectedNodePos := fun _ _ _ => []

/-- The sample collaborators, with node `b` (position 1) as the connected node of
every pair of subgraphs. -/
def joinOnBEnv : PlannerEnv := { sampleEnv with getConnectedNodePos := fun _ _ _ => [1] }

/-- A context over the query graph `e1: a -> b, e2: b -> a` with an empty table. -/
def cycleCtx : JoinOrderEnumeratorContext :=
  { queryGraph := cycleGraph, whereExpressions := [predOnA], subPlansTable := SubPlansTable.empty }

/-- The context over the triangle after the base scans of its three relationships. -/
def triangleCtx : JoinOrderEnumeratorContext :=
  match [0, 1, 2].foldlM (planRelScan sampleEnv)
    { queryGraph := triangleGraph, whereExpressions := [], subPlansTable := SubPlansTable.empty } with
  | .ok ctx => ctx
  | .error _ =>
    { queryGraph := triangleGraph, whereExpressions := [], subPlansTable := SubPlansTable.empty }

/-- The plan `Scan(a) -> Extend(a -> b via e1)` of the sample collaborators. -/
def planScanAExtendE1 : LogicalPlan :=
  appendExtend sampleEnv nodeA nodeB relE1 .FWD []
    (appendScanNodeTable sampleEnv nodeA.internalID nodeA.tableIDs [])

/-- The plan `Scan(b) -> Extend(b -> a via e1)` of the sample collaborators. -/
def planScanBExtendE1 : LogicalPlan :=
  appendExtend sampleEnv nodeB nodeA relE1 .BWD []
    (appendScanNodeTable sampleEnv nodeB.internalID nodeB.tableIDs [])

/-- The plan `Scan(b) -> Extend(b -> c via e2)` of the sample collaborators. -/
def planScanBExtendE2 : LogicalPlan :=
  appendExtend sampleEnv nodeB nodeC triangleRelE2 .FWD []
    (appendScanNodeTable sampleEnv nodeB.internalID nodeB.tableIDs [])

/-- The plan `Scan(a) -> Extend(a -> c via e3)` of the sample collaborators. -/
def planScanAExtendE3 : LogicalPlan :=
  appendExtend sampleEnv nodeA nodeC relE3 .FWD []
    (appendScanNodeTable sampleEnv nodeA.internalID nodeA.tableIDs [])

/-- The triangle context with one plan under `{a, b, e1}`, scanning `a`. -/
def triangleCtxScanA : JoinOrderEnumeratorContext :=
  triangleCtx.addPlan ⟨{0, 1}, {0}⟩ planScanAExtendE1

/-- The triangle context with one plan under `{a, b, e1}`, scanning `b`. -/
def triangleCtxScanB : JoinOrderEnumeratorContext :=
  triangleCtx.addPlan ⟨{0, 1}, {0}⟩ planScanBExtendE1

/-- Variable-length relationship `e2*: b -> c`. -/
def varLenRelE2 : RelExpression := ⟨"e2", nodeB, nodeC, .SINGLE, .VARIABLE_LENGTH⟩

/-- The triangle `e1: a -> b, e2*: b -> c, e3: a -> c` with a variable-length
`e2`. -/
def varLenTriangleGraph : QueryGraph := ⟨[nodeA, nodeB, nodeC], [relE1, varLenRelE2, relE3]⟩

/-- The context over the triangle with a variable-length `e2` after the base scans
of its three relationships. -/
def varLenTriangleCtx : JoinOrderEnumeratorContext :=
  match [0, 1, 2].foldlM (planRelScan sampleEnv)
    { queryGraph := varLenTriangleGraph, whereExpressions := [],
      subPlansTable := SubPlansTable.empty } with
  | .ok ctx => ctx
  | .error _ =>
    { queryGraph := varLenTriangleGraph, whereExpressions := [],
      subPlansTable := SubPlansTable.empty }

/-- The query graph `e1: a -> b`. -/
def extendGraph : QueryGraph := ⟨[nodeA, nodeB], [relE1]⟩

/-- A context over the query graph `e1: a -> b` with the predicate `a.age > 1` and
an empty table. -/
def extendCtx : JoinOrderEnumeratorContext :=
  { queryGraph := extendGraph, whereExpressions := [predOnA],
    subPlansTable := SubPlansTable.empty }

/-- Planning info of an un-nested subquery whose node `a` is scanned by the outer
query. -/
def internalIDCorrelatedOnA : QueryGraphPlanningInfo :=
  ⟨.INTERNAL_ID_CORRELATED, [predOnA], [nodeA.internalID], 1, none⟩

/-- Planning info of a correlated subquery whose correlated expression is the
internal ID of node `a`. -/
def correlatedOnA : QueryGraphPlanningInfo :=
  ⟨.CORRELATED, [predOnA], [nodeA.internalID], 1, none⟩

/-- A table with two plans under the subgraph of node `a`, the second one
cheaper. -/
def twoPlansTable : SubPlansTable :=
  (SubPlansTable.empty.addPlan ⟨{0}, ∅⟩ ⟨.scanNodeTable nodeA.internalID [0] [], 5, 1⟩).addPlan
    ⟨{0}, ∅⟩ ⟨.scanNodeTable nodeA.internalID [0] [], 3, 1⟩

/-- Sample collaborators of `enumerateQueryGraph`: `init` leaves `currentLevel` at
1 and `maxLevel` at the number of relationships; every level is planned
approximately. -/
def sampleEnumeratorEnv : EnumeratorEnv :=
  { sampleEnv with
    MAX_LEVEL_TO_PLAN_EXACTLY := 0
    initCurrentLevel := 1
    initMaxLevel := fun queryGraph => queryGraph.getNumQueryRels
    solveHint := fun _ _ _ => ⟨.expressionsScan [], 0, 0⟩
    isEmpty := fun _ => false }

/-- Planning info of a query that is not a subquery, with no predicate and no
hint. -/
def plainInfo : QueryGraphPlanningInfo := ⟨.NONE, [], [], 1, none⟩

/-- A query graph with the single node `a`. -/
def singleNodeGraphA : QueryGraph := ⟨[nodeA], []⟩

/-- A collection of two query graphs with one node each, `c` and `a`. -/
def twoNodesCollection : QueryGraphCollection := ⟨[singleNodeGraph, singleNodeGraphA]⟩

/-- Planning info of a correlated subquery whose correlated expression is the
internal ID of node `b`, with no predicate. -/
def correlatedOnB : QueryGraphPlanningInfo := ⟨.CORRELATED, [], [nodeB.internalID], 1, none⟩

/-- The plan `ExpressionsScan -> Distinct` over the internal ID of node `b`. -/
def planDistinctB : LogicalPlan :=
  appendDistinct sampleEnv [nodeB.internalID] (appendExpressionsScan sampleEnv [nodeB.internalID])

/-- What `enumerateQueryGraphCollection` leaves on the collection of the two
single-node query graphs `c` and `a` in mode `CORRELATED` with the internal ID of
`b` correlated. -/
def twoNodesCorrelatedOutcome : CollectionOutcome :=
  { plans := [appendCrossProduct sampleEnv
      (appendCrossProduct sampleEnv
        (appendScanNodeTable sampleEnv nodeC.internalID nodeC.tableIDs [])
        (appendScanNodeTable sampleEnv nodeA.internalID nodeA.tableIDs []))
      planDistinctB]
    calls := [⟨singleNodeGraph, [], { correlatedOnB with subqueryType := .NONE }⟩,
      ⟨singleNodeGraphA, [], { correlatedOnB with subqueryType := .NONE }⟩]
    evaluatedPredicatesIndices := []
    plansPerQueryGraph := [[appendScanNodeTable sampleEnv nodeC.internalID nodeC.tableIDs []],
      [appendScanNodeTable sampleEnv nodeA.internalID nodeA.tableIDs []], [planDistinctB]]
    remainingPredicates := [] }

/-- A context over the query graph `e1: a -> b` whose table holds the two plans
of `twoPlansTable`. -/
def twoPlansCtx : JoinOrderEnumeratorContext :=
  { queryGraph := extendGraph, whereExpressions := [], subPlansTable := twoPlansTable }

/-- The predicate `e2.since > 1`, with free variable `e2`. -/
def predOnE2 : Expression := ⟨"e2.since > 1", .FUNCTION, ["e2"]⟩

/-- The context over the triangle with the predicate `e2.since > 1` after the base
scans of its three relationships, with the plan `Scan(a) -> Extend(a -> b via e1)`
stored under `{a, b, e1}`. -/
def triangleFilterCtx : JoinOrderEnumeratorContext :=
  (match [0, 1, 2].foldlM (planRelScan sampleEnv)
    { queryGraph := triangleGraph, whereExpressions := [predOnE2],
      subPlansTable := SubPlansTable.empty } with
  | .ok ctx => ctx
  | .error _ =>
    { queryGraph := triangleGraph, whereExpressions := [predOnE2],
      subPlansTable := SubPlansTable.empty }).addPlan ⟨{0, 1}, {0}⟩ planScanAExtendE1

/-- The triangle context after the base scans of its three relationships with a
plan of cost 6 stored under `{e1, e2}`. -/
def tieCtx : JoinOrderEnumeratorContext :=
  triangleCtx.addPlan ⟨∅, {0, 1}⟩ ⟨.expressionsScan [], 6, 1⟩

/-- The sample collaborators with a hash join costed one above the costs of its
two sides, which is also the cost of the plan `appendHashJoin` builds. -/
def tieEnv : PlannerEnv :=
  { sampleEnv with computeHashJoinCost := fun _ l r => l.cost + r.cost + 1 }

/-- Planning info of a correlated subquery whose correlated expressions are the
internal IDs of the nodes `c` and `a`, with no predicate and no hint. -/
def correlatedOnCA : QueryGraphPlanningInfo :=
  ⟨.CORRELATED, [], [nodeC.internalID, nodeA.internalID], 1, none⟩

/-- The sample collaborators of `enumerateQueryGraph` with one property, `age`,
for every node and relationship. -/
def agePropertyEnv : EnumeratorEnv :=
  { sampleEnumeratorEnv with
    getProperties := fun name => [⟨name ++ ".age", .PROPERTY, [name]⟩] }

/-! ## Theorems -/

theorem toInt32_of_lt (n : Nat) (h : n < 2 ^ 31) : toInt32 n = (n : Int) := by
  have h1 : n % 2 ^ 32 = n := Nat.mod_eq_of_lt (by omega)
  unfold toInt32
  rw [h1, if_pos h]

theorem hasNodeInSet_iff (s : expression_set) (ns : List NodeExpression) :
    hasNodeInSet s ns = true ↔ ∃ n ∈ ns, s.contains n.internalID = true := by
  induction ns with
  | nil => simp [hasNodeInSet]
  | cons n rest ih =>
    unfold hasNodeInSet
    by_cases hc : s.contains n.internalID = true
    · simp [hc]
    · simp [hc, ih]

theorem hasNodeInSet_iff_mentions (s : expression_set) (g : QueryGraph) :
    hasNodeInSet s g.queryNodes = true ↔ g.mentions s :=
  hasNodeInSet_iff s g.queryNodes

theorem getConnectedQueryGraphIdxFrom_eq_neg_one (s : expression_set) :
    ∀ (qgs : List QueryGraph) (i : Nat), i + qgs.length ≤ 2 ^ 31 →
      (getConnectedQueryGraphIdxFrom s qgs i = -1 ↔ ∀ g ∈ qgs, ¬ g.mentions s) := by
  intro qgs
  induction qgs with
  | nil => intro i _; simp [getConnectedQueryGraphIdxFrom]
  | cons g rest ih =>
    intro i hi
    simp only [List.length_cons] at hi
    unfold getConnectedQueryGraphIdxFrom
    by_cases hg : hasNodeInSet s g.queryNodes = true
    · have hm := (hasNodeInSet_iff_mentions s g).mp hg
      rw [if_pos hg, toInt32_of_lt i (by omega)]
      constructor
      · intro h; omega
      · intro h; exact absurd hm (h g (List.mem_cons_self _ _))
    · have hm : ¬ g.mentions s := fun h => hg ((hasNodeInSet_iff_mentions s g).mpr h)
      rw [if_neg hg, ih (i + 1) (by omega)]
      simp [hm]

theorem getConnectedQueryGraphIdxFrom_eq_index (s : expression_set) :
    ∀ (qgs : List QueryGraph) (i : Nat), i + qgs.length ≤ 2 ^ 31 → ∀ k : Nat,
      (getConnectedQueryGraphIdxFrom s qgs i = (k : Int) ↔
        ∃ j g, k = i + j ∧ qgs[j]? = some g ∧ g.mentions s ∧
          ∀ j2 g2, j2 < j → qgs[j2]? = some g2 → ¬ g2.mentions s) := by
  intro qgs
  induction qgs with
  | nil =>
    intro i _ k
    simp only [getConnectedQueryGraphIdxFrom]
    constructor
    · intro h; omega
    · rintro ⟨j, g, _, hg, _⟩; simp at hg
  | cons g rest ih =>
    intro i hi k
    simp only [List.length_cons] at hi
    unfold getConnectedQueryGraphIdxFrom
    by_cases hg : hasNodeInSet s g.queryNodes = true
    · have hm := (hasNodeInSet_iff_mentions s g).mp hg
      rw [if_pos hg, toInt32_of_lt i (by omega)]
      constructor
      · intro h
        refine ⟨0, g, by omega, by simp, hm, ?_⟩
        intro j2 g2 hj2; omega
      · rintro ⟨j, g1, hk, hj, _, hleast⟩
        cases j with
        | zero => omega
        | succ j => exact absurd hm (hleast 0 g (by omega) (by simp))
    · have hm : ¬ g.mentions s := fun h => hg ((hasNodeInSet_iff_mentions s g).mpr h)
      rw [if_neg hg, ih (i + 1) (by omega) k]
      constructor
      · rintro ⟨j, g1, hk, hj, hm1, hleast⟩
        refine ⟨j + 1, g1, by omega, by simpa using hj, hm1, ?_⟩
        intro j2 g2 hj2 hg2
        cases j2 with
        | zero =>
          simp at hg2
          subst hg2
          exact hm
        | succ j2 => exact hleast j2 g2 (by omega) (by simpa using hg2)
      · rintro ⟨j, g1, hk, hj, hm1, hleast⟩
        cases j with
        | zero =>
          simp at hj
          subst hj
          exact absurd hm1 hm
        | succ j =>
          refine ⟨j, g1, by omega, by simpa using hj, hm1, ?_⟩
          intro j2 g2 hj2 hg2
          exact hleast (j2 + 1) g2 (by omega) (by simpa using hg2)

/-- C1: when the number of query graphs fits the `int32_t` result,
`getConnectedQueryGraphIdx` returns index `i` exactly when `i` is the least
position whose query graph has a node with its internal ID in the set, and
returns -1 exactly when no query graph of the collection has such a node. -/
theorem getConnectedQueryGraphIdx_least (c : QueryGraphCollection) (s : expression_set)
    (hsize : c.getNumQueryGraphs ≤ 2 ^ 31) :
    (∀ i : Nat, getConnectedQueryGraphIdx c s = (i : Int) ↔
      ∃ g, c.queryGraphs[i]? = some g ∧ g.mentions s ∧
        ∀ j g2, j < i → c.queryGraphs[j]? = some g2 → ¬ g2.mentions s) ∧
    (getConnectedQueryGraphIdx c s = -1 ↔ ∀ g ∈ c.queryGraphs, ¬ g.mentions s) := by
  have hlen : 0 + c.queryGraphs.length ≤ 2 ^ 31 := by
    simpa [QueryGraphCollection.getNumQueryGraphs] using hsize
  refine ⟨?_, getConnectedQueryGraphIdxFrom_eq_neg_one s c.queryGraphs 0 hlen⟩
  intro i
  unfold getConnectedQueryGraphIdx
  rw [getConnectedQueryGraphIdxFrom_eq_index s c.queryGraphs 0 hlen i]
  constructor
  · rintro ⟨j, g, hk, hj, hm, hleast⟩
    have : i = j := by omega
    subst this
    exact ⟨g, hj, hm, hleast⟩
  · rintro ⟨g, hj, hm, hleast⟩
    exact ⟨i, g, by omega, hj, hm, hleast⟩

/-- Witness of C1 on a two-graph collection. -/
theorem getConnectedQueryGraphIdx_least_witness :
    sampleCollection.getNumQueryGraphs ≤ 2 ^ 31 ∧
    ((∀ i : Nat, getConnectedQueryGraphIdx sampleCollection [nodeA.internalID] = (i : Int) ↔
      ∃ g, sampleCollection.queryGraphs[i]? = some g ∧ g.mentions [nodeA.internalID] ∧
        ∀ j g2, j < i → sampleCollection.queryGraphs[j]? = some g2 →
          ¬ g2.mentions [nodeA.internalID]) ∧
    (getConnectedQueryGraphIdx sampleCollection [nodeA.internalID] = -1 ↔
      ∀ g ∈ sampleCollection.queryGraphs, ¬ g.mentions [nodeA.internalID])) :=
  ⟨by decide, getConnectedQueryGraphIdx_least sampleCollection [nodeA.internalID] (by decide)⟩

theorem matchedInPrev_iff (qg : QueryGraph) (vars : List String) (prevs : List SubqueryGraph) :
    matchedInPrev qg vars prevs = true ↔
      ∃ prev ∈ prevs, prev.containAllVariables qg vars = true := by
  induction prevs with
  | nil => simp [matchedInPrev]
  | cons p rest ih =>
    unfold matchedInPrev
    by_cases hc : p.containAllVariables qg vars = true
    · simp [hc]
    · simp [hc, ih]

theorem getNewlyMatchedExprsLoop_eq (qg : QueryGraph) (prevs : List SubqueryGraph)
    (new_ : SubqueryGraph) (exprs result : expression_vector) :
    getNewlyMatchedExprsLoop qg prevs new_ exprs result =
      result ++ exprs.filter (isExpressionNewlyMatched qg prevs new_) := by
  induction exprs generalizing result with
  | nil => simp [getNewlyMatchedExprsLoop]
  | cons e rest ih =>
    unfold getNewlyMatchedExprsLoop
    by_cases hc : isExpressionNewlyMatched qg prevs new_ e = true
    · simp [hc, ih]
    · simp [hc, ih]

theorem isExpressionNewlyMatched_iff (qg : QueryGraph) (prevs : List SubqueryGraph)
    (new_ : SubqueryGraph) (p : Expression) :
    isExpressionNewlyMatched qg prevs new_ p = true ↔
      (∀ prev ∈ prevs, prev.containAllVariables qg p.varNames = false) ∧
        new_.containAllVariables qg p.varNames = true := by
  unfold isExpressionNewlyMatched
  by_cases hm : matchedInPrev qg p.varNames prevs = true
  · have := (matchedInPrev_iff qg p.varNames prevs).mp hm
    obtain ⟨prev, hprev, hc⟩ := this
    simp only [hm, if_true, Bool.false_eq_true, false_iff, not_and]
    intro hall
    have := hall prev hprev
    simp [hc] at this
  · have hno : ∀ prev ∈ prevs, prev.containAllVariables qg p.varNames = false := by
      intro prev hprev
      by_contra hc
      exact hm ((matchedInPrev_iff qg p.varNames prevs).mpr ⟨prev, hprev, by simpa using hc⟩)
    simp only [hm]
    constructor
    · intro h; exact ⟨hno, by simpa using h⟩
    · intro h; simpa using h.2

/-- C2: `getNewlyMatchedExprs` returns, in input order, exactly the expressions
whose free variables are not all contained in any previous subgraph and are all
contained in the new subgraph; the one-prev and two-prev overloads are the list
version applied to `[prev]` and `[leftPrev, rightPrev]`. -/
theorem getNewlyMatchedExprs_eq_filter (qg : QueryGraph) (prevs : List SubqueryGraph)
    (new_ prev leftPrev rightPrev : SubqueryGraph) (exprs : expression_vector) :
    getNewlyMatchedExprs qg prevs new_ exprs =
      exprs.filter (fun p => decide
        ((∀ s ∈ prevs, s.containAllVariables qg p.varNames = false) ∧
          new_.containAllVariables qg p.varNames = true)) ∧
    getNewlyMatchedExprs1 qg prev new_ exprs = getNewlyMatchedExprs qg [prev] new_ exprs ∧
    getNewlyMatchedExprs2 qg leftPrev rightPrev new_ exprs =
      getNewlyMatchedExprs qg [leftPrev, rightPrev] new_ exprs := by
  refine ⟨?_, rfl, rfl⟩
  unfold getNewlyMatchedExprs
  rw [getNewlyMatchedExprsLoop_eq, List.nil_append]
  apply List.filter_congr
  intro p _
  by_cases h : isExpressionNewlyMatched qg prevs new_ p = true
  · rw [h]; exact (decide_eq_true ((isExpressionNewlyMatched_iff qg prevs new_ p).mp h)).symm
  · have h2 := mt (isExpressionNewlyMatched_iff qg prevs new_ p).mpr h
    rw [Bool.not_eq_true] at h
    rw [h]; exact (decide_eq_false h2).symm

theorem sub32_of_le (a b : Nat) (ha : a < 2 ^ 32) (hb : b ≤ a) : sub32 a b = a - b := by
  unfold sub32
  rw [Nat.mod_eq_of_lt ha, Nat.mod_eq_of_lt (by omega : b < 2 ^ 32)]
  have : a + 2 ^ 32 - b = (a - b) + 2 ^ 32 := by omega
  rw [this, Nat.add_mod_right, Nat.mod_eq_of_lt (by omega)]

theorem planLevelExactlyFrom_eq (level : Nat) (hlevel : level < 2 ^ 32) :
    ∀ (n maxLeftLevel leftLevel : Nat), maxLeftLevel + 1 - leftLevel = n →
      maxLeftLevel ≤ level →
      planLevelExactlyFrom level maxLeftLevel leftLevel =
        (List.range' leftLevel (maxLeftLevel + 1 - leftLevel)).flatMap (exactCallsAt level) := by
  intro n
  induction n with
  | zero =>
    intro m l hn _
    unfold planLevelExactlyFrom
    rw [if_neg (by omega), hn]
    rfl
  | succ n ih =>
    intro m l hn hm
    unfold planLevelExactlyFrom
    rw [if_pos (by omega), hn, List.range'_succ, List.flatMap_cons,
      ih m (l + 1) (by omega) hm, sub32_of_le level l hlevel (by omega)]
    have hlen : m + 1 - (l + 1) = n := by omega
    rw [hlen]
    unfold exactCallsAt
    by_cases h2 : 2 ≤ l
    · have h1 : l > 1 := h2
      simp [h1, h2]
    · have h1 : ¬ l > 1 := h2
      simp [h1, h2]

/-- C3: for a level `k > 1`, `planLevel` returns; above
`MAX_LEVEL_TO_PLAN_EXACTLY` its only call is `planInnerJoin(1, k-1)`; otherwise
its calls are, for `l = 1..k/2` in increasing order, `planWCOJoin(l, k-l)` when
`l >= 2` followed by `planInnerJoin(l, k-l)`. Every call has
`leftLevel <= rightLevel` and `leftLevel + rightLevel = k`. -/
theorem planLevel_calls (maxExact k : Nat) (hk : 1 < k) (h32 : k < 2 ^ 32) :
    (maxExact < k → planLevel maxExact k = .ok [JoinCall.planInnerJoin 1 (k - 1)]) ∧
    (k ≤ maxExact →
      planLevel maxExact k = .ok ((List.range' 1 (k / 2)).flatMap (exactCallsAt k))) ∧
    (∃ calls, planLevel maxExact k = .ok calls ∧
      ∀ c ∈ calls, c.leftLevel ≤ c.rightLevel ∧ c.leftLevel + c.rightLevel = k) := by
  have happrox : maxExact < k →
      planLevel maxExact k = .ok [JoinCall.planInnerJoin 1 (k - 1)] := by
    intro h
    unfold planLevel planLevelApproximately
    rw [if_pos hk, if_pos h, sub32_of_le k 1 h32 (by omega)]
  have hexact : k ≤ maxExact →
      planLevel maxExact k = .ok ((List.range' 1 (k / 2)).flatMap (exactCallsAt k)) := by
    intro h
    unfold planLevel planLevelExactly
    rw [if_pos hk, if_neg (by omega),
      planLevelExactlyFrom_eq k h32 (k / 2) (k / 2) 1 (by omega) (Nat.div_le_self k 2)]
    simp
  refine ⟨happrox, hexact, ?_⟩
  by_cases h : maxExact < k
  · refine ⟨_, happrox h, ?_⟩
    intro c hc
    simp only [List.mem_singleton] at hc
    subst hc
    simp only [JoinCall.leftLevel, JoinCall.rightLevel]
    omega
  · refine ⟨_, hexact (by omega), ?_⟩
    intro c hc
    simp only [List.mem_flatMap, List.mem_range'_1] at hc
    obtain ⟨l, ⟨hl1, hl2⟩, hmem⟩ := hc
    have hle : l ≤ k / 2 := by omega
    have h2l : 2 * l ≤ k := by omega
    unfold exactCallsAt at hmem
    by_cases h2 : 2 ≤ l
    · simp only [h2, if_true, List.singleton_append, List.mem_cons, List.mem_singleton,
        List.not_mem_nil, or_false] at hmem
      rcases hmem with rfl | rfl <;> simp only [JoinCall.leftLevel, JoinCall.rightLevel] <;> omega
    · simp only [h2, if_false, List.nil_append, List.mem_singleton] at hmem
      subst hmem
      simp only [JoinCall.leftLevel, JoinCall.rightLevel]
      omega

/-- Witness of C3 at level 4 with exact planning up to level 7. -/
theorem planLevel_calls_witness :
    (1 < 4 ∧ 4 < 2 ^ 32) ∧
    ((7 < 4 → planLevel 7 4 = .ok [JoinCall.planInnerJoin 1 (4 - 1)]) ∧
    (4 ≤ 7 → planLevel 7 4 = .ok ((List.range' 1 (4 / 2)).flatMap (exactCallsAt 4))) ∧
    (∃ calls, planLevel 7 4 = .ok calls ∧
      ∀ c ∈ calls, c.leftLevel ≤ c.rightLevel ∧ c.leftLevel + c.rightLevel = 4)) :=
  ⟨by decide, planLevel_calls 7 4 (by decide) (by decide)⟩

theorem appendFilters_lastOperator (env : PlannerEnv) (predicates : expression_vector) :
    ∀ plan : LogicalPlan, (appendFilters env predicates plan).lastOperator =
      plan.lastOperator.withFilters predicates := by
  induction predicates with
  | nil => intro plan; rfl
  | cons p rest ih =>
    intro plan
    have h := ih (appendFilter env p plan)
    simpa [appendFilters, LogicalOperator.withFilters, appendFilter, PlannerEnv.setRoot] using h

theorem appendExtend_isScanThenExtend (env : PlannerEnv) (boundNode nbrNode : NodeExpression)
    (rel : RelExpression) (direction : ExtendDirection) (properties : expression_vector) :
    (appendExtend env boundNode nbrNode rel direction properties
      (appendScanNodeTable env boundNode.internalID boundNode.tableIDs [])).lastOperator.isScanThenExtend
      boundNode nbrNode rel := by
  unfold appendExtend
  cases rel.relType <;>
    simp [appendNonRecursiveExtend, appendRecursiveExtend, appendScanNodeTable,
      PlannerEnv.setRoot, LogicalOperator.isScanThenExtend]

theorem addPlan_plans_same (t : SubPlansTable) (sg : SubqueryGraph) (plan : LogicalPlan) :
    (t.addPlan sg plan).plans sg = t.plans sg ++ [plan] := by
  simp [SubPlansTable.addPlan]

theorem addPlan_plans_other (t : SubPlansTable) (sg other : SubqueryGraph) (plan : LogicalPlan)
    (h : other ≠ sg) : (t.addPlan sg plan).plans other = t.plans other := by
  simp [SubPlansTable.addPlan, h]

theorem planRelScan_eq (env : PlannerEnv) (ctx : JoinOrderEnumeratorContext)
    (relPos : Nat) (rel : RelExpression) (hrel : ctx.queryGraph.queryRels[relPos]? = some rel) :
    planRelScan env ctx relPos = .ok
      ((ctx.addPlan ⟨∅, {relPos}⟩
        (appendFilters env
          (getNewlyMatchedExprs ctx.queryGraph [⟨∅, ∅⟩] ⟨∅, {relPos}⟩ ctx.whereExpressions)
          (appendExtend env rel.srcNode rel.dstNode rel (getExtendDirection rel rel.srcNode)
            (env.getProperties rel.uniqueName)
            (appendScanNodeTable env rel.srcNode.internalID rel.srcNode.tableIDs [])))).addPlan
        ⟨∅, {relPos}⟩
        (appendFilters env
          (getNewlyMatchedExprs ctx.queryGraph [⟨∅, ∅⟩] ⟨∅, {relPos}⟩ ctx.whereExpressions)
          (appendExtend env rel.dstNode rel.srcNode rel (getExtendDirection rel rel.dstNode)
            (env.getProperties rel.uniqueName)
            (appendScanNodeTable env rel.dstNode.internalID rel.dstNode.tableIDs [])))) := by
  have hsg : (⟨∅, ∅⟩ : SubqueryGraph).addQueryRel relPos = ⟨∅, {relPos}⟩ := by
    simp [SubqueryGraph.addQueryRel]
  simp only [planRelScan, QueryGraph.getQueryRel, hrel, List.foldlM, planRelScanDirection,
    getBoundAndNbrNodes, bind, Except.bind, pure, Except.pure, getNewlyMatchedExprs1,
    JoinOrderEnumeratorContext.getWhereExpressions, getEmptySubqueryGraph, hsg]
  simp

/-- C4: for every relationship `rel` of the query graph, at position `relPos`,
`planRelScan` returns and adds exactly two plans, both under the subgraph `{rel}`
and to no other subgraph: first a `ScanNodeTable` of the source followed by an
extend from source to destination along `rel`, then a `ScanNodeTable` of the
destination followed by an extend from destination to source along `rel`; both
carry the same filters, those of the predicates newly matched at `{rel}`. The
declared direction of `rel` plays no part. -/
theorem planRelScan_adds_two_plans (env : PlannerEnv) (ctx : JoinOrderEnumeratorContext)
    (relPos : Nat) (rel : RelExpression) (hrel : ctx.queryGraph.queryRels[relPos]? = some rel) :
    ∃ (ctx2 : JoinOrderEnumeratorContext) (srcPlan dstPlan : LogicalPlan)
      (srcOp dstOp : LogicalOperator),
      planRelScan env ctx relPos = .ok ctx2 ∧
      ctx2.subPlansTable.plans ⟨∅, {relPos}⟩ =
        ctx.subPlansTable.plans ⟨∅, {relPos}⟩ ++ [srcPlan, dstPlan] ∧
      (∀ other : SubqueryGraph, other ≠ ⟨∅, {relPos}⟩ →
        ctx2.subPlansTable.plans other = ctx.subPlansTable.plans other) ∧
      srcOp.isScanThenExtend rel.srcNode rel.dstNode rel ∧
      dstOp.isScanThenExtend rel.dstNode rel.srcNode rel ∧
      srcPlan.lastOperator = srcOp.withFilters
        (getNewlyMatchedExprs ctx.queryGraph [⟨∅, ∅⟩] ⟨∅, {relPos}⟩ ctx.whereExpressions) ∧
      dstPlan.lastOperator = dstOp.withFilters
        (getNewlyMatchedExprs ctx.queryGraph [⟨∅, ∅⟩] ⟨∅, {relPos}⟩ ctx.whereExpressions) := by
  refine ⟨_, _, _, _, _, planRelScan_eq env ctx relPos rel hrel, ?_, ?_,
    appendExtend_isScanThenExtend env rel.srcNode rel.dstNode rel
      (getExtendDirection rel rel.srcNode) (env.getProperties rel.uniqueName),
    appendExtend_isScanThenExtend env rel.dstNode rel.srcNode rel
      (getExtendDirection rel rel.dstNode) (env.getProperties rel.uniqueName),
    appendFilters_lastOperator env _ _, appendFilters_lastOperator env _ _⟩
  · simp [JoinOrderEnumeratorContext.addPlan, addPlan_plans_same]
  · intro other hne
    simp [JoinOrderEnumeratorContext.addPlan, addPlan_plans_other _ _ _ _ hne]

/-- Witness of C4 on relationship `e1` of the query graph `e1: a -> b, e2: b -> a`. -/
theorem planRelScan_adds_two_plans_witness :
    cycleCtx.queryGraph.queryRels[0]? = some relE1 ∧
    ∃ (ctx2 : JoinOrderEnumeratorContext) (srcPlan dstPlan : LogicalPlan)
      (srcOp dstOp : LogicalOperator),
      planRelScan sampleEnv cycleCtx 0 = .ok ctx2 ∧
      ctx2.subPlansTable.plans ⟨∅, {0}⟩ =
        cycleCtx.subPlansTable.plans ⟨∅, {0}⟩ ++ [srcPlan, dstPlan] ∧
      (∀ other : SubqueryGraph, other ≠ ⟨∅, {0}⟩ →
        ctx2.subPlansTable.plans other = cycleCtx.subPlansTable.plans other) ∧
      srcOp.isScanThenExtend relE1.srcNode relE1.dstNode relE1 ∧
      dstOp.isScanThenExtend relE1.dstNode relE1.srcNode relE1 ∧
      srcPlan.lastOperator = srcOp.withFilters
        (getNewlyMatchedExprs cycleCtx.queryGraph [⟨∅, ∅⟩] ⟨∅, {0}⟩ cycleCtx.whereExpressions) ∧
      dstPlan.lastOperator = dstOp.withFilters
        (getNewlyMatchedExprs cycleCtx.queryGraph [⟨∅, ∅⟩] ⟨∅, {0}⟩ cycleCtx.whereExpressions) :=
  ⟨rfl, planRelScan_adds_two_plans sampleEnv cycleCtx 0 relE1 rfl⟩

theorem countIntersection_eq (right : List Nat) :
    ∀ (left : List Nat) (n : Nat),
      countIntersection right left n = n + (left.filter (fun pos => right.contains pos)).length := by
  intro left
  induction left with
  | nil => intro n; simp [countIntersection]
  | cons pos rest ih =>
    intro n
    unfold countIntersection
    by_cases h : right.contains pos = true
    · have hf : (List.filter (fun pos => right.contains pos) (pos :: rest)) =
          pos :: List.filter (fun pos => right.contains pos) rest :=
        List.filter_cons_of_pos h
      rw [if_pos h, ih, hf, List.length_cons]; omega
    · have hf : (List.filter (fun pos => right.contains pos) (pos :: rest)) =
          List.filter (fun pos => right.contains pos) rest :=
        List.filter_cons_of_neg h
      rw [if_neg h, ih, hf]

theorem getNodePositionsIgnoringNodeSelector_nodup (qg : QueryGraph) (sg : SubqueryGraph) :
    (sg.getNodePositionsIgnoringNodeSelector qg).Nodup := by
  unfold SubqueryGraph.getNodePositionsIgnoringNodeSelector
  have hgen : ∀ (rels : List Nat) (init : List Nat), init.Nodup →
      (rels.foldl
        (fun result relPos =>
          match qg.queryRels[relPos]? with
          | some rel =>
            (result.insert (qg.getQueryNodeIdx rel.getSrcNodeName)).insert
              (qg.getQueryNodeIdx rel.getDstNodeName)
          | none => result) init).Nodup := by
    intro rels
    induction rels with
    | nil => intro init h; exact h
    | cons r rest ih =>
      intro init h
      simp only [List.foldl_cons]
      apply ih
      cases qg.queryRels[r]? with
      | none => exact h
      | some rel => exact List.Nodup.insert (List.Nodup.insert h)
  exact hgen _ _ ((List.nodup_range _).filter _)

theorem countIntersection_eq_card (qg : QueryGraph) (l r : SubqueryGraph) :
    countIntersection (r.getNodePositionsIgnoringNodeSelector qg)
      (l.getNodePositionsIgnoringNodeSelector qg) 0 = (sharedNodePositions qg l r).card := by
  rw [countIntersection_eq, Nat.zero_add]
  unfold sharedNodePositions
  have hnd := getNodePositionsIgnoringNodeSelector_nodup qg l
  have hfin : (l.getNodePositionsIgnoringNodeSelector qg).toFinset ∩
      (r.getNodePositionsIgnoringNodeSelector qg).toFinset =
      ((l.getNodePositionsIgnoringNodeSelector qg).filter
        (fun pos => (r.getNodePositionsIgnoringNodeSelector qg).contains pos)).toFinset := by
    ext x
    simp
  rw [hfin, List.toFinset_card_of_nodup (hnd.filter _)]

/-- C7, as the code has it: `needPruneImplicitJoins(left, right, n)` returns true
exactly when the number of node positions the two subgraphs share, ignoring node
selectors, differs from `n` (more or fewer). For the query graph
`e1: a -> b, e2: b -> a` the pair `({e1}, {e2})` shares both positions and is
pruned with one declared join node. -/
theorem needPruneImplicitJoins_iff_ne (qg : QueryGraph) (leftSubgraph rightSubgraph : SubqueryGraph)
    (numJoinNodes : Nat) :
    (needPruneImplicitJoins qg leftSubgraph rightSubgraph numJoinNodes = true ↔
      (sharedNodePositions qg leftSubgraph rightSubgraph).card ≠ numJoinNodes) ∧
    sharedNodePositions cycleGraph ⟨∅, {0}⟩ ⟨∅, {1}⟩ = {0, 1} ∧
    needPruneImplicitJoins cycleGraph ⟨∅, {0}⟩ ⟨∅, {1}⟩ 1 = true := by
  refine ⟨?_, by decide, by decide⟩
  unfold needPruneImplicitJoins
  simp only [countIntersection_eq_card]
  simp

/-- C7 as stated fails: with relationships `e1: a -> b` and `e4: c -> d`, which
share no node, and one declared join node, `needPruneImplicitJoins` returns true
although the subgraphs do not share more node positions than declared. -/
theorem needPruneImplicitJoins_true_with_fewer_shared :
    needPruneImplicitJoins disjointGraph ⟨∅, {0}⟩ ⟨∅, {1}⟩ 1 = true ∧
    ¬ ((sharedNodePositions disjointGraph ⟨∅, {0}⟩ ⟨∅, {1}⟩).card > 1) := by
  decide

/-- C8, as the code has it: `tryPlanINLJoin` returns false and leaves the
sub-plans table as it was whenever `joinNodes` has more than one element or
neither subgraph is a single-relationship subgraph. -/
theorem tryPlanINLJoin_false_of_guard (env : PlannerEnv) (fuel : Nat)
    (ctx : JoinOrderEnumeratorContext) (subgraph otherSubgraph : SubqueryGraph)
    (joinNodes : List NodeExpression)
    (h : joinNodes.length > 1 ∨
      (subgraph.isSingleRel = false ∧ otherSubgraph.isSingleRel = false)) :
    tryPlanINLJoin env (fuel + 1) ctx subgraph otherSubgraph joinNodes = .ok (false, ctx) := by
  unfold tryPlanINLJoin
  by_cases h1 : joinNodes.length > 1
  · rw [if_pos h1]
  · rw [if_neg h1]
    rcases h with h | ⟨h2, h3⟩
    · exact absurd h h1
    · simp [h2, h3]

/-- Witness of C8 with two join nodes. -/
theorem tryPlanINLJoin_false_of_guard_witness :
    ([nodeA, nodeB].length > 1 ∨
      ((⟨∅, {0}⟩ : SubqueryGraph).isSingleRel = false ∧
        (⟨∅, {1}⟩ : SubqueryGraph).isSingleRel = false)) ∧
    tryPlanINLJoin sampleEnv (0 + 1) cycleCtx ⟨∅, {0}⟩ ⟨∅, {1}⟩ [nodeA, nodeB] =
      .ok (false, cycleCtx) :=
  ⟨Or.inl (by decide),
    tryPlanINLJoin_false_of_guard sampleEnv 0 cycleCtx ⟨∅, {0}⟩ ⟨∅, {1}⟩ [nodeA, nodeB]
      (Or.inl (by decide))⟩

/-- C8 as stated fails: with no join node, a first subgraph that is the single
node `a` and a second that is the single relationship `e1`, the condition of the
claim does not hold, yet `tryPlanINLJoin` does not return false: it reads
`joinNodes[0]` of an empty vector. -/
theorem tryPlanINLJoin_empty_joinNodes_fault :
    ¬ (([] : List NodeExpression).length = 1 ∧
      ((⟨{0}, ∅⟩ : SubqueryGraph).isSingleRel = true ∨
        (⟨∅, {0}⟩ : SubqueryGraph).isSingleRel = true)) ∧
    tryPlanINLJoin sampleEnv 2 cycleCtx ⟨{0}, ∅⟩ ⟨∅, {0}⟩ [] = .error .outOfRange ∧
    tryPlanINLJoin sampleEnv 2 cycleCtx ⟨{0}, ∅⟩ ⟨∅, {0}⟩ [] ≠ .ok (false, cycleCtx) := by
  have h : tryPlanINLJoin sampleEnv 2 cycleCtx ⟨{0}, ∅⟩ ⟨∅, {0}⟩ [] = .error .outOfRange := rfl
  refine ⟨by decide, h, ?_⟩
  rw [h]
  intro h2
  cases h2

theorem costBelow_lt (cost : Nat) (maxCost : Option Nat) (h : costBelow cost maxCost = true) :
    ∀ m, maxCost = some m → cost < m := by
  intro m hm
  subst hm
  simpa [costBelow] using h

theorem joinNodeIDs_foldl_eq_map (joinNodes : List NodeExpression) :
    ∀ init : expression_vector,
      joinNodes.foldl (fun ids joinNode => ids ++ [joinNode.internalID]) init =
        init ++ joinNodes.map (fun n => n.internalID) := by
  induction joinNodes with
  | nil => intro init; simp
  | cons n rest ih => intro init; simp [ih]

theorem planInnerHashJoinPair_plans (env : PlannerEnv) (newSubgraph : SubqueryGraph)
    (maxCost : Option Nat) (joinNodeIDs predicates : expression_vector) (flipPlan : Bool)
    (leftPlan : LogicalPlan) (ctx : JoinOrderEnumeratorContext) (rightPlan : LogicalPlan) :
    ∃ extra : List LogicalPlan,
      (∀ sg, sg ≠ newSubgraph →
        (planInnerHashJoinPair env newSubgraph maxCost joinNodeIDs predicates flipPlan leftPlan
          ctx rightPlan).subPlansTable.plans sg = ctx.subPlansTable.plans sg) ∧
      (planInnerHashJoinPair env newSubgraph maxCost joinNodeIDs predicates flipPlan leftPlan
          ctx rightPlan).subPlansTable.plans newSubgraph =
        ctx.subPlansTable.plans newSubgraph ++ extra ∧
      ∀ p ∈ extra,
        IsHashJoinCandidate env joinNodeIDs predicates maxCost flipPlan leftPlan rightPlan p := by
  unfold planInnerHashJoinPair
  by_cases h1 : costBelow (env.computeHashJoinCost joinNodeIDs leftPlan rightPlan) maxCost = true
  · by_cases h2 : (flipPlan &&
        costBelow (env.computeHashJoinCost joinNodeIDs rightPlan leftPlan) maxCost) = true
    · have h2c := h2
      rw [Bool.and_eq_true] at h2c
      refine ⟨[appendFilters env predicates
          (appendHashJoin env joinNodeIDs .INNER leftPlan rightPlan),
        appendFilters env predicates
          (appendHashJoin env joinNodeIDs .INNER rightPlan leftPlan)], ?_, ?_, ?_⟩
      · intro sg hsg
        simp only [h1, h2, if_true, JoinOrderEnumeratorContext.addPlan]
        rw [addPlan_plans_other _ _ _ _ hsg, addPlan_plans_other _ _ _ _ hsg]
      · simp only [h1, h2, if_true, JoinOrderEnumeratorContext.addPlan]
        rw [addPlan_plans_same, addPlan_plans_same, List.append_assoc]
        rfl
      · intro p hp
        simp only [List.mem_cons, List.mem_singleton, List.not_mem_nil, or_false] at hp
        rcases hp with rfl | rfl
        · exact Or.inl ⟨rfl, costBelow_lt _ _ h1⟩
        · exact Or.inr ⟨h2c.1, rfl, costBelow_lt _ _ h2c.2⟩
    · refine ⟨[appendFilters env predicates
          (appendHashJoin env joinNodeIDs .INNER leftPlan rightPlan)], ?_, ?_, ?_⟩
      · intro sg hsg
        simp only [h1, h2, if_true, JoinOrderEnumeratorContext.addPlan]
        rw [if_neg (by simp), addPlan_plans_other _ _ _ _ hsg]
      · simp only [h1, h2, if_true, JoinOrderEnumeratorContext.addPlan]
        rw [if_neg (by simp), addPlan_plans_same]
        rfl
      · intro p hp
        simp only [List.mem_singleton] at hp
        subst hp
        exact Or.inl ⟨rfl, costBelow_lt _ _ h1⟩
  · by_cases h2 : (flipPlan &&
        costBelow (env.computeHashJoinCost joinNodeIDs rightPlan leftPlan) maxCost) = true
    · have h2c := h2
      rw [Bool.and_eq_true] at h2c
      refine ⟨[appendFilters env predicates
          (appendHashJoin env joinNodeIDs .INNER rightPlan leftPlan)], ?_, ?_, ?_⟩
      · intro sg hsg
        simp only [h1, h2, if_true, JoinOrderEnumeratorContext.addPlan]
        rw [if_neg (by simp), addPlan_plans_other _ _ _ _ hsg]
      · simp only [h1, h2, if_true, JoinOrderEnumeratorContext.addPlan]
        rw [if_neg (by simp), addPlan_plans_same]
        rfl
      · intro p hp
        simp only [List.mem_singleton] at hp
        subst hp
        exact Or.inr ⟨h2c.1, rfl, costBelow_lt _ _ h2c.2⟩
    · refine ⟨[], ?_, ?_, ?_⟩
      · intro sg _
        simp only [h1, h2]
        simp
      · simp only [h1, h2]
        simp
      · intro p hp
        simp at hp

theorem planInnerHashJoinPair_mem (env : PlannerEnv) (newSubgraph : SubqueryGraph)
    (maxCost : Option Nat) (joinNodeIDs predicates : expression_vector) (flipPlan : Bool)
    (leftPlan : LogicalPlan) (ctx : JoinOrderEnumeratorContext) (rightPlan : LogicalPlan)
    (sg : SubqueryGraph) (x : LogicalPlan) (hx : x ∈ ctx.subPlansTable.plans sg) :
    x ∈ (planInnerHashJoinPair env newSubgraph maxCost joinNodeIDs predicates flipPlan leftPlan
      ctx rightPlan).subPlansTable.plans sg := by
  obtain ⟨extra, hother, hsame, _⟩ := planInnerHashJoinPair_plans env newSubgraph maxCost
    joinNodeIDs predicates flipPlan leftPlan ctx rightPlan
  by_cases h : sg = newSubgraph
  · subst h
    rw [hsame]
    exact List.mem_append_left _ hx
  · rw [hother sg h]
    exact hx

theorem planInnerHashJoinPair_invariant (env : PlannerEnv) (newSubgraph otherSubgraph : SubqueryGraph)
    (maxCost : Option Nat) (joinNodeIDs predicates : expression_vector) (flipPlan : Bool)
    (leftPlans : List LogicalPlan) (ctx0 ctx : JoinOrderEnumeratorContext)
    (leftPlan rightPlan : LogicalPlan) (hl : leftPlan ∈ leftPlans)
    (hr : rightPlan ∈ ctx.subPlansTable.plans otherSubgraph)
    (hinv : HashJoinInvariant env newSubgraph otherSubgraph maxCost joinNodeIDs predicates
      flipPlan leftPlans ctx0 ctx) :
    HashJoinInvariant env newSubgraph otherSubgraph maxCost joinNodeIDs predicates flipPlan
      leftPlans ctx0
      (planInnerHashJoinPair env newSubgraph maxCost joinNodeIDs predicates flipPlan leftPlan
        ctx rightPlan) := by
  obtain ⟨extra, hother, hsame, hcand⟩ := planInnerHashJoinPair_plans env newSubgraph maxCost
    joinNodeIDs predicates flipPlan leftPlan ctx rightPlan
  obtain ⟨hinv1, added, hadded, hgood⟩ := hinv
  refine ⟨?_, added ++ extra, ?_, ?_⟩
  · intro sg hsg
    rw [hother sg hsg, hinv1 sg hsg]
  · rw [hsame, hadded, List.append_assoc]
  · intro p hp
    rcases List.mem_append.mp hp with hp | hp
    · obtain ⟨l, hl2, r, hr2, hc⟩ := hgood p hp
      exact ⟨l, hl2, r, planInnerHashJoinPair_mem env newSubgraph maxCost joinNodeIDs predicates
        flipPlan leftPlan ctx rightPlan otherSubgraph r hr2, hc⟩
    · exact ⟨leftPlan, hl, rightPlan, planInnerHashJoinPair_mem env newSubgraph maxCost
        joinNodeIDs predicates flipPlan leftPlan ctx rightPlan otherSubgraph rightPlan hr,
        hcand p hp⟩

theorem planInnerHashJoin_inner_invariant (env : PlannerEnv)
    (newSubgraph otherSubgraph : SubqueryGraph)
    (maxCost : Option Nat) (joinNodeIDs predicates : expression_vector) (flipPlan : Bool)
    (leftPlans : List LogicalPlan) (ctx0 : JoinOrderEnumeratorContext)
    (leftPlan : LogicalPlan) (hl : leftPlan ∈ leftPlans) :
    ∀ (rightPlans : List LogicalPlan) (ctx : JoinOrderEnumeratorContext),
      (∀ r ∈ rightPlans, r ∈ ctx.subPlansTable.plans otherSubgraph) →
      HashJoinInvariant env newSubgraph otherSubgraph maxCost joinNodeIDs predicates flipPlan
        leftPlans ctx0 ctx →
      HashJoinInvariant env newSubgraph otherSubgraph maxCost joinNodeIDs predicates flipPlan
        leftPlans ctx0
        (rightPlans.foldl
          (planInnerHashJoinPair env newSubgraph maxCost joinNodeIDs predicates flipPlan leftPlan)
          ctx) := by
  intro rightPlans
  induction rightPlans with
  | nil => intro ctx _ hinv; exact hinv
  | cons r rest ih =>
    intro ctx hmem hinv
    simp only [List.foldl_cons]
    apply ih
    · intro r2 hr2
      exact planInnerHashJoinPair_mem env newSubgraph maxCost joinNodeIDs predicates flipPlan
        leftPlan ctx r otherSubgraph r2 (hmem r2 (List.mem_cons_of_mem _ hr2))
    · exact planInnerHashJoinPair_invariant env newSubgraph otherSubgraph maxCost joinNodeIDs
        predicates flipPlan leftPlans ctx0 ctx leftPlan r hl (hmem r (List.mem_cons_self _ _)) hinv

theorem planInnerHashJoin_outer_invariant (env : PlannerEnv)
    (newSubgraph otherSubgraph : SubqueryGraph)
    (maxCost : Option Nat) (joinNodeIDs predicates : expression_vector) (flipPlan : Bool)
    (leftPlans : List LogicalPlan) (ctx0 : JoinOrderEnumeratorContext) :
    ∀ (todo : List LogicalPlan) (ctx : JoinOrderEnumeratorContext),
      (∀ l ∈ todo, l ∈ leftPlans) →
      HashJoinInvariant env newSubgraph otherSubgraph maxCost joinNodeIDs predicates flipPlan
        leftPlans ctx0 ctx →
      HashJoinInvariant env newSubgraph otherSubgraph maxCost joinNodeIDs predicates flipPlan
        leftPlans ctx0
        (todo.foldl
          (fun ctx leftPlan =>
            (ctx.getPlans otherSubgraph).foldl
              (planInnerHashJoinPair env newSubgraph maxCost joinNodeIDs predicates flipPlan
                leftPlan) ctx)
          ctx) := by
  intro todo
  induction todo with
  | nil => intro ctx _ hinv; exact hinv
  | cons l rest ih =>
    intro ctx hmem hinv
    simp only [List.foldl_cons]
    apply ih
    · intro l2 hl2; exact hmem l2 (List.mem_cons_of_mem _ hl2)
    · exact planInnerHashJoin_inner_invariant env newSubgraph otherSubgraph maxCost joinNodeIDs
        predicates flipPlan leftPlans ctx0 l (hmem l (List.mem_cons_self _ _))
        (ctx.getPlans otherSubgraph) ctx (fun r hr => hr) hinv

/-- C6: `planInnerHashJoin` changes only the plan list of the target subgraph, and
every plan it adds there is a `HashJoin` of a plan of `subgraph` and a plan of
`otherSubgraph` whose `computeHashJoinCost`, for the orientation of the added
plan, is strictly less than the `maxCost` the target subgraph had on entry; so a
candidate whose cost equals `maxCost` is not added. A plan with the plan of
`otherSubgraph` as probe side is added only when `flipPlan` is true. -/
theorem planInnerHashJoin_adds_only_below_maxCost (env : PlannerEnv)
    (ctx : JoinOrderEnumeratorContext) (subgraph otherSubgraph : SubqueryGraph)
    (joinNodes : List NodeExpression) (flipPlan : Bool) :
    (∀ sg, sg ≠ subgraph.addSubqueryGraph otherSubgraph →
      (planInnerHashJoin env ctx subgraph otherSubgraph joinNodes flipPlan).subPlansTable.plans sg =
        ctx.subPlansTable.plans sg) ∧
    ∃ added : List LogicalPlan,
      (planInnerHashJoin env ctx subgraph otherSubgraph joinNodes
          flipPlan).subPlansTable.plans (subgraph.addSubqueryGraph otherSubgraph) =
        ctx.subPlansTable.plans (subgraph.addSubqueryGraph otherSubgraph) ++ added ∧
      ∀ plan ∈ added, ∃ leftPlan ∈ ctx.subPlansTable.plans subgraph,
        ∃ rightPlan ∈ (planInnerHashJoin env ctx subgraph otherSubgraph joinNodes
            flipPlan).subPlansTable.plans otherSubgraph,
          (plan = appendFilters env
              (getNewlyMatchedExprs ctx.queryGraph [subgraph, otherSubgraph]
                (subgraph.addSubqueryGraph otherSubgraph) ctx.whereExpressions)
              (appendHashJoin env (joinNodes.map (fun n => n.internalID)) .INNER
                leftPlan rightPlan) ∧
            ∀ m, ctx.subPlansTable.maxCost (subgraph.addSubqueryGraph otherSubgraph) = some m →
              env.computeHashJoinCost (joinNodes.map (fun n => n.internalID))
                leftPlan rightPlan < m) ∨
          (flipPlan = true ∧
            plan = appendFilters env
              (getNewlyMatchedExprs ctx.queryGraph [subgraph, otherSubgraph]
                (subgraph.addSubqueryGraph otherSubgraph) ctx.whereExpressions)
              (appendHashJoin env (joinNodes.map (fun n => n.internalID)) .INNER
                rightPlan leftPlan) ∧
            ∀ m, ctx.subPlansTable.maxCost (subgraph.addSubqueryGraph otherSubgraph) = some m →
              env.computeHashJoinCost (joinNodes.map (fun n => n.internalID))
                rightPlan leftPlan < m) := by
  have hinv0 : HashJoinInvariant env (subgraph.addSubqueryGraph otherSubgraph) otherSubgraph
      (ctx.subPlansTable.maxCost (subgraph.addSubqueryGraph otherSubgraph))
      (joinNodes.map (fun n => n.internalID))
      (getNewlyMatchedExprs ctx.queryGraph [subgraph, otherSubgraph]
        (subgraph.addSubqueryGraph otherSubgraph) ctx.whereExpressions)
      flipPlan (ctx.subPlansTable.plans subgraph) ctx ctx :=
    ⟨fun _ _ => rfl, [], by simp, by simp⟩
  have h := planInnerHashJoin_outer_invariant env (subgraph.addSubqueryGraph otherSubgraph)
    otherSubgraph (ctx.subPlansTable.maxCost (subgraph.addSubqueryGraph otherSubgraph))
    (joinNodes.map (fun n => n.internalID))
    (getNewlyMatchedExprs ctx.queryGraph [subgraph, otherSubgraph]
      (subgraph.addSubqueryGraph otherSubgraph) ctx.whereExpressions)
    flipPlan (ctx.subPlansTable.plans subgraph) ctx (ctx.subPlansTable.plans subgraph) ctx
    (fun l hl => hl) hinv0
  have hdef : planInnerHashJoin env ctx subgraph otherSubgraph joinNodes flipPlan =
      (ctx.subPlansTable.plans subgraph).foldl
        (fun c leftPlan =>
          (c.getPlans otherSubgraph).foldl
            (planInnerHashJoinPair env (subgraph.addSubqueryGraph otherSubgraph)
              (ctx.subPlansTable.maxCost (subgraph.addSubqueryGraph otherSubgraph))
              (joinNodes.map (fun n => n.internalID))
              (getNewlyMatchedExprs ctx.queryGraph [subgraph, otherSubgraph]
                (subgraph.addSubqueryGraph otherSubgraph) ctx.whereExpressions)
              flipPlan leftPlan) c)
        ctx := by
    simp only [planInnerHashJoin, joinNodeIDs_foldl_eq_map, List.nil_append]
    rfl
  rw [hdef]
  exact h

/-- C5: the body that `planInnerJoin` runs for a pair `(rightSubgraph,
nbrSubgraph)`, whatever the context in which the pair is visited. The body ends
in one of six ways, and what it returns is given for each. The neighbour has no
plans, or the pair is pruned by `needPruneImplicitJoins`: the context is returned
as it was. `getQueryNodes` or `tryPlanINLJoin` faults: so does the body.
`tryPlanINLJoin` returns true: the body returns the context `tryPlanINLJoin` left,
without a call of `planInnerHashJoin`, so no hash-join plan is inserted for the
pair. `tryPlanINLJoin` returns false: the body returns what `planInnerHashJoin`
makes of the context `tryPlanINLJoin` left, called with the pair, the join nodes
and `flipPlan = (leftLevel != rightLevel)`. So `planInnerHashJoin` is run for the
pair, and its result returned, exactly when the neighbour subgraph has plans, the
pair is not pruned and `tryPlanINLJoin` returned false; the record of calls kept
with the result agrees with that. -/
theorem planInnerJoinPair_hashJoin_iff (env : PlannerEnv) (fuel leftLevel rightLevel : Nat)
    (ctx : JoinOrderEnumeratorContext) (rightSubgraph nbrSubgraph : SubqueryGraph) :
    (hashJoinInvoked rightSubgraph nbrSubgraph
        (planInnerJoinPair env fuel leftLevel rightLevel ctx rightSubgraph nbrSubgraph) ↔
      ctx.containPlans nbrSubgraph = true ∧
      ∃ joinNodes ctx2,
        ctx.queryGraph.getQueryNodes
          (env.getConnectedNodePos ctx.queryGraph rightSubgraph nbrSubgraph) = .ok joinNodes ∧
        needPruneImplicitJoins ctx.queryGraph nbrSubgraph rightSubgraph joinNodes.length = false ∧
        tryPlanINLJoin env fuel ctx rightSubgraph nbrSubgraph joinNodes = .ok (false, ctx2)) ∧
    (∀ joinNodes ctx2,
      ctx.containPlans nbrSubgraph = true →
      ctx.queryGraph.getQueryNodes
        (env.getConnectedNodePos ctx.queryGraph rightSubgraph nbrSubgraph) = .ok joinNodes →
      needPruneImplicitJoins ctx.queryGraph nbrSubgraph rightSubgraph joinNodes.length = false →
      tryPlanINLJoin env fuel ctx rightSubgraph nbrSubgraph joinNodes = .ok (true, ctx2) →
      planInnerJoinPair env fuel leftLevel rightLevel ctx rightSubgraph nbrSubgraph =
        .ok (ctx2, [])) ∧
    (∀ joinNodes ctx2,
      ctx.containPlans nbrSubgraph = true →
      ctx.queryGraph.getQueryNodes
        (env.getConnectedNodePos ctx.queryGraph rightSubgraph nbrSubgraph) = .ok joinNodes →
      needPruneImplicitJoins ctx.queryGraph nbrSubgraph rightSubgraph joinNodes.length = false →
      tryPlanINLJoin env fuel ctx rightSubgraph nbrSubgraph joinNodes = .ok (false, ctx2) →
      planInnerJoinPair env fuel leftLevel rightLevel ctx rightSubgraph nbrSubgraph =
        .ok (planInnerHashJoin env ctx2 rightSubgraph nbrSubgraph joinNodes
          (leftLevel != rightLevel), [(rightSubgraph, nbrSubgraph)])) ∧
    (ctx.containPlans nbrSubgraph = false →
      planInnerJoinPair env fuel leftLevel rightLevel ctx rightSubgraph nbrSubgraph =
        .ok (ctx, [])) ∧
    (∀ joinNodes,
      ctx.containPlans nbrSubgraph = true →
      ctx.queryGraph.getQueryNodes
        (env.getConnectedNodePos ctx.queryGraph rightSubgraph nbrSubgraph) = .ok joinNodes →
      needPruneImplicitJoins ctx.queryGraph nbrSubgraph rightSubgraph joinNodes.length = true →
      planInnerJoinPair env fuel leftLevel rightLevel ctx rightSubgraph nbrSubgraph =
        .ok (ctx, [])) ∧
    (∀ e,
      ctx.containPlans nbrSubgraph = true →
      ctx.queryGraph.getQueryNodes
        (env.getConnectedNodePos ctx.queryGraph rightSubgraph nbrSubgraph) = .error e →
      planInnerJoinPair env fuel leftLevel rightLevel ctx rightSubgraph nbrSubgraph =
        .error e) ∧
    (∀ joinNodes e,
      ctx.containPlans nbrSubgraph = true →
      ctx.queryGraph.getQueryNodes
        (env.getConnectedNodePos ctx.queryGraph rightSubgraph nbrSubgraph) = .ok joinNodes →
      needPruneImplicitJoins ctx.queryGraph nbrSubgraph rightSubgraph joinNodes.length = false →
      tryPlanINLJoin env fuel ctx rightSubgraph nbrSubgraph joinNodes = .error e →
      planInnerJoinPair env fuel leftLevel rightLevel ctx rightSubgraph nbrSubgraph =
        .error e) := by
  refine ⟨?_, ?_, ?_, ?_, ?_, ?_, ?_⟩
  · unfold planInnerJoinPair hashJoinInvoked
    by_cases hc : ctx.containPlans nbrSubgraph = true
    · simp only [hc, Bool.not_true, Bool.false_eq_true, if_false, true_and]
      cases hq : ctx.queryGraph.getQueryNodes
          (env.getConnectedNodePos ctx.queryGraph rightSubgraph nbrSubgraph) with
      | error e => simp
      | ok joinNodes =>
        simp only
        by_cases hp : needPruneImplicitJoins ctx.queryGraph nbrSubgraph rightSubgraph
            joinNodes.length = true
        · simp [hp]
        · rw [Bool.not_eq_true] at hp
          simp only [hp, Bool.false_eq_true, if_false]
          cases ht : tryPlanINLJoin env fuel ctx rightSubgraph nbrSubgraph joinNodes with
          | error e => simp [hp, ht]
          | ok res =>
            obtain ⟨b, ctx2⟩ := res
            cases b with
            | true => simp [hp, ht]
            | false =>
              constructor
              · intro _
                exact ⟨joinNodes, ctx2, rfl, hp, ht⟩
              · intro _
                exact ⟨_, _, rfl, List.mem_singleton.mpr rfl⟩
    · simp [hc]
  · intro joinNodes ctx2 hc hq hp ht
    unfold planInnerJoinPair
    simp only [hc, Bool.not_true, Bool.false_eq_true, if_false, hq, hp, ht]
  · intro joinNodes ctx2 hc hq hp ht
    unfold planInnerJoinPair
    simp only [hc, Bool.not_true, Bool.false_eq_true, if_false, hq, hp, ht]
  · intro hc
    unfold planInnerJoinPair
    simp only [hc, Bool.not_false, if_true]
  · intro joinNodes hc hq hp
    unfold planInnerJoinPair
    simp only [hc, Bool.not_true, Bool.false_eq_true, if_false, hq, hp, if_true]
  · intro e hc hq
    unfold planInnerJoinPair
    simp only [hc, Bool.not_true, Bool.false_eq_true, if_false, hq]
  · intro joinNodes e hc hq hp ht
    unfold planInnerJoinPair
    simp only [hc, Bool.not_true, Bool.false_eq_true, if_false, hq, hp, ht]

theorem containsKey_iff (m : IntersectRelCandidates) (key : Nat) :
    m.containsKey key = true ↔ ∃ rels, (key, rels) ∈ m := by
  unfold IntersectRelCandidates.containsKey
  simp only [List.any_eq_true, beq_iff_eq, Prod.exists]
  constructor
  · rintro ⟨k, rels, hmem, rfl⟩; exact ⟨rels, hmem⟩
  · rintro ⟨rels, hmem⟩; exact ⟨key, rels, hmem, rfl⟩

theorem lists_pushBackAt (m : IntersectRelCandidates) (key : Nat) (rel : RelExpression)
    (pos : Nat) (r : RelExpression) :
    (m.pushBackAt key rel).lists pos r ↔
      m.lists pos r ∨ (pos = key ∧ r = rel ∧ m.containsKey key = true) := by
  unfold IntersectRelCandidates.lists IntersectRelCandidates.pushBackAt
  constructor
  · rintro ⟨rels, hmem, hr⟩
    rw [List.mem_map] at hmem
    obtain ⟨⟨k, v⟩, hkv, heq⟩ := hmem
    by_cases hk : (k == key) = true
    · simp only [hk, if_true, Prod.mk.injEq] at heq
      obtain ⟨h1, h2⟩ := heq
      subst h1 h2
      have hk2 : k = key := by simpa using hk
      rcases List.mem_append.mp hr with h | h
      · exact Or.inl ⟨v, hkv, h⟩
      · right
        refine ⟨hk2, by simpa using h, ?_⟩
        exact (containsKey_iff m key).mpr ⟨v, hk2 ▸ hkv⟩
    · simp only [hk, Bool.false_eq_true, if_false, Prod.mk.injEq] at heq
      obtain ⟨h1, h2⟩ := heq
      subst h1 h2
      exact Or.inl ⟨v, hkv, hr⟩
  · rintro (⟨rels, hmem, hr⟩ | ⟨hp, hr, hc⟩)
    · by_cases hk : (pos == key) = true
      · refine ⟨rels ++ [rel], ?_, List.mem_append_left _ hr⟩
        rw [List.mem_map]
        exact ⟨(pos, rels), hmem, by simp [hk]⟩
      · refine ⟨rels, ?_, hr⟩
        rw [List.mem_map]
        exact ⟨(pos, rels), hmem, by simp [hk]⟩
    · obtain ⟨rels, hmem⟩ := (containsKey_iff m key).mp hc
      subst hp hr
      refine ⟨rels ++ [r], ?_, by simp⟩
      rw [List.mem_map]
      exact ⟨(pos, rels), hmem, by simp⟩

theorem lists_insertEntry_nil (m : IntersectRelCandidates) (key pos : Nat) (r : RelExpression) :
    (m.insertEntry key []).lists pos r ↔ m.lists pos r := by
  unfold IntersectRelCandidates.lists IntersectRelCandidates.insertEntry
  by_cases hc : m.containsKey key = true
  · simp [hc]
  · simp only [hc, Bool.false_eq_true, if_false, List.mem_append, List.mem_singleton,
      Prod.mk.injEq]
    constructor
    · rintro ⟨rels, hmem | ⟨_, rfl⟩, hr⟩
      · exact ⟨rels, hmem, hr⟩
      · simp at hr
    · rintro ⟨rels, hmem, hr⟩
      exact ⟨rels, Or.inl hmem, hr⟩

theorem containsKey_insertEntry (m : IntersectRelCandidates) (key : Nat)
    (value : List RelExpression) : (m.insertEntry key value).containsKey key = true := by
  unfold IntersectRelCandidates.insertEntry
  by_cases hc : m.containsKey key = true
  · simp [hc]
  · simp only [hc, Bool.false_eq_true, if_false]
    simp [IntersectRelCandidates.containsKey]

theorem populateIntersectRelCandidatesStep_lists (qg : QueryGraph) (subgraph : SubqueryGraph)
    (m : IntersectRelCandidates) (relPos : Nat) (rel : RelExpression)
    (hrel : qg.queryRels[relPos]? = some rel) :
    ∃ m2, populateIntersectRelCandidatesStep qg subgraph m relPos = .ok m2 ∧
      ∀ pos r, m2.lists pos r ↔ m.lists pos r ∨ (r = rel ∧ listedByStep qg subgraph rel pos) := by
  unfold populateIntersectRelCandidatesStep QueryGraph.getQueryRel listedByStep
  simp only [hrel]
  by_cases hs : qg.containsQueryNode rel.getSrcNodeName = true
  · by_cases hd : qg.containsQueryNode rel.getDstNodeName = true
    · simp only [hs, hd, Bool.not_true, Bool.or_self, Bool.false_eq_true, if_false, true_and]
      by_cases hboth : qg.getQueryNodeIdx rel.getSrcNodeName ∈ subgraph.queryNodesSelector ∧
          qg.getQueryNodeIdx rel.getDstNodeName ∈ subgraph.queryNodesSelector
      · refine ⟨m, ?_, ?_⟩
        · simp [hboth.1, hboth.2]
        · intro pos r
          simp [hboth]
      · have hcond : (decide (qg.getQueryNodeIdx rel.getSrcNodeName ∈ subgraph.queryNodesSelector) &&
            decide (qg.getQueryNodeIdx rel.getDstNodeName ∈ subgraph.queryNodesSelector)) = false := by
          simpa using hboth
        simp only [hcond, Bool.false_eq_true, if_false]
        refine ⟨_, rfl, ?_⟩
        intro pos r
        rw [lists_pushBackAt]
        by_cases hk : m.containsKey
            (if decide (qg.getQueryNodeIdx rel.getSrcNodeName ∈ subgraph.queryNodesSelector) = true
              then qg.getQueryNodeIdx rel.getDstNodeName
              else qg.getQueryNodeIdx rel.getSrcNodeName) = true
        · simp only [hk, Bool.not_true, Bool.false_eq_true, if_false, and_true]
          simp only [decide_eq_true_eq, hboth, not_false_eq_true, true_and]
          constructor
          · rintro (h | ⟨h1, h2⟩)
            · exact Or.inl h
            · exact Or.inr ⟨h2, h1⟩
          · rintro (h | ⟨h1, h2⟩)
            · exact Or.inl h
            · exact Or.inr ⟨h2, h1⟩
        · simp only [hk, Bool.not_false, if_true, containsKey_insertEntry, and_true,
            lists_insertEntry_nil]
          simp only [decide_eq_true_eq, hboth, not_false_eq_true, true_and]
          constructor
          · rintro (h | ⟨h1, h2⟩)
            · exact Or.inl h
            · exact Or.inr ⟨h2, h1⟩
          · rintro (h | ⟨h1, h2⟩)
            · exact Or.inl h
            · exact Or.inr ⟨h2, h1⟩
    · refine ⟨m, ?_, ?_⟩
      · simp [hs, hd]
      · intro pos r
        simp [hd]
  · refine ⟨m, ?_, ?_⟩
    · simp [hs]
    · intro pos r
      simp [hs]

theorem populateIntersectRelCandidates_fold (qg : QueryGraph) (subgraph : SubqueryGraph) :
    ∀ (positions : List Nat) (m : IntersectRelCandidates),
      (∀ relPos ∈ positions, ∃ rel, qg.queryRels[relPos]? = some rel) →
      ∃ m2, positions.foldlM (populateIntersectRelCandidatesStep qg subgraph) m = .ok m2 ∧
        ∀ pos r, m2.lists pos r ↔
          m.lists pos r ∨
            ∃ relPos ∈ positions, qg.queryRels[relPos]? = some r ∧
              listedByStep qg subgraph r pos := by
  intro positions
  induction positions with
  | nil =>
    intro m _
    exact ⟨m, rfl, by simp⟩
  | cons relPos rest ih =>
    intro m hvalid
    obtain ⟨rel, hrel⟩ := hvalid relPos (List.mem_cons_self _ _)
    obtain ⟨m1, hstep, hlists1⟩ :=
      populateIntersectRelCandidatesStep_lists qg subgraph m relPos rel hrel
    obtain ⟨m2, hfold, hlists2⟩ :=
      ih m1 (fun p hp => hvalid p (List.mem_cons_of_mem _ hp))
    refine ⟨m2, ?_, ?_⟩
    · simp only [List.foldlM_cons, hstep, bind, Except.bind]
      exact hfold
    · intro pos r
      rw [hlists2, hlists1]
      constructor
      · rintro ((h | ⟨rfl, h⟩) | ⟨p, hp, hq, hl⟩)
        · exact Or.inl h
        · exact Or.inr ⟨relPos, List.mem_cons_self _ _, hrel, h⟩
        · exact Or.inr ⟨p, List.mem_cons_of_mem _ hp, hq, hl⟩
      · rintro (h | ⟨p, hp, hq, hl⟩)
        · exact Or.inl (Or.inl h)
        · rcases List.mem_cons.mp hp with rfl | hp
          · rw [hrel] at hq
            cases hq
            exact Or.inl (Or.inr ⟨rfl, hl⟩)
          · exact Or.inr ⟨p, hp, hq, hl⟩

theorem mem_getRelNbrPositions (qg : QueryGraph) (subgraph : SubqueryGraph) (relPos : Nat)
    (h : relPos ∈ subgraph.getRelNbrPositions qg) :
    ∃ rel, qg.queryRels[relPos]? = some rel ∧
      (qg.getQueryNodeIdx rel.getSrcNodeName ∈ subgraph.queryNodesSelector ∨
        qg.getQueryNodeIdx rel.getDstNodeName ∈ subgraph.queryNodesSelector) := by
  unfold SubqueryGraph.getRelNbrPositions at h
  rw [List.mem_filter] at h
  obtain ⟨_, hcond⟩ := h
  cases hrel : qg.queryRels[relPos]? with
  | none => simp [hrel] at hcond
  | some rel =>
    refine ⟨rel, rfl, ?_⟩
    simp only [hrel, Bool.and_eq_true, Bool.or_eq_true, decide_eq_true_eq] at hcond
    exact hcond.2

/-- C9: `populateIntersectRelCandidates` returns a map that lists relationship
`rel` under key `pos` if and only if `rel` is a neighbouring relationship of the
subgraph, exactly one endpoint of `rel` is selected in the node selector of the
subgraph, and `pos` is the position of the other endpoint. -/
theorem populateIntersectRelCandidates_lists_iff (qg : QueryGraph) (subgraph : SubqueryGraph) :
    ∃ m, populateIntersectRelCandidates qg subgraph = .ok m ∧
      ∀ (pos : Nat) (rel : RelExpression),
        m.lists pos rel ↔
          ∃ relPos ∈ subgraph.getRelNbrPositions qg,
            qg.queryRels[relPos]? = some rel ∧ IsDanglingInto qg subgraph rel pos := by
  obtain ⟨m, hfold, hlists⟩ := populateIntersectRelCandidates_fold qg subgraph
    (subgraph.getRelNbrPositions qg) []
    (fun relPos h => by
      obtain ⟨rel, hrel, _⟩ := mem_getRelNbrPositions qg subgraph relPos h
      exact ⟨rel, hrel⟩)
  refine ⟨m, hfold, ?_⟩
  intro pos rel
  rw [hlists]
  have hnil : ¬ IntersectRelCandidates.lists [] pos rel := by
    rintro ⟨rels, hmem, _⟩
    simp at hmem
  simp only [hnil, false_or]
  constructor
  · rintro ⟨relPos, hmem, hrel, hs, hd, hnot, hpos⟩
    refine ⟨relPos, hmem, hrel, hs, hd, ?_⟩
    obtain ⟨rel2, hrel2, hsel⟩ := mem_getRelNbrPositions qg subgraph relPos hmem
    rw [hrel] at hrel2
    cases hrel2
    by_cases hsrc : qg.getQueryNodeIdx rel.getSrcNodeName ∈ subgraph.queryNodesSelector
    · rw [if_pos hsrc] at hpos
      exact Or.inl ⟨hsrc, fun hdst => hnot ⟨hsrc, hdst⟩, hpos⟩
    · rw [if_neg hsrc] at hpos
      rcases hsel with h | h
      · exact absurd h hsrc
      · exact Or.inr ⟨h, hsrc, hpos⟩
  · rintro ⟨relPos, hmem, hrel, hs, hd, hcase⟩
    refine ⟨relPos, hmem, hrel, hs, hd, ?_⟩
    rcases hcase with ⟨hsrc, hdst, hpos⟩ | ⟨hdst, hsrc, hpos⟩
    · exact ⟨fun h => hdst h.2, by rw [if_pos hsrc]; exact hpos⟩
    · exact ⟨fun h => hsrc h.1, by rw [if_neg hsrc]; exact hpos⟩

theorem planWCOJoinRels_ok (ctx : JoinOrderEnumeratorContext) (subgraph : SubqueryGraph)
    (intersectNode : NodeExpression) :
    ∀ (rels : List RelExpression) (builds : List LogicalPlan) (state : WCOJoinState),
      List.Forall₂ (IsWCOJBuildPlan ctx intersectNode) rels builds →
      planWCOJoinRels ctx subgraph intersectNode rels state = .ok (some
        ⟨rels.foldl (fun sg rel => sg.addQueryRel (ctx.queryGraph.getQueryRelIdx rel.uniqueName))
            state.newSubgraph,
          state.prevSubgraphs ++ rels.map (fun _ => subgraph),
          state.boundNodeIDs ++ rels.map (fun rel => (wcojBoundNode intersectNode rel).internalID),
          state.relPlans ++ builds⟩) := by
  intro rels builds state h
  induction h generalizing state with
  | nil => simp [planWCOJoinRels]
  | cons hhead _ ih =>
    obtain ⟨hcontain, hplan⟩ := hhead
    have hsg : ∀ relPos : Nat,
        getEmptySubqueryGraph.addQueryRel relPos = (⟨∅, {relPos}⟩ : SubqueryGraph) := by
      intro relPos
      simp [getEmptySubqueryGraph, SubqueryGraph.addQueryRel]
    unfold planWCOJoinRels
    simp only [hsg, hcontain, Bool.not_true, Bool.false_eq_true, if_false, hplan]
    rw [ih]
    simp

theorem foldl_addQueryRel (positions : List Nat) :
    ∀ sg : SubqueryGraph,
      positions.foldl (fun sg relPos => sg.addQueryRel relPos) sg =
        ⟨sg.queryNodesSelector, sg.queryRelsSelector ∪ positions.toFinset⟩ := by
  induction positions with
  | nil => intro sg; simp
  | cons p rest ih =>
    intro sg
    have hset : insert p sg.queryRelsSelector ∪ rest.toFinset =
        sg.queryRelsSelector ∪ insert p rest.toFinset := by
      ext x
      simp only [Finset.mem_union, Finset.mem_insert, List.mem_toFinset]
      tauto
    rw [List.foldl_cons, ih, List.toFinset_cons]
    simp only [SubqueryGraph.addQueryRel, hset]

theorem planWCOJoinProbe_fold (env : PlannerEnv) (intersectNode : NodeExpression)
    (state : WCOJoinState) (predicates : expression_vector) :
    ∀ (probes : List LogicalPlan) (ctx : JoinOrderEnumeratorContext),
      ((probes.foldl (planWCOJoinProbe env intersectNode state predicates)
          ctx).subPlansTable.plans state.newSubgraph =
        ctx.subPlansTable.plans state.newSubgraph ++
          (probes.filter (fun probe => !env.isExpressionInScope probe intersectNode.internalID)).map
            (fun probe => appendFilters env predicates
              (appendIntersect env intersectNode.internalID state.boundNodeIDs probe
                state.relPlans))) ∧
      ∀ other, other ≠ state.newSubgraph →
        (probes.foldl (planWCOJoinProbe env intersectNode state predicates)
          ctx).subPlansTable.plans other = ctx.subPlansTable.plans other := by
  intro probes
  induction probes with
  | nil => intro ctx; simp
  | cons probe rest ih =>
    intro ctx
    simp only [List.foldl_cons]
    by_cases hscope : env.isExpressionInScope probe intersectNode.internalID = true
    · have hstep : planWCOJoinProbe env intersectNode state predicates ctx probe = ctx := by
        simp [planWCOJoinProbe, hscope]
      rw [hstep]
      obtain ⟨h1, h2⟩ := ih ctx
      refine ⟨?_, h2⟩
      rw [h1]
      simp [hscope]
    · have hstep : planWCOJoinProbe env intersectNode state predicates ctx probe =
          ctx.addPlan state.newSubgraph (appendFilters env predicates
            (appendIntersect env intersectNode.internalID state.boundNodeIDs probe
              state.relPlans)) := by
        simp [planWCOJoinProbe, hscope, LogicalPlan.shallowCopy, appendFilters]
      rw [hstep]
      obtain ⟨h1, h2⟩ := ih (ctx.addPlan state.newSubgraph (appendFilters env predicates
            (appendIntersect env intersectNode.internalID state.boundNodeIDs probe
              state.relPlans)))
      constructor
      · rw [h1]
        simp [JoinOrderEnumeratorContext.addPlan, addPlan_plans_same, hscope]
      · intro other hne
        rw [h2 other hne]
        simp [JoinOrderEnumeratorContext.addPlan, addPlan_plans_other _ _ _ _ hne]

theorem wcojBoundNode_isOtherEndpoint (intersectNode : NodeExpression) (rel : RelExpression)
    (htouch : rel.srcNode.uniqueName = intersectNode.uniqueName ∨
      rel.dstNode.uniqueName = intersectNode.uniqueName) :
    IsOtherEndpoint intersectNode rel (wcojBoundNode intersectNode rel) := by
  unfold wcojBoundNode IsOtherEndpoint RelExpression.getSrcNodeName
  by_cases hsrc : rel.srcNode.uniqueName = intersectNode.uniqueName
  · left
    simp [hsrc]
  · right
    rcases htouch with h | h
    · exact absurd h hsrc
    · simp [hsrc, h]

/-- C10: when every relationship of `rels` has a build plan (`builds`, in the
order of `rels`) and has the intersect node as an endpoint,
`planWCOJoin(subgraph, rels, intersectNode)` returns and adds, under the subgraph
made of `subgraph` and all of `rels` and nowhere else, exactly one plan for each
probe plan of `subgraph` whose schema does not have the internal ID of the
intersect node in scope, in the order of the probe plans, and none for the probe
plans that do. Each added plan is `Intersect(intersect node ID, boundNodeIDs,
probe, builds)` under the filters of the newly matched predicates, with the
`|rels|` build plans in the order of `rels`, and `boundNodeIDs[i]` is the internal
ID of the endpoint of `rels[i]` other than the intersect node. -/
theorem planWCOJoin_adds_intersect_plans (env : PlannerEnv) (ctx : JoinOrderEnumeratorContext)
    (subgraph : SubqueryGraph) (rels : List RelExpression) (intersectNode : NodeExpression)
    (builds : List LogicalPlan)
    (htouch : ∀ rel ∈ rels, rel.srcNode.uniqueName = intersectNode.uniqueName ∨
      rel.dstNode.uniqueName = intersectNode.uniqueName)
    (hbuild : List.Forall₂ (IsWCOJBuildPlan ctx intersectNode) rels builds) :
    ∃ (ctx2 : JoinOrderEnumeratorContext) (newSubgraph : SubqueryGraph)
      (boundNodeIDs predicates : expression_vector),
      planWCOJoin env ctx subgraph rels intersectNode = .ok ctx2 ∧
      newSubgraph = ⟨subgraph.queryNodesSelector, subgraph.queryRelsSelector ∪
        (rels.map (fun rel => ctx.queryGraph.getQueryRelIdx rel.uniqueName)).toFinset⟩ ∧
      predicates = getNewlyMatchedExprs ctx.queryGraph
        (subgraph :: rels.map (fun _ => subgraph)) newSubgraph ctx.whereExpressions ∧
      ctx2.subPlansTable.plans newSubgraph =
        ctx.subPlansTable.plans newSubgraph ++
          ((ctx.subPlansTable.plans subgraph).filter
            (fun probe => !env.isExpressionInScope probe intersectNode.internalID)).map
            (fun probe => appendFilters env predicates
              (appendIntersect env intersectNode.internalID boundNodeIDs probe builds)) ∧
      (∀ other, other ≠ newSubgraph →
        ctx2.subPlansTable.plans other = ctx.subPlansTable.plans other) ∧
      (∀ probe : LogicalPlan,
        (appendFilters env predicates
          (appendIntersect env intersectNode.internalID boundNodeIDs probe builds)).lastOperator =
        (LogicalOperator.intersect intersectNode.internalID boundNodeIDs probe.lastOperator
          (builds.map (fun p => p.lastOperator))).withFilters predicates) ∧
      builds.length = rels.length ∧
      List.Forall₂
        (fun rel nodeID => ∃ node, IsOtherEndpoint intersectNode rel node ∧
          nodeID = node.internalID)
        rels boundNodeIDs := by
  have hloop := planWCOJoinRels_ok ctx subgraph intersectNode rels builds
    ⟨subgraph, [subgraph], [], []⟩ hbuild
  have hnew : rels.foldl
      (fun sg rel => sg.addQueryRel (ctx.queryGraph.getQueryRelIdx rel.uniqueName)) subgraph =
      ⟨subgraph.queryNodesSelector, subgraph.queryRelsSelector ∪
        (rels.map (fun rel => ctx.queryGraph.getQueryRelIdx rel.uniqueName)).toFinset⟩ := by
    rw [← foldl_addQueryRel, List.foldl_map]
  simp only [List.nil_append, List.singleton_append, hnew] at hloop
  obtain ⟨hsame, hother⟩ := planWCOJoinProbe_fold env intersectNode
    ⟨⟨subgraph.queryNodesSelector, subgraph.queryRelsSelector ∪
        (rels.map (fun rel => ctx.queryGraph.getQueryRelIdx rel.uniqueName)).toFinset⟩,
      subgraph :: rels.map (fun _ => subgraph),
      rels.map (fun rel => (wcojBoundNode intersectNode rel).internalID), builds⟩
    (getNewlyMatchedExprs ctx.queryGraph (subgraph :: rels.map (fun _ => subgraph))
      ⟨subgraph.queryNodesSelector, subgraph.queryRelsSelector ∪
        (rels.map (fun rel => ctx.queryGraph.getQueryRelIdx rel.uniqueName)).toFinset⟩
      ctx.whereExpressions)
    (ctx.subPlansTable.plans subgraph) ctx
  refine ⟨_, _, _, _, ?_, rfl, rfl, hsame, hother, ?_, ?_, ?_⟩
  · unfold planWCOJoin
    rw [hloop]
    rfl
  · intro probe
    rw [appendFilters_lastOperator]
    rfl
  · exact hbuild.length_eq.symm
  · rw [List.forall₂_map_right_iff, List.forall₂_same]
    intro rel hrel
    exact ⟨wcojBoundNode intersectNode rel,
      wcojBoundNode_isOtherEndpoint intersectNode rel (htouch rel hrel), rfl⟩

/-- Witness of C10 on the triangle: probe subgraph `{e1}`, relationships `e2` and
`e3`, intersect node `c`. -/
theorem planWCOJoin_adds_intersect_plans_witness :
    ((∀ rel ∈ [triangleRelE2, relE3],
        rel.srcNode.uniqueName = nodeC.uniqueName ∨ rel.dstNode.uniqueName = nodeC.uniqueName) ∧
      List.Forall₂ (IsWCOJBuildPlan triangleCtx nodeC)
        [triangleRelE2, relE3]
        [planScanBExtendE2, planScanAExtendE3]) ∧
    ∃ (ctx2 : JoinOrderEnumeratorContext) (newSubgraph : SubqueryGraph)
      (boundNodeIDs predicates : expression_vector),
      planWCOJoin sampleEnv triangleCtx ⟨∅, {0}⟩
        [triangleRelE2, relE3] nodeC =
          .ok ctx2 ∧
      newSubgraph = ⟨(⟨∅, {0}⟩ : SubqueryGraph).queryNodesSelector,
        (⟨∅, {0}⟩ : SubqueryGraph).queryRelsSelector ∪
        ([triangleRelE2, relE3].map
          (fun rel => triangleCtx.queryGraph.getQueryRelIdx rel.uniqueName)).toFinset⟩ ∧
      predicates = getNewlyMatchedExprs triangleCtx.queryGraph
        ((⟨∅, {0}⟩ : SubqueryGraph) ::
          [triangleRelE2, relE3].map
            (fun _ => (⟨∅, {0}⟩ : SubqueryGraph)))
        newSubgraph triangleCtx.whereExpressions ∧
      ctx2.subPlansTable.plans newSubgraph =
        triangleCtx.subPlansTable.plans newSubgraph ++
          ((triangleCtx.subPlansTable.plans ⟨∅, {0}⟩).filter
            (fun probe => !sampleEnv.isExpressionInScope probe nodeC.internalID)).map
            (fun probe => appendFilters sampleEnv predicates
              (appendIntersect sampleEnv nodeC.internalID boundNodeIDs probe
                [planScanBExtendE2, planScanAExtendE3])) ∧
      (∀ other, other ≠ newSubgraph →
        ctx2.subPlansTable.plans other = triangleCtx.subPlansTable.plans other) ∧
      (∀ probe : LogicalPlan,
        (appendFilters sampleEnv predicates
          (appendIntersect sampleEnv nodeC.internalID boundNodeIDs probe
            [planScanBExtendE2, planScanAExtendE3])).lastOperator =
        (LogicalOperator.intersect nodeC.internalID boundNodeIDs probe.lastOperator
          ([planScanBExtendE2, planScanAExtendE3].map (fun p => p.lastOperator))).withFilters
            predicates) ∧
      [planScanBExtendE2, planScanAExtendE3].length =
        [triangleRelE2, relE3].length ∧
      List.Forall₂
        (fun rel nodeID => ∃ node, IsOtherEndpoint nodeC rel node ∧ nodeID = node.internalID)
        [triangleRelE2, relE3] boundNodeIDs :=
  ⟨⟨by decide, List.Forall₂.cons ⟨rfl, rfl⟩ (List.Forall₂.cons ⟨rfl, rfl⟩ List.Forall₂.nil)⟩,
    planWCOJoin_adds_intersect_plans sampleEnv triangleCtx ⟨∅, {0}⟩
      [triangleRelE2, relE3] nodeC
      [planScanBExtendE2, planScanAExtendE3] (by decide)
      (List.Forall₂.cons ⟨rfl, rfl⟩ (List.Forall₂.cons ⟨rfl, rfl⟩ List.Forall₂.nil))⟩

/-! ## Runs on the sample inputs -/

/-- On the triangle, with `a`, `b` and `e1` matched, `e2` and `e3` dangle into `c`. -/
theorem populateIntersectRelCandidates_triangle :
    populateIntersectRelCandidates triangleGraph ⟨{0, 1}, {0}⟩ =
      .ok [(2, [triangleRelE2, relE3])] := rfl

/-- Joining `{a, b, e1}` with `{e2}` on `b` when the only plan of `{a, b, e1}` scans
`a`: no index nested loop join applies, `planInnerHashJoin` is invoked and two
plans are stored under the joined subgraph. -/
theorem planInnerJoinPair_triangle_hashJoin :
    (planInnerJoinPair joinOnBEnv 3 1 1 triangleCtxScanA ⟨{0, 1}, {0}⟩ ⟨∅, {1}⟩).toOption.map
        (fun run => (run.2, (run.1.subPlansTable.plans ⟨{0, 1}, {0, 1}⟩).length)) =
      some ([(⟨{0, 1}, {0}⟩, ⟨∅, {1}⟩)], 2) := rfl

/-- The same join when the only plan of `{a, b, e1}` scans `b`: the index nested
loop join applies, one plan is added and `planInnerHashJoin` is not invoked. -/
theorem planInnerJoinPair_triangle_inl :
    (planInnerJoinPair joinOnBEnv 3 1 1 triangleCtxScanB ⟨{0, 1}, {0}⟩ ⟨∅, {1}⟩).toOption.map
        (fun run => (run.2, (run.1.subPlansTable.plans ⟨{0, 1}, {0, 1}⟩).length)) =
      some ([], 1) := rfl

/-- Hash joins of the plans of `{e1}` and `{e2}` cost 4 with the sample
collaborators: with a ceiling of 4 on the target none is added, with a ceiling
of 5 all eight orientations are. -/
theorem planInnerHashJoin_triangle_tie :
    ((planInnerHashJoin sampleEnv (triangleCtx.addPlan ⟨∅, {0, 1}⟩ ⟨.expressionsScan [], 4, 1⟩)
        ⟨∅, {0}⟩ ⟨∅, {1}⟩ [nodeB] true).subPlansTable.plans ⟨∅, {0, 1}⟩).length = 1 ∧
    ((planInnerHashJoin sampleEnv (triangleCtx.addPlan ⟨∅, {0, 1}⟩ ⟨.expressionsScan [], 5, 1⟩)
        ⟨∅, {0}⟩ ⟨∅, {1}⟩ [nodeB] true).subPlansTable.plans ⟨∅, {0, 1}⟩).length = 9 :=
  ⟨rfl, rfl⟩

theorem planWCOJoinRels_none (ctx : JoinOrderEnumeratorContext) (subgraph : SubqueryGraph)
    (intersectNode : NodeExpression) :
    ∀ (rels : List RelExpression) (state : WCOJoinState),
      (∀ rel ∈ rels, (∃ plan, IsWCOJBuildPlan ctx intersectNode rel plan) ∨
        HasNoWCOJBuildPlan ctx intersectNode rel) →
      (∃ rel ∈ rels, HasNoWCOJBuildPlan ctx intersectNode rel) →
      planWCOJoinRels ctx subgraph intersectNode rels state = .ok none := by
  intro rels
  induction rels with
  | nil =>
    intro state _ hfail
    obtain ⟨rel, hmem, _⟩ := hfail
    simp at hmem
  | cons rel rest ih =>
    intro state hassert hfail
    have hsg : ∀ relPos : Nat,
        getEmptySubqueryGraph.addQueryRel relPos = (⟨∅, {relPos}⟩ : SubqueryGraph) := by
      intro relPos
      simp [getEmptySubqueryGraph, SubqueryGraph.addQueryRel]
    have hno : HasNoWCOJBuildPlan ctx intersectNode rel →
        planWCOJoinRels ctx subgraph intersectNode (rel :: rest) state = .ok none := by
      rintro ⟨hcontain, hplan⟩
      unfold planWCOJoinRels
      simp only [hsg, hcontain, Bool.not_true, Bool.false_eq_true, if_false, hplan]
    rcases hassert rel (List.mem_cons_self _ _) with ⟨plan, hcontain, hplan⟩ | hnone
    · obtain ⟨rel2, hmem2, hnone2⟩ := hfail
      rcases List.mem_cons.mp hmem2 with rfl | hrest
      · exact hno hnone2
      · unfold planWCOJoinRels
        simp only [hsg, hcontain, Bool.not_true, Bool.false_eq_true, if_false, hplan]
        exact ih _ (fun r hr => hassert r (List.mem_cons_of_mem _ hr)) ⟨rel2, hrest, hnone2⟩
    · exact hno hnone

/-- C11: when `getWCOJBuildPlanForRel` finds no build plan for at least one
relationship of `rels`, whatever its position, and no relationship of `rels`
trips an assertion (each has either a build plan or none),
`planWCOJoin(subgraph, rels, intersectNode)` returns and the context, with its
sub-plans table, is the same after the call as before it. -/
theorem planWCOJoin_unchanged_of_missing_build_plan (env : PlannerEnv)
    (ctx : JoinOrderEnumeratorContext) (subgraph : SubqueryGraph) (rels : List RelExpression)
    (intersectNode : NodeExpression)
    (hassert : ∀ rel ∈ rels, (∃ plan, IsWCOJBuildPlan ctx intersectNode rel plan) ∨
      HasNoWCOJBuildPlan ctx intersectNode rel)
    (hfail : ∃ rel ∈ rels, HasNoWCOJBuildPlan ctx intersectNode rel) :
    planWCOJoin env ctx subgraph rels intersectNode = .ok ctx := by
  unfold planWCOJoin
  rw [planWCOJoinRels_none ctx subgraph intersectNode rels _ hassert hfail]

/-- Witness of C11 on the triangle with a variable-length `e2`: `e3` has a build
plan, `e2` in second position has none. -/
theorem planWCOJoin_unchanged_of_missing_build_plan_witness :
    ((∀ rel ∈ [relE3, varLenRelE2],
        (∃ plan, IsWCOJBuildPlan varLenTriangleCtx nodeC rel plan) ∨
          HasNoWCOJBuildPlan varLenTriangleCtx nodeC rel) ∧
      (∃ rel ∈ [relE3, varLenRelE2], HasNoWCOJBuildPlan varLenTriangleCtx nodeC rel)) ∧
    planWCOJoin sampleEnv varLenTriangleCtx ⟨∅, {0}⟩ [relE3, varLenRelE2] nodeC =
      .ok varLenTriangleCtx :=
  have h3 : IsWCOJBuildPlan varLenTriangleCtx nodeC relE3 planScanAExtendE3 := ⟨rfl, rfl⟩
  have h2 : HasNoWCOJBuildPlan varLenTriangleCtx nodeC varLenRelE2 := ⟨rfl, rfl⟩
  have hassert : ∀ rel ∈ [relE3, varLenRelE2],
      (∃ plan, IsWCOJBuildPlan varLenTriangleCtx nodeC rel plan) ∨
        HasNoWCOJBuildPlan varLenTriangleCtx nodeC rel := by
    intro rel hrel
    simp only [List.mem_cons, List.mem_singleton, List.not_mem_nil, or_false] at hrel
    rcases hrel with rfl | rfl
    · exact Or.inl ⟨_, h3⟩
    · exact Or.inr h2
  ⟨⟨hassert, ⟨varLenRelE2, by simp, h2⟩⟩,
    planWCOJoin_unchanged_of_missing_build_plan sampleEnv varLenTriangleCtx ⟨∅, {0}⟩
      [relE3, varLenRelE2] nodeC hassert ⟨varLenRelE2, by simp, h2⟩⟩

theorem range'_flatMap_getElem? {α β : Type} (g : Nat → α → List β) :
    ∀ (xs pre : List α),
      (List.range' pre.length xs.length).flatMap (entriesAtPos (pre ++ xs) g) =
        (xs.enumFrom pre.length).flatMap (fun e => g e.1 e.2) := by
  intro xs
  induction xs with
  | nil => intro pre; simp
  | cons x rest ih =>
    intro pre
    have h := ih (pre ++ [x])
    simp only [List.length_append, List.length_singleton, List.append_assoc,
      List.singleton_append] at h
    have hx : (pre ++ x :: rest)[pre.length]? = some x := by
      rw [List.getElem?_append_right (le_refl _)]; simp
    simp only [List.length_cons, List.range'_succ, List.flatMap_cons, List.enumFrom_cons, h,
      entriesAtPos, hx]

theorem range_flatMap_getElem? {α β : Type} (g : Nat → α → List β) (xs : List α) :
    (List.range xs.length).flatMap (entriesAtPos xs g) =
      xs.enum.flatMap (fun e => g e.1 e.2) := by
  have h := range'_flatMap_getElem? g xs []
  simpa [List.range_eq_range', List.enum] using h

theorem flatMap_ite_eq_filter_map {α β : Type} (p : α → Bool) (f : α → β) (xs : List α) :
    xs.flatMap (fun x => if p x = true then [] else [f x]) =
      (xs.filter (fun x => !p x)).map f := by
  induction xs with
  | nil => rfl
  | cons x rest ih =>
    by_cases hp : p x = true
    · simp [List.flatMap_cons, hp, ih]
    · simp [List.flatMap_cons, hp, ih]

theorem flatMap_ite_eq_filter_map_pos {α β : Type} (p : α → Bool) (f : α → β) (xs : List α) :
    xs.flatMap (fun x => if p x = true then [f x] else []) = (xs.filter p).map f := by
  induction xs with
  | nil => rfl
  | cons x rest ih =>
    by_cases hp : p x = true
    · simp [List.flatMap_cons, hp, ih]
    · simp [List.flatMap_cons, hp, ih]

theorem addPlans_queryGraph (ctx : JoinOrderEnumeratorContext)
    (entries : List (SubqueryGraph × LogicalPlan)) :
    (ctx.addPlans entries).queryGraph = ctx.queryGraph ∧
      (ctx.addPlans entries).whereExpressions = ctx.whereExpressions := by
  induction entries generalizing ctx with
  | nil => exact ⟨rfl, rfl⟩
  | cons e rest ih =>
    have h := ih (ctx.addPlan e.1 e.2)
    simpa [JoinOrderEnumeratorContext.addPlans, JoinOrderEnumeratorContext.addPlan] using h

theorem addPlans_append (ctx : JoinOrderEnumeratorContext)
    (a b : List (SubqueryGraph × LogicalPlan)) :
    ctx.addPlans (a ++ b) = (ctx.addPlans a).addPlans b := by
  simp [JoinOrderEnumeratorContext.addPlans, List.foldl_append]

theorem addPlans_plans (entries : List (SubqueryGraph × LogicalPlan)) :
    ∀ (ctx : JoinOrderEnumeratorContext) (sg : SubqueryGraph),
      (ctx.addPlans entries).subPlansTable.plans sg =
        ctx.subPlansTable.plans sg ++
          (entries.filter (fun entry => decide (entry.1 = sg))).map (fun entry => entry.2) := by
  induction entries with
  | nil => intro ctx sg; simp [JoinOrderEnumeratorContext.addPlans]
  | cons e rest ih =>
    intro ctx sg
    have h := ih (ctx.addPlan e.1 e.2) sg
    have hstep : (ctx.addPlans (e :: rest)) = (ctx.addPlan e.1 e.2).addPlans rest := rfl
    rw [hstep, h]
    by_cases hsg : e.1 = sg
    · subst hsg
      simp [JoinOrderEnumeratorContext.addPlan, addPlan_plans_same]
    · have hne : sg ≠ e.1 := fun h => hsg h.symm
      simp [JoinOrderEnumeratorContext.addPlan, addPlan_plans_other _ _ _ _ hne, hsg]

theorem foldlM_eq_addPlans (ctx0 : JoinOrderEnumeratorContext)
    (body : JoinOrderEnumeratorContext → Nat → Except Fault JoinOrderEnumeratorContext)
    (entriesAt : Nat → List (SubqueryGraph × LogicalPlan)) :
    ∀ (positions : List Nat) (c : JoinOrderEnumeratorContext),
      c.queryGraph = ctx0.queryGraph → c.whereExpressions = ctx0.whereExpressions →
      (∀ pos ∈ positions, ∀ c2 : JoinOrderEnumeratorContext,
        c2.queryGraph = ctx0.queryGraph → c2.whereExpressions = ctx0.whereExpressions →
        body c2 pos = .ok (c2.addPlans (entriesAt pos))) →
      positions.foldlM body c = .ok (c.addPlans (positions.flatMap entriesAt)) := by
  intro positions
  induction positions with
  | nil => intro c _ _ _; rfl
  | cons pos rest ih =>
    intro c hq hw hbody
    have hstep := hbody pos (List.mem_cons_self _ _) c hq hw
    have hq2 := (addPlans_queryGraph c (entriesAt pos)).1.trans hq
    have hw2 := (addPlans_queryGraph c (entriesAt pos)).2.trans hw
    have hrest := ih (c.addPlans (entriesAt pos)) hq2 hw2
      (fun p hp => hbody p (List.mem_cons_of_mem _ hp))
    simp only [List.foldlM_cons, hstep, bind, Except.bind, hrest, List.flatMap_cons,
      addPlans_append]

theorem getElem?_of_mem_range {α : Type} (xs : List α) (pos : Nat)
    (h : pos ∈ List.range xs.length) : ∃ x, xs[pos]? = some x := by
  have hlt : pos < xs.length := List.mem_range.mp h
  exact ⟨xs[pos], List.getElem?_eq_getElem hlt⟩

theorem planNodeScan_eq (env : PlannerEnv) (ctx0 c : JoinOrderEnumeratorContext) (nodePos : Nat)
    (node : NodeExpression) (hq : c.queryGraph = ctx0.queryGraph)
    (hw : c.whereExpressions = ctx0.whereExpressions)
    (hnode : ctx0.queryGraph.queryNodes[nodePos]? = some node) :
    planNodeScan env c nodePos = .ok (c.addPlans [nodeScanEntry env ctx0 nodePos node]) := by
  have hsg : (⟨∅, ∅⟩ : SubqueryGraph).addQueryNode nodePos = ⟨{nodePos}, ∅⟩ := by
    simp [SubqueryGraph.addQueryNode]
  simp only [planNodeScan, QueryGraph.getQueryNode, hq, hnode, getEmptySubqueryGraph, hsg,
    getNewlyMatchedExprs1, JoinOrderEnumeratorContext.getWhereExpressions, hw, nodeScanEntry,
    JoinOrderEnumeratorContext.addPlans, List.foldl_cons, List.foldl_nil]

theorem planNodeIDScan_eq (env : PlannerEnv) (ctx0 c : JoinOrderEnumeratorContext) (nodePos : Nat)
    (node : NodeExpression) (hq : c.queryGraph = ctx0.queryGraph)
    (hnode : ctx0.queryGraph.queryNodes[nodePos]? = some node) :
    planNodeIDScan env c nodePos = .ok (c.addPlans [nodeIDScanEntry env nodePos node]) := by
  have hsg : (⟨∅, ∅⟩ : SubqueryGraph).addQueryNode nodePos = ⟨{nodePos}, ∅⟩ := by
    simp [SubqueryGraph.addQueryNode]
  simp only [planNodeIDScan, QueryGraph.getQueryNode, hq, hnode, getEmptySubqueryGraph, hsg,
    nodeIDScanEntry, JoinOrderEnumeratorContext.addPlans, List.foldl_cons, List.foldl_nil]

theorem planRelScan_eq_addPlans (env : PlannerEnv) (ctx0 c : JoinOrderEnumeratorContext)
    (relPos : Nat) (rel : RelExpression) (hq : c.queryGraph = ctx0.queryGraph)
    (hw : c.whereExpressions = ctx0.whereExpressions)
    (hrel : ctx0.queryGraph.queryRels[relPos]? = some rel) :
    planRelScan env c relPos = .ok (c.addPlans (relScanEntries env ctx0 relPos rel)) := by
  rw [planRelScan_eq env c relPos rel (by rw [hq]; exact hrel), hq, hw]
  rfl

theorem flatMap_singleton_eq_map {α β : Type} (f : α → β) (xs : List α) :
    xs.flatMap (fun x => [f x]) = xs.map f := by
  induction xs with
  | nil => rfl
  | cons x rest ih => simp [List.flatMap_cons, ih]

theorem entriesAtPos_some {α β : Type} (xs : List α) (g : Nat → α → List β) (i : Nat) (x : α)
    (h : xs[i]? = some x) : entriesAtPos xs g i = g i x := by
  simp [entriesAtPos, h]

theorem relScans_fold (env : PlannerEnv) (ctx0 c : JoinOrderEnumeratorContext)
    (hq : c.queryGraph = ctx0.queryGraph) (hw : c.whereExpressions = ctx0.whereExpressions) :
    (List.range ctx0.queryGraph.getNumQueryRels).foldlM (planRelScan env) c =
      .ok (c.addPlans (allRelScanEntries env ctx0)) := by
  have hbody : ∀ pos ∈ List.range ctx0.queryGraph.queryRels.length,
      ∀ c2 : JoinOrderEnumeratorContext, c2.queryGraph = ctx0.queryGraph →
        c2.whereExpressions = ctx0.whereExpressions →
        planRelScan env c2 pos = .ok (c2.addPlans
          (entriesAtPos ctx0.queryGraph.queryRels (relScanEntries env ctx0) pos)) := by
    intro pos hpos c2 hq2 hw2
    obtain ⟨rel, hrel⟩ := getElem?_of_mem_range _ pos hpos
    rw [entriesAtPos_some _ _ _ _ hrel]
    exact planRelScan_eq_addPlans env ctx0 c2 pos rel hq2 hw2 hrel
  have h := foldlM_eq_addPlans ctx0 (planRelScan env) _ _ c hq hw hbody
  rw [range_flatMap_getElem?] at h
  exact h

theorem uncorrelatedNodeScans_fold (env : PlannerEnv) (ctx : JoinOrderEnumeratorContext)
    (info : QueryGraphPlanningInfo)
    (hmode : info.subqueryType = .NONE ∨ info.subqueryType = .INTERNAL_ID_CORRELATED) :
    planBaseNodeScans env ctx info = .ok (ctx.addPlans (uncorrelatedNodeEntries env ctx info)) := by
  have hconv : (List.range ctx.queryGraph.queryNodes.length).flatMap
      (entriesAtPos ctx.queryGraph.queryNodes
        (fun pos node => [uncorrelatedNodeEntry env ctx info pos node])) =
        uncorrelatedNodeEntries env ctx info := by
    rw [range_flatMap_getElem?]
    rw [flatMap_singleton_eq_map]
    rfl
  rcases hmode with hmode | hmode
  · have hbody : ∀ pos ∈ List.range ctx.queryGraph.queryNodes.length,
        ∀ c2 : JoinOrderEnumeratorContext, c2.queryGraph = ctx.queryGraph →
          c2.whereExpressions = ctx.whereExpressions →
          planNodeScan env c2 pos = .ok (c2.addPlans
            (entriesAtPos ctx.queryGraph.queryNodes
              (fun pos node => [uncorrelatedNodeEntry env ctx info pos node]) pos)) := by
      intro pos hpos c2 hq2 hw2
      obtain ⟨node, hnode⟩ := getElem?_of_mem_range _ pos hpos
      rw [entriesAtPos_some _ _ _ _ hnode]
      simp only [uncorrelatedNodeEntry, hmode]
      simpa using planNodeScan_eq env ctx c2 pos node hq2 hw2 hnode
    have h := foldlM_eq_addPlans ctx (planNodeScan env) _ _ ctx rfl rfl hbody
    rw [hconv] at h
    simpa [planBaseNodeScans, hmode, QueryGraph.getNumQueryNodes] using h
  · have hbody : ∀ pos ∈ List.range ctx.queryGraph.queryNodes.length,
        ∀ c2 : JoinOrderEnumeratorContext, c2.queryGraph = ctx.queryGraph →
          c2.whereExpressions = ctx.whereExpressions →
          planBaseNodeInternalID env info.corrExprs c2 pos = .ok (c2.addPlans
            (entriesAtPos ctx.queryGraph.queryNodes
              (fun pos node => [uncorrelatedNodeEntry env ctx info pos node]) pos)) := by
      intro pos hpos c2 hq2 hw2
      obtain ⟨node, hnode⟩ := getElem?_of_mem_range _ pos hpos
      rw [entriesAtPos_some _ _ _ _ hnode]
      simp only [uncorrelatedNodeEntry, hmode, planBaseNodeInternalID,
        QueryGraph.getQueryNode, hq2, hnode, true_and]
      by_cases hc : expression_set.contains info.corrExprs node.internalID = true
      · simp only [hc, if_true]
        exact planNodeIDScan_eq env ctx c2 pos node hq2 hnode
      · simp only [hc, if_false]
        simpa using planNodeScan_eq env ctx c2 pos node hq2 hw2 hnode
    have h := foldlM_eq_addPlans ctx (planBaseNodeInternalID env info.corrExprs) _ _ ctx rfl rfl
      hbody
    rw [hconv] at h
    simpa [planBaseNodeScans, hmode, QueryGraph.getNumQueryNodes] using h

theorem correlatedSubgraphFrom_eq (qg : QueryGraph) (corrExprsSet : expression_set) :
    ∀ (positions : List Nat) (acc : SubqueryGraph),
      (∀ pos ∈ positions, pos < qg.queryNodes.length) →
      correlatedSubgraphFrom qg corrExprsSet positions acc =
        .ok ⟨acc.queryNodesSelector ∪ (positions.flatMap (entriesAtPos qg.queryNodes
          (fun pos node => if corrExprsSet.contains node.internalID = true then [pos] else []))).toFinset,
          acc.queryRelsSelector⟩ := by
  intro positions
  induction positions with
  | nil => intro acc _; simp [correlatedSubgraphFrom]
  | cons pos rest ih =>
    intro acc hpos
    have hlt : pos < qg.queryNodes.length := hpos pos (List.mem_cons_self _ _)
    have hnode : qg.queryNodes[pos]? = some qg.queryNodes[pos] := List.getElem?_eq_getElem hlt
    have hrest := fun acc2 => ih acc2 (fun p hp => hpos p (List.mem_cons_of_mem _ hp))
    rw [correlatedSubgraphFrom]
    simp only [QueryGraph.getQueryNode, hnode, List.flatMap_cons,
      entriesAtPos_some _ _ _ _ hnode]
    by_cases hc : corrExprsSet.contains qg.queryNodes[pos].internalID = true
    · simp only [hc, if_true, hrest, SubqueryGraph.addQueryNode]
      congr 2
      ext x
      simp only [Finset.mem_union, Finset.mem_insert, List.mem_toFinset, List.mem_append,
        List.mem_singleton]
      tauto
    · simp only [hc, if_false, hrest, List.nil_append]
      rfl

theorem correlatedSubgraphFrom_range (qg : QueryGraph) (corrExprs : expression_vector) :
    correlatedSubgraphFrom qg corrExprs (List.range qg.getNumQueryNodes) getEmptySubqueryGraph =
      .ok ⟨correlatedNodePositions qg corrExprs, ∅⟩ := by
  have h := correlatedSubgraphFrom_eq qg corrExprs (List.range qg.queryNodes.length)
    getEmptySubqueryGraph (fun pos hpos => List.mem_range.mp hpos)
  rw [QueryGraph.getNumQueryNodes, h]
  simp only [range_flatMap_getElem?, flatMap_ite_eq_filter_map_pos
    (fun e : Nat × NodeExpression => expression_set.contains corrExprs e.2.internalID)
    (fun e => e.1), getEmptySubqueryGraph, Finset.empty_union, correlatedNodePositions]

theorem correlatedNodeScans_fold (env : PlannerEnv) (ctx : JoinOrderEnumeratorContext)
    (info : QueryGraphPlanningInfo) :
    (List.range ctx.queryGraph.getNumQueryNodes).foldlM
        (planBaseNodeCorrelated env info.corrExprs) ctx =
      .ok (ctx.addPlans (correlatedModeNodeEntries env ctx info)) := by
  have hconv : (List.range ctx.queryGraph.queryNodes.length).flatMap
      (entriesAtPos ctx.queryGraph.queryNodes
        (fun pos node =>
          if expression_set.contains info.corrExprs node.internalID = true then []
          else [nodeScanEntry env ctx pos node])) =
        correlatedModeNodeEntries env ctx info := by
    rw [range_flatMap_getElem?]
    exact flatMap_ite_eq_filter_map
      (fun e : Nat × NodeExpression => expression_set.contains info.corrExprs e.2.internalID)
      (fun e => nodeScanEntry env ctx e.1 e.2) _
  have hbody : ∀ pos ∈ List.range ctx.queryGraph.queryNodes.length,
      ∀ c2 : JoinOrderEnumeratorContext, c2.queryGraph = ctx.queryGraph →
        c2.whereExpressions = ctx.whereExpressions →
        planBaseNodeCorrelated env info.corrExprs c2 pos = .ok (c2.addPlans
          (entriesAtPos ctx.queryGraph.queryNodes
            (fun pos node =>
              if expression_set.contains info.corrExprs node.internalID = true then []
              else [nodeScanEntry env ctx pos node]) pos)) := by
    intro pos hpos c2 hq2 hw2
    obtain ⟨node, hnode⟩ := getElem?_of_mem_range _ pos hpos
    rw [entriesAtPos_some _ _ _ _ hnode]
    simp only [planBaseNodeCorrelated, QueryGraph.getQueryNode, hq2, hnode]
    by_cases hc : expression_set.contains info.corrExprs node.internalID = true
    · simp only [hc, if_true]
      rfl
    · simp only [hc, if_false]
      exact planNodeScan_eq env ctx c2 pos node hq2 hw2 hnode
  have h := foldlM_eq_addPlans ctx (planBaseNodeCorrelated env info.corrExprs) _ _ ctx rfl rfl
    hbody
  rw [hconv] at h
  exact h

theorem planCorrelatedExpressionsScan_eq (env : PlannerEnv) (ctx0 c : JoinOrderEnumeratorContext)
    (info : QueryGraphPlanningInfo) (hq : c.queryGraph = ctx0.queryGraph)
    (hw : c.whereExpressions = ctx0.whereExpressions) :
    planCorrelatedExpressionsScan env c info =
      .ok (c.addPlans [correlatedScanEntry env ctx0 info]) := by
  have h := correlatedSubgraphFrom_range ctx0.queryGraph info.corrExprs
  simp only [getEmptySubqueryGraph] at h
  simp only [planCorrelatedExpressionsScan, hq, h,
    getNewlyMatchedExprs1, JoinOrderEnumeratorContext.getWhereExpressions, hw,
    getEmptySubqueryGraph, correlatedScanEntry, JoinOrderEnumeratorContext.addPlans,
    List.foldl_cons, List.foldl_nil]

theorem planBaseTableScans_eq_of_uncorrelated (env : PlannerEnv) (ctx : JoinOrderEnumeratorContext)
    (info : QueryGraphPlanningInfo)
    (hmode : info.subqueryType = .NONE ∨ info.subqueryType = .INTERNAL_ID_CORRELATED) :
    planBaseTableScans env ctx info =
      .ok (ctx.addPlans (uncorrelatedNodeEntries env ctx info ++ allRelScanEntries env ctx)) := by
  have hq := addPlans_queryGraph ctx (uncorrelatedNodeEntries env ctx info)
  rw [planBaseTableScans, uncorrelatedNodeScans_fold env ctx info hmode]
  simp only [relScans_fold env ctx _ hq.1 hq.2, addPlans_append]

theorem planBaseTableScans_eq_of_correlated (env : PlannerEnv) (ctx : JoinOrderEnumeratorContext)
    (info : QueryGraphPlanningInfo) (hmode : info.subqueryType = .CORRELATED) :
    planBaseTableScans env ctx info =
      .ok (ctx.addPlans (correlatedModeNodeEntries env ctx info ++
        [correlatedScanEntry env ctx info] ++ allRelScanEntries env ctx)) := by
  have hq := addPlans_queryGraph ctx (correlatedModeNodeEntries env ctx info)
  have hq2 := addPlans_queryGraph (ctx.addPlans (correlatedModeNodeEntries env ctx info))
    [correlatedScanEntry env ctx info]
  simp only [planBaseTableScans, planBaseNodeScans, hmode, correlatedNodeScans_fold,
    planCorrelatedExpressionsScan_eq env ctx _ info hq.1 hq.2,
    relScans_fold env ctx _ (hq2.1.trans hq.1) (hq2.2.trans hq.2), addPlans_append]

theorem filter_key_eq_nil (entries : List (SubqueryGraph × LogicalPlan)) (sg : SubqueryGraph)
    (h : ∀ entry ∈ entries, entry.1 ≠ sg) :
    entries.filter (fun entry => decide (entry.1 = sg)) = [] := by
  rw [List.filter_eq_nil_iff]
  intro entry hentry
  simpa using h entry hentry

theorem filter_key_eq_self (entries : List (SubqueryGraph × LogicalPlan)) (sg : SubqueryGraph)
    (h : ∀ entry ∈ entries, entry.1 = sg) :
    entries.filter (fun entry => decide (entry.1 = sg)) = entries := by
  rw [List.filter_eq_self]
  intro entry hentry
  simpa using h entry hentry

theorem mem_enumFrom_flatMap {α β : Type} (g : Nat → α → List β) (xs : List α) (k : Nat)
    (b : β) (h : b ∈ (xs.enumFrom k).flatMap (fun e => g e.1 e.2)) :
    ∃ (i : Nat) (x : α), xs[i]? = some x ∧ b ∈ g (k + i) x := by
  rw [List.mem_flatMap] at h
  obtain ⟨e, he, hb⟩ := h
  have he2 : (e.1, e.2) ∈ xs.enumFrom k := he
  rw [List.mk_mem_enumFrom_iff_le_and_getElem?_sub] at he2
  refine ⟨e.1 - k, e.2, he2.2, ?_⟩
  have : k + (e.1 - k) = e.1 := by omega
  rw [this]
  exact hb

theorem mem_enum_flatMap {α β : Type} (g : Nat → α → List β) (xs : List α)
    (b : β) (h : b ∈ xs.enum.flatMap (fun e => g e.1 e.2)) :
    ∃ (i : Nat) (x : α), xs[i]? = some x ∧ b ∈ g i x := by
  obtain ⟨i, x, hx, hb⟩ := mem_enumFrom_flatMap g xs 0 b h
  exact ⟨i, x, hx, by simpa using hb⟩

theorem filter_key_enumFrom_flatMap {α : Type} (g : Nat → α → List (SubqueryGraph × LogicalPlan))
    (key : Nat → SubqueryGraph) (hkey : ∀ i x, ∀ entry ∈ g i x, entry.1 = key i)
    (hinj : ∀ i j, key i = key j → i = j) :
    ∀ (xs : List α) (k pos : Nat) (x : α), xs[pos]? = some x →
      ((xs.enumFrom k).flatMap (fun e => g e.1 e.2)).filter
        (fun entry => decide (entry.1 = key (k + pos))) = g (k + pos) x := by
  intro xs
  induction xs with
  | nil => intro k pos x h; simp at h
  | cons y rest ih =>
    intro k pos x h
    rw [List.enumFrom_cons, List.flatMap_cons, List.filter_append]
    cases pos with
    | zero =>
      have hxy : y = x := by simpa using h
      subst hxy
      have hrest : ((rest.enumFrom (k + 1)).flatMap (fun e => g e.1 e.2)).filter
          (fun entry => decide (entry.1 = key (k + 0))) = [] := by
        apply filter_key_eq_nil
        intro entry hentry
        obtain ⟨i, z, _, hz⟩ := mem_enumFrom_flatMap g rest (k + 1) entry hentry
        rw [hkey _ _ entry hz]
        intro hk
        have := hinj _ _ hk
        omega
      rw [hrest, List.append_nil]
      exact filter_key_eq_self _ _ (hkey k y)
    | succ p =>
      have hfirst : (g k y).filter (fun entry => decide (entry.1 = key (k + (p + 1)))) = [] := by
        apply filter_key_eq_nil
        intro entry hentry
        rw [hkey _ _ entry hentry]
        intro hk
        have := hinj _ _ hk
        omega
      have hp : rest[p]? = some x := by simpa using h
      have hrest := ih (k + 1) p x hp
      have hidx : k + 1 + p = k + (p + 1) := by omega
      rw [hidx] at hrest
      rw [hfirst, List.nil_append]
      exact hrest

theorem filter_key_enum_flatMap {α : Type} (g : Nat → α → List (SubqueryGraph × LogicalPlan))
    (key : Nat → SubqueryGraph) (hkey : ∀ i x, ∀ entry ∈ g i x, entry.1 = key i)
    (hinj : ∀ i j, key i = key j → i = j) (xs : List α) (pos : Nat) (x : α)
    (h : xs[pos]? = some x) :
    (xs.enum.flatMap (fun e => g e.1 e.2)).filter (fun entry => decide (entry.1 = key pos)) =
      g pos x := by
  have := filter_key_enumFrom_flatMap g key hkey hinj xs 0 pos x h
  simpa [List.enum] using this

theorem nodeKey_injective (i j : Nat)
    (h : (⟨{i}, ∅⟩ : SubqueryGraph) = ⟨{j}, ∅⟩) : i = j := by
  have h2 : ({i} : Finset Nat) = {j} := congrArg SubqueryGraph.queryNodesSelector h
  exact Finset.singleton_inj.mp h2

theorem relKey_injective (i j : Nat)
    (h : (⟨∅, {i}⟩ : SubqueryGraph) = ⟨∅, {j}⟩) : i = j := by
  have h2 : ({i} : Finset Nat) = {j} := congrArg SubqueryGraph.queryRelsSelector h
  exact Finset.singleton_inj.mp h2

theorem nodeKey_ne_relKey (i j : Nat) : (⟨{i}, ∅⟩ : SubqueryGraph) ≠ ⟨∅, {j}⟩ := by
  intro h
  have h2 : ({i} : Finset Nat) = ∅ := congrArg SubqueryGraph.queryNodesSelector h
  exact Finset.singleton_ne_empty i h2

theorem relScanEntries_key (env : PlannerEnv) (ctx : JoinOrderEnumeratorContext) (relPos : Nat)
    (rel : RelExpression) :
    ∀ entry ∈ relScanEntries env ctx relPos rel, entry.1 = ⟨∅, {relPos}⟩ := by
  intro entry hentry
  simp only [relScanEntries, List.mem_cons, List.mem_singleton, List.not_mem_nil, or_false]
    at hentry
  rcases hentry with h | h <;> rw [h]

theorem allRelScanEntries_key (env : PlannerEnv) (ctx : JoinOrderEnumeratorContext) :
    ∀ entry ∈ allRelScanEntries env ctx, ∃ relPos, entry.1 = ⟨∅, {relPos}⟩ := by
  intro entry hentry
  obtain ⟨i, rel, _, h⟩ := mem_enum_flatMap (relScanEntries env ctx) _ entry hentry
  exact ⟨i, relScanEntries_key env ctx i rel entry h⟩

theorem allRelScanEntries_length (env : PlannerEnv) (ctx : JoinOrderEnumeratorContext) :
    (allRelScanEntries env ctx).length = 2 * ctx.queryGraph.getNumQueryRels := by
  have h : ∀ (xs : List (Nat × RelExpression)),
      (xs.flatMap (fun entry => relScanEntries env ctx entry.1 entry.2)).length =
        2 * xs.length := by
    intro xs
    induction xs with
    | nil => rfl
    | cons x rest ih =>
      rw [List.flatMap_cons, List.length_append, ih]
      simp [relScanEntries]
      omega
  rw [allRelScanEntries, h, List.enum_length]
  rfl

theorem uncorrelatedNodeEntries_eq_flatMap (env : PlannerEnv) (ctx : JoinOrderEnumeratorContext)
    (info : QueryGraphPlanningInfo) :
    uncorrelatedNodeEntries env ctx info =
      ctx.queryGraph.queryNodes.enum.flatMap
        (fun e => [uncorrelatedNodeEntry env ctx info e.1 e.2]) := by
  rw [flatMap_singleton_eq_map]
  rfl

theorem uncorrelatedNodeEntry_key (env : PlannerEnv) (ctx : JoinOrderEnumeratorContext)
    (info : QueryGraphPlanningInfo) (nodePos : Nat) (node : NodeExpression) :
    (uncorrelatedNodeEntry env ctx info nodePos node).1 = ⟨{nodePos}, ∅⟩ := by
  unfold uncorrelatedNodeEntry
  split <;> rfl

/-- C16: in the modes `NONE` and `INTERNAL_ID_CORRELATED`, `planBaseTableScans`
returns and adds exactly `n + 2m` plans for `n` nodes and `m` relationships: for
every query node one plan, under the singleton subgraph of the node, and for
every relationship the two plans of `planRelScan`, under the subgraph of the
relationship. The plan of a node is a bare `ScanNodeTable` with the empty
property list when the mode is `INTERNAL_ID_CORRELATED` and the internal ID of the
node is a correlated expression; otherwise it is a `ScanNodeTable` with
`getProperties(node)` under the filters of the predicates newly matched at the
node. -/
theorem planBaseTableScans_uncorrelated (env : PlannerEnv) (ctx : JoinOrderEnumeratorContext)
    (info : QueryGraphPlanningInfo)
    (hmode : info.subqueryType = .NONE ∨ info.subqueryType = .INTERNAL_ID_CORRELATED) :
    ∃ ctx2 : JoinOrderEnumeratorContext,
      planBaseTableScans env ctx info = .ok ctx2 ∧
      ctx2 = ctx.addPlans (uncorrelatedNodeEntries env ctx info ++ allRelScanEntries env ctx) ∧
      (uncorrelatedNodeEntries env ctx info ++ allRelScanEntries env ctx).length =
        ctx.queryGraph.getNumQueryNodes + 2 * ctx.queryGraph.getNumQueryRels ∧
      (∀ (nodePos : Nat) (node : NodeExpression),
        ctx.queryGraph.queryNodes[nodePos]? = some node →
        ctx2.subPlansTable.plans ⟨{nodePos}, ∅⟩ =
          ctx.subPlansTable.plans ⟨{nodePos}, ∅⟩ ++
            [if info.subqueryType = .INTERNAL_ID_CORRELATED ∧
                expression_set.contains info.corrExprs node.internalID = true then
              appendScanNodeTable env node.internalID node.tableIDs []
            else
              appendFilters env
                (getNewlyMatchedExprs ctx.queryGraph [⟨∅, ∅⟩] ⟨{nodePos}, ∅⟩ ctx.whereExpressions)
                (appendScanNodeTable env node.internalID node.tableIDs
                  (env.getProperties node.uniqueName))]) ∧
      (∀ (relPos : Nat) (rel : RelExpression),
        ctx.queryGraph.queryRels[relPos]? = some rel →
        ctx2.subPlansTable.plans ⟨∅, {relPos}⟩ =
          ctx.subPlansTable.plans ⟨∅, {relPos}⟩ ++
            (relScanEntries env ctx relPos rel).map (fun entry => entry.2)) := by
  refine ⟨_, planBaseTableScans_eq_of_uncorrelated env ctx info hmode, rfl, ?_, ?_, ?_⟩
  · rw [List.length_append, allRelScanEntries_length, uncorrelatedNodeEntries, List.length_map,
      List.enum_length]
    rfl
  · intro nodePos node hnode
    rw [addPlans_plans, List.filter_append, uncorrelatedNodeEntries_eq_flatMap,
      filter_key_enum_flatMap (fun i x => [uncorrelatedNodeEntry env ctx info i x])
        (fun i => ⟨{i}, ∅⟩)
        (fun i x entry hentry => by
          rw [List.mem_singleton.mp hentry]
          exact uncorrelatedNodeEntry_key env ctx info i x)
        nodeKey_injective _ nodePos node hnode,
      filter_key_eq_nil (allRelScanEntries env ctx) ⟨{nodePos}, ∅⟩
        (fun entry hentry => by
          obtain ⟨relPos, hkey⟩ := allRelScanEntries_key env ctx entry hentry
          rw [hkey]
          exact (nodeKey_ne_relKey nodePos relPos).symm)]
    simp only [List.append_nil, List.map_cons, List.map_nil, uncorrelatedNodeEntry]
    split <;> rfl
  · intro relPos rel hrel
    rw [addPlans_plans, List.filter_append,
      filter_key_eq_nil (uncorrelatedNodeEntries env ctx info) ⟨∅, {relPos}⟩
        (fun entry hentry => by
          rw [uncorrelatedNodeEntries, List.mem_map] at hentry
          obtain ⟨e, _, he⟩ := hentry
          rw [← he, uncorrelatedNodeEntry_key]
          exact nodeKey_ne_relKey e.1 relPos),
      allRelScanEntries,
      filter_key_enum_flatMap (relScanEntries env ctx) (fun i => ⟨∅, {i}⟩)
        (relScanEntries_key env ctx) relKey_injective _ relPos rel hrel]
    rfl

theorem mem_correlatedNodePositions (qg : QueryGraph) (corrExprs : expression_vector)
    (nodePos : Nat) :
    nodePos ∈ correlatedNodePositions qg corrExprs ↔
      ∃ node : NodeExpression, qg.queryNodes[nodePos]? = some node ∧
        expression_set.contains corrExprs node.internalID = true := by
  simp only [correlatedNodePositions, List.mem_toFinset, List.mem_map, List.mem_filter]
  constructor
  · rintro ⟨e, ⟨he, hc⟩, hpos⟩
    have he2 : (e.1, e.2) ∈ qg.queryNodes.enum := he
    rw [List.mk_mem_enum_iff_getElem?] at he2
    exact ⟨e.2, by rw [← hpos]; exact he2, hc⟩
  · rintro ⟨node, hnode, hc⟩
    exact ⟨(nodePos, node), ⟨List.mk_mem_enum_iff_getElem?.mpr hnode, hc⟩, rfl⟩

theorem correlatedModeNodeEntries_eq_flatMap (env : PlannerEnv)
    (ctx : JoinOrderEnumeratorContext) (info : QueryGraphPlanningInfo) :
    correlatedModeNodeEntries env ctx info =
      ctx.queryGraph.queryNodes.enum.flatMap
        (fun e => if expression_set.contains info.corrExprs e.2.internalID = true then []
          else [nodeScanEntry env ctx e.1 e.2]) :=
  (flatMap_ite_eq_filter_map
    (fun e : Nat × NodeExpression => expression_set.contains info.corrExprs e.2.internalID)
    (fun e => nodeScanEntry env ctx e.1 e.2) _).symm

theorem correlatedModeNodeEntries_key (env : PlannerEnv) (ctx : JoinOrderEnumeratorContext)
    (info : QueryGraphPlanningInfo) :
    ∀ entry ∈ correlatedModeNodeEntries env ctx info,
      ∃ (nodePos : Nat) (node : NodeExpression), ctx.queryGraph.queryNodes[nodePos]? = some node ∧
        expression_set.contains info.corrExprs node.internalID = false ∧
        entry = nodeScanEntry env ctx nodePos node := by
  intro entry hentry
  simp only [correlatedModeNodeEntries, List.mem_map, List.mem_filter] at hentry
  obtain ⟨e, ⟨he, hc⟩, hentry⟩ := hentry
  have he2 : (e.1, e.2) ∈ ctx.queryGraph.queryNodes.enum := he
  rw [List.mk_mem_enum_iff_getElem?] at he2
  exact ⟨e.1, e.2, he2, by simpa using hc, hentry.symm⟩

/-- C15: in mode `CORRELATED`, `planBaseTableScans` returns and adds, in this
order, the full scan of every node whose internal ID is not a correlated
expression, the one plan of `planCorrelatedExpressionsScan`, and the two plans of
every relationship. A node whose internal ID is not correlated gets one plan under
its singleton subgraph; a node whose internal ID is correlated gets no node scan:
the only plan that can appear under its singleton subgraph is the correlated plan,
when that node is the only correlated one. The correlated plan is
`ExpressionsScan(corrExprs)` with cardinality set to `corrExprsCard`, then the
filters of the predicates newly matched at the correlated subgraph, then
`Distinct(corrExprs)`; it is stored under the subgraph whose node selector is
exactly the set of positions of the correlated nodes and whose relationship
selector is empty. -/
theorem planBaseTableScans_correlated (env : PlannerEnv) (ctx : JoinOrderEnumeratorContext)
    (info : QueryGraphPlanningInfo) (hmode : info.subqueryType = .CORRELATED) :
    ∃ ctx2 : JoinOrderEnumeratorContext,
      planBaseTableScans env ctx info = .ok ctx2 ∧
      ctx2 = ctx.addPlans (correlatedModeNodeEntries env ctx info ++
        [correlatedScanEntry env ctx info] ++ allRelScanEntries env ctx) ∧
      (∀ nodePos : Nat, nodePos ∈ correlatedNodePositions ctx.queryGraph info.corrExprs ↔
        ∃ node : NodeExpression, ctx.queryGraph.queryNodes[nodePos]? = some node ∧
          expression_set.contains info.corrExprs node.internalID = true) ∧
      (∀ (nodePos : Nat) (node : NodeExpression),
        ctx.queryGraph.queryNodes[nodePos]? = some node →
        expression_set.contains info.corrExprs node.internalID = false →
        ctx2.subPlansTable.plans ⟨{nodePos}, ∅⟩ =
          ctx.subPlansTable.plans ⟨{nodePos}, ∅⟩ ++
            [appendFilters env
              (getNewlyMatchedExprs ctx.queryGraph [⟨∅, ∅⟩] ⟨{nodePos}, ∅⟩ ctx.whereExpressions)
              (appendScanNodeTable env node.internalID node.tableIDs
                (env.getProperties node.uniqueName))]) ∧
      (∀ (nodePos : Nat) (node : NodeExpression),
        ctx.queryGraph.queryNodes[nodePos]? = some node →
        expression_set.contains info.corrExprs node.internalID = true →
        (∀ entry ∈ correlatedModeNodeEntries env ctx info, entry.1 ≠ ⟨{nodePos}, ∅⟩) ∧
        ctx2.subPlansTable.plans ⟨{nodePos}, ∅⟩ =
          ctx.subPlansTable.plans ⟨{nodePos}, ∅⟩ ++
            (if correlatedNodePositions ctx.queryGraph info.corrExprs = {nodePos} then
              [(correlatedScanEntry env ctx info).2]
            else [])) ∧
      ctx2.subPlansTable.plans ⟨correlatedNodePositions ctx.queryGraph info.corrExprs, ∅⟩ =
        ctx.subPlansTable.plans ⟨correlatedNodePositions ctx.queryGraph info.corrExprs, ∅⟩ ++
          [appendDistinct env info.corrExprs
            (appendFilters env
              (getNewlyMatchedExprs ctx.queryGraph [⟨∅, ∅⟩]
                ⟨correlatedNodePositions ctx.queryGraph info.corrExprs, ∅⟩ ctx.whereExpressions)
              ((appendExpressionsScan env info.corrExprs).setCardinality info.corrExprsCard))] ∧
      ((appendExpressionsScan env info.corrExprs).setCardinality info.corrExprsCard).cardinality =
        info.corrExprsCard := by
  have hrelNil : ∀ nodes : Finset Nat,
      (allRelScanEntries env ctx).filter (fun entry => decide (entry.1 = ⟨nodes, ∅⟩)) = [] := by
    intro nodes
    apply filter_key_eq_nil
    intro entry hentry
    obtain ⟨relPos, hkey⟩ := allRelScanEntries_key env ctx entry hentry
    rw [hkey]
    intro h
    have h2 : ({relPos} : Finset Nat) = ∅ := congrArg SubqueryGraph.queryRelsSelector h
    exact Finset.singleton_ne_empty relPos h2
  have hnodeKey : ∀ (i : Nat) (x : NodeExpression),
      ∀ entry ∈ (if expression_set.contains info.corrExprs x.internalID = true then []
        else [nodeScanEntry env ctx i x]), entry.1 = (⟨{i}, ∅⟩ : SubqueryGraph) := by
    intro i x entry hentry
    split at hentry
    · simp at hentry
    · rw [List.mem_singleton.mp hentry]
      rfl
  have hcorrNe : ∀ (nodePos : Nat) (node : NodeExpression),
      ctx.queryGraph.queryNodes[nodePos]? = some node →
      expression_set.contains info.corrExprs node.internalID = true →
      ∀ entry ∈ correlatedModeNodeEntries env ctx info, entry.1 ≠ ⟨{nodePos}, ∅⟩ := by
    intro nodePos node hnode hc entry hentry
    obtain ⟨p, n2, hn2, hc2, he⟩ := correlatedModeNodeEntries_key env ctx info entry hentry
    rw [he]
    intro hkey
    have hp : p = nodePos := nodeKey_injective p nodePos hkey
    subst hp
    rw [hnode] at hn2
    cases hn2
    rw [hc] at hc2
    cases hc2
  refine ⟨_, planBaseTableScans_eq_of_correlated env ctx info hmode, rfl,
    mem_correlatedNodePositions ctx.queryGraph info.corrExprs, ?_, ?_, ?_, rfl⟩
  · intro nodePos node hnode hc
    have hcorr : [correlatedScanEntry env ctx info].filter
        (fun entry => decide (entry.1 = ⟨{nodePos}, ∅⟩)) = [] := by
      apply filter_key_eq_nil
      intro entry hentry
      rw [List.mem_singleton.mp hentry]
      intro hkey
      have h2 : correlatedNodePositions ctx.queryGraph info.corrExprs = {nodePos} :=
        congrArg SubqueryGraph.queryNodesSelector hkey
      have hmem : nodePos ∈ correlatedNodePositions ctx.queryGraph info.corrExprs := by
        rw [h2]; exact Finset.mem_singleton_self _
      obtain ⟨n2, hn2, hc2⟩ := (mem_correlatedNodePositions _ _ _).mp hmem
      rw [hnode] at hn2
      cases hn2
      rw [hc] at hc2
      cases hc2
    rw [addPlans_plans, List.filter_append, List.filter_append, hrelNil, hcorr,
      correlatedModeNodeEntries_eq_flatMap,
      filter_key_enum_flatMap _ (fun i => ⟨{i}, ∅⟩) hnodeKey nodeKey_injective _ nodePos node
        hnode]
    simp [hc, nodeScanEntry]
  · intro nodePos node hnode hc
    refine ⟨hcorrNe nodePos node hnode hc, ?_⟩
    rw [addPlans_plans, List.filter_append, List.filter_append, hrelNil,
      filter_key_eq_nil _ _ (hcorrNe nodePos node hnode hc)]
    by_cases hkey : correlatedNodePositions ctx.queryGraph info.corrExprs = {nodePos}
    · simp [hkey, correlatedScanEntry]
    · have hne : ¬ (correlatedScanEntry env ctx info).1 = ⟨{nodePos}, ∅⟩ := by
        intro h
        exact hkey (congrArg SubqueryGraph.queryNodesSelector h)
      simp [hkey, hne]
  · have hnodes : (correlatedModeNodeEntries env ctx info).filter
        (fun entry => decide (entry.1 =
          ⟨correlatedNodePositions ctx.queryGraph info.corrExprs, ∅⟩)) = [] := by
      apply filter_key_eq_nil
      intro entry hentry
      obtain ⟨p, n2, hn2, hc2, he⟩ := correlatedModeNodeEntries_key env ctx info entry hentry
      rw [he]
      intro hkey
      have h2 : ({p} : Finset Nat) = correlatedNodePositions ctx.queryGraph info.corrExprs :=
        congrArg SubqueryGraph.queryNodesSelector hkey
      have hmem : p ∈ correlatedNodePositions ctx.queryGraph info.corrExprs := by
        rw [← h2]; exact Finset.mem_singleton_self _
      obtain ⟨n3, hn3, hc3⟩ := (mem_correlatedNodePositions _ _ _).mp hmem
      rw [hn2] at hn3
      cases hn3
      rw [hc2] at hc3
      cases hc3
    rw [addPlans_plans, List.filter_append, List.filter_append, hrelNil, hnodes]
    simp [correlatedScanEntry]

/-- Witness of C16 on the query graph `e1: a -> b` in mode
`INTERNAL_ID_CORRELATED` with node `a` correlated. -/
theorem planBaseTableScans_uncorrelated_witness :
    (internalIDCorrelatedOnA.subqueryType = .NONE ∨
      internalIDCorrelatedOnA.subqueryType = .INTERNAL_ID_CORRELATED) ∧
    ∃ ctx2 : JoinOrderEnumeratorContext,
      planBaseTableScans sampleEnv extendCtx internalIDCorrelatedOnA = .ok ctx2 ∧
      ctx2 = extendCtx.addPlans (uncorrelatedNodeEntries sampleEnv extendCtx internalIDCorrelatedOnA ++ allRelScanEntries sampleEnv extendCtx) ∧
      (uncorrelatedNodeEntries sampleEnv extendCtx internalIDCorrelatedOnA ++ allRelScanEntries sampleEnv extendCtx).length =
        extendCtx.queryGraph.getNumQueryNodes + 2 * extendCtx.queryGraph.getNumQueryRels ∧
      (∀ (nodePos : Nat) (node : NodeExpression),
        extendCtx.queryGraph.queryNodes[nodePos]? = some node →
        ctx2.subPlansTable.plans ⟨{nodePos}, ∅⟩ =
          extendCtx.subPlansTable.plans ⟨{nodePos}, ∅⟩ ++
            [if internalIDCorrelatedOnA.subqueryType = .INTERNAL_ID_CORRELATED ∧
                expression_set.contains internalIDCorrelatedOnA.corrExprs node.internalID = true then
              appendScanNodeTable sampleEnv node.internalID node.tableIDs []
            else
              appendFilters sampleEnv
                (getNewlyMatchedExprs extendCtx.queryGraph [⟨∅, ∅⟩] ⟨{nodePos}, ∅⟩ extendCtx.whereExpressions)
                (appendScanNodeTable sampleEnv node.internalID node.tableIDs
                  (sampleEnv.getProperties node.uniqueName))]) ∧
      (∀ (relPos : Nat) (rel : RelExpression),
        extendCtx.queryGraph.queryRels[relPos]? = some rel →
        ctx2.subPlansTable.plans ⟨∅, {relPos}⟩ =
          extendCtx.subPlansTable.plans ⟨∅, {relPos}⟩ ++
            (relScanEntries sampleEnv extendCtx relPos rel).map (fun entry => entry.2)) :=
  ⟨Or.inr rfl,
    planBaseTableScans_uncorrelated sampleEnv extendCtx internalIDCorrelatedOnA (Or.inr rfl)⟩

/-- Witness of C15 on the query graph `e1: a -> b` in mode `CORRELATED` with
node `a` correlated. -/
theorem planBaseTableScans_correlated_witness :
    correlatedOnA.subqueryType = .CORRELATED ∧
    ∃ ctx2 : JoinOrderEnumeratorContext,
      planBaseTableScans sampleEnv extendCtx correlatedOnA = .ok ctx2 ∧
      ctx2 = extendCtx.addPlans (correlatedModeNodeEntries sampleEnv extendCtx correlatedOnA ++
        [correlatedScanEntry sampleEnv extendCtx correlatedOnA] ++ allRelScanEntries sampleEnv extendCtx) ∧
      (∀ nodePos : Nat, nodePos ∈ correlatedNodePositions extendCtx.queryGraph correlatedOnA.corrExprs ↔
        ∃ node : NodeExpression, extendCtx.queryGraph.queryNodes[nodePos]? = some node ∧
          expression_set.contains correlatedOnA.corrExprs node.internalID = true) ∧
      (∀ (nodePos : Nat) (node : NodeExpression),
        extendCtx.queryGraph.queryNodes[nodePos]? = some node →
        expression_set.contains correlatedOnA.corrExprs node.internalID = false →
        ctx2.subPlansTable.plans ⟨{nodePos}, ∅⟩ =
          extendCtx.subPlansTable.plans ⟨{nodePos}, ∅⟩ ++
            [appendFilters sampleEnv
              (getNewlyMatchedExprs extendCtx.queryGraph [⟨∅, ∅⟩] ⟨{nodePos}, ∅⟩ extendCtx.whereExpressions)
              (appendScanNodeTable sampleEnv node.internalID node.tableIDs
                (sampleEnv.getProperties node.uniqueName))]) ∧
      (∀ (nodePos : Nat) (node : NodeExpression),
        extendCtx.queryGraph.queryNodes[nodePos]? = some node →
        expression_set.contains correlatedOnA.corrExprs node.internalID = true →
        (∀ entry ∈ correlatedModeNodeEntries sampleEnv extendCtx correlatedOnA, entry.1 ≠ ⟨{nodePos}, ∅⟩) ∧
        ctx2.subPlansTable.plans ⟨{nodePos}, ∅⟩ =
          extendCtx.subPlansTable.plans ⟨{nodePos}, ∅⟩ ++
            (if correlatedNodePositions extendCtx.queryGraph correlatedOnA.corrExprs = {nodePos} then
              [(correlatedScanEntry sampleEnv extendCtx correlatedOnA).2]
            else [])) ∧
      ctx2.subPlansTable.plans ⟨correlatedNodePositions extendCtx.queryGraph correlatedOnA.corrExprs, ∅⟩ =
        extendCtx.subPlansTable.plans ⟨correlatedNodePositions extendCtx.queryGraph correlatedOnA.corrExprs, ∅⟩ ++
          [appendDistinct sampleEnv correlatedOnA.corrExprs
            (appendFilters sampleEnv
              (getNewlyMatchedExprs extendCtx.queryGraph [⟨∅, ∅⟩]
                ⟨correlatedNodePositions extendCtx.queryGraph correlatedOnA.corrExprs, ∅⟩ extendCtx.whereExpressions)
              ((appendExpressionsScan sampleEnv correlatedOnA.corrExprs).setCardinality correlatedOnA.corrExprsCard))] ∧
      ((appendExpressionsScan sampleEnv correlatedOnA.corrExprs).setCardinality correlatedOnA.corrExprsCard).cardinality =
        correlatedOnA.corrExprsCard :=
  ⟨rfl, planBaseTableScans_correlated sampleEnv extendCtx correlatedOnA rfl⟩

theorem scansNodeIn_withFilters (set : expression_set) (predicates : expression_vector) :
    ∀ op : LogicalOperator,
      (op.withFilters predicates).scansNodeIn set = op.scansNodeIn set := by
  induction predicates with
  | nil => intro op; rfl
  | cons p rest ih =>
    intro op
    have h := ih (.filter p op)
    simpa [LogicalOperator.withFilters, LogicalOperator.scansNodeIn] using h

theorem scansNodeIn_appendFilters (env : PlannerEnv) (set : expression_set)
    (predicates : expression_vector) (plan : LogicalPlan) :
    (appendFilters env predicates plan).lastOperator.scansNodeIn set =
      plan.lastOperator.scansNodeIn set := by
  rw [appendFilters_lastOperator, scansNodeIn_withFilters]

theorem scansNodeIn_appendExtend_scan (env : PlannerEnv) (set : expression_set)
    (boundNode nbrNode : NodeExpression) (rel : RelExpression) (direction : ExtendDirection)
    (properties : expression_vector) :
    (appendExtend env boundNode nbrNode rel direction properties
      (appendScanNodeTable env boundNode.internalID boundNode.tableIDs [])).lastOperator.scansNodeIn
        set = set.contains boundNode.internalID := by
  unfold appendExtend
  cases rel.relType <;>
    simp [appendNonRecursiveExtend, appendRecursiveExtend, appendScanNodeTable,
      PlannerEnv.setRoot, LogicalOperator.scansNodeIn]

theorem scansNodeIn_nodeScanEntry (env : PlannerEnv) (ctx : JoinOrderEnumeratorContext)
    (set : expression_set) (nodePos : Nat) (node : NodeExpression) :
    (nodeScanEntry env ctx nodePos node).2.lastOperator.scansNodeIn set =
      set.contains node.internalID := by
  simp [nodeScanEntry, scansNodeIn_appendFilters, appendScanNodeTable, PlannerEnv.setRoot,
    LogicalOperator.scansNodeIn]

theorem scansNodeIn_correlatedScanEntry (env : PlannerEnv) (ctx : JoinOrderEnumeratorContext)
    (info : QueryGraphPlanningInfo) (set : expression_set) :
    (correlatedScanEntry env ctx info).2.lastOperator.scansNodeIn set = false := by
  simp [correlatedScanEntry, appendDistinct, PlannerEnv.setRoot, LogicalOperator.scansNodeIn,
    scansNodeIn_appendFilters, appendExpressionsScan, LogicalPlan.setCardinality]

theorem reachable_maxCost_le (t : SubPlansTable) (hreach : t.Reachable) :
    ∀ (sg : SubqueryGraph), ∀ plan ∈ t.plans sg,
      ∃ ceiling : Nat, t.maxCost sg = some ceiling ∧ ceiling ≤ plan.cost := by
  induction hreach with
  | empty => intro sg plan hplan; simp [SubPlansTable.empty] at hplan
  | addPlan t key added _ ih =>
    intro sg plan hplan
    by_cases hsg : sg = key
    · subst hsg
      simp only [SubPlansTable.addPlan, if_true, List.mem_append, List.mem_singleton] at hplan ⊢
      rcases hplan with hold | hnew
      · obtain ⟨ceiling, hc, hle⟩ := ih sg plan hold
        rw [hc]
        exact ⟨min ceiling added.cost, rfl, le_trans (min_le_left _ _) hle⟩
      · subst hnew
        cases hmax : t.maxCost sg with
        | none => exact ⟨plan.cost, rfl, le_refl _⟩
        | some old => exact ⟨min old plan.cost, rfl, min_le_right _ _⟩
    · simp only [SubPlansTable.addPlan, hsg, if_false] at hplan ⊢
      exact ih sg plan hplan

theorem getElem?_cons_sub {α : Type} (a : α) (l : List α) (j x : Nat) (h : j + 1 ≤ x) :
    (a :: l)[x - j]? = l[x - (j + 1)]? := by
  have hx : x - j = (x - (j + 1)) + 1 := by omega
  rw [hx, List.getElem?_cons_succ]

theorem extractPredicateIndices_spec (queryGraph : QueryGraph) (evaluated : List Nat) :
    ∀ (predicates : expression_vector) (j : Nat) (acc : List Nat),
      (∀ x ∈ acc, x < j) → acc.Nodup →
      (extractPredicateIndices queryGraph evaluated predicates j acc).Nodup ∧
      ∀ x : Nat, x ∈ extractPredicateIndices queryGraph evaluated predicates j acc ↔
        x ∈ acc ∨ (j ≤ x ∧ ∃ p : Expression, predicates[x - j]? = some p ∧
          p.expressionType ≠ .LITERAL ∧ x ∉ evaluated ∧
          queryGraph.canProjectExpression p = true) := by
  intro predicates
  induction predicates with
  | nil =>
    intro j acc _ hnodup
    refine ⟨hnodup, ?_⟩
    intro x
    simp [extractPredicateIndices]
  | cons predicate rest ih =>
    intro j acc hacc hnodup
    have hacc2 : ∀ x ∈ acc, x < j + 1 := fun x hx => Nat.lt_succ_of_lt (hacc x hx)
    have hshift : ∀ x : Nat, (j + 1 ≤ x ∧ ∃ p : Expression, rest[x - (j + 1)]? = some p ∧
          p.expressionType ≠ .LITERAL ∧ x ∉ evaluated ∧
          queryGraph.canProjectExpression p = true) ↔
        (j + 1 ≤ x ∧ ∃ p : Expression, (predicate :: rest)[x - j]? = some p ∧
          p.expressionType ≠ .LITERAL ∧ x ∉ evaluated ∧
          queryGraph.canProjectExpression p = true) := by
      intro x
      constructor
      · rintro ⟨hx, p, hp, hrest⟩
        exact ⟨hx, p, by rw [getElem?_cons_sub _ _ _ _ hx]; exact hp, hrest⟩
      · rintro ⟨hx, p, hp, hrest⟩
        exact ⟨hx, p, by rw [getElem?_cons_sub _ _ _ _ hx] at hp; exact hp, hrest⟩
    have hskip : ¬ (predicate.expressionType ≠ .LITERAL ∧ j ∉ evaluated ∧
        queryGraph.canProjectExpression predicate = true) →
        ∀ x : Nat, (x ∈ acc ∨ (j + 1 ≤ x ∧ ∃ p : Expression, rest[x - (j + 1)]? = some p ∧
          p.expressionType ≠ .LITERAL ∧ x ∉ evaluated ∧
          queryGraph.canProjectExpression p = true)) ↔
        (x ∈ acc ∨ (j ≤ x ∧ ∃ p : Expression, (predicate :: rest)[x - j]? = some p ∧
          p.expressionType ≠ .LITERAL ∧ x ∉ evaluated ∧
          queryGraph.canProjectExpression p = true)) := by
      intro hno x
      rw [hshift x]
      constructor
      · rintro (h | ⟨hx, h⟩)
        · exact Or.inl h
        · exact Or.inr ⟨by omega, h⟩
      · rintro (h | ⟨hx, p, hp, h⟩)
        · exact Or.inl h
        · by_cases hxj : x = j
          · subst hxj
            simp only [Nat.sub_self, List.getElem?_cons_zero, Option.some.injEq] at hp
            subst hp
            exact absurd h hno
          · exact Or.inr ⟨by omega, p, hp, h⟩
    unfold extractPredicateIndices
    by_cases hlit : predicate.expressionType = .LITERAL
    · simp only [hlit, if_true]
      obtain ⟨h1, h2⟩ := ih (j + 1) acc hacc2 hnodup
      refine ⟨h1, fun x => (h2 x).trans (hskip (fun h => h.1 hlit) x)⟩
    · simp only [hlit, if_false]
      by_cases hev : evaluated.contains j = true
      · simp only [hev, if_true]
        obtain ⟨h1, h2⟩ := ih (j + 1) acc hacc2 hnodup
        have hmem : j ∈ evaluated := by simpa using hev
        refine ⟨h1, fun x => (h2 x).trans (hskip (fun h => h.2.1 hmem) x)⟩
      · simp only [hev, if_false]
        by_cases hcan : queryGraph.canProjectExpression predicate = true
        · simp only [hcan, if_true]
          have hnot : acc.contains j = false := by
            have hnmem : j ∉ acc := fun hmem => Nat.lt_irrefl _ (hacc j hmem)
            simpa using hnmem
          simp only [hnot]
          have hacc3 : ∀ x ∈ acc ++ [j], x < j + 1 := by
            intro x hx
            rcases List.mem_append.mp hx with h | h
            · exact hacc2 x h
            · rw [List.mem_singleton.mp h]; exact Nat.lt_succ_self _
          have hnodup3 : (acc ++ [j]).Nodup := by
            rw [List.nodup_append]
            refine ⟨hnodup, List.nodup_singleton _, ?_⟩
            intro a ha hb
            rw [List.mem_singleton.mp hb] at ha
            exact Nat.lt_irrefl _ (hacc j ha)
          obtain ⟨h1, h2⟩ := ih (j + 1) (acc ++ [j]) hacc3 hnodup3
          refine ⟨h1, fun x => (h2 x).trans ?_⟩
          rw [hshift x]
          have hnev : j ∉ evaluated := by simpa using hev
          constructor
          · rintro (h | ⟨hx, h⟩)
            · rcases List.mem_append.mp h with h | h
              · exact Or.inl h
              · rw [List.mem_singleton.mp h]
                exact Or.inr ⟨le_refl _, predicate, by simp, hlit, hnev, hcan⟩
            · exact Or.inr ⟨by omega, h⟩
          · rintro (h | ⟨hx, p, hp, h⟩)
            · exact Or.inl (List.mem_append_left _ h)
            · by_cases hxj : x = j
              · exact Or.inl (List.mem_append_right _ (by rw [hxj]; exact List.mem_singleton_self _))
              · exact Or.inr ⟨by omega, p, hp, h⟩
        · simp only [hcan]
          obtain ⟨h1, h2⟩ := ih (j + 1) acc hacc2 hnodup
          refine ⟨h1, fun x => (h2 x).trans (hskip (fun h => hcan h.2.2) x)⟩

theorem extractPredicateIndices_mem (queryGraph : QueryGraph) (evaluated : List Nat)
    (predicates : expression_vector) (x : Nat) :
    x ∈ extractPredicateIndices queryGraph evaluated predicates 0 [] ↔
      ∃ p : Expression, predicates[x]? = some p ∧ p.expressionType ≠ .LITERAL ∧
        x ∉ evaluated ∧ queryGraph.canProjectExpression p = true := by
  have h := (extractPredicateIndices_spec queryGraph evaluated predicates 0 []
    (fun x hx => by simp at hx) List.nodup_nil).2 x
  simpa using h

theorem mem_foldl_insert (indices : List Nat) :
    ∀ (evaluated : List Nat) (x : Nat),
      x ∈ indices.foldl
          (fun evaluated idx => if evaluated.contains idx then evaluated else evaluated ++ [idx])
          evaluated ↔
        x ∈ evaluated ∨ x ∈ indices := by
  induction indices with
  | nil => intro evaluated x; simp
  | cons idx rest ih =>
    intro evaluated x
    rw [List.foldl_cons, ih]
    by_cases h : idx ∈ evaluated
    · have hc : evaluated.contains idx = true := by simpa using h
      simp only [hc, if_true, List.mem_cons]
      constructor
      · rintro (h1 | h1)
        · exact Or.inl h1
        · exact Or.inr (Or.inr h1)
      · rintro (h1 | h1 | h1)
        · exact Or.inl h1
        · exact Or.inl (h1 ▸ h)
        · exact Or.inr h1
    · have hc : evaluated.contains idx = false := by simpa using h
      simp only [hc, Bool.false_eq_true, if_false, List.mem_append, List.mem_singleton,
        List.mem_cons]
      tauto

theorem collectionInvariant_step (env : EnumeratorEnv) (fuel : Nat)
    (info : QueryGraphPlanningInfo) (idx : Int) (done : List QueryGraph)
    (state next : CollectionState) (queryGraph : QueryGraph)
    (hinv : CollectionInvariant env fuel info idx done state)
    (hstep : enumerateComponent env fuel info idx state (done.length, queryGraph) = .ok next) :
    CollectionInvariant env fuel info idx (done ++ [queryGraph]) next := by
  obtain ⟨hcalls, hev, hevCalls, hspec, hplans⟩ := hinv
  have hlen : state.calls.length = done.length := by rw [← hcalls, List.length_map]
  unfold enumerateComponent at hstep
  simp only [] at hstep
  cases hrun : enumerateQueryGraph env fuel queryGraph
      (componentInfo info idx done.length
        ((extractPredicateIndices queryGraph state.evaluatedPredicatesIndices info.predicates 0
          []).filterMap (fun idx => info.predicates[idx]?))) with
  | error e => rw [hrun] at hstep; cases hstep
  | ok plans =>
    rw [hrun] at hstep
    simp only [Except.ok.injEq] at hstep
    subst hstep
    have hextract := extractPredicateIndices_mem queryGraph state.evaluatedPredicatesIndices
      info.predicates
    have hnodup := (extractPredicateIndices_spec queryGraph state.evaluatedPredicatesIndices
      info.predicates 0 [] (fun x hx => by simp at hx) List.nodup_nil).1
    refine ⟨?_, ?_, ?_, ?_, ?_⟩
    · simp [hcalls]
    · intro j
      simp only [mem_foldl_insert, hextract, hev, List.mem_append, List.mem_singleton]
      constructor
      · rintro (⟨p, hp, hlit, g, hg, hcan⟩ | ⟨p, hp, hlit, _, hcan⟩)
        · exact ⟨p, hp, hlit, g, Or.inl hg, hcan⟩
        · exact ⟨p, hp, hlit, queryGraph, Or.inr rfl, hcan⟩
      · rintro ⟨p, hp, hlit, g, hg | hg, hcan⟩
        · exact Or.inl ⟨p, hp, hlit, g, hg, hcan⟩
        · by_cases hdone : ∃ g2 ∈ done, g2.canProjectExpression p = true
          · obtain ⟨g2, hg2, hcan2⟩ := hdone
            exact Or.inl ⟨p, hp, hlit, g2, hg2, hcan2⟩
          · refine Or.inr ⟨p, hp, hlit, ?_, hg ▸ hcan⟩
            rintro ⟨p2, hp2, _, g2, hg2, hcan2⟩
            rw [hp] at hp2
            cases hp2
            exact hdone ⟨g2, hg2, hcan2⟩
    · intro j
      simp only [mem_foldl_insert, hevCalls, List.mem_append, List.mem_singleton]
      constructor
      · rintro (⟨call, hcall, hj⟩ | hj)
        · exact ⟨call, Or.inl hcall, hj⟩
        · exact ⟨_, Or.inr rfl, hj⟩
      · rintro ⟨call, hcall | hcall, hj⟩
        · exact Or.inl ⟨call, hcall, hj⟩
        · subst hcall
          exact Or.inr hj
    · intro i call hcall
      by_cases hi : i < state.calls.length
      · rw [List.getElem?_append_left hi] at hcall
        have htake : (done ++ [queryGraph]).take i = done.take i := by
          rw [List.take_append_of_le_length (by omega)]
        rw [htake]
        exact hspec i call hcall
      · have hi2 : state.calls.length ≤ i := Nat.le_of_not_lt hi
        rw [List.getElem?_append_right hi2] at hcall
        have hi3 : i = state.calls.length := by
          by_contra hne
          have hpos : i - state.calls.length = (i - state.calls.length - 1) + 1 := by omega
          rw [hpos] at hcall
          simp at hcall
        subst hi3
        simp only [Nat.sub_self, List.getElem?_cons_zero, Option.some.injEq] at hcall
        subst hcall
        have htake : (done ++ [queryGraph]).take state.calls.length = done := by
          rw [hlen, List.take_left']
          rfl
        rw [htake]
        refine ⟨hnodup, ?_, by simp only [hlen]⟩
        intro j
        simp only [hextract]
        constructor
        · rintro ⟨p, hp, hlit, hnev, hcan⟩
          refine ⟨p, hp, hlit, hcan, ?_⟩
          intro g hg
          by_contra hgcan
          have hgcan2 : g.canProjectExpression p = true := by simpa using hgcan
          exact hnev ((hev j).mpr ⟨p, hp, hlit, g, hg, hgcan2⟩)
        · rintro ⟨p, hp, hlit, hcan, hnone⟩
          refine ⟨p, hp, hlit, ?_, hcan⟩
          intro hmem
          obtain ⟨p2, hp2, _, g, hg, hgcan⟩ := (hev j).mp hmem
          rw [hp] at hp2
          cases hp2
          rw [hnone g hg] at hgcan
          cases hgcan
    · exact List.rel_append hplans (List.Forall₂.cons hrun List.Forall₂.nil)

theorem collectionInvariant_fold (env : EnumeratorEnv) (fuel : Nat)
    (info : QueryGraphPlanningInfo) (idx : Int) :
    ∀ (rest done : List QueryGraph) (state final : CollectionState),
      CollectionInvariant env fuel info idx done state →
      (rest.enumFrom done.length).foldlM (enumerateComponent env fuel info idx) state =
        .ok final →
      CollectionInvariant env fuel info idx (done ++ rest) final := by
  intro rest
  induction rest with
  | nil =>
    intro done state final hinv hfold
    simp only [List.enumFrom_nil, List.foldlM_nil, pure, Except.pure, Except.ok.injEq] at hfold
    subst hfold
    simpa using hinv
  | cons queryGraph rest ih =>
    intro done state final hinv hfold
    rw [List.enumFrom_cons, List.foldlM_cons] at hfold
    cases hstep : enumerateComponent env fuel info idx state (done.length, queryGraph) with
    | error e =>
      rw [hstep] at hfold
      cases hfold
    | ok next =>
      rw [hstep] at hfold
      have hinv2 := collectionInvariant_step env fuel info idx done state next queryGraph hinv hstep
      have hlen : (done ++ [queryGraph]).length = done.length + 1 := by simp
      have := ih (done ++ [queryGraph]) next final hinv2 (by rw [hlen]; exact hfold)
      simpa using this

theorem enumerateQueryGraphCollectionRun_ok (env : EnumeratorEnv) (fuel : Nat)
    (collection : QueryGraphCollection) (info : QueryGraphPlanningInfo)
    (outcome : CollectionOutcome)
    (hok : enumerateQueryGraphCollectionRun env fuel collection info = .ok outcome) :
    ∃ (state : CollectionState) (first : List LogicalPlan) (rest : List (List LogicalPlan)),
      CollectionInvariant env fuel info
        (if info.subqueryType = .CORRELATED then
          getConnectedQueryGraphIdx collection info.corrExprs else -1)
        collection.queryGraphs state ∧
      outcome.calls = state.calls ∧
      outcome.evaluatedPredicatesIndices = state.evaluatedPredicatesIndices ∧
      outcome.plansPerQueryGraph = first :: rest ∧
      first :: rest = state.plansPerQueryGraph ++
        (if info.subqueryType = .CORRELATED ∧
            (if info.subqueryType = .CORRELATED then
              getConnectedQueryGraphIdx collection info.corrExprs else -1) = -1 then
          [[appendDistinct env.toPlannerEnv info.corrExprs
            (appendExpressionsScan env.toPlannerEnv info.corrExprs)]]
        else []) ∧
      outcome.remainingPredicates =
        collectRemainingPredicates state.evaluatedPredicatesIndices info.predicates 0 ∧
      outcome.plans = (rest.foldl (planCrossProduct env.toPlannerEnv) first).map
        (appendFilters env.toPlannerEnv outcome.remainingPredicates) := by
  unfold enumerateQueryGraphCollectionRun at hok
  split at hok
  · cases hok
  · simp only [] at hok
    cases hfold : collection.queryGraphs.enum.foldlM
        (enumerateComponent env fuel info
          (if info.subqueryType = .CORRELATED then
            getConnectedQueryGraphIdx collection info.corrExprs else -1)) ⟨[], [], []⟩ with
    | error e => rw [hfold] at hok; cases hok
    | ok state =>
      rw [hfold] at hok
      have hinit : CollectionInvariant env fuel info
          (if info.subqueryType = .CORRELATED then
            getConnectedQueryGraphIdx collection info.corrExprs else -1) [] ⟨[], [], []⟩ := by
        refine ⟨rfl, ?_, ?_, ?_, List.Forall₂.nil⟩
        · intro j; simp
        · intro j; simp
        · intro i call hcall; simp at hcall
      have hinv := collectionInvariant_fold env fuel info _ collection.queryGraphs [] _ state hinit
        (by simpa [List.enum] using hfold)
      simp only [List.nil_append] at hinv
      simp only [] at hok
      split at hok
      · cases hok
      · rename_i first rest hper
        simp only [Except.ok.injEq] at hok
        subst hok
        refine ⟨state, first, rest, hinv, rfl, rfl, hper, ?_, rfl, rfl⟩
        rw [← hper]
        by_cases hfb : info.subqueryType = .CORRELATED ∧
            (if info.subqueryType = .CORRELATED then
              getConnectedQueryGraphIdx collection info.corrExprs else -1) = -1
        · rw [if_pos hfb, if_pos hfb]
        · rw [if_neg hfb, if_neg hfb, List.append_nil]

theorem foldl_append_singleton_eq_map {α β : Type} (f : α → β) (xs : List α) :
    ∀ acc : List β, xs.foldl (fun result x => result ++ [f x]) acc = acc ++ xs.map f := by
  induction xs with
  | nil => intro acc; simp
  | cons x rest ih => intro acc; simp [ih]

theorem planCrossProduct_eq (env : PlannerEnv) (leftPlans rightPlans : List LogicalPlan) :
    planCrossProduct env leftPlans rightPlans =
      leftPlans.flatMap (fun l => rightPlans.map (fun r => appendCrossProduct env l r)) := by
  have houter : ∀ (ls acc : List LogicalPlan),
      ls.foldl (fun result l => result ++ rightPlans.map (fun r => appendCrossProduct env l r))
        acc = acc ++ ls.flatMap (fun l => rightPlans.map (fun r => appendCrossProduct env l r)) := by
    intro ls
    induction ls with
    | nil => intro acc; simp
    | cons l rest ih => intro acc; simp [ih, List.flatMap_cons]
  unfold planCrossProduct
  simp only [LogicalPlan.shallowCopy]
  have hinner : ∀ (l : LogicalPlan) (acc : List LogicalPlan),
      rightPlans.foldl (fun result r => result ++ [appendCrossProduct env l r]) acc =
        acc ++ rightPlans.map (fun r => appendCrossProduct env l r) :=
    fun l acc => foldl_append_singleton_eq_map (fun r => appendCrossProduct env l r) rightPlans acc
  simp only [hinner, houter, List.nil_append]

theorem planCrossProduct_length (env : PlannerEnv) (leftPlans rightPlans : List LogicalPlan) :
    (planCrossProduct env leftPlans rightPlans).length = leftPlans.length * rightPlans.length := by
  rw [planCrossProduct_eq]
  induction leftPlans with
  | nil => simp
  | cons l rest ih =>
    rw [List.flatMap_cons, List.length_append, ih, List.length_map, List.length_cons]
    ring

theorem foldl_planCrossProduct_eq (env : PlannerEnv) :
    ∀ (rest : List (List LogicalPlan)) (first : List LogicalPlan),
      rest.foldl (planCrossProduct env) first =
        first.flatMap (fun plan =>
          (pickOnePerList rest).map (fun pick => crossProductChain env plan pick)) := by
  intro rest
  induction rest with
  | nil =>
    intro first
    simp only [List.foldl_nil, pickOnePerList, List.map_cons, List.map_nil, crossProductChain]
    rw [flatMap_singleton_eq_map]
    simp
  | cons plans rest ih =>
    intro first
    rw [List.foldl_cons, ih, planCrossProduct_eq]
    simp only [pickOnePerList]
    induction first with
    | nil => rfl
    | cons l ls ihl =>
      rw [List.flatMap_cons, List.flatMap_append, ihl, List.flatMap_cons]
      congr 1
      clear ihl
      induction plans with
      | nil => rfl
      | cons r rs ihr =>
        rw [List.map_cons, List.flatMap_cons, List.flatMap_cons, List.map_append, ← ihr,
          List.map_map]
        rfl

theorem pickOnePerList_length :
    ∀ lists : List (List LogicalPlan),
      (pickOnePerList lists).length = (lists.map List.length).prod := by
  intro lists
  induction lists with
  | nil => rfl
  | cons plans rest ih =>
    simp only [pickOnePerList, List.map_cons, List.prod_cons]
    induction plans with
    | nil => simp
    | cons p ps ihp =>
      rw [List.flatMap_cons, List.length_append, ihp, List.length_map, ih, List.length_cons]
      ring

theorem flatMap_map_length {α β : Type} (xs : List α) (ys : List β) (f : α → β → LogicalPlan) :
    (xs.flatMap (fun x => ys.map (f x))).length = xs.length * ys.length := by
  induction xs with
  | nil => simp
  | cons x rest ih =>
    rw [List.flatMap_cons, List.length_append, ih, List.length_map, List.length_cons]
    ring

/-- C13, as the code has it: `planCrossProduct(L, R)` returns `|L| * |R|` plans,
one per pair `(l, r)` in left-major order, each with a `CrossProduct` of `l` and
`r` at its root. In a run of `enumerateQueryGraphCollection` that returns, the
operands of the cross products are the plan lists returned for the query graphs,
in order, followed in mode `CORRELATED`, when no query graph mentions a correlated
expression, by the single plan `ExpressionsScan(corrExprs) -> Distinct(corrExprs)`.
Every returned plan is the left-to-right chain of cross products over one plan per
operand, under the filters of the remaining predicates; the plans come in
lexicographic order of the picks and their number is the product of the plan
counts of the query graphs. -/
theorem enumerateQueryGraphCollection_cross_product_chain (env : EnumeratorEnv) (fuel : Nat)
    (collection : QueryGraphCollection) (info : QueryGraphPlanningInfo)
    (outcome : CollectionOutcome)
    (hok : enumerateQueryGraphCollectionRun env fuel collection info = .ok outcome) :
    (∀ leftPlans rightPlans : List LogicalPlan,
      planCrossProduct env.toPlannerEnv leftPlans rightPlans =
        leftPlans.flatMap (fun l =>
          rightPlans.map (fun r => appendCrossProduct env.toPlannerEnv l r)) ∧
      (planCrossProduct env.toPlannerEnv leftPlans rightPlans).length =
        leftPlans.length * rightPlans.length ∧
      ∀ l r : LogicalPlan, (appendCrossProduct env.toPlannerEnv l r).lastOperator =
        .crossProduct l.lastOperator r.lastOperator) ∧
    ∃ (componentPlans : List (List LogicalPlan)) (first : List LogicalPlan)
      (rest : List (List LogicalPlan)),
      outcome.calls.map (fun call => call.queryGraph) = collection.queryGraphs ∧
      List.Forall₂
        (fun call plans => enumerateQueryGraph env fuel call.queryGraph call.newInfo = .ok plans)
        outcome.calls componentPlans ∧
      first :: rest = componentPlans ++
        (if info.subqueryType = .CORRELATED ∧
            getConnectedQueryGraphIdx collection info.corrExprs = -1 then
          [[appendDistinct env.toPlannerEnv info.corrExprs
            (appendExpressionsScan env.toPlannerEnv info.corrExprs)]]
        else []) ∧
      outcome.plans = first.flatMap (fun plan =>
        (pickOnePerList rest).map (fun pick =>
          appendFilters env.toPlannerEnv outcome.remainingPredicates
            (crossProductChain env.toPlannerEnv plan pick))) ∧
      outcome.plans.length = (componentPlans.map List.length).prod := by
  obtain ⟨state, first, rest, hinv, hcalls, _, _, hoperands, _, hplans⟩ :=
    enumerateQueryGraphCollectionRun_ok env fuel collection info outcome hok
  obtain ⟨hgraphs, _, _, _, hper⟩ := hinv
  have hcond : (info.subqueryType = .CORRELATED ∧
      (if info.subqueryType = .CORRELATED then
        getConnectedQueryGraphIdx collection info.corrExprs else -1) = -1) ↔
      (info.subqueryType = .CORRELATED ∧
        getConnectedQueryGraphIdx collection info.corrExprs = -1) := by
    constructor
    · rintro ⟨h1, h2⟩
      rw [if_pos h1] at h2
      exact ⟨h1, h2⟩
    · rintro ⟨h1, h2⟩
      exact ⟨h1, by rw [if_pos h1]; exact h2⟩
  have hoperands2 : first :: rest = state.plansPerQueryGraph ++
      (if info.subqueryType = .CORRELATED ∧
          getConnectedQueryGraphIdx collection info.corrExprs = -1 then
        [[appendDistinct env.toPlannerEnv info.corrExprs
          (appendExpressionsScan env.toPlannerEnv info.corrExprs)]]
      else []) := by
    rw [hoperands]
    by_cases h : info.subqueryType = .CORRELATED ∧
        getConnectedQueryGraphIdx collection info.corrExprs = -1
    · rw [if_pos h, if_pos (hcond.mpr h)]
    · rw [if_neg h, if_neg (fun h2 => h (hcond.mp h2))]
  have hplans2 : outcome.plans = first.flatMap (fun plan =>
      (pickOnePerList rest).map (fun pick =>
        appendFilters env.toPlannerEnv outcome.remainingPredicates
          (crossProductChain env.toPlannerEnv plan pick))) := by
    rw [hplans, foldl_planCrossProduct_eq, List.map_flatMap]
    simp only [List.map_map]
    rfl
  refine ⟨fun leftPlans rightPlans =>
      ⟨planCrossProduct_eq _ _ _, planCrossProduct_length _ _ _, fun _ _ => rfl⟩,
    state.plansPerQueryGraph, first, rest, by rw [hcalls]; exact hgraphs,
    by rw [hcalls]; exact hper, hoperands2, hplans2, ?_⟩
  rw [hplans2, flatMap_map_length, pickOnePerList_length]
  have hprod : first.length * (rest.map List.length).prod =
      ((first :: rest).map List.length).prod := by
    simp
  rw [hprod, hoperands2]
  by_cases h : info.subqueryType = .CORRELATED ∧
      getConnectedQueryGraphIdx collection info.corrExprs = -1
  · rw [if_pos h]
    simp
  · rw [if_neg h]
    simp

/-- C13 as stated fails: on the collection of the two single-node
query graphs `c` and `a`, in mode `CORRELATED` with the internal ID of `b`
correlated, no query graph mentions a correlated expression and the returned plan
is the cross product of the two component plans crossed again with the plan
`ExpressionsScan -> Distinct`, which is the plan of no component. -/
theorem enumerateQueryGraphCollection_crosses_expressions_scan :
    twoNodesCollection.queryGraphs.length = 2 ∧
    correlatedOnB.subqueryType = .CORRELATED ∧
    getConnectedQueryGraphIdx twoNodesCollection correlatedOnB.corrExprs = -1 ∧
    (enumerateQueryGraph sampleEnumeratorEnv 2 singleNodeGraph
        { correlatedOnB with subqueryType := .NONE }).toOption.map
      (fun plans => plans.map (fun plan => plan.lastOperator)) =
      some [.scanNodeTable nodeC.internalID nodeC.tableIDs []] ∧
    (enumerateQueryGraph sampleEnumeratorEnv 2 singleNodeGraphA
        { correlatedOnB with subqueryType := .NONE }).toOption.map
      (fun plans => plans.map (fun plan => plan.lastOperator)) =
      some [.scanNodeTable nodeA.internalID nodeA.tableIDs []] ∧
    (enumerateQueryGraphCollection sampleEnumeratorEnv 2 twoNodesCollection
        correlatedOnB).toOption.map
      (fun plans => plans.map (fun plan => plan.lastOperator)) =
      some [.crossProduct
        (.crossProduct (.scanNodeTable nodeC.internalID nodeC.tableIDs [])
          (.scanNodeTable nodeA.internalID nodeA.tableIDs []))
        (.distinct [nodeB.internalID] (.expressionsScan [nodeB.internalID]))] := by
  refine ⟨rfl, rfl, ?_, rfl, rfl, rfl⟩
  decide

/-- Witness of C13 on the collection of the two single-node query
graphs `c` and `a` in mode `CORRELATED` with the internal ID of `b` correlated:
the operands are the two component plan lists and the plan
`ExpressionsScan -> Distinct`. -/
theorem enumerateQueryGraphCollection_cross_product_chain_witness :
    enumerateQueryGraphCollectionRun sampleEnumeratorEnv 2 twoNodesCollection
      correlatedOnB = .ok twoNodesCorrelatedOutcome ∧
    (∀ leftPlans rightPlans : List LogicalPlan,
      planCrossProduct sampleEnumeratorEnv.toPlannerEnv leftPlans rightPlans =
        leftPlans.flatMap (fun l =>
          rightPlans.map (fun r => appendCrossProduct sampleEnumeratorEnv.toPlannerEnv l r)) ∧
      (planCrossProduct sampleEnumeratorEnv.toPlannerEnv leftPlans rightPlans).length =
        leftPlans.length * rightPlans.length ∧
      ∀ l r : LogicalPlan, (appendCrossProduct sampleEnumeratorEnv.toPlannerEnv l r).lastOperator =
        .crossProduct l.lastOperator r.lastOperator) ∧
    ∃ (componentPlans : List (List LogicalPlan)) (first : List LogicalPlan)
      (rest : List (List LogicalPlan)),
      twoNodesCorrelatedOutcome.calls.map (fun call => call.queryGraph) = twoNodesCollection.queryGraphs ∧
      List.Forall₂
        (fun call plans => enumerateQueryGraph sampleEnumeratorEnv 2 call.queryGraph call.newInfo = .ok plans)
        twoNodesCorrelatedOutcome.calls componentPlans ∧
      first :: rest = componentPlans ++
        (if correlatedOnB.subqueryType = .CORRELATED ∧
            getConnectedQueryGraphIdx twoNodesCollection correlatedOnB.corrExprs = -1 then
          [[appendDistinct sampleEnumeratorEnv.toPlannerEnv correlatedOnB.corrExprs
            (appendExpressionsScan sampleEnumeratorEnv.toPlannerEnv correlatedOnB.corrExprs)]]
        else []) ∧
      twoNodesCorrelatedOutcome.plans = first.flatMap (fun plan =>
        (pickOnePerList rest).map (fun pick =>
          appendFilters sampleEnumeratorEnv.toPlannerEnv twoNodesCorrelatedOutcome.remainingPredicates
            (crossProductChain sampleEnumeratorEnv.toPlannerEnv plan pick))) ∧
      twoNodesCorrelatedOutcome.plans.length = (componentPlans.map List.length).prod :=
  ⟨rfl,
    enumerateQueryGraphCollection_cross_product_chain sampleEnumeratorEnv 2
      twoNodesCollection correlatedOnB twoNodesCorrelatedOutcome rfl⟩

theorem reachable_addPlans (entries : List (SubqueryGraph × LogicalPlan)) :
    ∀ ctx : JoinOrderEnumeratorContext, ctx.subPlansTable.Reachable →
      (ctx.addPlans entries).subPlansTable.Reachable := by
  induction entries with
  | nil => intro ctx h; exact h
  | cons e rest ih =>
    intro ctx h
    exact ih (ctx.addPlan e.1 e.2) (SubPlansTable.Reachable.addPlan _ _ _ h)

theorem foldl_reachable {α : Type} (f : JoinOrderEnumeratorContext → α → JoinOrderEnumeratorContext)
    (hf : ∀ ctx x, ctx.subPlansTable.Reachable → (f ctx x).subPlansTable.Reachable) :
    ∀ (xs : List α) (ctx : JoinOrderEnumeratorContext), ctx.subPlansTable.Reachable →
      (xs.foldl f ctx).subPlansTable.Reachable := by
  intro xs
  induction xs with
  | nil => intro ctx h; exact h
  | cons x rest ih => intro ctx h; exact ih (f ctx x) (hf ctx x h)

theorem foldlM_preserves {σ α : Type} (P : σ → Prop) (f : σ → α → Except Fault σ)
    (hf : ∀ s x s2, P s → f s x = .ok s2 → P s2) :
    ∀ (xs : List α) (s final : σ), P s → xs.foldlM f s = .ok final → P final := by
  intro xs
  induction xs with
  | nil =>
    intro s final h hrun
    simp only [List.foldlM_nil, pure, Except.pure, Except.ok.injEq] at hrun
    exact hrun ▸ h
  | cons x rest ih =>
    intro s final h hrun
    rw [List.foldlM_cons] at hrun
    cases hstep : f s x with
    | error e => rw [hstep] at hrun; cases hrun
    | ok s2 =>
      rw [hstep] at hrun
      exact ih s2 final (hf s x s2 h hstep) hrun

theorem planBaseTableScans_reachable (env : PlannerEnv) (ctx ctx2 : JoinOrderEnumeratorContext)
    (info : QueryGraphPlanningInfo) (h : ctx.subPlansTable.Reachable)
    (hrun : planBaseTableScans env ctx info = .ok ctx2) : ctx2.subPlansTable.Reachable := by
  cases hmode : info.subqueryType with
  | NONE =>
    rw [planBaseTableScans_eq_of_uncorrelated env ctx info (Or.inl hmode)] at hrun
    cases hrun
    exact reachable_addPlans _ ctx h
  | INTERNAL_ID_CORRELATED =>
    rw [planBaseTableScans_eq_of_uncorrelated env ctx info (Or.inr hmode)] at hrun
    cases hrun
    exact reachable_addPlans _ ctx h
  | CORRELATED =>
    rw [planBaseTableScans_eq_of_correlated env ctx info hmode] at hrun
    cases hrun
    exact reachable_addPlans _ ctx h

theorem planInnerHashJoinPair_reachable (env : PlannerEnv) (newSubgraph : SubqueryGraph)
    (maxCost : Option Nat) (joinNodeIDs predicates : expression_vector) (flipPlan : Bool)
    (leftPlan : LogicalPlan) (ctx : JoinOrderEnumeratorContext) (rightPlan : LogicalPlan)
    (h : ctx.subPlansTable.Reachable) :
    (planInnerHashJoinPair env newSubgraph maxCost joinNodeIDs predicates flipPlan leftPlan ctx
      rightPlan).subPlansTable.Reachable := by
  unfold planInnerHashJoinPair
  simp only []
  split
  · split
    · exact SubPlansTable.Reachable.addPlan _ _ _ (SubPlansTable.Reachable.addPlan _ _ _ h)
    · exact SubPlansTable.Reachable.addPlan _ _ _ h
  · split
    · exact SubPlansTable.Reachable.addPlan _ _ _ h
    · exact h

theorem planInnerHashJoin_reachable (env : PlannerEnv) (ctx : JoinOrderEnumeratorContext)
    (subgraph otherSubgraph : SubqueryGraph) (joinNodes : List NodeExpression)
    (flipPlan : Bool) (h : ctx.subPlansTable.Reachable) :
    (planInnerHashJoin env ctx subgraph otherSubgraph joinNodes flipPlan).subPlansTable.Reachable := by
  unfold planInnerHashJoin
  simp only []
  apply foldl_reachable _ _ _ ctx h
  intro c leftPlan hc
  apply foldl_reachable _ _ _ c hc
  intro c2 rightPlan hc2
  exact planInnerHashJoinPair_reachable env _ _ _ _ _ _ c2 rightPlan hc2

theorem tryPlanINLJoinLoop_reachable (env : PlannerEnv) (boundNode nbrNode : NodeExpression)
    (rel : RelExpression) (extendDirection : ExtendDirection) (newSubgraph : SubqueryGraph)
    (predicates : expression_vector) :
    ∀ (plans : List LogicalPlan) (state : Bool × JoinOrderEnumeratorContext),
      state.2.subPlansTable.Reachable →
      (tryPlanINLJoinLoop env boundNode nbrNode rel extendDirection newSubgraph predicates plans
        state).2.subPlansTable.Reachable := by
  intro plans
  induction plans with
  | nil => intro state h; exact h
  | cons prevPlan rest ih =>
    intro state h
    obtain ⟨flag, ctx⟩ := state
    unfold tryPlanINLJoinLoop
    split
    · exact ih _ (SubPlansTable.Reachable.addPlan _ _ _ h)
    · exact ih _ h

theorem tryPlanINLJoin_reachable (env : PlannerEnv) :
    ∀ (fuel : Nat) (ctx : JoinOrderEnumeratorContext) (subgraph otherSubgraph : SubqueryGraph)
      (joinNodes : List NodeExpression) (result : Bool × JoinOrderEnumeratorContext),
      ctx.subPlansTable.Reachable →
      tryPlanINLJoin env fuel ctx subgraph otherSubgraph joinNodes = .ok result →
      result.2.subPlansTable.Reachable := by
  intro fuel
  induction fuel with
  | zero =>
    intro ctx subgraph otherSubgraph joinNodes result _ hrun
    simp [tryPlanINLJoin] at hrun
  | succ fuel ih =>
    intro ctx subgraph otherSubgraph joinNodes result h hrun
    unfold tryPlanINLJoin at hrun
    split at hrun
    · cases hrun; exact h
    · split at hrun
      · cases hrun; exact h
      · split at hrun
        · exact ih ctx otherSubgraph subgraph joinNodes result h hrun
        · simp only [] at hrun
          split at hrun
          · cases hrun
          · split at hrun
            · cases hrun
            · cases hrun
            · cases hrun
              exact tryPlanINLJoinLoop_reachable env _ _ _ _ _ _ _ _ h

theorem planInnerJoinPair_reachable (env : PlannerEnv) (fuel leftLevel rightLevel : Nat)
    (ctx : JoinOrderEnumeratorContext) (rightSubgraph nbrSubgraph : SubqueryGraph)
    (result : JoinOrderEnumeratorContext × List (SubqueryGraph × SubqueryGraph))
    (h : ctx.subPlansTable.Reachable)
    (hrun : planInnerJoinPair env fuel leftLevel rightLevel ctx rightSubgraph nbrSubgraph =
      .ok result) : result.1.subPlansTable.Reachable := by
  unfold planInnerJoinPair at hrun
  split at hrun
  · cases hrun; exact h
  · simp only [] at hrun
    split at hrun
    · cases hrun
    · split at hrun
      · cases hrun; exact h
      · split at hrun
        · cases hrun
        · rename_i ctx2 htry
          cases hrun
          exact tryPlanINLJoin_reachable env fuel ctx _ _ _ _ h htry
        · rename_i ctx2 htry
          cases hrun
          exact planInnerHashJoin_reachable env ctx2 _ _ _ _
            (tryPlanINLJoin_reachable env fuel ctx _ _ _ _ h htry)

theorem planInnerJoin_reachable (env : PlannerEnv) (fuel : Nat) (ctx : JoinOrderEnumeratorContext)
    (leftLevel rightLevel : Nat)
    (result : JoinOrderEnumeratorContext × List (SubqueryGraph × SubqueryGraph))
    (h : ctx.subPlansTable.Reachable)
    (hrun : planInnerJoin env fuel ctx leftLevel rightLevel = .ok result) :
    result.1.subPlansTable.Reachable := by
  unfold planInnerJoin at hrun
  split at hrun
  · cases hrun
  · refine foldlM_preserves
      (fun state : JoinOrderEnumeratorContext × List (SubqueryGraph × SubqueryGraph) =>
        state.1.subPlansTable.Reachable) _ ?_ _ (ctx, []) result h hrun
    intro state rightSubgraph state2 hstate hstep
    refine foldlM_preserves
      (fun state : JoinOrderEnumeratorContext × List (SubqueryGraph × SubqueryGraph) =>
        state.1.subPlansTable.Reachable) _ ?_ _ state state2 hstate hstep
    intro s nbrSubgraph s2 hs hpair
    cases hp : planInnerJoinPair env fuel leftLevel rightLevel s.1 rightSubgraph nbrSubgraph with
    | error e => simp [hp] at hpair
    | ok res =>
      obtain ⟨ctx2, calls⟩ := res
      simp only [hp, Except.ok.injEq] at hpair
      subst hpair
      exact planInnerJoinPair_reachable env fuel leftLevel rightLevel s.1 rightSubgraph
        nbrSubgraph (ctx2, calls) hs hp

theorem planWCOJoin_reachable (env : PlannerEnv) (ctx ctx2 : JoinOrderEnumeratorContext)
    (subgraph : SubqueryGraph) (rels : List RelExpression) (intersectNode : NodeExpression)
    (h : ctx.subPlansTable.Reachable)
    (hrun : planWCOJoin env ctx subgraph rels intersectNode = .ok ctx2) :
    ctx2.subPlansTable.Reachable := by
  unfold planWCOJoin at hrun
  split at hrun
  · cases hrun
  · cases hrun; exact h
  · simp only [Except.ok.injEq] at hrun
    subst hrun
    apply foldl_reachable _ _ _ ctx h
    intro c leftPlan hc
    unfold planWCOJoinProbe
    split
    · exact hc
    · exact SubPlansTable.Reachable.addPlan _ _ _ hc

theorem planWCOJoinLevels_reachable (env : PlannerEnv) (ctx ctx2 : JoinOrderEnumeratorContext)
    (leftLevel rightLevel : Nat) (h : ctx.subPlansTable.Reachable)
    (hrun : planWCOJoinLevels env ctx leftLevel rightLevel = .ok ctx2) :
    ctx2.subPlansTable.Reachable := by
  unfold planWCOJoinLevels at hrun
  split at hrun
  · cases hrun
  · refine foldlM_preserves (fun c : JoinOrderEnumeratorContext => c.subPlansTable.Reachable) _ ?_
      _ ctx ctx2 h hrun
    intro c rightSubgraph c2 hc hstep
    split at hstep
    · cases hstep
    · refine foldlM_preserves (fun c : JoinOrderEnumeratorContext => c.subPlansTable.Reachable) _
        ?_ _ c c2 hc hstep
      intro c3 candidate c4 hc3 hcand
      split at hcand
      · split at hcand
        · cases hcand
        · exact planWCOJoin_reachable env c3 c4 _ _ _ hc3 hcand
      · cases hcand; exact hc3

theorem planLevelRun_reachable (env : EnumeratorEnv) (fuel : Nat)
    (ctx ctx2 : JoinOrderEnumeratorContext) (level : Nat) (h : ctx.subPlansTable.Reachable)
    (hrun : planLevelRun env fuel ctx level = .ok ctx2) : ctx2.subPlansTable.Reachable := by
  unfold planLevelRun at hrun
  split at hrun
  · cases hrun
  · refine foldlM_preserves (fun c : JoinOrderEnumeratorContext => c.subPlansTable.Reachable) _ ?_
      _ ctx ctx2 h hrun
    intro c call c2 hc hcall
    cases call with
    | planWCOJoin leftLevel rightLevel =>
      exact planWCOJoinLevels_reachable env.toPlannerEnv c c2 leftLevel rightLevel hc hcall
    | planInnerJoin leftLevel rightLevel =>
      simp only [runJoinCall] at hcall
      cases hjoin : planInnerJoin env.toPlannerEnv fuel c leftLevel rightLevel with
      | error e => simp [hjoin] at hcall
      | ok res =>
        obtain ⟨c3, calls⟩ := res
        simp only [hjoin, Except.ok.injEq] at hcall
        subst hcall
        exact planInnerJoin_reachable env.toPlannerEnv fuel c leftLevel rightLevel (c3, calls) hc
          hjoin

theorem planLevels_reachable (env : EnumeratorEnv) (fuel maxLevel : Nat) :
    ∀ (steps currentLevel : Nat) (ctx ctx2 : JoinOrderEnumeratorContext),
      ctx.subPlansTable.Reachable →
      (planLevels env fuel maxLevel steps currentLevel ctx).2 = .ok ctx2 →
      ctx2.subPlansTable.Reachable := by
  intro steps
  induction steps with
  | zero =>
    intro currentLevel ctx ctx2 h hrun
    unfold planLevels at hrun
    split at hrun
    · cases hrun
    · cases hrun; exact h
  | succ steps ih =>
    intro currentLevel ctx ctx2 h hrun
    unfold planLevels at hrun
    split at hrun
    · cases hlevel : planLevelRun env fuel ctx currentLevel with
      | error e => simp [hlevel] at hrun
      | ok ctx3 =>
        simp only [hlevel] at hrun
        exact ih (currentLevel + 1) ctx3 ctx2 (planLevelRun_reachable env fuel ctx ctx3 _ h hlevel)
          hrun
    · cases hrun; exact h

/-- C19: `addPlan(sg, plan)` appends `plan` to the list stored at `sg`, leaves the
list and the cost ceiling of every other subgraph unchanged, and sets
`maxCost(sg)` to the minimum of the previous `maxCost(sg)` and `plan.cost`.
Consequently, in every table reached from the empty table through `addPlan`,
before and after the call, `maxCost(S)` is defined and is at most the cost of
every plan stored at `S`; and the same holds of the table the enumerator leaves
when it runs `planBaseTableScans` and then the loop over the levels on such a
table. -/
theorem addPlan_maxCost_le_every_cost (t : SubPlansTable) (hreach : t.Reachable)
    (sg : SubqueryGraph) (plan : LogicalPlan) :
    (t.addPlan sg plan).plans sg = t.plans sg ++ [plan] ∧
    (∀ other : SubqueryGraph, other ≠ sg →
      (t.addPlan sg plan).plans other = t.plans other ∧
      (t.addPlan sg plan).maxCost other = t.maxCost other) ∧
    (t.addPlan sg plan).maxCost sg = some (minCost (t.maxCost sg) plan.cost) ∧
    (∀ (S : SubqueryGraph), ∀ stored ∈ t.plans S,
      ∃ ceiling : Nat, t.maxCost S = some ceiling ∧ ceiling ≤ stored.cost) ∧
    (∀ (S : SubqueryGraph), ∀ stored ∈ (t.addPlan sg plan).plans S,
      ∃ ceiling : Nat, (t.addPlan sg plan).maxCost S = some ceiling ∧
        ceiling ≤ stored.cost) ∧
    (∀ (env : EnumeratorEnv) (fuel steps maxLevel currentLevel : Nat)
      (info : QueryGraphPlanningInfo) (ctx ctx2 ctx3 : JoinOrderEnumeratorContext),
      ctx.subPlansTable = t →
      planBaseTableScans env.toPlannerEnv ctx info = .ok ctx2 →
      (planLevels env fuel maxLevel steps currentLevel ctx2).2 = .ok ctx3 →
      ctx3.subPlansTable.Reachable ∧
      ∀ (S : SubqueryGraph), ∀ stored ∈ ctx3.subPlansTable.plans S,
        ∃ ceiling : Nat, ctx3.subPlansTable.maxCost S = some ceiling ∧
          ceiling ≤ stored.cost) := by
  refine ⟨addPlan_plans_same t sg plan, ?_, ?_, reachable_maxCost_le t hreach,
    reachable_maxCost_le _ (SubPlansTable.Reachable.addPlan t sg plan hreach), ?_⟩
  · intro other hne
    exact ⟨addPlan_plans_other t sg other plan hne, by simp [SubPlansTable.addPlan, hne]⟩
  · simp only [SubPlansTable.addPlan, if_true, minCost]
    cases t.maxCost sg <;> rfl
  · intro env fuel steps maxLevel currentLevel info ctx ctx2 ctx3 htable hbase hloop
    have h3 : ctx3.subPlansTable.Reachable :=
      planLevels_reachable env fuel maxLevel steps currentLevel ctx2 ctx3
        (planBaseTableScans_reachable env.toPlannerEnv ctx ctx2 info (htable ▸ hreach) hbase)
        hloop
    exact ⟨h3, reachable_maxCost_le _ h3⟩

/-- Witness of C19 on a table that holds a plan of cost 5 and a plan of cost 3
under the subgraph of node `a`, to which a plan of cost 4 is added, and on the
base scans of the query graph `e1: a -> b` run on that table. -/
theorem addPlan_maxCost_le_every_cost_witness :
    twoPlansTable.Reachable ∧
    twoPlansTable.maxCost ⟨{0}, ∅⟩ = some 3 ∧
    (twoPlansTable.addPlan ⟨{0}, ∅⟩ ⟨.scanNodeTable nodeA.internalID [0] [], 4, 1⟩).plans
        ⟨{0}, ∅⟩ =
      twoPlansTable.plans ⟨{0}, ∅⟩ ++ [⟨.scanNodeTable nodeA.internalID [0] [], 4, 1⟩] ∧
    (twoPlansTable.addPlan ⟨{0}, ∅⟩ ⟨.scanNodeTable nodeA.internalID [0] [], 4, 1⟩).maxCost
        ⟨{0}, ∅⟩ = some 3 ∧
    (∀ (S : SubqueryGraph), ∀ stored ∈ twoPlansTable.plans S,
      ∃ ceiling : Nat, twoPlansTable.maxCost S = some ceiling ∧ ceiling ≤ stored.cost) ∧
    planBaseTableScans sampleEnumeratorEnv.toPlannerEnv twoPlansCtx plainInfo =
      .ok (twoPlansCtx.addPlans
        (uncorrelatedNodeEntries sampleEnv twoPlansCtx plainInfo ++
          allRelScanEntries sampleEnv twoPlansCtx)) ∧
    (∀ (S : SubqueryGraph),
      ∀ stored ∈ (twoPlansCtx.addPlans
        (uncorrelatedNodeEntries sampleEnv twoPlansCtx plainInfo ++
          allRelScanEntries sampleEnv twoPlansCtx)).subPlansTable.plans S,
      ∃ ceiling : Nat,
        (twoPlansCtx.addPlans
          (uncorrelatedNodeEntries sampleEnv twoPlansCtx plainInfo ++
            allRelScanEntries sampleEnv twoPlansCtx)).subPlansTable.maxCost S = some ceiling ∧
        ceiling ≤ stored.cost) :=
  have h := addPlan_maxCost_le_every_cost twoPlansTable
    (SubPlansTable.Reachable.addPlan _ _ _
      (SubPlansTable.Reachable.addPlan _ _ _ SubPlansTable.Reachable.empty))
    ⟨{0}, ∅⟩ ⟨.scanNodeTable nodeA.internalID [0] [], 4, 1⟩
  ⟨SubPlansTable.Reachable.addPlan _ _ _
      (SubPlansTable.Reachable.addPlan _ _ _ SubPlansTable.Reachable.empty),
    by decide, h.1, by decide, h.2.2.2.1, rfl,
    (h.2.2.2.2.2 sampleEnumeratorEnv 2 0 1 2 plainInfo twoPlansCtx _ _ rfl rfl rfl).2⟩

theorem planLevels_enough_steps (env : EnumeratorEnv) (fuel maxLevel : Nat) :
    ∀ (steps currentLevel : Nat) (ctx : JoinOrderEnumeratorContext),
      maxLevel - currentLevel ≤ steps →
      planLevels env fuel maxLevel (steps + 1) currentLevel ctx =
        planLevels env fuel maxLevel steps currentLevel ctx := by
  intro steps
  induction steps with
  | zero =>
    intro currentLevel ctx hsteps
    have hge : ¬ currentLevel < maxLevel := by omega
    simp [planLevels, hge]
  | succ steps ih =>
    intro currentLevel ctx hsteps
    rw [planLevels]
    conv => rhs; rw [planLevels]
    by_cases hlt : currentLevel < maxLevel
    · simp only [hlt, if_true]
      cases planLevelRun env fuel ctx currentLevel with
      | error e => rfl
      | ok ctx2 =>
        simp only []
        rw [ih (currentLevel + 1) ctx2 (by omega)]
    · simp only [hlt, if_false]

theorem getSequentialScan_blocker :
    ∀ op : LogicalOperator, ∃ blocker ∈ op.firstChildPath,
      op.firstChildPath.find? (fun o => !o.isSearchedThrough) = some blocker ∧
      blocker.isSearchedThrough = false ∧
      getSequentialScan op = if blocker.isScanNodeTable then some blocker else none
  | .scanNodeTable _ _ _ => ⟨_, List.mem_singleton_self _, rfl, rfl, rfl⟩
  | .expressionsScan _ => ⟨_, List.mem_singleton_self _, rfl, rfl, rfl⟩
  | .extend b n r d s p child => by
    obtain ⟨blocker, hmem, hfind, hblock, hscan⟩ := getSequentialScan_blocker child
    exact ⟨blocker, List.mem_cons_of_mem _ hmem,
      by simpa [LogicalOperator.firstChildPath, LogicalOperator.isSearchedThrough] using hfind,
      hblock, by simpa [getSequentialScan] using hscan⟩
  | .filter p child => by
    obtain ⟨blocker, hmem, hfind, hblock, hscan⟩ := getSequentialScan_blocker child
    exact ⟨blocker, List.mem_cons_of_mem _ hmem,
      by simpa [LogicalOperator.firstChildPath, LogicalOperator.isSearchedThrough] using hfind,
      hblock, by simpa [getSequentialScan] using hscan⟩
  | .flatten g child => by
    obtain ⟨blocker, hmem, hfind, hblock, hscan⟩ := getSequentialScan_blocker child
    exact ⟨blocker, List.mem_cons_of_mem _ hmem,
      by simpa [LogicalOperator.firstChildPath, LogicalOperator.isSearchedThrough] using hfind,
      hblock, by simpa [getSequentialScan] using hscan⟩
  | .projection e child => by
    obtain ⟨blocker, hmem, hfind, hblock, hscan⟩ := getSequentialScan_blocker child
    exact ⟨blocker, List.mem_cons_of_mem _ hmem,
      by simpa [LogicalOperator.firstChildPath, LogicalOperator.isSearchedThrough] using hfind,
      hblock, by simpa [getSequentialScan] using hscan⟩
  | .recursiveExtend _ _ _ _ _ => ⟨_, List.mem_cons_self _ _, rfl, rfl, rfl⟩
  | .hashJoin _ _ _ _ => ⟨_, List.mem_cons_self _ _, rfl, rfl, rfl⟩
  | .intersect _ _ _ _ => ⟨_, List.mem_cons_self _ _, rfl, rfl, rfl⟩
  | .crossProduct _ _ => ⟨_, List.mem_cons_self _ _, rfl, rfl, rfl⟩
  | .distinct _ _ => ⟨_, List.mem_cons_self _ _, rfl, rfl, rfl⟩
  | .emptyResult _ => ⟨_, List.mem_cons_self _ _, rfl, rfl, rfl⟩

theorem firstChildPath_eq (op : LogicalOperator) :
    op.firstChildPath = op :: (match op.firstChild with
      | some child => child.firstChildPath
      | none => []) := by
  cases op <;> simp [LogicalOperator.firstChildPath, LogicalOperator.firstChild]

theorem isNodeSequentialOnPlan_iff (plan : LogicalPlan) (node : NodeExpression) :
    isNodeSequentialOnPlan plan node = true ↔
      ∃ (nodeID : Expression) (tableIDs : List Nat) (properties : expression_vector),
        getSequentialScan plan.lastOperator = some (.scanNodeTable nodeID tableIDs properties) ∧
        nodeID.uniqueName = node.internalID.uniqueName := by
  unfold isNodeSequentialOnPlan
  cases hscan : getSequentialScan plan.lastOperator with
  | none => simp
  | some seqScan =>
    cases seqScan <;> simp [LogicalOperator.getNodeID]

/-- C25: `getSequentialScan` is a total function of the operator tree. On the path
of first children from the root it returns the first operator that is not a
`Flatten`, `Filter`, `Extend` or `Projection` when that operator is a
`ScanNodeTable`, and null when it is any other operator. `isNodeSequentialOnPlan`
is true exactly when `getSequentialScan` returns a `ScanNodeTable` whose node ID has
the unique name of the internal ID of the node. -/
theorem getSequentialScan_first_unsearched (op : LogicalOperator) (plan : LogicalPlan)
    (node : NodeExpression) :
    op.firstChildPath = op :: (op.firstChild.map LogicalOperator.firstChildPath).getD [] ∧
    (∃ blocker ∈ op.firstChildPath,
      op.firstChildPath.find? (fun o => !o.isSearchedThrough) = some blocker ∧
      blocker.isSearchedThrough = false ∧
      getSequentialScan op = if blocker.isScanNodeTable then some blocker else none) ∧
    (isNodeSequentialOnPlan plan node = true ↔
      ∃ (nodeID : Expression) (tableIDs : List Nat) (properties : expression_vector),
        getSequentialScan plan.lastOperator = some (.scanNodeTable nodeID tableIDs properties) ∧
        nodeID.uniqueName = node.internalID.uniqueName) := by
  refine ⟨?_, getSequentialScan_blocker op, isNodeSequentialOnPlan_iff plan node⟩
  rw [firstChildPath_eq]
  cases op.firstChild <;> rfl

theorem tryPlanINLJoin_both_single_outOfFuel (env : PlannerEnv) :
    ∀ (fuel : Nat) (ctx : JoinOrderEnumeratorContext) (subgraph otherSubgraph : SubqueryGraph)
      (joinNodes : List NodeExpression),
      joinNodes.length ≤ 1 → subgraph.isSingleRel = true → otherSubgraph.isSingleRel = true →
      tryPlanINLJoin env fuel ctx subgraph otherSubgraph joinNodes = .error .outOfFuel := by
  intro fuel
  induction fuel with
  | zero => intro ctx subgraph otherSubgraph joinNodes _ _ _; rfl
  | succ fuel ih =>
    intro ctx subgraph otherSubgraph joinNodes hlen hs ho
    unfold tryPlanINLJoin
    have hlen2 : ¬ joinNodes.length > 1 := by omega
    simp only [hlen2, if_false, hs, ho, Bool.not_true, Bool.and_self, Bool.false_eq_true, if_true]
    exact ih ctx otherSubgraph subgraph joinNodes hlen ho hs

theorem tryPlanINLJoin_step_not_single (env : PlannerEnv) (fuel : Nat)
    (ctx : JoinOrderEnumeratorContext) (subgraph otherSubgraph : SubqueryGraph)
    (joinNodes : List NodeExpression) (hs : subgraph.isSingleRel = false) :
    tryPlanINLJoin env (fuel + 1) ctx subgraph otherSubgraph joinNodes =
        tryPlanINLJoin env 1 ctx subgraph otherSubgraph joinNodes ∧
      tryPlanINLJoin env 1 ctx subgraph otherSubgraph joinNodes ≠ .error .outOfFuel := by
  constructor
  · unfold tryPlanINLJoin
    simp only [hs, Bool.false_eq_true, if_false]
  · unfold tryPlanINLJoin
    simp only [hs, Bool.false_eq_true, if_false]
    split
    · simp
    · split
      · simp
      · split
        · simp
        · cases hrel : ctx.queryGraph.getQueryRel
              (findSelectedRelPos ctx.queryGraph otherSubgraph) with
          | error e =>
            have he : e = .outOfRange := by
              unfold QueryGraph.getQueryRel at hrel
              split at hrel <;> cases hrel
              rfl
            subst he
            simp
          | ok rel =>
            cases joinNodes[0]? <;> simp

/-- C26: `tryPlanINLJoin` returns for some recursion depth exactly when `joinNodes`
has more than one element or the two subgraphs are not both single-relationship
subgraphs. In that case depth 2 is enough, that is, the call and at most one call
of itself, and a larger depth changes nothing. Otherwise the call swaps its two
subgraphs again and again and returns at no depth. -/
theorem tryPlanINLJoin_returns_iff (env : PlannerEnv) (ctx : JoinOrderEnumeratorContext)
    (subgraph otherSubgraph : SubqueryGraph) (joinNodes : List NodeExpression) :
    ((∃ fuel : Nat, tryPlanINLJoin env fuel ctx subgraph otherSubgraph joinNodes ≠
        .error .outOfFuel) ↔
      (joinNodes.length > 1 ∨
        ¬ (subgraph.isSingleRel = true ∧ otherSubgraph.isSingleRel = true))) ∧
    ((joinNodes.length > 1 ∨
        ¬ (subgraph.isSingleRel = true ∧ otherSubgraph.isSingleRel = true)) →
      tryPlanINLJoin env 2 ctx subgraph otherSubgraph joinNodes ≠ .error .outOfFuel ∧
      ∀ fuel : Nat, tryPlanINLJoin env (fuel + 2) ctx subgraph otherSubgraph joinNodes =
        tryPlanINLJoin env 2 ctx subgraph otherSubgraph joinNodes) ∧
    ((joinNodes.length ≤ 1 ∧ subgraph.isSingleRel = true ∧ otherSubgraph.isSingleRel = true) →
      ∀ fuel : Nat, tryPlanINLJoin env fuel ctx subgraph otherSubgraph joinNodes =
        .error .outOfFuel) := by
  have hpos : (joinNodes.length > 1 ∨
        ¬ (subgraph.isSingleRel = true ∧ otherSubgraph.isSingleRel = true)) →
      tryPlanINLJoin env 2 ctx subgraph otherSubgraph joinNodes ≠ .error .outOfFuel ∧
      ∀ fuel : Nat, tryPlanINLJoin env (fuel + 2) ctx subgraph otherSubgraph joinNodes =
        tryPlanINLJoin env 2 ctx subgraph otherSubgraph joinNodes := by
    intro hpre
    by_cases hlen : joinNodes.length > 1
    · have h : ∀ fuel : Nat, tryPlanINLJoin env (fuel + 1) ctx subgraph otherSubgraph joinNodes =
          .ok (false, ctx) := by
        intro fuel
        unfold tryPlanINLJoin
        simp only [hlen, if_true]
      refine ⟨by rw [h 1]; simp, fun fuel => by rw [h (fuel + 1), h 1]⟩
    · have hboth : ¬ (subgraph.isSingleRel = true ∧ otherSubgraph.isSingleRel = true) := by
        rcases hpre with h | h
        · exact absurd h hlen
        · exact h
      cases hs : subgraph.isSingleRel with
      | false =>
        have h := fun fuel =>
          tryPlanINLJoin_step_not_single env fuel ctx subgraph otherSubgraph joinNodes hs
        refine ⟨by rw [(h 1).1]; exact (h 1).2, fun fuel => by rw [(h (fuel + 1)).1, (h 1).1]⟩
      | true =>
        have ho : otherSubgraph.isSingleRel = false := by
          cases ho : otherSubgraph.isSingleRel with
          | false => rfl
          | true => exact absurd ⟨hs, ho⟩ hboth
        have hswap : ∀ fuel : Nat,
            tryPlanINLJoin env (fuel + 1) ctx subgraph otherSubgraph joinNodes =
              tryPlanINLJoin env fuel ctx otherSubgraph subgraph joinNodes := by
          intro fuel
          conv => lhs; unfold tryPlanINLJoin
          simp only [hlen, if_false, hs, ho, Bool.not_true, Bool.not_false, Bool.false_and,
            Bool.false_eq_true, if_true]
        have h := fun fuel =>
          tryPlanINLJoin_step_not_single env fuel ctx otherSubgraph subgraph joinNodes ho
        refine ⟨by rw [hswap 1]; exact (h 0).2, fun fuel => ?_⟩
        rw [hswap (fuel + 1), hswap 1, (h fuel).1]
  have hneg : (joinNodes.length ≤ 1 ∧ subgraph.isSingleRel = true ∧
        otherSubgraph.isSingleRel = true) →
      ∀ fuel : Nat, tryPlanINLJoin env fuel ctx subgraph otherSubgraph joinNodes =
        .error .outOfFuel :=
    fun h fuel => tryPlanINLJoin_both_single_outOfFuel env fuel ctx subgraph otherSubgraph
      joinNodes h.1 h.2.1 h.2.2
  refine ⟨⟨?_, fun hpre => ⟨2, (hpos hpre).1⟩⟩, hpos, hneg⟩
  rintro ⟨fuel, hfuel⟩
  by_contra hpre
  push_neg at hpre
  exact hfuel (hneg ⟨by omega, hpre.2.1, hpre.2.2⟩ fuel)

theorem getSequentialScan_withFilters (predicates : expression_vector) :
    ∀ op : LogicalOperator,
      getSequentialScan (op.withFilters predicates) = getSequentialScan op := by
  induction predicates with
  | nil => intro op; rfl
  | cons p rest ih =>
    intro op
    have h := ih (.filter p op)
    simpa [LogicalOperator.withFilters, getSequentialScan] using h

theorem getSequentialScan_relScanPlan (env : PlannerEnv) (predicates : expression_vector)
    (boundNode nbrNode : NodeExpression) (rel : RelExpression) (direction : ExtendDirection)
    (properties : expression_vector) (hnonrec : rel.relType = .NON_RECURSIVE) :
    getSequentialScan (appendFilters env predicates
      (appendExtend env boundNode nbrNode rel direction properties
        (appendScanNodeTable env boundNode.internalID boundNode.tableIDs []))).lastOperator =
      some (.scanNodeTable boundNode.internalID boundNode.tableIDs []) := by
  rw [appendFilters_lastOperator, getSequentialScan_withFilters]
  simp [appendExtend, hnonrec, appendNonRecursiveExtend, appendScanNodeTable, PlannerEnv.setRoot,
    getSequentialScan]

theorem isNodeSequentialOnPlan_relScanPlan (env : PlannerEnv) (predicates : expression_vector)
    (boundNode nbrNode node : NodeExpression) (rel : RelExpression) (direction : ExtendDirection)
    (properties : expression_vector) (hnonrec : rel.relType = .NON_RECURSIVE) :
    isNodeSequentialOnPlan (appendFilters env predicates
      (appendExtend env boundNode nbrNode rel direction properties
        (appendScanNodeTable env boundNode.internalID boundNode.tableIDs []))) node =
      (boundNode.internalID.uniqueName == node.internalID.uniqueName) := by
  unfold isNodeSequentialOnPlan
  rw [getSequentialScan_relScanPlan env predicates boundNode nbrNode rel direction properties
    hnonrec]
  rfl

/-- C29: for a non-recursive relationship whose source and destination have
distinct internal IDs, and a table that holds no plan under `{rel}` yet,
`planRelScan` returns and leaves two plans under `{rel}`: the first is sequential
on the source and not on the destination, the second is sequential on the
destination and not on the source. On these candidates `getWCOJBuildPlanForRel`
finds exactly one match for either endpoint as bound node, so its assertion holds,
and returns a shallow copy of the plan whose leaf scan is on the bound node. -/
theorem getWCOJBuildPlanForRel_of_planRelScan (env : PlannerEnv)
    (ctx : JoinOrderEnumeratorContext) (relPos : Nat) (rel : RelExpression)
    (hrel : ctx.queryGraph.queryRels[relPos]? = some rel)
    (hnonrec : rel.relType = .NON_RECURSIVE)
    (hdistinct : rel.srcNode.internalID.uniqueName ≠ rel.dstNode.internalID.uniqueName)
    (hfresh : ctx.subPlansTable.plans ⟨∅, {relPos}⟩ = []) :
    ∃ (ctx2 : JoinOrderEnumeratorContext) (srcPlan dstPlan : LogicalPlan),
      planRelScan env ctx relPos = .ok ctx2 ∧
      ctx2.subPlansTable.getSubgraphPlans ⟨∅, {relPos}⟩ = [srcPlan, dstPlan] ∧
      getSequentialScan srcPlan.lastOperator =
        some (.scanNodeTable rel.srcNode.internalID rel.srcNode.tableIDs []) ∧
      getSequentialScan dstPlan.lastOperator =
        some (.scanNodeTable rel.dstNode.internalID rel.dstNode.tableIDs []) ∧
      isNodeSequentialOnPlan srcPlan rel.srcNode = true ∧
      isNodeSequentialOnPlan dstPlan rel.srcNode = false ∧
      isNodeSequentialOnPlan dstPlan rel.dstNode = true ∧
      isNodeSequentialOnPlan srcPlan rel.dstNode = false ∧
      getWCOJBuildPlanForRel (ctx2.subPlansTable.getSubgraphPlans ⟨∅, {relPos}⟩) rel.srcNode =
        .ok (some srcPlan.shallowCopy) ∧
      getWCOJBuildPlanForRel (ctx2.subPlansTable.getSubgraphPlans ⟨∅, {relPos}⟩) rel.dstNode =
        .ok (some dstPlan.shallowCopy) := by
  have hss := isNodeSequentialOnPlan_relScanPlan env
    (getNewlyMatchedExprs ctx.queryGraph [⟨∅, ∅⟩] ⟨∅, {relPos}⟩ ctx.whereExpressions)
    rel.srcNode rel.dstNode rel.srcNode rel (getExtendDirection rel rel.srcNode)
    (env.getProperties rel.uniqueName) hnonrec
  have hsd := isNodeSequentialOnPlan_relScanPlan env
    (getNewlyMatchedExprs ctx.queryGraph [⟨∅, ∅⟩] ⟨∅, {relPos}⟩ ctx.whereExpressions)
    rel.srcNode rel.dstNode rel.dstNode rel (getExtendDirection rel rel.srcNode)
    (env.getProperties rel.uniqueName) hnonrec
  have hds := isNodeSequentialOnPlan_relScanPlan env
    (getNewlyMatchedExprs ctx.queryGraph [⟨∅, ∅⟩] ⟨∅, {relPos}⟩ ctx.whereExpressions)
    rel.dstNode rel.srcNode rel.srcNode rel (getExtendDirection rel rel.dstNode)
    (env.getProperties rel.uniqueName) hnonrec
  have hdd := isNodeSequentialOnPlan_relScanPlan env
    (getNewlyMatchedExprs ctx.queryGraph [⟨∅, ∅⟩] ⟨∅, {relPos}⟩ ctx.whereExpressions)
    rel.dstNode rel.srcNode rel.dstNode rel (getExtendDirection rel rel.dstNode)
    (env.getProperties rel.uniqueName) hnonrec
  have hne : (rel.srcNode.internalID.uniqueName == rel.dstNode.internalID.uniqueName) = false := by
    simpa using hdistinct
  have hne2 : (rel.dstNode.internalID.uniqueName == rel.srcNode.internalID.uniqueName) = false := by
    simpa using fun h => hdistinct h.symm
  simp only [beq_self_eq_true, hne, hne2] at hss hsd hds hdd
  refine ⟨_, _, _, planRelScan_eq env ctx relPos rel hrel, ?_,
    getSequentialScan_relScanPlan env _ rel.srcNode rel.dstNode rel _ _ hnonrec,
    getSequentialScan_relScanPlan env _ rel.dstNode rel.srcNode rel _ _ hnonrec,
    hss, hds, hdd, hsd, ?_, ?_⟩
  · simp [SubPlansTable.getSubgraphPlans, JoinOrderEnumeratorContext.addPlan, addPlan_plans_same,
      hfresh]
  · simp [SubPlansTable.getSubgraphPlans, JoinOrderEnumeratorContext.addPlan, addPlan_plans_same,
      hfresh, getWCOJBuildPlanForRel, getWCOJBuildPlanForRelLoop, hss, hds]
  · simp [SubPlansTable.getSubgraphPlans, JoinOrderEnumeratorContext.addPlan, addPlan_plans_same,
      hfresh, getWCOJBuildPlanForRel, getWCOJBuildPlanForRelLoop, hsd, hdd]

/-- Witness of C29 on relationship `e1: a -> b` of the query graph
`e1: a -> b, e2: b -> a` with an empty table. -/
theorem getWCOJBuildPlanForRel_of_planRelScan_witness :
    cycleCtx.queryGraph.queryRels[0]? = some relE1 ∧
    relE1.relType = .NON_RECURSIVE ∧
    relE1.srcNode.internalID.uniqueName ≠ relE1.dstNode.internalID.uniqueName ∧
    cycleCtx.subPlansTable.plans ⟨∅, {0}⟩ = [] ∧
    ∃ (ctx2 : JoinOrderEnumeratorContext) (srcPlan dstPlan : LogicalPlan),
      planRelScan sampleEnv cycleCtx 0 = .ok ctx2 ∧
      ctx2.subPlansTable.getSubgraphPlans ⟨∅, {0}⟩ = [srcPlan, dstPlan] ∧
      getSequentialScan srcPlan.lastOperator =
        some (.scanNodeTable relE1.srcNode.internalID relE1.srcNode.tableIDs []) ∧
      getSequentialScan dstPlan.lastOperator =
        some (.scanNodeTable relE1.dstNode.internalID relE1.dstNode.tableIDs []) ∧
      isNodeSequentialOnPlan srcPlan relE1.srcNode = true ∧
      isNodeSequentialOnPlan dstPlan relE1.srcNode = false ∧
      isNodeSequentialOnPlan dstPlan relE1.dstNode = true ∧
      isNodeSequentialOnPlan srcPlan relE1.dstNode = false ∧
      getWCOJBuildPlanForRel (ctx2.subPlansTable.getSubgraphPlans ⟨∅, {0}⟩) relE1.srcNode =
        .ok (some srcPlan.shallowCopy) ∧
      getWCOJBuildPlanForRel (ctx2.subPlansTable.getSubgraphPlans ⟨∅, {0}⟩) relE1.dstNode =
        .ok (some dstPlan.shallowCopy) :=
  ⟨rfl, rfl, by decide, rfl,
    getWCOJBuildPlanForRel_of_planRelScan sampleEnv cycleCtx 0 relE1 rfl rfl (by decide) rfl⟩

theorem foldl_last_selected (relPos : Nat) :
    ∀ (positions : List Nat) (acc : Nat),
      positions.foldl (fun found i => if i ∈ ({relPos} : Finset Nat) then i else found) acc =
        if relPos ∈ positions then relPos else acc := by
  intro positions
  induction positions with
  | nil => intro acc; simp
  | cons i rest ih =>
    intro acc
    rw [List.foldl_cons, ih]
    by_cases hi : i = relPos
    · subst hi
      by_cases hr : i ∈ rest <;> simp [hr]
    · have hne : relPos ≠ i := fun h => hi h.symm
      by_cases hr : relPos ∈ rest <;> simp [hr, hi, hne]

theorem findSelectedRelPos_singleton (qg : QueryGraph) (otherSubgraph : SubqueryGraph)
    (relPos : Nat) (hsel : otherSubgraph.queryRelsSelector = {relPos})
    (hlt : relPos < qg.getNumQueryRels) : findSelectedRelPos qg otherSubgraph = relPos := by
  unfold findSelectedRelPos
  rw [hsel, foldl_last_selected relPos]
  simp [hlt]

theorem tryPlanINLJoinLoop_eq (env : PlannerEnv) (boundNode nbrNode : NodeExpression)
    (rel : RelExpression) (extendDirection : ExtendDirection) (newSubgraph : SubqueryGraph)
    (predicates : expression_vector) :
    ∀ (plans : List LogicalPlan) (state : Bool × JoinOrderEnumeratorContext),
      tryPlanINLJoinLoop env boundNode nbrNode rel extendDirection newSubgraph predicates plans
          state =
        (state.1 || plans.any (fun plan => isNodeSequentialOnPlan plan boundNode),
          state.2.addPlans
            ((plans.filter (fun plan => isNodeSequentialOnPlan plan boundNode)).map
              (fun prevPlan => (newSubgraph,
                appendFilters env predicates
                  (appendExtend env boundNode nbrNode rel extendDirection
                    (env.getProperties rel.uniqueName) prevPlan.shallowCopy))))) := by
  intro plans
  induction plans with
  | nil => intro state; simp [tryPlanINLJoinLoop, JoinOrderEnumeratorContext.addPlans]
  | cons prevPlan rest ih =>
    intro state
    obtain ⟨flag, ctx⟩ := state
    unfold tryPlanINLJoinLoop
    by_cases hseq : isNodeSequentialOnPlan prevPlan boundNode = true
    · simp only [hseq, if_true, ih, List.any_cons, List.filter_cons, List.map_cons,
        Bool.true_or, Bool.or_true]
      rfl
    · simp only [hseq, if_false, ih, List.any_cons, List.filter_cons, Bool.false_eq_true]
      simp

/-- C23: with exactly one join node `boundNode`, a subgraph `multiRel` that is not
a single-relationship subgraph and a single-relationship subgraph `singleRel` of
the relationship `rel`, `tryPlanINLJoin` returns, with the same result in either
argument order. Under `multiRel` plus `rel` it adds, for each plan of `multiRel`
that is sequential on `boundNode`, in order, a shallow copy of that plan with an
extend from `boundNode` along `rel` to its other endpoint appended, followed by the
filters newly matched from `multiRel` to the new subgraph; it adds nothing for the
other plans and nothing under any other subgraph; `rel` not being matched in
`multiRel`, the plans of `multiRel` that the loop goes through are left as they
were. It returns true exactly when some plan of `multiRel` is sequential on
`boundNode`, that is, when it added a plan. -/
theorem tryPlanINLJoin_adds_extend_plans (env : PlannerEnv) (fuel : Nat)
    (ctx : JoinOrderEnumeratorContext) (multiRel singleRel : SubqueryGraph)
    (boundNode : NodeExpression) (relPos : Nat) (rel : RelExpression)
    (hmulti : multiRel.isSingleRel = false) (hsingle : singleRel.isSingleRel = true)
    (hsel : relPos ∈ singleRel.queryRelsSelector)
    (hnew : relPos ∉ multiRel.queryRelsSelector)
    (hrel : ctx.queryGraph.queryRels[relPos]? = some rel)
    (hbound : ctx.queryGraph.getNumQueryRels ≤ UINT32_MAX) :
    ∃ (flag : Bool) (ctx2 : JoinOrderEnumeratorContext),
      tryPlanINLJoin env (fuel + 1) ctx multiRel singleRel [boundNode] = .ok (flag, ctx2) ∧
      tryPlanINLJoin env (fuel + 2) ctx singleRel multiRel [boundNode] = .ok (flag, ctx2) ∧
      ctx2.subPlansTable.plans (multiRel.addQueryRel relPos) =
        ctx.subPlansTable.plans (multiRel.addQueryRel relPos) ++
          ((ctx.subPlansTable.plans multiRel).filter
            (fun plan => isNodeSequentialOnPlan plan boundNode)).map
            (fun prevPlan =>
              appendFilters env
                (getNewlyMatchedExprs ctx.queryGraph [multiRel] (multiRel.addQueryRel relPos)
                  ctx.whereExpressions)
                (appendExtend env boundNode
                  (if boundNode.uniqueName == rel.getSrcNodeName then rel.dstNode
                    else rel.srcNode)
                  rel (getExtendDirection rel boundNode) (env.getProperties rel.uniqueName)
                  prevPlan.shallowCopy)) ∧
      (∀ sg : SubqueryGraph, sg ≠ multiRel.addQueryRel relPos →
        ctx2.subPlansTable.plans sg = ctx.subPlansTable.plans sg) ∧
      ctx2.subPlansTable.plans multiRel = ctx.subPlansTable.plans multiRel ∧
      (flag = true ↔
        ∃ plan ∈ ctx.subPlansTable.plans multiRel,
          isNodeSequentialOnPlan plan boundNode = true) := by
  have hcard : singleRel.queryRelsSelector.card = 1 := by
    simp only [SubqueryGraph.isSingleRel, Bool.and_eq_true, beq_iff_eq] at hsingle
    exact hsingle.1
  have hselEq : singleRel.queryRelsSelector = {relPos} := by
    obtain ⟨r, hr⟩ := Finset.card_eq_one.mp hcard
    rw [hr] at hsel ⊢
    rw [Finset.mem_singleton.mp hsel]
  have hlt : relPos < ctx.queryGraph.getNumQueryRels := by
    by_contra hge
    have : ctx.queryGraph.queryRels[relPos]? = none :=
      List.getElem?_eq_none (Nat.le_of_not_lt hge)
    rw [this] at hrel
    cases hrel
  have hfind := findSelectedRelPos_singleton ctx.queryGraph singleRel relPos hselEq hlt
  have hnotMax : relPos ≠ UINT32_MAX := by omega
  have hdirect : ∀ fuel2 : Nat,
      tryPlanINLJoin env (fuel2 + 1) ctx multiRel singleRel [boundNode] =
        .ok (tryPlanINLJoinLoop env boundNode
          (if boundNode.uniqueName == rel.getSrcNodeName then rel.dstNode else rel.srcNode)
          rel (getExtendDirection rel boundNode) (multiRel.addQueryRel relPos)
          (getNewlyMatchedExprs ctx.queryGraph [multiRel] (multiRel.addQueryRel relPos)
            ctx.whereExpressions)
          (ctx.subPlansTable.plans multiRel) (false, ctx)) := by
    intro fuel2
    unfold tryPlanINLJoin
    simp [hmulti, hsingle, hfind, hnotMax, QueryGraph.getQueryRel, hrel, getNewlyMatchedExprs1,
      JoinOrderEnumeratorContext.getWhereExpressions, JoinOrderEnumeratorContext.getPlans,
      SubPlansTable.getSubgraphPlans]
  have hswap : tryPlanINLJoin env (fuel + 2) ctx singleRel multiRel [boundNode] =
      tryPlanINLJoin env (fuel + 1) ctx multiRel singleRel [boundNode] := by
    conv => lhs; unfold tryPlanINLJoin
    simp [hmulti, hsingle]
  have hkey : multiRel ≠ multiRel.addQueryRel relPos := by
    intro h
    apply hnew
    rw [h]
    simp [SubqueryGraph.addQueryRel]
  rw [hswap, hdirect fuel, tryPlanINLJoinLoop_eq]
  have hother : ∀ sg : SubqueryGraph, sg ≠ multiRel.addQueryRel relPos →
      (ctx.addPlans
        (((ctx.subPlansTable.plans multiRel).filter
          (fun plan => isNodeSequentialOnPlan plan boundNode)).map
          (fun prevPlan => (multiRel.addQueryRel relPos,
            appendFilters env
              (getNewlyMatchedExprs ctx.queryGraph [multiRel] (multiRel.addQueryRel relPos)
                ctx.whereExpressions)
              (appendExtend env boundNode
                (if boundNode.uniqueName == rel.getSrcNodeName then rel.dstNode
                  else rel.srcNode)
                rel (getExtendDirection rel boundNode) (env.getProperties rel.uniqueName)
                prevPlan.shallowCopy))))).subPlansTable.plans sg =
        ctx.subPlansTable.plans sg := by
    intro sg hne
    rw [addPlans_plans, filter_key_eq_nil _ _ (fun entry hentry => by
      obtain ⟨p, _, hp⟩ := List.mem_map.mp hentry
      rw [← hp]
      exact fun h => hne h.symm)]
    simp
  refine ⟨_, _, rfl, rfl, ?_, hother, hother multiRel hkey, ?_⟩
  · rw [addPlans_plans, filter_key_eq_self _ _ (fun entry hentry => by
      obtain ⟨p, _, hp⟩ := List.mem_map.mp hentry
      rw [← hp]), List.map_map]
    rfl
  · simp

/-- Witness of C23 on the triangle: `{a, b, e1}` holds one plan, which scans `b`, and
is joined with `{e2}` on `b`. -/
theorem tryPlanINLJoin_adds_extend_plans_witness :
    ((⟨{0, 1}, {0}⟩ : SubqueryGraph).isSingleRel = false ∧
      (⟨∅, {1}⟩ : SubqueryGraph).isSingleRel = true ∧
      1 ∈ (⟨∅, {1}⟩ : SubqueryGraph).queryRelsSelector ∧
      1 ∉ (⟨{0, 1}, {0}⟩ : SubqueryGraph).queryRelsSelector ∧
      triangleCtxScanB.queryGraph.queryRels[1]? = some triangleRelE2 ∧
      triangleCtxScanB.queryGraph.getNumQueryRels ≤ UINT32_MAX ∧
      (triangleCtxScanB.subPlansTable.plans ⟨{0, 1}, {0}⟩).filter
        (fun plan => isNodeSequentialOnPlan plan nodeB) = [planScanBExtendE1]) ∧
    ∃ (flag : Bool) (ctx2 : JoinOrderEnumeratorContext),
      tryPlanINLJoin sampleEnv (0 + 1) triangleCtxScanB (⟨{0, 1}, {0}⟩ : SubqueryGraph) (⟨∅, {1}⟩ : SubqueryGraph) [nodeB] = .ok (flag, ctx2) ∧
      tryPlanINLJoin sampleEnv (0 + 2) triangleCtxScanB (⟨∅, {1}⟩ : SubqueryGraph) (⟨{0, 1}, {0}⟩ : SubqueryGraph) [nodeB] = .ok (flag, ctx2) ∧
      ctx2.subPlansTable.plans ((⟨{0, 1}, {0}⟩ : SubqueryGraph).addQueryRel 1) =
        triangleCtxScanB.subPlansTable.plans ((⟨{0, 1}, {0}⟩ : SubqueryGraph).addQueryRel 1) ++
          ((triangleCtxScanB.subPlansTable.plans (⟨{0, 1}, {0}⟩ : SubqueryGraph)).filter
            (fun plan => isNodeSequentialOnPlan plan nodeB)).map
            (fun prevPlan =>
              appendFilters sampleEnv
                (getNewlyMatchedExprs triangleCtxScanB.queryGraph [(⟨{0, 1}, {0}⟩ : SubqueryGraph)] ((⟨{0, 1}, {0}⟩ : SubqueryGraph).addQueryRel 1)
                  triangleCtxScanB.whereExpressions)
                (appendExtend sampleEnv nodeB
                  (if nodeB.uniqueName == triangleRelE2.getSrcNodeName then triangleRelE2.dstNode
                    else triangleRelE2.srcNode)
                  triangleRelE2 (getExtendDirection triangleRelE2 nodeB) (sampleEnv.getProperties triangleRelE2.uniqueName)
                  prevPlan.shallowCopy)) ∧
      (∀ sg : SubqueryGraph, sg ≠ (⟨{0, 1}, {0}⟩ : SubqueryGraph).addQueryRel 1 →
        ctx2.subPlansTable.plans sg = triangleCtxScanB.subPlansTable.plans sg) ∧
      ctx2.subPlansTable.plans (⟨{0, 1}, {0}⟩ : SubqueryGraph) = triangleCtxScanB.subPlansTable.plans (⟨{0, 1}, {0}⟩ : SubqueryGraph) ∧
      (flag = true ↔
        ∃ plan ∈ triangleCtxScanB.subPlansTable.plans (⟨{0, 1}, {0}⟩ : SubqueryGraph),
          isNodeSequentialOnPlan plan nodeB = true) :=
  ⟨⟨rfl, rfl, by decide, by decide, rfl, by decide, rfl⟩,
    tryPlanINLJoin_adds_extend_plans sampleEnv 0 triangleCtxScanB ⟨{0, 1}, {0}⟩ ⟨∅, {1}⟩ nodeB 1
      triangleRelE2 rfl rfl (by decide) (by decide) rfl (by decide)⟩

/-- C24, evaluation on the triangle `e1: a -> b, e2: b -> c, e3: a -> c` with the
predicate `e2.since > 1`: the build plan of `e2` already carries the filter on
`e2.since > 1`; no predicate is newly matched from the previous subgraphs
`{a, b, e1}`, `{e2}`, `{e3}` to the new subgraph; yet `planWCOJoin`, which takes
`{a, b, e1}` three times as previous subgraphs, stores a plan with the filter on
`e2.since > 1` on top of the intersect. -/
theorem planWCOJoin_reapplies_build_filter :
    (getWCOJBuildPlanForRel (triangleFilterCtx.subPlansTable.getSubgraphPlans ⟨∅, {1}⟩)
        nodeB).toOption.map
        (fun relPlan => relPlan.map (fun plan => plan.lastOperator.topFilters)) =
      some (some [predOnE2]) ∧
    getNewlyMatchedExprs triangleFilterCtx.queryGraph
        [⟨{0, 1}, {0}⟩, getEmptySubqueryGraph.addQueryRel 1, getEmptySubqueryGraph.addQueryRel 2]
        ⟨{0, 1}, {0, 1, 2}⟩ triangleFilterCtx.getWhereExpressions = [] ∧
    (planWCOJoin sampleEnv triangleFilterCtx ⟨{0, 1}, {0}⟩ [triangleRelE2, relE3]
        nodeC).toOption.map
        (fun ctx2 => (ctx2.subPlansTable.plans ⟨{0, 1}, {0, 1, 2}⟩).map
          (fun plan => plan.lastOperator)) =
      some [.filter predOnE2
        (.intersect nodeC.internalID [nodeB.internalID, nodeA.internalID]
          planScanAExtendE1.lastOperator
          [.filter predOnE2 planScanBExtendE2.lastOperator, planScanAExtendE3.lastOperator])] :=
  ⟨rfl, rfl, rfl⟩

theorem planInnerHashJoinPair_eq_addPlans (env : PlannerEnv) (newSubgraph : SubqueryGraph)
    (maxCost : Option Nat) (joinNodeIDs predicates : expression_vector) (flipPlan : Bool)
    (leftPlan : LogicalPlan) (ctx : JoinOrderEnumeratorContext) (rightPlan : LogicalPlan) :
    planInnerHashJoinPair env newSubgraph maxCost joinNodeIDs predicates flipPlan leftPlan ctx
        rightPlan =
      ctx.addPlans
        ((hashJoinPlansOfPair env maxCost joinNodeIDs predicates flipPlan leftPlan rightPlan).map
          (fun plan => (newSubgraph, plan))) := by
  unfold planInnerHashJoinPair hashJoinPlansOfPair
  by_cases h1 : costBelow (env.computeHashJoinCost joinNodeIDs leftPlan rightPlan) maxCost = true
  · by_cases h2 : (flipPlan &&
        costBelow (env.computeHashJoinCost joinNodeIDs rightPlan leftPlan) maxCost) = true
    · simp only [h1, h2, if_true]
      rfl
    · simp only [h1, h2, if_true]
      rfl
  · by_cases h2 : (flipPlan &&
        costBelow (env.computeHashJoinCost joinNodeIDs rightPlan leftPlan) maxCost) = true
    · simp only [h1, h2, if_true]
      rfl
    · simp only [h1, h2]
      rfl

theorem planInnerHashJoin_inner_eq (env : PlannerEnv) (newSubgraph : SubqueryGraph)
    (maxCost : Option Nat) (joinNodeIDs predicates : expression_vector) (flipPlan : Bool)
    (leftPlan : LogicalPlan) :
    ∀ (rightPlans : List LogicalPlan) (ctx : JoinOrderEnumeratorContext),
      rightPlans.foldl
          (planInnerHashJoinPair env newSubgraph maxCost joinNodeIDs predicates flipPlan leftPlan)
          ctx =
        ctx.addPlans
          ((rightPlans.flatMap
            (hashJoinPlansOfPair env maxCost joinNodeIDs predicates flipPlan leftPlan)).map
            (fun plan => (newSubgraph, plan))) := by
  intro rightPlans
  induction rightPlans with
  | nil => intro ctx; rfl
  | cons r rest ih =>
    intro ctx
    rw [List.foldl_cons, ih, planInnerHashJoinPair_eq_addPlans, List.flatMap_cons,
      List.map_append, addPlans_append]

theorem addPlans_same_key_plans_other (newSubgraph other : SubqueryGraph)
    (hne : other ≠ newSubgraph) (plans : List LogicalPlan) (ctx : JoinOrderEnumeratorContext) :
    (ctx.addPlans (plans.map (fun plan => (newSubgraph, plan)))).subPlansTable.plans other =
      ctx.subPlansTable.plans other := by
  rw [addPlans_plans, filter_key_eq_nil _ _ (fun entry hentry => by
    obtain ⟨p, _, hp⟩ := List.mem_map.mp hentry
    rw [← hp]
    exact fun h => hne h.symm)]
  simp

theorem addPlans_same_key_plans (newSubgraph : SubqueryGraph)
    (plans : List LogicalPlan) (ctx : JoinOrderEnumeratorContext) :
    (ctx.addPlans (plans.map (fun plan => (newSubgraph, plan)))).subPlansTable.plans newSubgraph =
      ctx.subPlansTable.plans newSubgraph ++ plans := by
  rw [addPlans_plans, filter_key_eq_self _ _ (fun entry hentry => by
    obtain ⟨p, _, hp⟩ := List.mem_map.mp hentry
    rw [← hp]), List.map_map]
  simp

theorem planInnerHashJoin_outer_eq (env : PlannerEnv) (newSubgraph otherSubgraph : SubqueryGraph)
    (hne : otherSubgraph ≠ newSubgraph)
    (maxCost : Option Nat) (joinNodeIDs predicates : expression_vector) (flipPlan : Bool)
    (rightPlans : List LogicalPlan) :
    ∀ (leftPlans : List LogicalPlan) (ctx : JoinOrderEnumeratorContext),
      ctx.subPlansTable.plans otherSubgraph = rightPlans →
      leftPlans.foldl
          (fun ctx leftPlan =>
            (ctx.getPlans otherSubgraph).foldl
              (planInnerHashJoinPair env newSubgraph maxCost joinNodeIDs predicates flipPlan
                leftPlan) ctx)
          ctx =
        ctx.addPlans
          ((leftPlans.flatMap (fun leftPlan =>
            rightPlans.flatMap
              (hashJoinPlansOfPair env maxCost joinNodeIDs predicates flipPlan leftPlan))).map
            (fun plan => (newSubgraph, plan))) := by
  intro leftPlans
  induction leftPlans with
  | nil => intro ctx _; rfl
  | cons l rest ih =>
    intro ctx hright
    have hread : ctx.getPlans otherSubgraph = rightPlans := hright
    rw [List.foldl_cons, hread, planInnerHashJoin_inner_eq, ih, List.flatMap_cons,
      List.map_append, addPlans_append]
    rw [addPlans_same_key_plans_other newSubgraph otherSubgraph hne]
    exact hright
theorem planInnerHashJoin_eq_addPlans (env : PlannerEnv)
    (ctx : JoinOrderEnumeratorContext) (subgraph otherSubgraph : SubqueryGraph)
    (joinNodes : List NodeExpression) (flipPlan : Bool)
    (hright : otherSubgraph ≠ subgraph.addSubqueryGraph otherSubgraph) :
    planInnerHashJoin env ctx subgraph otherSubgraph joinNodes flipPlan =
      ctx.addPlans
        (((ctx.subPlansTable.plans subgraph).flatMap (fun leftPlan =>
          (ctx.subPlansTable.plans otherSubgraph).flatMap
            (hashJoinPlansOfPair env
              (ctx.subPlansTable.getMaxCost (subgraph.addSubqueryGraph otherSubgraph))
              (joinNodes.map (fun n => n.internalID))
              (getNewlyMatchedExprs ctx.queryGraph [subgraph, otherSubgraph]
                (subgraph.addSubqueryGraph otherSubgraph) ctx.whereExpressions)
              flipPlan leftPlan))).map
          (fun plan => (subgraph.addSubqueryGraph otherSubgraph, plan))) := by
  rw [← planInnerHashJoin_outer_eq env (subgraph.addSubqueryGraph otherSubgraph) otherSubgraph
    hright _ _ _ flipPlan (ctx.subPlansTable.plans otherSubgraph)
    (ctx.subPlansTable.plans subgraph) ctx rfl]
  simp only [planInnerHashJoin, joinNodeIDs_foldl_eq_map, List.nil_append]
  rfl

theorem mem_hashJoinPlansOfPair (env : PlannerEnv) (maxCost : Option Nat)
    (joinNodeIDs predicates : expression_vector) (flipPlan : Bool)
    (leftPlan rightPlan plan : LogicalPlan) :
    plan ∈ hashJoinPlansOfPair env maxCost joinNodeIDs predicates flipPlan leftPlan rightPlan ↔
      (costBelow (env.computeHashJoinCost joinNodeIDs leftPlan rightPlan) maxCost = true ∧
        plan = appendFilters env predicates
          (appendHashJoin env joinNodeIDs .INNER leftPlan rightPlan)) ∨
      (flipPlan = true ∧
        costBelow (env.computeHashJoinCost joinNodeIDs rightPlan leftPlan) maxCost = true ∧
        plan = appendFilters env predicates
          (appendHashJoin env joinNodeIDs .INNER rightPlan leftPlan)) := by
  unfold hashJoinPlansOfPair
  by_cases h1 : costBelow (env.computeHashJoinCost joinNodeIDs leftPlan rightPlan) maxCost = true
  · by_cases h2 : costBelow (env.computeHashJoinCost joinNodeIDs rightPlan leftPlan) maxCost = true
    · cases flipPlan <;> simp [h1, h2]
    · cases flipPlan <;> simp [h1, h2]
  · by_cases h2 : costBelow (env.computeHashJoinCost joinNodeIDs rightPlan leftPlan) maxCost = true
    · cases flipPlan <;> simp [h1, h2]
    · cases flipPlan <;> simp [h1, h2]

/-- C27: `planInnerHashJoin` on two subgraphs that both differ from the target
subgraph (so the plan lists the loops iterate are not the one appended to, and
they are left unchanged). The plans the call appends to the target are, for each
plan of `subgraph` and each plan of `otherSubgraph` in order, the hash join with
the first as probe side when its `computeHashJoinCost` is below the `maxCost` the
target had on entry, then, when `flipPlan` is set, the hash join with the second as
probe side when its cost is below that same entry-time `maxCost`. A candidate is
thus added exactly when its cost is below the entry-time `maxCost`, whatever the
call has already added; and a context that differs only in the order of the plans
of the two subgraphs gets the same plans added, up to their order. -/
theorem planInnerHashJoin_adds_exactly_below_entry_maxCost (env : PlannerEnv)
    (ctx : JoinOrderEnumeratorContext) (subgraph otherSubgraph : SubqueryGraph)
    (joinNodes : List NodeExpression) (flipPlan : Bool)
    (hleft : subgraph ≠ subgraph.addSubqueryGraph otherSubgraph)
    (hright : otherSubgraph ≠ subgraph.addSubqueryGraph otherSubgraph) :
    ∃ added : List LogicalPlan,
      added =
        (ctx.subPlansTable.plans subgraph).flatMap (fun leftPlan =>
          (ctx.subPlansTable.plans otherSubgraph).flatMap
            (hashJoinPlansOfPair env
              (ctx.subPlansTable.getMaxCost (subgraph.addSubqueryGraph otherSubgraph))
              (joinNodes.map (fun n => n.internalID))
              (getNewlyMatchedExprs ctx.queryGraph [subgraph, otherSubgraph]
                (subgraph.addSubqueryGraph otherSubgraph) ctx.whereExpressions)
              flipPlan leftPlan)) ∧
      (planInnerHashJoin env ctx subgraph otherSubgraph joinNodes flipPlan).subPlansTable.plans
          (subgraph.addSubqueryGraph otherSubgraph) =
        ctx.subPlansTable.plans (subgraph.addSubqueryGraph otherSubgraph) ++ added ∧
      (planInnerHashJoin env ctx subgraph otherSubgraph joinNodes flipPlan).subPlansTable.plans
          subgraph = ctx.subPlansTable.plans subgraph ∧
      (planInnerHashJoin env ctx subgraph otherSubgraph joinNodes flipPlan).subPlansTable.plans
          otherSubgraph = ctx.subPlansTable.plans otherSubgraph ∧
      (∀ plan : LogicalPlan, plan ∈ added ↔
        ∃ leftPlan ∈ ctx.subPlansTable.plans subgraph,
          ∃ rightPlan ∈ ctx.subPlansTable.plans otherSubgraph,
            (costBelow
                (env.computeHashJoinCost (joinNodes.map (fun n => n.internalID)) leftPlan
                  rightPlan)
                (ctx.subPlansTable.getMaxCost (subgraph.addSubqueryGraph otherSubgraph)) = true ∧
              plan = appendFilters env
                (getNewlyMatchedExprs ctx.queryGraph [subgraph, otherSubgraph]
                  (subgraph.addSubqueryGraph otherSubgraph) ctx.whereExpressions)
                (appendHashJoin env (joinNodes.map (fun n => n.internalID)) .INNER
                  leftPlan rightPlan)) ∨
            (flipPlan = true ∧
              costBelow
                (env.computeHashJoinCost (joinNodes.map (fun n => n.internalID)) rightPlan
                  leftPlan)
                (ctx.subPlansTable.getMaxCost (subgraph.addSubqueryGraph otherSubgraph)) = true ∧
              plan = appendFilters env
                (getNewlyMatchedExprs ctx.queryGraph [subgraph, otherSubgraph]
                  (subgraph.addSubqueryGraph otherSubgraph) ctx.whereExpressions)
                (appendHashJoin env (joinNodes.map (fun n => n.internalID)) .INNER
                  rightPlan leftPlan))) ∧
      (∀ reordered : JoinOrderEnumeratorContext,
        reordered.queryGraph = ctx.queryGraph →
        reordered.whereExpressions = ctx.whereExpressions →
        reordered.subPlansTable.getMaxCost (subgraph.addSubqueryGraph otherSubgraph) =
          ctx.subPlansTable.getMaxCost (subgraph.addSubqueryGraph otherSubgraph) →
        (reordered.subPlansTable.plans subgraph).Perm (ctx.subPlansTable.plans subgraph) →
        (reordered.subPlansTable.plans otherSubgraph).Perm
          (ctx.subPlansTable.plans otherSubgraph) →
        ∃ addedReordered : List LogicalPlan,
          (planInnerHashJoin env reordered subgraph otherSubgraph joinNodes
              flipPlan).subPlansTable.plans (subgraph.addSubqueryGraph otherSubgraph) =
            reordered.subPlansTable.plans (subgraph.addSubqueryGraph otherSubgraph) ++
              addedReordered ∧
          addedReordered.Perm added) := by
  refine ⟨_, rfl, ?_, ?_, ?_, ?_, ?_⟩
  · rw [planInnerHashJoin_eq_addPlans env ctx subgraph otherSubgraph joinNodes flipPlan hright,
      addPlans_same_key_plans]
  · rw [planInnerHashJoin_eq_addPlans env ctx subgraph otherSubgraph joinNodes flipPlan hright,
      addPlans_same_key_plans_other _ _ hleft]
  · rw [planInnerHashJoin_eq_addPlans env ctx subgraph otherSubgraph joinNodes flipPlan hright,
      addPlans_same_key_plans_other _ _ hright]
  · intro plan
    simp only [List.mem_flatMap, mem_hashJoinPlansOfPair]
  · intro reordered hqg hwhere hmax hl hr
    have hrun := planInnerHashJoin_eq_addPlans env reordered subgraph otherSubgraph joinNodes
      flipPlan hright
    rw [hqg, hwhere, hmax] at hrun
    refine ⟨_, by rw [hrun, addPlans_same_key_plans], ?_⟩
    exact (List.Perm.flatMap_right _ hl).trans
        (List.Perm.flatMap_left _ (fun leftPlan _ => List.Perm.flatMap_right _ hr))

/-- Witness of C27 on the triangle: the plans of `{e1}` and `{e2}` are joined on
`b` when the target holds a plan of cost 6. Every candidate costs 5; all eight are
added, although the ceiling of the target is 5 once the first is added. -/
theorem planInnerHashJoin_adds_exactly_below_entry_maxCost_witness :
    ((⟨∅, {0}⟩ : SubqueryGraph) ≠ (⟨∅, {0}⟩ : SubqueryGraph).addSubqueryGraph ⟨∅, {1}⟩ ∧
      (⟨∅, {1}⟩ : SubqueryGraph) ≠ (⟨∅, {0}⟩ : SubqueryGraph).addSubqueryGraph ⟨∅, {1}⟩ ∧
      tieCtx.subPlansTable.getMaxCost ((⟨∅, {0}⟩ : SubqueryGraph).addSubqueryGraph ⟨∅, {1}⟩) =
        some 6 ∧
      (planInnerHashJoin tieEnv tieCtx ⟨∅, {0}⟩ ⟨∅, {1}⟩ [nodeB] true).subPlansTable.getMaxCost
        ((⟨∅, {0}⟩ : SubqueryGraph).addSubqueryGraph ⟨∅, {1}⟩) = some 5 ∧
      ((planInnerHashJoin tieEnv tieCtx ⟨∅, {0}⟩ ⟨∅, {1}⟩ [nodeB] true).subPlansTable.plans
        ((⟨∅, {0}⟩ : SubqueryGraph).addSubqueryGraph ⟨∅, {1}⟩)).map (fun plan => plan.cost) =
        [6, 5, 5, 5, 5, 5, 5, 5, 5]) ∧
    ∃ added : List LogicalPlan,
      added =
        (tieCtx.subPlansTable.plans (⟨∅, {0}⟩ : SubqueryGraph)).flatMap (fun leftPlan =>
          (tieCtx.subPlansTable.plans (⟨∅, {1}⟩ : SubqueryGraph)).flatMap
            (hashJoinPlansOfPair tieEnv
              (tieCtx.subPlansTable.getMaxCost ((⟨∅, {0}⟩ : SubqueryGraph).addSubqueryGraph (⟨∅, {1}⟩ : SubqueryGraph)))
              ([nodeB].map (fun n => n.internalID))
              (getNewlyMatchedExprs tieCtx.queryGraph [(⟨∅, {0}⟩ : SubqueryGraph), (⟨∅, {1}⟩ : SubqueryGraph)]
                ((⟨∅, {0}⟩ : SubqueryGraph).addSubqueryGraph (⟨∅, {1}⟩ : SubqueryGraph)) tieCtx.whereExpressions)
              true leftPlan)) ∧
      (planInnerHashJoin tieEnv tieCtx (⟨∅, {0}⟩ : SubqueryGraph) (⟨∅, {1}⟩ : SubqueryGraph) [nodeB] true).subPlansTable.plans
          ((⟨∅, {0}⟩ : SubqueryGraph).addSubqueryGraph (⟨∅, {1}⟩ : SubqueryGraph)) =
        tieCtx.subPlansTable.plans ((⟨∅, {0}⟩ : SubqueryGraph).addSubqueryGraph (⟨∅, {1}⟩ : SubqueryGraph)) ++ added ∧
      (planInnerHashJoin tieEnv tieCtx (⟨∅, {0}⟩ : SubqueryGraph) (⟨∅, {1}⟩ : SubqueryGraph) [nodeB] true).subPlansTable.plans
          (⟨∅, {0}⟩ : SubqueryGraph) = tieCtx.subPlansTable.plans (⟨∅, {0}⟩ : SubqueryGraph) ∧
      (planInnerHashJoin tieEnv tieCtx (⟨∅, {0}⟩ : SubqueryGraph) (⟨∅, {1}⟩ : SubqueryGraph) [nodeB] true).subPlansTable.plans
          (⟨∅, {1}⟩ : SubqueryGraph) = tieCtx.subPlansTable.plans (⟨∅, {1}⟩ : SubqueryGraph) ∧
      (∀ plan : LogicalPlan, plan ∈ added ↔
        ∃ leftPlan ∈ tieCtx.subPlansTable.plans (⟨∅, {0}⟩ : SubqueryGraph),
          ∃ rightPlan ∈ tieCtx.subPlansTable.plans (⟨∅, {1}⟩ : SubqueryGraph),
            (costBelow
                (tieEnv.computeHashJoinCost ([nodeB].map (fun n => n.internalID)) leftPlan
                  rightPlan)
                (tieCtx.subPlansTable.getMaxCost ((⟨∅, {0}⟩ : SubqueryGraph).addSubqueryGraph (⟨∅, {1}⟩ : SubqueryGraph))) = true ∧
              plan = appendFilters tieEnv
                (getNewlyMatchedExprs tieCtx.queryGraph [(⟨∅, {0}⟩ : SubqueryGraph), (⟨∅, {1}⟩ : SubqueryGraph)]
                  ((⟨∅, {0}⟩ : SubqueryGraph).addSubqueryGraph (⟨∅, {1}⟩ : SubqueryGraph)) tieCtx.whereExpressions)
                (appendHashJoin tieEnv ([nodeB].map (fun n => n.internalID)) .INNER
                  leftPlan rightPlan)) ∨
            (true = true ∧
              costBelow
                (tieEnv.computeHashJoinCost ([nodeB].map (fun n => n.internalID)) rightPlan
                  leftPlan)
                (tieCtx.subPlansTable.getMaxCost ((⟨∅, {0}⟩ : SubqueryGraph).addSubqueryGraph (⟨∅, {1}⟩ : SubqueryGraph))) = true ∧
              plan = appendFilters tieEnv
                (getNewlyMatchedExprs tieCtx.queryGraph [(⟨∅, {0}⟩ : SubqueryGraph), (⟨∅, {1}⟩ : SubqueryGraph)]
                  ((⟨∅, {0}⟩ : SubqueryGraph).addSubqueryGraph (⟨∅, {1}⟩ : SubqueryGraph)) tieCtx.whereExpressions)
                (appendHashJoin tieEnv ([nodeB].map (fun n => n.internalID)) .INNER
                  rightPlan leftPlan))) ∧
      (∀ reordered : JoinOrderEnumeratorContext,
        reordered.queryGraph = tieCtx.queryGraph →
        reordered.whereExpressions = tieCtx.whereExpressions →
        reordered.subPlansTable.getMaxCost ((⟨∅, {0}⟩ : SubqueryGraph).addSubqueryGraph (⟨∅, {1}⟩ : SubqueryGraph)) =
          tieCtx.subPlansTable.getMaxCost ((⟨∅, {0}⟩ : SubqueryGraph).addSubqueryGraph (⟨∅, {1}⟩ : SubqueryGraph)) →
        (reordered.subPlansTable.plans (⟨∅, {0}⟩ : SubqueryGraph)).Perm (tieCtx.subPlansTable.plans (⟨∅, {0}⟩ : SubqueryGraph)) →
        (reordered.subPlansTable.plans (⟨∅, {1}⟩ : SubqueryGraph)).Perm
          (tieCtx.subPlansTable.plans (⟨∅, {1}⟩ : SubqueryGraph)) →
        ∃ addedReordered : List LogicalPlan,
          (planInnerHashJoin tieEnv reordered (⟨∅, {0}⟩ : SubqueryGraph) (⟨∅, {1}⟩ : SubqueryGraph) [nodeB]
              true).subPlansTable.plans ((⟨∅, {0}⟩ : SubqueryGraph).addSubqueryGraph (⟨∅, {1}⟩ : SubqueryGraph)) =
            reordered.subPlansTable.plans ((⟨∅, {0}⟩ : SubqueryGraph).addSubqueryGraph (⟨∅, {1}⟩ : SubqueryGraph)) ++
              addedReordered ∧
          addedReordered.Perm added) :=
  ⟨⟨by decide, by decide, rfl, rfl, rfl⟩,
    planInnerHashJoin_adds_exactly_below_entry_maxCost tieEnv tieCtx ⟨∅, {0}⟩ ⟨∅, {1}⟩ [nodeB]
      true (by decide) (by decide)⟩

theorem findSelectedRelPos_of_isSingleRel (qg : QueryGraph) (otherSubgraph : SubqueryGraph)
    (hsingle : otherSubgraph.isSingleRel = true)
    (hrange : ∀ relPos ∈ otherSubgraph.queryRelsSelector, relPos < qg.getNumQueryRels) :
    findSelectedRelPos qg otherSubgraph < qg.getNumQueryRels := by
  have hcard : otherSubgraph.queryRelsSelector.card = 1 := by
    simp only [SubqueryGraph.isSingleRel, Bool.and_eq_true, beq_iff_eq] at hsingle
    exact hsingle.1
  obtain ⟨relPos, hsel⟩ := Finset.card_eq_one.mp hcard
  have hlt : relPos < qg.getNumQueryRels := hrange relPos (by rw [hsel]; simp)
  rw [findSelectedRelPos_singleton qg otherSubgraph relPos hsel hlt]
  exact hlt

theorem tryPlanINLJoin_error_outOfFuel (env : PlannerEnv) :
    ∀ (fuel : Nat) (ctx : JoinOrderEnumeratorContext) (subgraph otherSubgraph : SubqueryGraph)
      (joinNodes : List NodeExpression),
      joinNodes ≠ [] →
      (∀ relPos ∈ subgraph.queryRelsSelector, relPos < ctx.queryGraph.getNumQueryRels) →
      (∀ relPos ∈ otherSubgraph.queryRelsSelector, relPos < ctx.queryGraph.getNumQueryRels) →
      ctx.queryGraph.getNumQueryRels ≤ UINT32_MAX →
      ∀ e, tryPlanINLJoin env fuel ctx subgraph otherSubgraph joinNodes = .error e →
        e = .outOfFuel := by
  intro fuel
  induction fuel with
  | zero =>
    intro ctx subgraph otherSubgraph joinNodes _ _ _ _ e he
    cases he
    rfl
  | succ fuel ih =>
    intro ctx subgraph otherSubgraph joinNodes hne hsg hother hnum e he
    unfold tryPlanINLJoin at he
    split at he
    · cases he
    · split at he
      · cases he
      · rename_i hguard
        split at he
        · exact ih ctx otherSubgraph subgraph joinNodes hne hother hsg hnum e he
        · rename_i hnot
          have hs : subgraph.isSingleRel = false := by simpa using hnot
          have ho : otherSubgraph.isSingleRel = true := by
            cases ho : otherSubgraph.isSingleRel with
            | true => rfl
            | false => simp [hs, ho] at hguard
          have hlt := findSelectedRelPos_of_isSingleRel ctx.queryGraph otherSubgraph ho hother
          have hrel : ∃ rel, ctx.queryGraph.getQueryRel
              (findSelectedRelPos ctx.queryGraph otherSubgraph) = .ok rel := by
            unfold QueryGraph.getQueryRel
            have hget : ctx.queryGraph.queryRels[findSelectedRelPos ctx.queryGraph otherSubgraph]? =
                some (ctx.queryGraph.queryRels.get
                  ⟨findSelectedRelPos ctx.queryGraph otherSubgraph, hlt⟩) :=
              List.getElem?_eq_getElem hlt
            rw [hget]
            exact ⟨_, rfl⟩
          obtain ⟨rel, hrel⟩ := hrel
          obtain ⟨node, rest, hnodes⟩ : ∃ node rest, joinNodes = node :: rest := by
            cases joinNodes with
            | nil => exact absurd rfl hne
            | cons node rest => exact ⟨node, rest, rfl⟩
          subst hnodes
          have hmax : ¬ findSelectedRelPos ctx.queryGraph otherSubgraph = UINT32_MAX := by omega
          simp [hmax, hrel] at he
theorem needPruneImplicitJoins_eq (qg : QueryGraph) (leftSubgraph rightSubgraph : SubqueryGraph)
    (numJoinNodes : Nat) :
    needPruneImplicitJoins qg leftSubgraph rightSubgraph numJoinNodes =
      ((sharedNodePositions qg leftSubgraph rightSubgraph).card != numJoinNodes) := by
  unfold needPruneImplicitJoins
  simp only [countIntersection_eq_card]

theorem tryPlanINLJoin_ok_of_not_both_single (env : PlannerEnv)
    (ctx : JoinOrderEnumeratorContext) (subgraph otherSubgraph : SubqueryGraph)
    (joinNodes : List NodeExpression)
    (hpre : joinNodes.length > 1 ∨
      ¬ (subgraph.isSingleRel = true ∧ otherSubgraph.isSingleRel = true)) (fuel : Nat) :
    tryPlanINLJoin env (fuel + 2) ctx subgraph otherSubgraph joinNodes ≠ .error .outOfFuel ∧
      tryPlanINLJoin env (fuel + 2) ctx subgraph otherSubgraph joinNodes =
        tryPlanINLJoin env 2 ctx subgraph otherSubgraph joinNodes := by
  by_cases hlen : joinNodes.length > 1
  · have h : ∀ fuel : Nat, tryPlanINLJoin env (fuel + 1) ctx subgraph otherSubgraph joinNodes =
        .ok (false, ctx) := by
      intro fuel
      unfold tryPlanINLJoin
      simp only [hlen, if_true]
    refine ⟨by rw [h (fuel + 1)]; simp, by rw [h (fuel + 1), h 1]⟩
  · have hboth : ¬ (subgraph.isSingleRel = true ∧ otherSubgraph.isSingleRel = true) := by
      rcases hpre with h | h
      · exact absurd h hlen
      · exact h
    cases hs : subgraph.isSingleRel with
    | false =>
      have h := fun fuel =>
        tryPlanINLJoin_step_not_single env fuel ctx subgraph otherSubgraph joinNodes hs
      refine ⟨by rw [(h (fuel + 1)).1]; exact (h 1).2, by rw [(h (fuel + 1)).1, (h 1).1]⟩
    | true =>
      have ho : otherSubgraph.isSingleRel = false := by
        cases ho : otherSubgraph.isSingleRel with
        | false => rfl
        | true => exact absurd ⟨hs, ho⟩ hboth
      have hswap : ∀ fuel : Nat,
          tryPlanINLJoin env (fuel + 1) ctx subgraph otherSubgraph joinNodes =
            tryPlanINLJoin env fuel ctx otherSubgraph subgraph joinNodes := by
        intro fuel
        conv => lhs; unfold tryPlanINLJoin
        simp only [hlen, if_false, hs, ho, Bool.not_true, Bool.not_false, Bool.false_and,
          Bool.false_eq_true, if_true]
      have h := fun fuel =>
        tryPlanINLJoin_step_not_single env fuel ctx otherSubgraph subgraph joinNodes ho
      refine ⟨by rw [hswap (fuel + 1), (h fuel).1]; exact (h 0).2, ?_⟩
      rw [hswap (fuel + 1), hswap 1, (h fuel).1]

/-- C28: the body `planInnerJoin` runs for a pair `(rightSubgraph, nbrSubgraph)` whose
neighbour has plans and whose join nodes are `joinNodes`, when the two subgraphs
share at least one node position (ignoring node selectors) and select only
relationships of the query graph. Unless `joinNodes` has as many elements as the
subgraphs share node positions the pair is skipped with the context unchanged.
Otherwise `joinNodes` has a first element, `tryPlanINLJoin` is called with it, and
`planInnerHashJoin` is called with the same `joinNodes` exactly when
`tryPlanINLJoin` returned false. In `tryPlanINLJoin` the loop over the
relationships of a single-relationship subgraph of the pair finds a position of
the query graph, which is not `UINT32_MAX`; the call fails neither the assertion
nor the access `joinNodes[0]`; and it returns, at recursion depth 2 and every
larger one, unless both subgraphs are single-relationship subgraphs with a single
join node. -/
theorem planInnerJoinPair_joinNodes_in_bounds (env : PlannerEnv)
    (fuel leftLevel rightLevel : Nat) (ctx : JoinOrderEnumeratorContext)
    (rightSubgraph nbrSubgraph : SubqueryGraph) (joinNodes : List NodeExpression)
    (hshared : 1 ≤ (sharedNodePositions ctx.queryGraph nbrSubgraph rightSubgraph).card)
    (hright : ∀ relPos ∈ rightSubgraph.queryRelsSelector,
      relPos < ctx.queryGraph.getNumQueryRels)
    (hnbr : ∀ relPos ∈ nbrSubgraph.queryRelsSelector, relPos < ctx.queryGraph.getNumQueryRels)
    (hnum : ctx.queryGraph.getNumQueryRels ≤ UINT32_MAX)
    (hplans : ctx.containPlans nbrSubgraph = true)
    (hnodes : ctx.queryGraph.getQueryNodes
      (env.getConnectedNodePos ctx.queryGraph rightSubgraph nbrSubgraph) = .ok joinNodes) :
    (joinNodes.length ≠ (sharedNodePositions ctx.queryGraph nbrSubgraph rightSubgraph).card →
      planInnerJoinPair env fuel leftLevel rightLevel ctx rightSubgraph nbrSubgraph =
        .ok (ctx, [])) ∧
    (joinNodes.length = (sharedNodePositions ctx.queryGraph nbrSubgraph rightSubgraph).card →
      (∃ boundNode, joinNodes[0]? = some boundNode) ∧
      (∀ e, tryPlanINLJoin env fuel ctx rightSubgraph nbrSubgraph joinNodes = .error e →
        e = .outOfFuel ∧
        planInnerJoinPair env fuel leftLevel rightLevel ctx rightSubgraph nbrSubgraph =
          .error e) ∧
      (∀ ctx2, tryPlanINLJoin env fuel ctx rightSubgraph nbrSubgraph joinNodes = .ok (true, ctx2) →
        planInnerJoinPair env fuel leftLevel rightLevel ctx rightSubgraph nbrSubgraph =
          .ok (ctx2, [])) ∧
      (∀ ctx2,
        tryPlanINLJoin env fuel ctx rightSubgraph nbrSubgraph joinNodes = .ok (false, ctx2) →
        planInnerJoinPair env fuel leftLevel rightLevel ctx rightSubgraph nbrSubgraph =
          .ok (planInnerHashJoin env ctx2 rightSubgraph nbrSubgraph joinNodes
            (leftLevel != rightLevel), [(rightSubgraph, nbrSubgraph)])) ∧
      (∀ single ∈ [rightSubgraph, nbrSubgraph], single.isSingleRel = true →
        findSelectedRelPos ctx.queryGraph single ≠ UINT32_MAX ∧
        ∃ rel, ctx.queryGraph.getQueryRel (findSelectedRelPos ctx.queryGraph single) = .ok rel) ∧
      ((joinNodes.length > 1 ∨
          ¬ (rightSubgraph.isSingleRel = true ∧ nbrSubgraph.isSingleRel = true)) →
        ∃ (flag : Bool) (ctx2 : JoinOrderEnumeratorContext), ∀ depth : Nat,
          tryPlanINLJoin env (depth + 2) ctx rightSubgraph nbrSubgraph joinNodes =
            .ok (flag, ctx2))) := by
  have hprune := needPruneImplicitJoins_eq ctx.queryGraph nbrSubgraph rightSubgraph
    joinNodes.length
  constructor
  · intro hlen
    have hp : needPruneImplicitJoins ctx.queryGraph nbrSubgraph rightSubgraph joinNodes.length =
        true := by
      rw [hprune]
      simpa using fun h => hlen h.symm
    unfold planInnerJoinPair
    simp [hplans, hnodes, hp]
  · intro hlen
    have hp : needPruneImplicitJoins ctx.queryGraph nbrSubgraph rightSubgraph joinNodes.length =
        false := by
      rw [hprune]
      simpa using hlen.symm
    have hne : joinNodes ≠ [] := by
      intro hnil
      rw [hnil] at hlen
      simp at hlen
      omega
    have hsafe := tryPlanINLJoin_error_outOfFuel env fuel ctx rightSubgraph nbrSubgraph joinNodes
      hne hright hnbr hnum
    refine ⟨?_, ?_, ?_, ?_, ?_, ?_⟩
    · cases joinNodes with
      | nil => exact absurd rfl hne
      | cons node rest => exact ⟨node, by simp⟩
    · intro e he
      refine ⟨hsafe e he, ?_⟩
      unfold planInnerJoinPair
      simp [hplans, hnodes, hp, he]
    · intro ctx2 hrun
      unfold planInnerJoinPair
      simp [hplans, hnodes, hp, hrun]
    · intro ctx2 hrun
      unfold planInnerJoinPair
      simp [hplans, hnodes, hp, hrun]
    · intro single hmem hsingle
      have hrange : ∀ relPos ∈ single.queryRelsSelector,
          relPos < ctx.queryGraph.getNumQueryRels := by
        simp only [List.mem_cons, List.mem_singleton, List.not_mem_nil, or_false] at hmem
        rcases hmem with rfl | rfl
        · exact hright
        · exact hnbr
      have hlt := findSelectedRelPos_of_isSingleRel ctx.queryGraph single hsingle hrange
      refine ⟨by omega, ?_⟩
      unfold QueryGraph.getQueryRel
      have hget : ctx.queryGraph.queryRels[findSelectedRelPos ctx.queryGraph single]? =
          some (ctx.queryGraph.queryRels.get ⟨findSelectedRelPos ctx.queryGraph single, hlt⟩) :=
        List.getElem?_eq_getElem hlt
      rw [hget]
      exact ⟨_, rfl⟩
    · intro hpre
      have hstep := tryPlanINLJoin_ok_of_not_both_single env ctx rightSubgraph nbrSubgraph
        joinNodes hpre
      have hsafe2 := tryPlanINLJoin_error_outOfFuel env 2 ctx rightSubgraph nbrSubgraph joinNodes
        hne hright hnbr hnum
      cases hrun : tryPlanINLJoin env 2 ctx rightSubgraph nbrSubgraph joinNodes with
      | error e =>
        have he := hsafe2 e hrun
        subst he
        exact absurd hrun (by have h0 := (hstep 0).1; simpa using h0)
      | ok result =>
        refine ⟨result.1, result.2, fun depth => ?_⟩
        rw [(hstep depth).2, hrun]

/-- Witness of C28 on the triangle: `{a, b, e1}` and `{e2}` share node `b` only, and
`b` is the join node. -/
theorem planInnerJoinPair_joinNodes_in_bounds_witness :
    (1 ≤ (sharedNodePositions triangleCtxScanB.queryGraph ⟨∅, {1}⟩ ⟨{0, 1}, {0}⟩).card ∧
      (∀ relPos ∈ (⟨{0, 1}, {0}⟩ : SubqueryGraph).queryRelsSelector,
        relPos < triangleCtxScanB.queryGraph.getNumQueryRels) ∧
      (∀ relPos ∈ (⟨∅, {1}⟩ : SubqueryGraph).queryRelsSelector,
        relPos < triangleCtxScanB.queryGraph.getNumQueryRels) ∧
      triangleCtxScanB.queryGraph.getNumQueryRels ≤ UINT32_MAX ∧
      triangleCtxScanB.containPlans ⟨∅, {1}⟩ = true ∧
      triangleCtxScanB.queryGraph.getQueryNodes
        (joinOnBEnv.getConnectedNodePos triangleCtxScanB.queryGraph ⟨{0, 1}, {0}⟩ ⟨∅, {1}⟩) =
          .ok [nodeB] ∧
      [nodeB].length =
        (sharedNodePositions triangleCtxScanB.queryGraph ⟨∅, {1}⟩ ⟨{0, 1}, {0}⟩).card) ∧
    ([nodeB].length ≠ (sharedNodePositions triangleCtxScanB.queryGraph (⟨∅, {1}⟩ : SubqueryGraph) (⟨{0, 1}, {0}⟩ : SubqueryGraph)).card →
      planInnerJoinPair joinOnBEnv 3 1 1 triangleCtxScanB (⟨{0, 1}, {0}⟩ : SubqueryGraph) (⟨∅, {1}⟩ : SubqueryGraph) =
        .ok (triangleCtxScanB, [])) ∧
    ([nodeB].length = (sharedNodePositions triangleCtxScanB.queryGraph (⟨∅, {1}⟩ : SubqueryGraph) (⟨{0, 1}, {0}⟩ : SubqueryGraph)).card →
      (∃ boundNode, [nodeB][0]? = some boundNode) ∧
      (∀ e, tryPlanINLJoin joinOnBEnv 3 triangleCtxScanB (⟨{0, 1}, {0}⟩ : SubqueryGraph) (⟨∅, {1}⟩ : SubqueryGraph) [nodeB] = .error e →
        e = .outOfFuel ∧
        planInnerJoinPair joinOnBEnv 3 1 1 triangleCtxScanB (⟨{0, 1}, {0}⟩ : SubqueryGraph) (⟨∅, {1}⟩ : SubqueryGraph) =
          .error e) ∧
      (∀ ctx2, tryPlanINLJoin joinOnBEnv 3 triangleCtxScanB (⟨{0, 1}, {0}⟩ : SubqueryGraph) (⟨∅, {1}⟩ : SubqueryGraph) [nodeB] = .ok (true, ctx2) →
        planInnerJoinPair joinOnBEnv 3 1 1 triangleCtxScanB (⟨{0, 1}, {0}⟩ : SubqueryGraph) (⟨∅, {1}⟩ : SubqueryGraph) =
          .ok (ctx2, [])) ∧
      (∀ ctx2,
        tryPlanINLJoin joinOnBEnv 3 triangleCtxScanB (⟨{0, 1}, {0}⟩ : SubqueryGraph) (⟨∅, {1}⟩ : SubqueryGraph) [nodeB] = .ok (false, ctx2) →
        planInnerJoinPair joinOnBEnv 3 1 1 triangleCtxScanB (⟨{0, 1}, {0}⟩ : SubqueryGraph) (⟨∅, {1}⟩ : SubqueryGraph) =
          .ok (planInnerHashJoin joinOnBEnv ctx2 (⟨{0, 1}, {0}⟩ : SubqueryGraph) (⟨∅, {1}⟩ : SubqueryGraph) [nodeB]
            (1 != 1), [((⟨{0, 1}, {0}⟩ : SubqueryGraph), (⟨∅, {1}⟩ : SubqueryGraph))])) ∧
      (∀ single ∈ [(⟨{0, 1}, {0}⟩ : SubqueryGraph), (⟨∅, {1}⟩ : SubqueryGraph)], single.isSingleRel = true →
        findSelectedRelPos triangleCtxScanB.queryGraph single ≠ UINT32_MAX ∧
        ∃ rel, triangleCtxScanB.queryGraph.getQueryRel (findSelectedRelPos triangleCtxScanB.queryGraph single) = .ok rel) ∧
      (([nodeB].length > 1 ∨
          ¬ ((⟨{0, 1}, {0}⟩ : SubqueryGraph).isSingleRel = true ∧ (⟨∅, {1}⟩ : SubqueryGraph).isSingleRel = true)) →
        ∃ (flag : Bool) (ctx2 : JoinOrderEnumeratorContext), ∀ depth : Nat,
          tryPlanINLJoin joinOnBEnv (depth + 2) triangleCtxScanB (⟨{0, 1}, {0}⟩ : SubqueryGraph) (⟨∅, {1}⟩ : SubqueryGraph) [nodeB] =
            .ok (flag, ctx2))) :=
  ⟨⟨by decide, by decide, by decide, by decide, rfl, rfl, rfl⟩,
    planInnerJoinPair_joinNodes_in_bounds joinOnBEnv 3 1 1 triangleCtxScanB ⟨{0, 1}, {0}⟩ ⟨∅, {1}⟩
      [nodeB] (by decide) (by decide) (by decide) (by decide) rfl rfl⟩

theorem scansIDOnly_addPlan (set : expression_set) (ctx : JoinOrderEnumeratorContext)
    (sg : SubqueryGraph) (plan : LogicalPlan) (h : ctx.ScansIDOnly set)
    (hplan : plan.lastOperator.scansPropertiesOfNodeIn set = false) :
    (ctx.addPlan sg plan).ScansIDOnly set := by
  intro key p hp
  by_cases hkey : key = sg
  · subst hkey
    simp only [JoinOrderEnumeratorContext.addPlan, addPlan_plans_same, List.mem_append,
      List.mem_singleton] at hp
    rcases hp with hp | hp
    · exact h key p hp
    · rw [hp]; exact hplan
  · simp only [JoinOrderEnumeratorContext.addPlan, addPlan_plans_other _ _ _ _ hkey] at hp
    exact h key p hp

theorem scansIDOnly_addPlans (set : expression_set) :
    ∀ (entries : List (SubqueryGraph × LogicalPlan)) (ctx : JoinOrderEnumeratorContext),
      ctx.ScansIDOnly set →
      (∀ entry ∈ entries, entry.2.lastOperator.scansPropertiesOfNodeIn set = false) →
      (ctx.addPlans entries).ScansIDOnly set := by
  intro entries
  induction entries with
  | nil => intro ctx h _; exact h
  | cons e rest ih =>
    intro ctx h hall
    exact ih (ctx.addPlan e.1 e.2)
      (scansIDOnly_addPlan set ctx e.1 e.2 h (hall e (List.mem_cons_self _ _)))
      (fun entry hentry => hall entry (List.mem_cons_of_mem _ hentry))

theorem scansProperties_withFilters (set : expression_set) (predicates : expression_vector) :
    ∀ op : LogicalOperator,
      (op.withFilters predicates).scansPropertiesOfNodeIn set =
        op.scansPropertiesOfNodeIn set := by
  induction predicates with
  | nil => intro op; rfl
  | cons p rest ih =>
    intro op
    have h := ih (.filter p op)
    simpa [LogicalOperator.withFilters, LogicalOperator.scansPropertiesOfNodeIn] using h

theorem scansProperties_appendFilters (env : PlannerEnv) (set : expression_set)
    (predicates : expression_vector) (plan : LogicalPlan) :
    (appendFilters env predicates plan).lastOperator.scansPropertiesOfNodeIn set =
      plan.lastOperator.scansPropertiesOfNodeIn set := by
  rw [appendFilters_lastOperator, scansProperties_withFilters]

theorem scansProperties_appendExtend (env : PlannerEnv) (set : expression_set)
    (boundNode nbrNode : NodeExpression) (rel : RelExpression) (direction : ExtendDirection)
    (properties : expression_vector) (plan : LogicalPlan) :
    (appendExtend env boundNode nbrNode rel direction properties
      plan).lastOperator.scansPropertiesOfNodeIn set =
        plan.lastOperator.scansPropertiesOfNodeIn set := by
  unfold appendExtend
  cases rel.relType <;>
    simp [appendNonRecursiveExtend, appendRecursiveExtend, PlannerEnv.setRoot,
      LogicalOperator.scansPropertiesOfNodeIn]

theorem scansProperties_appendHashJoin (env : PlannerEnv) (set : expression_set)
    (joinNodeIDs : expression_vector) (joinType : JoinType) (probePlan buildPlan : LogicalPlan) :
    (appendHashJoin env joinNodeIDs joinType probePlan
      buildPlan).lastOperator.scansPropertiesOfNodeIn set =
        (probePlan.lastOperator.scansPropertiesOfNodeIn set ||
          buildPlan.lastOperator.scansPropertiesOfNodeIn set) := rfl

theorem anyScansProperties_eq_false (set : expression_set) :
    ∀ ops : List LogicalOperator,
      (∀ op ∈ ops, op.scansPropertiesOfNodeIn set = false) →
      LogicalOperator.anyScansPropertiesOfNodeIn set ops = false := by
  intro ops
  induction ops with
  | nil => intro _; rfl
  | cons op rest ih =>
    intro h
    simp only [LogicalOperator.anyScansPropertiesOfNodeIn, Bool.or_eq_false_iff]
    exact ⟨h op (List.mem_cons_self _ _), ih (fun o ho => h o (List.mem_cons_of_mem _ ho))⟩

theorem scansProperties_appendIntersect (env : PlannerEnv) (set : expression_set)
    (intersectNodeID : Expression) (boundNodeIDs : expression_vector) (probePlan : LogicalPlan)
    (buildPlans : List LogicalPlan)
    (hprobe : probePlan.lastOperator.scansPropertiesOfNodeIn set = false)
    (hbuilds : ∀ plan ∈ buildPlans, plan.lastOperator.scansPropertiesOfNodeIn set = false) :
    (appendIntersect env intersectNodeID boundNodeIDs probePlan
      buildPlans).lastOperator.scansPropertiesOfNodeIn set = false := by
  simp only [appendIntersect, PlannerEnv.setRoot, LogicalOperator.scansPropertiesOfNodeIn,
    Bool.or_eq_false_iff]
  refine ⟨hprobe, anyScansProperties_eq_false set _ ?_⟩
  intro op hop
  obtain ⟨plan, hplan, rfl⟩ := List.mem_map.mp hop
  exact hbuilds plan hplan

theorem scansIDOnly_foldl {α : Type} (set : expression_set)
    (f : JoinOrderEnumeratorContext → α → JoinOrderEnumeratorContext)
    (hf : ∀ ctx x, ctx.ScansIDOnly set → (f ctx x).ScansIDOnly set) :
    ∀ (xs : List α) (ctx : JoinOrderEnumeratorContext), ctx.ScansIDOnly set →
      (xs.foldl f ctx).ScansIDOnly set := by
  intro xs
  induction xs with
  | nil => intro ctx h; exact h
  | cons x rest ih => intro ctx h; exact ih (f ctx x) (hf ctx x h)

theorem planInnerHashJoinPair_scansIDOnly (env : PlannerEnv) (set : expression_set)
    (newSubgraph : SubqueryGraph)
    (maxCost : Option Nat) (joinNodeIDs predicates : expression_vector) (flipPlan : Bool)
    (leftPlan : LogicalPlan) (ctx : JoinOrderEnumeratorContext) (rightPlan : LogicalPlan)
    (h : ctx.ScansIDOnly set)
    (hl : leftPlan.lastOperator.scansPropertiesOfNodeIn set = false)
    (hr : rightPlan.lastOperator.scansPropertiesOfNodeIn set = false) :
    (planInnerHashJoinPair env newSubgraph maxCost joinNodeIDs predicates flipPlan leftPlan ctx
      rightPlan).ScansIDOnly set := by
  rw [planInnerHashJoinPair_eq_addPlans]
  apply scansIDOnly_addPlans set _ ctx h
  intro entry hentry
  obtain ⟨plan, hplan, rfl⟩ := List.mem_map.mp hentry
  rcases (mem_hashJoinPlansOfPair env maxCost joinNodeIDs predicates flipPlan leftPlan rightPlan
    plan).mp hplan with ⟨_, hp⟩ | ⟨_, _, hp⟩
  · rw [hp, scansProperties_appendFilters, scansProperties_appendHashJoin, hl, hr]
    rfl
  · rw [hp, scansProperties_appendFilters, scansProperties_appendHashJoin, hl, hr]
    rfl

theorem planInnerHashJoin_scansIDOnly (env : PlannerEnv) (set : expression_set)
    (ctx : JoinOrderEnumeratorContext)
    (subgraph otherSubgraph : SubqueryGraph) (joinNodes : List NodeExpression)
    (flipPlan : Bool) (h : ctx.ScansIDOnly set) :
    (planInnerHashJoin env ctx subgraph otherSubgraph joinNodes flipPlan).ScansIDOnly set := by
  unfold planInnerHashJoin
  simp only []
  have houter : ∀ (lefts : List LogicalPlan) (c : JoinOrderEnumeratorContext),
      c.ScansIDOnly set →
      (∀ l ∈ lefts, l.lastOperator.scansPropertiesOfNodeIn set = false) →
      (lefts.foldl
        (fun c leftPlan =>
          (c.getPlans otherSubgraph).foldl
            (planInnerHashJoinPair env (subgraph.addSubqueryGraph otherSubgraph)
              (ctx.subPlansTable.getMaxCost (subgraph.addSubqueryGraph otherSubgraph))
              (joinNodes.foldl (fun ids joinNode => ids ++ [joinNode.internalID]) [])
              (getNewlyMatchedExprs2 ctx.queryGraph subgraph otherSubgraph
                (subgraph.addSubqueryGraph otherSubgraph) ctx.getWhereExpressions)
              flipPlan leftPlan) c)
        c).ScansIDOnly set := by
    intro lefts
    induction lefts with
    | nil => intro c hc _; exact hc
    | cons l rest ih =>
      intro c hc hl
      rw [List.foldl_cons]
      apply ih
      · have hinner : ∀ (rights : List LogicalPlan) (c2 : JoinOrderEnumeratorContext),
            c2.ScansIDOnly set →
            (∀ r ∈ rights, r.lastOperator.scansPropertiesOfNodeIn set = false) →
            (rights.foldl
              (planInnerHashJoinPair env (subgraph.addSubqueryGraph otherSubgraph)
                (ctx.subPlansTable.getMaxCost (subgraph.addSubqueryGraph otherSubgraph))
                (joinNodes.foldl (fun ids joinNode => ids ++ [joinNode.internalID]) [])
                (getNewlyMatchedExprs2 ctx.queryGraph subgraph otherSubgraph
                  (subgraph.addSubqueryGraph otherSubgraph) ctx.getWhereExpressions)
                flipPlan l) c2).ScansIDOnly set := by
          intro rights
          induction rights with
          | nil => intro c2 hc2 _; exact hc2
          | cons r rs ihr =>
            intro c2 hc2 hr
            rw [List.foldl_cons]
            apply ihr
            · exact planInnerHashJoinPair_scansIDOnly env set _ _ _ _ _ l c2 r hc2
                (hl l (List.mem_cons_self _ _)) (hr r (List.mem_cons_self _ _))
            · intro r2 hr2; exact hr r2 (List.mem_cons_of_mem _ hr2)
        exact hinner _ c hc (fun r hr => hc otherSubgraph r hr)
      · intro l2 hl2; exact hl l2 (List.mem_cons_of_mem _ hl2)
  exact houter _ ctx h (fun l hl => h subgraph l hl)

theorem tryPlanINLJoinLoop_scansIDOnly (env : PlannerEnv) (set : expression_set)
    (boundNode nbrNode : NodeExpression)
    (rel : RelExpression) (extendDirection : ExtendDirection) (newSubgraph : SubqueryGraph)
    (predicates : expression_vector) (plans : List LogicalPlan)
    (state : Bool × JoinOrderEnumeratorContext)
    (h : state.2.ScansIDOnly set)
    (hplans : ∀ plan ∈ plans, plan.lastOperator.scansPropertiesOfNodeIn set = false) :
    (tryPlanINLJoinLoop env boundNode nbrNode rel extendDirection newSubgraph predicates plans
      state).2.ScansIDOnly set := by
  rw [tryPlanINLJoinLoop_eq]
  apply scansIDOnly_addPlans set _ _ h
  intro entry hentry
  obtain ⟨plan, hplan, rfl⟩ := List.mem_map.mp hentry
  simp only [scansProperties_appendFilters, scansProperties_appendExtend,
    LogicalPlan.shallowCopy]
  exact hplans plan (List.mem_filter.mp hplan).1

theorem tryPlanINLJoin_scansIDOnly (env : PlannerEnv) (set : expression_set) :
    ∀ (fuel : Nat) (ctx : JoinOrderEnumeratorContext) (subgraph otherSubgraph : SubqueryGraph)
      (joinNodes : List NodeExpression) (result : Bool × JoinOrderEnumeratorContext),
      ctx.ScansIDOnly set →
      tryPlanINLJoin env fuel ctx subgraph otherSubgraph joinNodes = .ok result →
      result.2.ScansIDOnly set := by
  intro fuel
  induction fuel with
  | zero =>
    intro ctx subgraph otherSubgraph joinNodes result _ hrun
    simp [tryPlanINLJoin] at hrun
  | succ fuel ih =>
    intro ctx subgraph otherSubgraph joinNodes result h hrun
    unfold tryPlanINLJoin at hrun
    split at hrun
    · cases hrun; exact h
    · split at hrun
      · cases hrun; exact h
      · split at hrun
        · exact ih ctx otherSubgraph subgraph joinNodes result h hrun
        · simp only [] at hrun
          split at hrun
          · cases hrun
          · split at hrun
            · cases hrun
            · cases hrun
            · cases hrun
              exact tryPlanINLJoinLoop_scansIDOnly env set _ _ _ _ _ _ _ _ h
                (fun plan hplan => h subgraph plan hplan)

theorem planInnerJoinPair_scansIDOnly (env : PlannerEnv) (set : expression_set)
    (fuel leftLevel rightLevel : Nat)
    (ctx : JoinOrderEnumeratorContext) (rightSubgraph nbrSubgraph : SubqueryGraph)
    (result : JoinOrderEnumeratorContext × List (SubqueryGraph × SubqueryGraph))
    (h : ctx.ScansIDOnly set)
    (hrun : planInnerJoinPair env fuel leftLevel rightLevel ctx rightSubgraph nbrSubgraph =
      .ok result) : result.1.ScansIDOnly set := by
  unfold planInnerJoinPair at hrun
  split at hrun
  · cases hrun; exact h
  · simp only [] at hrun
    split at hrun
    · cases hrun
    · split at hrun
      · cases hrun; exact h
      · split at hrun
        · cases hrun
        · rename_i ctx2 htry
          cases hrun
          exact tryPlanINLJoin_scansIDOnly env set fuel ctx _ _ _ _ h htry
        · rename_i ctx2 htry
          cases hrun
          exact planInnerHashJoin_scansIDOnly env set ctx2 _ _ _ _
            (tryPlanINLJoin_scansIDOnly env set fuel ctx _ _ _ _ h htry)

theorem planInnerJoin_scansIDOnly (env : PlannerEnv) (set : expression_set) (fuel : Nat)
    (ctx : JoinOrderEnumeratorContext) (leftLevel rightLevel : Nat)
    (result : JoinOrderEnumeratorContext × List (SubqueryGraph × SubqueryGraph))
    (h : ctx.ScansIDOnly set)
    (hrun : planInnerJoin env fuel ctx leftLevel rightLevel = .ok result) :
    result.1.ScansIDOnly set := by
  unfold planInnerJoin at hrun
  split at hrun
  · cases hrun
  · refine foldlM_preserves
      (fun state : JoinOrderEnumeratorContext × List (SubqueryGraph × SubqueryGraph) =>
        state.1.ScansIDOnly set) _ ?_ _ (ctx, []) result h hrun
    intro state rightSubgraph state2 hstate hstep
    refine foldlM_preserves
      (fun state : JoinOrderEnumeratorContext × List (SubqueryGraph × SubqueryGraph) =>
        state.1.ScansIDOnly set) _ ?_ _ state state2 hstate hstep
    intro s nbrSubgraph s2 hs hpair
    cases hp : planInnerJoinPair env fuel leftLevel rightLevel s.1 rightSubgraph nbrSubgraph with
    | error e => simp [hp] at hpair
    | ok res =>
      obtain ⟨ctx2, calls⟩ := res
      simp only [hp, Except.ok.injEq] at hpair
      subst hpair
      exact planInnerJoinPair_scansIDOnly env set fuel leftLevel rightLevel s.1 rightSubgraph
        nbrSubgraph (ctx2, calls) hs hp
theorem getWCOJBuildPlanForRelLoop_mem (boundNode : NodeExpression) :
    ∀ (candidates : List LogicalPlan) (result : Option LogicalPlan) (plan : LogicalPlan),
      getWCOJBuildPlanForRelLoop boundNode candidates result = .ok (some plan) →
      result = some plan ∨ plan ∈ candidates := by
  intro candidates
  induction candidates with
  | nil =>
    intro result plan hrun
    simp only [getWCOJBuildPlanForRelLoop, Except.ok.injEq] at hrun
    exact Or.inl hrun
  | cons candidate rest ih =>
    intro result plan hrun
    unfold getWCOJBuildPlanForRelLoop at hrun
    split at hrun
    · split at hrun
      · cases hrun
      · rcases ih _ plan hrun with h | h
        · simp only [LogicalPlan.shallowCopy, Option.some.injEq] at h
          exact Or.inr (h ▸ List.mem_cons_self _ _)
        · exact Or.inr (List.mem_cons_of_mem _ h)
    · rcases ih _ plan hrun with h | h
      · exact Or.inl h
      · exact Or.inr (List.mem_cons_of_mem _ h)

theorem planWCOJoinRels_relPlans (set : expression_set) (ctx : JoinOrderEnumeratorContext)
    (subgraph : SubqueryGraph) (intersectNode : NodeExpression) (h : ctx.ScansIDOnly set) :
    ∀ (rels : List RelExpression) (state final : WCOJoinState),
      (∀ plan ∈ state.relPlans, plan.lastOperator.scansPropertiesOfNodeIn set = false) →
      planWCOJoinRels ctx subgraph intersectNode rels state = .ok (some final) →
      ∀ plan ∈ final.relPlans, plan.lastOperator.scansPropertiesOfNodeIn set = false := by
  intro rels
  induction rels with
  | nil =>
    intro state final hstate hrun
    simp only [planWCOJoinRels, Except.ok.injEq, Option.some.injEq] at hrun
    rw [← hrun]
    exact hstate
  | cons rel rest ih =>
    intro state final hstate hrun
    unfold planWCOJoinRels at hrun
    simp only [] at hrun
    split at hrun
    · cases hrun
    · split at hrun
      · cases hrun
      · cases hrun
      · rename_i relPlan hbuild
        refine ih _ final ?_ hrun
        intro plan hplan
        rcases List.mem_append.mp hplan with hold | hnew
        · exact hstate plan hold
        · rw [List.mem_singleton] at hnew
          subst hnew
          rcases getWCOJBuildPlanForRelLoop_mem _ _ none plan hbuild with hnone | hmem
          · cases hnone
          · exact h _ plan hmem

theorem planWCOJoin_scansIDOnly (env : PlannerEnv) (set : expression_set)
    (ctx ctx2 : JoinOrderEnumeratorContext)
    (subgraph : SubqueryGraph) (rels : List RelExpression) (intersectNode : NodeExpression)
    (h : ctx.ScansIDOnly set)
    (hrun : planWCOJoin env ctx subgraph rels intersectNode = .ok ctx2) :
    ctx2.ScansIDOnly set := by
  unfold planWCOJoin at hrun
  split at hrun
  · cases hrun
  · cases hrun; exact h
  · rename_i state hrels
    simp only [Except.ok.injEq] at hrun
    subst hrun
    have hbuilds := planWCOJoinRels_relPlans set ctx subgraph intersectNode h rels _ state
      (by intro plan hplan; simp at hplan) hrels
    have hprobe : ∀ (lefts : List LogicalPlan) (c : JoinOrderEnumeratorContext),
        c.ScansIDOnly set →
        (∀ l ∈ lefts, l.lastOperator.scansPropertiesOfNodeIn set = false) →
        (lefts.foldl
          (planWCOJoinProbe env intersectNode state
            (getNewlyMatchedExprs ctx.queryGraph state.prevSubgraphs state.newSubgraph
              ctx.getWhereExpressions)) c).ScansIDOnly set := by
      intro lefts
      induction lefts with
      | nil => intro c hc _; exact hc
      | cons l rest ih =>
        intro c hc hl
        rw [List.foldl_cons]
        apply ih
        · unfold planWCOJoinProbe
          split
          · exact hc
          · apply scansIDOnly_addPlan set c _ _ hc
            have hfilters := scansProperties_appendFilters env set
              (getNewlyMatchedExprs ctx.queryGraph state.prevSubgraphs state.newSubgraph
                ctx.getWhereExpressions)
              (appendIntersect env intersectNode.internalID state.boundNodeIDs l.shallowCopy
                (state.relPlans.map (fun relPlan => relPlan.shallowCopy)))
            unfold appendFilters at hfilters
            rw [hfilters]
            apply scansProperties_appendIntersect
            · exact hl l (List.mem_cons_self _ _)
            · intro plan hplan
              obtain ⟨p, hp, rfl⟩ := List.mem_map.mp hplan
              exact hbuilds p hp
        · intro l2 hl2; exact hl l2 (List.mem_cons_of_mem _ hl2)
    exact hprobe _ ctx h (fun l hl => h subgraph l hl)

theorem planWCOJoinLevels_scansIDOnly (env : PlannerEnv) (set : expression_set)
    (ctx ctx2 : JoinOrderEnumeratorContext)
    (leftLevel rightLevel : Nat) (h : ctx.ScansIDOnly set)
    (hrun : planWCOJoinLevels env ctx leftLevel rightLevel = .ok ctx2) :
    ctx2.ScansIDOnly set := by
  unfold planWCOJoinLevels at hrun
  split at hrun
  · cases hrun
  · refine foldlM_preserves (fun c : JoinOrderEnumeratorContext => c.ScansIDOnly set) _ ?_
      _ ctx ctx2 h hrun
    intro c rightSubgraph c2 hc hstep
    split at hstep
    · cases hstep
    · refine foldlM_preserves (fun c : JoinOrderEnumeratorContext => c.ScansIDOnly set) _
        ?_ _ c c2 hc hstep
      intro c3 candidate c4 hc3 hcand
      split at hcand
      · split at hcand
        · cases hcand
        · exact planWCOJoin_scansIDOnly env set c3 c4 _ _ _ hc3 hcand
      · cases hcand; exact hc3

theorem planLevelRun_scansIDOnly (env : EnumeratorEnv) (set : expression_set) (fuel : Nat)
    (ctx ctx2 : JoinOrderEnumeratorContext) (level : Nat) (h : ctx.ScansIDOnly set)
    (hrun : planLevelRun env fuel ctx level = .ok ctx2) : ctx2.ScansIDOnly set := by
  unfold planLevelRun at hrun
  split at hrun
  · cases hrun
  · refine foldlM_preserves (fun c : JoinOrderEnumeratorContext => c.ScansIDOnly set) _ ?_
      _ ctx ctx2 h hrun
    intro c call c2 hc hcall
    cases call with
    | planWCOJoin leftLevel rightLevel =>
      exact planWCOJoinLevels_scansIDOnly env.toPlannerEnv set c c2 leftLevel rightLevel hc hcall
    | planInnerJoin leftLevel rightLevel =>
      simp only [runJoinCall] at hcall
      cases hjoin : planInnerJoin env.toPlannerEnv fuel c leftLevel rightLevel with
      | error e => simp [hjoin] at hcall
      | ok res =>
        obtain ⟨c3, calls⟩ := res
        simp only [hjoin, Except.ok.injEq] at hcall
        subst hcall
        exact planInnerJoin_scansIDOnly env.toPlannerEnv set fuel c leftLevel rightLevel
          (c3, calls) hc hjoin

theorem planLevels_scansIDOnly (env : EnumeratorEnv) (set : expression_set)
    (fuel maxLevel : Nat) :
    ∀ (steps currentLevel : Nat) (ctx ctx2 : JoinOrderEnumeratorContext),
      ctx.ScansIDOnly set →
      (planLevels env fuel maxLevel steps currentLevel ctx).2 = .ok ctx2 →
      ctx2.ScansIDOnly set := by
  intro steps
  induction steps with
  | zero =>
    intro currentLevel ctx ctx2 h hrun
    unfold planLevels at hrun
    split at hrun
    · cases hrun
    · simp only [Except.ok.injEq] at hrun
      exact hrun ▸ h
  | succ steps ih =>
    intro currentLevel ctx ctx2 h hrun
    unfold planLevels at hrun
    split at hrun
    · split at hrun
      · cases hrun
      · rename_i c hlevel
        exact ih _ c ctx2 (planLevelRun_scansIDOnly env set fuel ctx c currentLevel h hlevel) hrun
    · simp only [Except.ok.injEq] at hrun
      exact hrun ▸ h

theorem planBaseTableScans_scansIDOnly (env : PlannerEnv) (ctx : JoinOrderEnumeratorContext)
    (info : QueryGraphPlanningInfo) (hmode : info.subqueryType = .CORRELATED)
    (h : ctx.ScansIDOnly info.corrExprs) :
    ∃ ctx2 : JoinOrderEnumeratorContext,
      planBaseTableScans env ctx info = .ok ctx2 ∧ ctx2.ScansIDOnly info.corrExprs := by
  refine ⟨_, planBaseTableScans_eq_of_correlated env ctx info hmode, ?_⟩
  apply scansIDOnly_addPlans _ _ ctx h
  intro entry hentry
  rw [List.mem_append, List.mem_append] at hentry
  rcases hentry with (hnode | hcorr) | hrel
  · obtain ⟨p, node, _, hc, he⟩ := correlatedModeNodeEntries_key env ctx info entry hnode
    rw [he]
    simp [nodeScanEntry, scansProperties_appendFilters, appendScanNodeTable,
      PlannerEnv.setRoot, LogicalOperator.scansPropertiesOfNodeIn, hc]
  · rw [List.mem_singleton.mp hcorr]
    simp [correlatedScanEntry, appendDistinct, PlannerEnv.setRoot,
      LogicalOperator.scansPropertiesOfNodeIn, scansProperties_appendFilters,
      appendExpressionsScan, LogicalPlan.setCardinality]
  · obtain ⟨i, rel, _, hmem⟩ := mem_enum_flatMap (relScanEntries env ctx) _ entry hrel
    simp only [relScanEntries, List.mem_cons, List.mem_singleton, List.not_mem_nil,
      or_false] at hmem
    rcases hmem with hmem | hmem <;>
      simp [hmem, scansProperties_appendFilters, scansProperties_appendExtend,
        appendScanNodeTable, PlannerEnv.setRoot, LogicalOperator.scansPropertiesOfNodeIn]

theorem enumerateQueryGraph_scansIDOnly (env : EnumeratorEnv) (fuel : Nat)
    (queryGraph : QueryGraph) (info : QueryGraphPlanningInfo) (plans : List LogicalPlan)
    (hmode : info.subqueryType = .CORRELATED) (hhint : info.hint = none)
    (hrun : enumerateQueryGraph env fuel queryGraph info = .ok plans) :
    ∀ plan ∈ plans, plan.lastOperator.scansPropertiesOfNodeIn info.corrExprs = false := by
  unfold enumerateQueryGraph enumerateQueryGraphRun at hrun
  simp only [hhint] at hrun
  obtain ⟨ctx2, hbase, hinv⟩ := planBaseTableScans_scansIDOnly env.toPlannerEnv
    (JoinOrderEnumeratorContext.init queryGraph info.predicates) info hmode
    (by intro sg plan hplan; simp [JoinOrderEnumeratorContext.init, SubPlansTable.empty] at hplan)
  rw [hbase] at hrun
  simp only [] at hrun
  generalize hloop : planLevels env fuel (env.initMaxLevel queryGraph % 2 ^ 32)
    (env.initMaxLevel queryGraph % 2 ^ 32) ((env.initCurrentLevel % 2 ^ 32 + 1) % 2 ^ 32)
    ctx2 = loop at hrun
  obtain ⟨levels, result⟩ := loop
  cases result with
  | error e => cases hrun
  | ok ctx3 =>
    have hinv3 : ctx3.ScansIDOnly info.corrExprs :=
      planLevels_scansIDOnly env info.corrExprs fuel _ _ _ ctx2 ctx3 hinv
        (by rw [hloop])
    simp only [] at hrun
    split at hrun
    · simp only [Except.ok.injEq] at hrun
      subst hrun
      intro plan hplan
      obtain ⟨p, hp, rfl⟩ := List.mem_map.mp hplan
      simp only [appendEmptyResult, PlannerEnv.setRoot, LogicalOperator.scansPropertiesOfNodeIn]
      exact hinv3 _ p hp
    · simp only [Except.ok.injEq] at hrun
      subst hrun
      intro plan hplan
      exact hinv3 _ plan hplan
theorem forall₂_getElem? {α β : Type} (R : α → β → Prop) :
    ∀ (xs : List α) (ys : List β), List.Forall₂ R xs ys →
      ∀ (i : Nat) (x : α) (y : β), xs[i]? = some x → ys[i]? = some y → R x y := by
  intro xs ys h
  induction h with
  | nil => intro i x y hx _; simp at hx
  | cons hhead _ ih =>
    intro i x y hx hy
    cases i with
    | zero =>
      simp only [List.getElem?_cons_zero, Option.some.injEq] at hx hy
      subst hx
      subst hy
      exact hhead
    | succ i =>
      simp only [List.getElem?_cons_succ] at hx hy
      exact ih i x y hx hy

theorem scansProperties_crossProduct_operand (env : PlannerEnv) (set : expression_set) :
    ∀ (rest : List (List LogicalPlan)) (first : List LogicalPlan),
      ∀ plan ∈ rest.foldl (planCrossProduct env) first,
        plan.lastOperator.scansPropertiesOfNodeIn set = true →
        ∃ plans ∈ first :: rest, ∃ operand ∈ plans,
          operand.lastOperator.scansPropertiesOfNodeIn set = true := by
  intro rest
  induction rest with
  | nil =>
    intro first plan hplan hscan
    exact ⟨first, List.mem_cons_self _ _, plan, hplan, hscan⟩
  | cons r rest ih =>
    intro first plan hplan hscan
    rw [List.foldl_cons] at hplan
    obtain ⟨plans, hplans, operand, hoperand, hop⟩ := ih _ plan hplan hscan
    rcases List.mem_cons.mp hplans with hfirst | hrest
    · subst hfirst
      rw [planCrossProduct_eq, List.mem_flatMap] at hoperand
      obtain ⟨l, hl, hmem⟩ := hoperand
      obtain ⟨r2, hr2, rfl⟩ := List.mem_map.mp hmem
      have hor : (l.lastOperator.scansPropertiesOfNodeIn set ||
          r2.lastOperator.scansPropertiesOfNodeIn set) = true := hop
      rw [Bool.or_eq_true] at hor
      rcases hor with h | h
      · exact ⟨first, List.mem_cons_self _ _, l, hl, h⟩
      · exact ⟨r, List.mem_cons_of_mem _ (List.mem_cons_self _ _), r2, hr2, h⟩
    · exact ⟨plans, List.mem_cons_of_mem _ (List.mem_cons_of_mem _ hrest), operand, hoperand,
        hop⟩

theorem componentInfo_mode (info : QueryGraphPlanningInfo) (idx : Int) (i : Nat)
    (predicates : expression_vector) (hmode : info.subqueryType = .CORRELATED) :
    (componentInfo info idx i predicates).corrExprs = info.corrExprs ∧
    (componentInfo info idx i predicates).hint = info.hint ∧
    (componentInfo info idx i predicates).subqueryType =
      if i = toUInt32 idx then .CORRELATED else .NONE := by
  unfold componentInfo
  rw [hmode]
  simp only []
  by_cases h : i = toUInt32 idx
  · simp only [h, if_true, hmode, and_self]
  · simp only [h, if_false, and_self]

theorem firstChildPath_getLast?_withFilters (predicates : expression_vector) :
    ∀ op : LogicalOperator,
      (op.withFilters predicates).firstChildPath.getLast? = op.firstChildPath.getLast? := by
  induction predicates with
  | nil => intro op; rfl
  | cons p rest ih =>
    intro op
    have h := ih (.filter p op)
    have hne : op.firstChildPath ≠ [] := by
      cases op <;> simp [LogicalOperator.firstChildPath]
    simp only [LogicalOperator.withFilters, List.foldl_cons] at h ⊢
    rw [h, LogicalOperator.firstChildPath]
    cases hpath : op.firstChildPath with
    | nil => exact absurd hpath hne
    | cons x xs => rw [List.getLast?_cons_cons]

theorem firstChildPath_getLast?_relScanPlan (env : PlannerEnv) (predicates : expression_vector)
    (boundNode nbrNode : NodeExpression) (rel : RelExpression) (direction : ExtendDirection)
    (properties : expression_vector) :
    (appendFilters env predicates
      (appendExtend env boundNode nbrNode rel direction properties
        (appendScanNodeTable env boundNode.internalID boundNode.tableIDs
          []))).lastOperator.firstChildPath.getLast? =
      some (.scanNodeTable boundNode.internalID boundNode.tableIDs []) := by
  rw [appendFilters_lastOperator, firstChildPath_getLast?_withFilters]
  unfold appendExtend
  cases rel.relType <;>
    simp [appendNonRecursiveExtend, appendRecursiveExtend, appendScanNodeTable,
      PlannerEnv.setRoot, LogicalOperator.firstChildPath]
theorem collection_component_plans (env : EnumeratorEnv) (fuel : Nat)
    (collection : QueryGraphCollection) (info : QueryGraphPlanningInfo)
    (outcome : CollectionOutcome)
    (hmode : info.subqueryType = .CORRELATED) (hhint : info.hint = none)
    (hok : enumerateQueryGraphCollectionRun env fuel collection info = .ok outcome) :
    (∀ (i : Nat) (call : ComponentCall), outcome.calls[i]? = some call →
      call.newInfo.corrExprs = info.corrExprs ∧
      call.newInfo.hint = info.hint ∧
      call.newInfo.subqueryType =
        (if i = toUInt32 (getConnectedQueryGraphIdx collection info.corrExprs) then .CORRELATED
          else .NONE) ∧
      ∃ plans : List LogicalPlan,
        outcome.plansPerQueryGraph[i]? = some plans ∧
        enumerateQueryGraph env fuel call.queryGraph call.newInfo = .ok plans ∧
        (i = toUInt32 (getConnectedQueryGraphIdx collection info.corrExprs) →
          ∀ plan ∈ plans,
            plan.lastOperator.scansPropertiesOfNodeIn info.corrExprs = false)) ∧
    (∀ plan ∈ outcome.plans,
      plan.lastOperator.scansPropertiesOfNodeIn info.corrExprs = true →
      ∃ (i : Nat) (call : ComponentCall) (plans : List LogicalPlan) (operand : LogicalPlan),
        outcome.calls[i]? = some call ∧
        i ≠ toUInt32 (getConnectedQueryGraphIdx collection info.corrExprs) ∧
        call.newInfo.subqueryType = .NONE ∧
        outcome.plansPerQueryGraph[i]? = some plans ∧
        operand ∈ plans ∧
        operand.lastOperator.scansPropertiesOfNodeIn info.corrExprs = true) := by
  obtain ⟨state, first, rest, hinv, hcalls, _, hper, hoperands, _, hplans⟩ :=
    enumerateQueryGraphCollectionRun_ok env fuel collection info outcome hok
  rw [if_pos hmode] at hinv hoperands
  obtain ⟨_, _, _, hspec, hforall⟩ := hinv
  have hlen : state.calls.length = state.plansPerQueryGraph.length := hforall.length_eq
  have hcomponent : ∀ (i : Nat) (call : ComponentCall), state.calls[i]? = some call →
      call.newInfo.corrExprs = info.corrExprs ∧
      call.newInfo.hint = info.hint ∧
      call.newInfo.subqueryType =
        (if i = toUInt32 (getConnectedQueryGraphIdx collection info.corrExprs) then .CORRELATED
          else .NONE) ∧
      ∃ plans : List LogicalPlan,
        state.plansPerQueryGraph[i]? = some plans ∧
        outcome.plansPerQueryGraph[i]? = some plans ∧
        enumerateQueryGraph env fuel call.queryGraph call.newInfo = .ok plans ∧
        (i = toUInt32 (getConnectedQueryGraphIdx collection info.corrExprs) →
          ∀ plan ∈ plans,
            plan.lastOperator.scansPropertiesOfNodeIn info.corrExprs = false) := by
    intro i call hcall
    obtain ⟨_, _, hinfo⟩ := hspec i call hcall
    obtain ⟨hcorr, hhint2, hmode2⟩ := componentInfo_mode info
      (getConnectedQueryGraphIdx collection info.corrExprs) i
      (call.predicateToEvaluateIndices.filterMap (fun k => info.predicates[k]?)) hmode
    rw [← hinfo] at hcorr hhint2 hmode2
    have hi : i < state.calls.length := by
      by_contra hge
      rw [List.getElem?_eq_none (Nat.le_of_not_lt hge)] at hcall
      cases hcall
    have hi2 : i < state.plansPerQueryGraph.length := hlen ▸ hi
    have hstate : state.plansPerQueryGraph[i]? = some (state.plansPerQueryGraph.get ⟨i, hi2⟩) :=
      List.getElem?_eq_getElem hi2
    have hrun := forall₂_getElem? _ _ _ hforall i call _ hcall hstate
    refine ⟨hcorr, hhint2, hmode2, _, hstate, ?_, hrun, ?_⟩
    · rw [hper, hoperands, List.getElem?_append_left hi2]
      exact hstate
    · intro hpicked plan hplan
      have hm : call.newInfo.subqueryType = .CORRELATED := by rw [hmode2, if_pos hpicked]
      have h := enumerateQueryGraph_scansIDOnly env fuel call.queryGraph call.newInfo _ hm
        (by rw [hhint2, hhint]) hrun plan hplan
      rw [hcorr] at h
      exact h
  constructor
  · intro i call hcall
    rw [hcalls] at hcall
    obtain ⟨h1, h2, h3, plans, _, h5, h6, h7⟩ := hcomponent i call hcall
    exact ⟨h1, h2, h3, plans, h5, h6, h7⟩
  · intro plan hplan hscan
    rw [hplans] at hplan
    obtain ⟨crossed, hcrossed, rfl⟩ := List.mem_map.mp hplan
    rw [scansProperties_appendFilters] at hscan
    obtain ⟨plans, hplans2, operand, hoperand, hop⟩ :=
      scansProperties_crossProduct_operand env.toPlannerEnv info.corrExprs rest first crossed
        hcrossed hscan
    rw [hoperands] at hplans2
    rcases List.mem_append.mp hplans2 with hcomp | hextra
    · obtain ⟨i, hi⟩ := List.mem_iff_getElem?.mp hcomp
      have hi2 : i < state.plansPerQueryGraph.length := by
        by_contra hge
        rw [List.getElem?_eq_none (Nat.le_of_not_lt hge)] at hi
        cases hi
      have hi1 : i < state.calls.length := hlen ▸ hi2
      have hcall : state.calls[i]? = some (state.calls.get ⟨i, hi1⟩) :=
        List.getElem?_eq_getElem hi1
      obtain ⟨_, _, hmode2, plans2, hstate, hout, _, hpicked⟩ := hcomponent i _ hcall
      rw [hi] at hstate
      cases hstate
      have hne : i ≠ toUInt32 (getConnectedQueryGraphIdx collection info.corrExprs) := by
        intro heq
        rw [hpicked heq operand hoperand] at hop
        cases hop
      refine ⟨i, _, plans, operand, by rw [hcalls]; exact hcall, hne, ?_, hout, hoperand, hop⟩
      rw [hmode2, if_neg hne]
    · exfalso
      split at hextra
      · simp only [List.mem_singleton] at hextra
        subst hextra
        simp only [List.mem_singleton] at hoperand
        subst hoperand
        simp [appendDistinct, appendExpressionsScan, PlannerEnv.setRoot,
          LogicalOperator.scansPropertiesOfNodeIn] at hop
      · simp at hextra

/-- C14, as the code has it, in mode `CORRELATED` and with no join hint.
`planBaseTableScans` returns. No plan it adds under a subgraph with no
relationship (the node scans and the correlated-expressions scan) holds a
`ScanNodeTable` whose node ID is a correlated expression. Under the subgraph of
every relationship it adds two plans, the filters over the extend from the source
over a `ScanNodeTable` of the source that reads no property, and the same from
the destination, whether or not the endpoint is correlated: the leaf of each plan
is that ID-only scan, and the plan holds a `ScanNodeTable` on a correlated ID
exactly when its bound endpoint is correlated. No plan `enumerateQueryGraph`
returns holds a `ScanNodeTable` that reads properties and whose node ID is a
correlated expression. `enumerateQueryGraphCollection` passes the mode
`CORRELATED` to the query graph at index
`(uint32_t)getConnectedQueryGraphIdx(...)` only and the mode `NONE` to every
other one, with the same correlated expressions and hint; the plans of the query
graph planned in mode `CORRELATED` hold no such scan, and a returned plan holds
one only if some plan returned for a query graph planned in mode `NONE` does. -/
theorem correlated_node_scans_are_id_only (env : EnumeratorEnv) (fuel : Nat)
    (ctx : JoinOrderEnumeratorContext) (info : QueryGraphPlanningInfo)
    (hmode : info.subqueryType = .CORRELATED) (hhint : info.hint = none) :
    (∃ ctx2 : JoinOrderEnumeratorContext,
      planBaseTableScans env.toPlannerEnv ctx info = .ok ctx2 ∧
      (∀ sg : SubqueryGraph, sg.queryRelsSelector = ∅ →
        ∃ added : List LogicalPlan,
          ctx2.subPlansTable.plans sg = ctx.subPlansTable.plans sg ++ added ∧
          ∀ plan ∈ added, plan.lastOperator.scansNodeIn info.corrExprs = false) ∧
      (∀ (relPos : Nat) (rel : RelExpression),
        ctx.queryGraph.queryRels[relPos]? = some rel →
        ∃ srcPlan dstPlan : LogicalPlan,
          srcPlan = appendFilters env.toPlannerEnv
            (getNewlyMatchedExprs ctx.queryGraph [⟨∅, ∅⟩] ⟨∅, {relPos}⟩ ctx.whereExpressions)
            (appendExtend env.toPlannerEnv rel.srcNode rel.dstNode rel
              (getExtendDirection rel rel.srcNode) (env.getProperties rel.uniqueName)
              (appendScanNodeTable env.toPlannerEnv rel.srcNode.internalID
                rel.srcNode.tableIDs [])) ∧
          dstPlan = appendFilters env.toPlannerEnv
            (getNewlyMatchedExprs ctx.queryGraph [⟨∅, ∅⟩] ⟨∅, {relPos}⟩ ctx.whereExpressions)
            (appendExtend env.toPlannerEnv rel.dstNode rel.srcNode rel
              (getExtendDirection rel rel.dstNode) (env.getProperties rel.uniqueName)
              (appendScanNodeTable env.toPlannerEnv rel.dstNode.internalID
                rel.dstNode.tableIDs [])) ∧
          ctx2.subPlansTable.plans ⟨∅, {relPos}⟩ =
            ctx.subPlansTable.plans ⟨∅, {relPos}⟩ ++ [srcPlan, dstPlan] ∧
          srcPlan.lastOperator.firstChildPath.getLast? =
            some (.scanNodeTable rel.srcNode.internalID rel.srcNode.tableIDs []) ∧
          dstPlan.lastOperator.firstChildPath.getLast? =
            some (.scanNodeTable rel.dstNode.internalID rel.dstNode.tableIDs []) ∧
          srcPlan.lastOperator.scansNodeIn info.corrExprs =
            expression_set.contains info.corrExprs rel.srcNode.internalID ∧
          dstPlan.lastOperator.scansNodeIn info.corrExprs =
            expression_set.contains info.corrExprs rel.dstNode.internalID ∧
          srcPlan.lastOperator.scansPropertiesOfNodeIn info.corrExprs = false ∧
          dstPlan.lastOperator.scansPropertiesOfNodeIn info.corrExprs = false)) ∧
    (∀ (queryGraph : QueryGraph) (plans : List LogicalPlan),
      enumerateQueryGraph env fuel queryGraph info = .ok plans →
      ∀ plan ∈ plans, plan.lastOperator.scansPropertiesOfNodeIn info.corrExprs = false) ∧
    (∀ (collection : QueryGraphCollection) (outcome : CollectionOutcome),
      enumerateQueryGraphCollectionRun env fuel collection info = .ok outcome →
      enumerateQueryGraphCollection env fuel collection info = .ok outcome.plans ∧
      (∀ (i : Nat) (call : ComponentCall), outcome.calls[i]? = some call →
        call.newInfo.corrExprs = info.corrExprs ∧
        call.newInfo.hint = info.hint ∧
        call.newInfo.subqueryType =
          (if i = toUInt32 (getConnectedQueryGraphIdx collection info.corrExprs) then
            .CORRELATED
          else .NONE) ∧
        ∃ plans : List LogicalPlan,
          outcome.plansPerQueryGraph[i]? = some plans ∧
          enumerateQueryGraph env fuel call.queryGraph call.newInfo = .ok plans ∧
          (i = toUInt32 (getConnectedQueryGraphIdx collection info.corrExprs) →
            ∀ plan ∈ plans,
              plan.lastOperator.scansPropertiesOfNodeIn info.corrExprs = false)) ∧
      (∀ plan ∈ outcome.plans,
        plan.lastOperator.scansPropertiesOfNodeIn info.corrExprs = true →
        ∃ (i : Nat) (call : ComponentCall) (plans : List LogicalPlan) (operand : LogicalPlan),
          outcome.calls[i]? = some call ∧
          i ≠ toUInt32 (getConnectedQueryGraphIdx collection info.corrExprs) ∧
          call.newInfo.subqueryType = .NONE ∧
          outcome.plansPerQueryGraph[i]? = some plans ∧
          operand ∈ plans ∧
          operand.lastOperator.scansPropertiesOfNodeIn info.corrExprs = true)) := by
  refine ⟨⟨_, planBaseTableScans_eq_of_correlated env.toPlannerEnv ctx info hmode, ?_, ?_⟩,
    fun queryGraph plans hrun =>
      enumerateQueryGraph_scansIDOnly env fuel queryGraph info plans hmode hhint hrun,
    fun collection outcome hok =>
      ⟨by simp only [enumerateQueryGraphCollection, hok],
        collection_component_plans env fuel collection info outcome hmode hhint hok⟩⟩
  · intro sg hsg
    refine ⟨_, addPlans_plans _ ctx sg, ?_⟩
    intro plan hplan
    rw [List.mem_map] at hplan
    obtain ⟨entry, hentry, hplan⟩ := hplan
    rw [List.mem_filter, List.mem_append, List.mem_append] at hentry
    obtain ⟨hmem, hkey⟩ := hentry
    have hkey2 : entry.1 = sg := by simpa using hkey
    rw [← hplan]
    rcases hmem with (hnode | hcorr) | hrel
    · obtain ⟨p, node, _, hc, he⟩ :=
        correlatedModeNodeEntries_key env.toPlannerEnv ctx info entry hnode
      rw [he, scansNodeIn_nodeScanEntry, hc]
    · rw [List.mem_singleton.mp hcorr, scansNodeIn_correlatedScanEntry]
    · obtain ⟨relPos, hrelKey⟩ := allRelScanEntries_key env.toPlannerEnv ctx entry hrel
      rw [hkey2] at hrelKey
      rw [hrelKey] at hsg
      exact absurd hsg (Finset.singleton_ne_empty relPos)
  · intro relPos rel hrel
    have hnodes : (correlatedModeNodeEntries env.toPlannerEnv ctx info).filter
        (fun entry => decide (entry.1 = ⟨∅, {relPos}⟩)) = [] := by
      apply filter_key_eq_nil
      intro entry hentry
      obtain ⟨p, node, _, _, he⟩ :=
        correlatedModeNodeEntries_key env.toPlannerEnv ctx info entry hentry
      rw [he]
      exact nodeKey_ne_relKey p relPos
    have hcorr : [correlatedScanEntry env.toPlannerEnv ctx info].filter
        (fun entry => decide (entry.1 = ⟨∅, {relPos}⟩)) = [] := by
      apply filter_key_eq_nil
      intro entry hentry
      rw [List.mem_singleton.mp hentry]
      intro h
      have h2 : (∅ : Finset Nat) = {relPos} := congrArg SubqueryGraph.queryRelsSelector h
      exact Finset.singleton_ne_empty relPos h2.symm
    refine ⟨_, _, rfl, rfl, ?_, ?_, ?_, ?_, ?_, ?_, ?_⟩
    · rw [addPlans_plans, List.filter_append, List.filter_append, hnodes, hcorr, allRelScanEntries,
        filter_key_enum_flatMap (relScanEntries env.toPlannerEnv ctx) (fun i => ⟨∅, {i}⟩)
          (relScanEntries_key env.toPlannerEnv ctx) relKey_injective _ relPos rel hrel]
      rfl
    · exact firstChildPath_getLast?_relScanPlan _ _ _ _ _ _ _
    · exact firstChildPath_getLast?_relScanPlan _ _ _ _ _ _ _
    · rw [scansNodeIn_appendFilters, scansNodeIn_appendExtend_scan]
    · rw [scansNodeIn_appendFilters, scansNodeIn_appendExtend_scan]
    · simp [scansProperties_appendFilters, scansProperties_appendExtend, appendScanNodeTable,
        PlannerEnv.setRoot, LogicalOperator.scansPropertiesOfNodeIn]
    · simp [scansProperties_appendFilters, scansProperties_appendExtend, appendScanNodeTable,
        PlannerEnv.setRoot, LogicalOperator.scansPropertiesOfNodeIn]

/-- C14 as stated fails, in both of its parts. On the query graph `e1: a -> b` in
mode `CORRELATED` with the internal ID of `a` correlated, the first plan
`planBaseTableScans` stores under the subgraph of `e1` holds a `ScanNodeTable` of
`a`. On the collection of the two single-node query graphs `c` and `a`, in mode
`CORRELATED` with the internal IDs of `c` and `a` correlated, the query graph `c`
is picked for the expressions scan and the query graph `a` is planned in mode
`NONE`: the plan `enumerateQueryGraphCollection` returns holds the
`ScanNodeTable` of `a` with its properties. -/
theorem correlated_node_scanned_by_rel_scan_and_isolated_graph :
    correlatedOnA.subqueryType = .CORRELATED ∧
    correlatedOnA.corrExprs = [nodeA.internalID] ∧
    (∃ ctx2 : JoinOrderEnumeratorContext,
      planBaseTableScans sampleEnv extendCtx correlatedOnA = .ok ctx2 ∧
      (ctx2.subPlansTable.plans ⟨∅, {0}⟩).map (fun plan => plan.lastOperator) =
        [.extend nodeA nodeB relE1 .FWD true []
            (.scanNodeTable nodeA.internalID nodeA.tableIDs []),
          .extend nodeB nodeA relE1 .BWD false []
            (.scanNodeTable nodeB.internalID nodeB.tableIDs [])] ∧
      (ctx2.subPlansTable.plans ⟨∅, {0}⟩).map
        (fun plan => plan.lastOperator.scansNodeIn correlatedOnA.corrExprs) = [true, false]) ∧
    correlatedOnCA.subqueryType = .CORRELATED ∧
    correlatedOnCA.corrExprs = [nodeC.internalID, nodeA.internalID] ∧
    correlatedOnCA.hint = none ∧
    twoNodesCollection.queryGraphs = [singleNodeGraph, singleNodeGraphA] ∧
    getConnectedQueryGraphIdx twoNodesCollection correlatedOnCA.corrExprs = 0 ∧
    (enumerateQueryGraphCollection agePropertyEnv 2 twoNodesCollection
        correlatedOnCA).toOption.map
      (fun plans => plans.map (fun plan => plan.lastOperator)) =
      some [.crossProduct
        (.distinct [nodeC.internalID, nodeA.internalID]
          (.expressionsScan [nodeC.internalID, nodeA.internalID]))
        (.scanNodeTable nodeA.internalID nodeA.tableIDs [⟨"a.age", .PROPERTY, ["a"]⟩])] ∧
    (enumerateQueryGraphCollection agePropertyEnv 2 twoNodesCollection
        correlatedOnCA).toOption.map
      (fun plans => plans.map
        (fun plan => (plan.lastOperator.scansNodeIn correlatedOnCA.corrExprs,
          plan.lastOperator.scansPropertiesOfNodeIn correlatedOnCA.corrExprs))) =
      some [(true, true)] := by
  refine ⟨rfl, rfl,
    ⟨_, planBaseTableScans_eq_of_correlated sampleEnv extendCtx correlatedOnA rfl, ?_, ?_⟩,
    rfl, rfl, rfl, rfl, ?_, rfl, ?_⟩
  · rw [addPlans_plans]
    rfl
  · rw [addPlans_plans]
    decide
  · decide
  · decide

/-- Witness of C14 on the query graph `e1: a -> b` in mode `CORRELATED` with node
`a` correlated and no hint, with the runs of `enumerateQueryGraph` on the query
graph of node `a` and of `enumerateQueryGraphCollection` on the query graphs of `c`
and `a`. -/
theorem correlated_node_scans_are_id_only_witness :
    (correlatedOnA.subqueryType = .CORRELATED ∧ correlatedOnA.hint = none ∧
      (enumerateQueryGraph agePropertyEnv 2 singleNodeGraphA correlatedOnA).toOption.map
          (fun plans => plans.map (fun plan => plan.lastOperator)) =
        some [.distinct [nodeA.internalID]
          (.filter predOnA (.expressionsScan [nodeA.internalID]))] ∧
      (enumerateQueryGraphCollection agePropertyEnv 2 twoNodesCollection
          correlatedOnA).toOption.map
          (fun plans => plans.map (fun plan => plan.lastOperator)) =
        some [.crossProduct
          (.scanNodeTable nodeC.internalID nodeC.tableIDs [⟨"c.age", .PROPERTY, ["c"]⟩])
          (.distinct [nodeA.internalID]
            (.filter predOnA (.expressionsScan [nodeA.internalID])))]) ∧
    (∃ ctx2 : JoinOrderEnumeratorContext,
      planBaseTableScans agePropertyEnv.toPlannerEnv extendCtx correlatedOnA = .ok ctx2 ∧
      (∀ sg : SubqueryGraph, sg.queryRelsSelector = ∅ →
        ∃ added : List LogicalPlan,
          ctx2.subPlansTable.plans sg = extendCtx.subPlansTable.plans sg ++ added ∧
          ∀ plan ∈ added, plan.lastOperator.scansNodeIn correlatedOnA.corrExprs = false) ∧
      (∀ (relPos : Nat) (rel : RelExpression),
        extendCtx.queryGraph.queryRels[relPos]? = some rel →
        ∃ srcPlan dstPlan : LogicalPlan,
          srcPlan = appendFilters agePropertyEnv.toPlannerEnv
            (getNewlyMatchedExprs extendCtx.queryGraph [⟨∅, ∅⟩] ⟨∅, {relPos}⟩ extendCtx.whereExpressions)
            (appendExtend agePropertyEnv.toPlannerEnv rel.srcNode rel.dstNode rel
              (getExtendDirection rel rel.srcNode) (agePropertyEnv.getProperties rel.uniqueName)
              (appendScanNodeTable agePropertyEnv.toPlannerEnv rel.srcNode.internalID
                rel.srcNode.tableIDs [])) ∧
          dstPlan = appendFilters agePropertyEnv.toPlannerEnv
            (getNewlyMatchedExprs extendCtx.queryGraph [⟨∅, ∅⟩] ⟨∅, {relPos}⟩ extendCtx.whereExpressions)
            (appendExtend agePropertyEnv.toPlannerEnv rel.dstNode rel.srcNode rel
              (getExtendDirection rel rel.dstNode) (agePropertyEnv.getProperties rel.uniqueName)
              (appendScanNodeTable agePropertyEnv.toPlannerEnv rel.dstNode.internalID
                rel.dstNode.tableIDs [])) ∧
          ctx2.subPlansTable.plans ⟨∅, {relPos}⟩ =
            extendCtx.subPlansTable.plans ⟨∅, {relPos}⟩ ++ [srcPlan, dstPlan] ∧
          srcPlan.lastOperator.firstChildPath.getLast? =
            some (.scanNodeTable rel.srcNode.internalID rel.srcNode.tableIDs []) ∧
          dstPlan.lastOperator.firstChildPath.getLast? =
            some (.scanNodeTable rel.dstNode.internalID rel.dstNode.tableIDs []) ∧
          srcPlan.lastOperator.scansNodeIn correlatedOnA.corrExprs =
            expression_set.contains correlatedOnA.corrExprs rel.srcNode.internalID ∧
          dstPlan.lastOperator.scansNodeIn correlatedOnA.corrExprs =
            expression_set.contains correlatedOnA.corrExprs rel.dstNode.internalID ∧
          srcPlan.lastOperator.scansPropertiesOfNodeIn correlatedOnA.corrExprs = false ∧
          dstPlan.lastOperator.scansPropertiesOfNodeIn correlatedOnA.corrExprs = false)) ∧
    (∀ (queryGraph : QueryGraph) (plans : List LogicalPlan),
      enumerateQueryGraph agePropertyEnv 2 queryGraph correlatedOnA = .ok plans →
      ∀ plan ∈ plans, plan.lastOperator.scansPropertiesOfNodeIn correlatedOnA.corrExprs = false) ∧
    (∀ (collection : QueryGraphCollection) (outcome : CollectionOutcome),
      enumerateQueryGraphCollectionRun agePropertyEnv 2 collection correlatedOnA = .ok outcome →
      enumerateQueryGraphCollection agePropertyEnv 2 collection correlatedOnA = .ok outcome.plans ∧
      (∀ (i : Nat) (call : ComponentCall), outcome.calls[i]? = some call →
        call.newInfo.corrExprs = correlatedOnA.corrExprs ∧
        call.newInfo.hint = correlatedOnA.hint ∧
        call.newInfo.subqueryType =
          (if i = toUInt32 (getConnectedQueryGraphIdx collection correlatedOnA.corrExprs) then
            .CORRELATED
          else .NONE) ∧
        ∃ plans : List LogicalPlan,
          outcome.plansPerQueryGraph[i]? = some plans ∧
          enumerateQueryGraph agePropertyEnv 2 call.queryGraph call.newInfo = .ok plans ∧
          (i = toUInt32 (getConnectedQueryGraphIdx collection correlatedOnA.corrExprs) →
            ∀ plan ∈ plans,
              plan.lastOperator.scansPropertiesOfNodeIn correlatedOnA.corrExprs = false)) ∧
      (∀ plan ∈ outcome.plans,
        plan.lastOperator.scansPropertiesOfNodeIn correlatedOnA.corrExprs = true →
        ∃ (i : Nat) (call : ComponentCall) (plans : List LogicalPlan) (operand : LogicalPlan),
          outcome.calls[i]? = some call ∧
          i ≠ toUInt32 (getConnectedQueryGraphIdx collection correlatedOnA.corrExprs) ∧
          call.newInfo.subqueryType = .NONE ∧
          outcome.plansPerQueryGraph[i]? = some plans ∧
          operand ∈ plans ∧
          operand.lastOperator.scansPropertiesOfNodeIn correlatedOnA.corrExprs = true)) :=
  ⟨⟨rfl, rfl, rfl, rfl⟩, correlated_node_scans_are_id_only agePropertyEnv 2 extendCtx correlatedOnA rfl rfl⟩

end planner

namespace main

/-! ## Theorems about the settings -/

/-- C20: for every BOOL parameter, `EnableZoneMapSetting::setContext` throws
`NotImplementedException` and leaves the client context, with `enableZoneMap` and
every other configuration field, as it was; `getSetting` returns the same value
after the failed call as before it. -/
theorem EnableZoneMapSetting.setContext_notImplemented (context : ClientContext) (b : Bool) :
    EnableZoneMapSetting.setContext context (.boolVal b) =
      (.error (.notImplemented "Zone map is not yet ready to be turned on."), context) ∧
    (EnableZoneMapSetting.setContext context (.boolVal b)).2 = context ∧
    EnableZoneMapSetting.getSetting (EnableZoneMapSetting.setContext context (.boolVal b)).2 =
      EnableZoneMapSetting.getSetting context := by
  have h : EnableZoneMapSetting.setContext context (.boolVal b) =
      (.error (.notImplemented "Zone map is not yet ready to be turned on."), context) := by
    simp [EnableZoneMapSetting.setContext, Value.validateType, Value.getLogicalTypeID,
      EnableZoneMapSetting.inputType]
  exact ⟨h, by rw [h], by rw [h]⟩

end main

namespace graphflow

/-- C21: on a plan whose schema pointer is not null, `copy` returns a plan with the
same root operator reference as the original (the operator is shared), the same
cost and `expressionsToCollect`, and the copy `Schema::copy` makes of the
original schema. `deepCopy` returns a plan that agrees with that of `copy` on
schema, cost and `expressionsToCollect`; its root is what `LogicalOperator::copy`
returns for the original root, and when the original has no root operator it has
none either, without a call on the null pointer. -/
theorem copy_shares_root_deepCopy_copies_root {Schema OperatorRef Expression : Type}
    (env : PlanCollaborators Schema OperatorRef)
    (plan : LogicalPlan Schema OperatorRef Expression) (schema : Schema)
    (hschema : plan.schema = some schema) :
    ∃ copied deep : LogicalPlan Schema OperatorRef Expression,
      plan.copy env = .ok copied ∧
      plan.deepCopy env = .ok deep ∧
      copied.lastOperator = plan.lastOperator ∧
      copied.cost = plan.cost ∧
      copied.expressionsToCollect = plan.expressionsToCollect ∧
      copied.schema = some (env.schemaCopy schema) ∧
      deep.schema = copied.schema ∧
      deep.cost = copied.cost ∧
      deep.expressionsToCollect = copied.expressionsToCollect ∧
      (∀ op, plan.lastOperator = some op → deep.lastOperator = env.operatorCopy op) ∧
      (plan.lastOperator = none → deep.lastOperator = none) := by
  have hcopy : plan.copy env = .ok
      { schema := some (env.schemaCopy schema), lastOperator := plan.lastOperator,
        cost := plan.cost, expressionsToCollect := plan.expressionsToCollect } := by
    simp [LogicalPlan.copy, hschema]
  have hdeep : plan.deepCopy env = .ok
      { schema := some (env.schemaCopy schema)
        lastOperator :=
          match plan.lastOperator with
          | some op => env.operatorCopy op
          | none => plan.lastOperator
        cost := plan.cost
        expressionsToCollect := plan.expressionsToCollect } := by
    rw [LogicalPlan.deepCopy, hcopy]
  refine ⟨_, _, hcopy, hdeep, rfl, rfl, rfl, rfl, rfl, rfl, rfl, ?_, ?_⟩
  · intro op hop
    simp [hop]
  · intro hnone
    simp [hnone]

/-- Witness of C21 on a plan with root operator 7 and on a plan with no root
operator. -/
theorem copy_shares_root_deepCopy_copies_root_witness :
    (sampleRootedPlan.schema = some ["a", "b"] ∧
      sampleRootedPlan.copy samplePlanCollaborators = .ok sampleRootedPlan ∧
      sampleRootedPlan.deepCopy samplePlanCollaborators =
        .ok { sampleRootedPlan with lastOperator := some 107 } ∧
      sampleRootlessPlan.deepCopy samplePlanCollaborators = .ok sampleRootlessPlan) ∧
    ∃ copied deep : LogicalPlan (List String) Nat String,
      sampleRootedPlan.copy samplePlanCollaborators = .ok copied ∧
      sampleRootedPlan.deepCopy samplePlanCollaborators = .ok deep ∧
      copied.lastOperator = sampleRootedPlan.lastOperator ∧
      copied.cost = sampleRootedPlan.cost ∧
      copied.expressionsToCollect = sampleRootedPlan.expressionsToCollect ∧
      copied.schema = some (samplePlanCollaborators.schemaCopy ["a", "b"]) ∧
      deep.schema = copied.schema ∧
      deep.cost = copied.cost ∧
      deep.expressionsToCollect = copied.expressionsToCollect ∧
      (∀ op, sampleRootedPlan.lastOperator = some op →
        deep.lastOperator = samplePlanCollaborators.operatorCopy op) ∧
      (sampleRootedPlan.lastOperator = none → deep.lastOperator = none) :=
  ⟨⟨rfl, rfl, rfl, rfl⟩,
    copy_shares_root_deepCopy_copies_root samplePlanCollaborators sampleRootedPlan ["a", "b"] rfl⟩

end graphflow

end kuzu
